import Mathlib

/-!
# ksm: EPT hierarchy, EPT pointer pool, violation handling, launch and bit-set

A shallow embedding of `src/bitmap.h` and of `src/vcpu.c`: the EPT hierarchy and the
pointer pool, vCPU initialisation and teardown, the EPT-violation classifier with its
root-mode and non-root entry points, the root switch, and the launch.

* Machine words are natural numbers; pointers to table pages are page frame
  numbers (`__pa(p) = frame * 4096`), the null pointer is `none`.
* The page allocator, the headers `ksm.h` / `mm.h` and the process-wide `ksm`
  object are not part of the sources at hand; what the code needs of them is
  modelled from the specification and marked as such.
* Compile-time switches (`_MSC_VER`, `EPT_SUPPRESS_VE`, `ENABLE_PML`) and
  platform constants are fields of `Build`; the switches of the handlers and of the
  launch (`EPAGE_HOOK`, `PMEM_SANDBOX`, `DBG`, `EMULATE_VMFUNC`) are fields of `Config`.
* What the code does to the processor (VMCS writes, invalidations, VMX instructions) and
  what it asks of the hook and sandbox collaborators is recorded, in order, in the log
  of `Cpu`.
* The reads and releases of the hierarchy teardown are listed, in order, by
  `free_entries_accesses`; `free_entries` is the replay of that list.
-/

namespace Ksm

/-! ## Build configuration -/

/-- Compile-time configuration of the sources.
`msc_ver` is `#ifdef _MSC_VER`; `long_bits` is `sizeof(unsigned long) * CHAR_BIT`
(`BITMAP_BITS`); `suppress_ve` is `#ifdef EPT_SUPPRESS_VE`; `enable_pml` is
`#ifdef ENABLE_PML`; `ptr_bitmap_size` is the value of `sizeof(ept->ptr_bitmap)`
(the bound handed to the bit-set search, the pool capacity of the specification);
`eptp_init_used` is `EPTP_INIT_USED`. -/
structure Build where
  msc_ver : Bool
  long_bits : Nat
  suppress_ve : Bool
  enable_pml : Bool
  ptr_bitmap_size : Nat
  eptp_init_used : Nat

/-! ## bitmap.h -/

/-- The macro `BITMAP_BITS`. -/
def BITMAP_BITS (b : Build) : Nat := b.long_bits

/-- The value `~0UL`. -/
def ULONG_MAX (b : Build) : Nat := 2 ^ b.long_bits - 1

/-- The operator `~` on an `unsigned long`. -/
def ulong_not (b : Build) (x : Nat) : Nat := ULONG_MAX b - x % 2 ^ b.long_bits

/-- The function `pos_bit`: `return 1 << (pos % BITMAP_BITS);`.  The constant `1` is an
`int`, so the shift is a 32-bit shift (count taken modulo 32, as the x86 shift
instruction does) and its `int` result is sign-extended to `unsigned long`. -/
def pos_bit (b : Build) (pos : Nat) : Nat :=
  let s := (1 <<< ((pos % BITMAP_BITS b) % 32)) % 2 ^ 32
  (if s < 2 ^ 31 then s else s + (2 ^ b.long_bits - 2 ^ 32)) % 2 ^ b.long_bits

/-- The function `bit_at`: `return pos / BITMAP_BITS;`. -/
def bit_at (b : Build) (pos : Nat) : Nat := pos / BITMAP_BITS b

/-- The function `set_bit`: `bmp[bit_at(pos)] |= pos_bit(pos);`. -/
def set_bit (b : Build) (pos : Nat) (bmp : Nat → Nat) : Nat → Nat :=
  fun w => if w = bit_at b pos then bmp w ||| pos_bit b pos else bmp w

/-- The function `clear_bit`: `bmp[bit_at(pos)] &= ~pos_bit(pos);`. -/
def clear_bit (b : Build) (pos : Nat) (bmp : Nat → Nat) : Nat → Nat :=
  fun w => if w = bit_at b pos then bmp w &&& ulong_not b (pos_bit b pos) else bmp w

/-- The function `test_bit`: `return !!(bmp[bit_at(pos)] & pos_bit(pos));`. -/
def test_bit (b : Build) (pos : Nat) (bmp : Nat → Nat) : Bool :=
  bmp (bit_at b pos) &&& pos_bit b pos != 0

/-- Index of the lowest set bit among the low `n` bits of `x` (`n` when there is none). -/
def lowest_set : Nat → Nat → Nat
  | 0, _ => 0
  | n + 1, x => if x % 2 = 1 then 0 else lowest_set n (x / 2) + 1

/-- The intrinsic `_BitScanForward64(&i, mask)`: the 0-based index of the lowest set bit
of the 64-bit mask. -/
def BitScanForward64 (mask : Nat) : Nat := lowest_set 64 (mask % 2 ^ 64)

/-- The builtin `__builtin_ffs(int)`: the argument is truncated to 32 bits; the result is
one plus the index of the lowest set bit, or zero when the argument is zero. -/
def builtin_ffs (x : Nat) : Nat :=
  if x % 2 ^ 32 = 0 then 0 else lowest_set 32 (x % 2 ^ 32) + 1

/-- The function `__ffs`, both branches of its `#ifdef _MSC_VER`. -/
def ffs (b : Build) (x : Nat) : Nat :=
  if b.msc_ver then BitScanForward64 x else builtin_ffs x

/-- The function `__ffz`, both branches of its `#ifdef _MSC_VER`. -/
def ffz (b : Build) (x : Nat) : Nat :=
  if b.msc_ver then BitScanForward64 (ulong_not b x) else builtin_ffs (ulong_not b x)

/-- Loop of `find_first_bit`, from word `i`, with `fuel` iterations left. -/
def find_first_bit_from (b : Build) (bmp : Nat → Nat) (size : Nat) : Nat → Nat → Nat
  | 0, _ => size
  | fuel + 1, i =>
    if i * BITMAP_BITS b < size then
      if bmp i ≠ 0 then min (i * BITMAP_BITS b + ffs b (bmp i)) size
      else find_first_bit_from b bmp size fuel (i + 1)
    else size

/-- The function `find_first_bit`.  The loop leaves at the latest when `i * BITMAP_BITS`
reaches `size`, so `size` iterations are always enough. -/
def find_first_bit (b : Build) (bmp : Nat → Nat) (size : Nat) : Nat :=
  find_first_bit_from b bmp size size 0

/-- Loop of `find_first_zero_bit`, from word `i`, with `fuel` iterations left. -/
def find_first_zero_bit_from (b : Build) (bmp : Nat → Nat) (size : Nat) : Nat → Nat → Nat
  | 0, _ => size
  | fuel + 1, i =>
    if i * BITMAP_BITS b < size then
      if bmp i ≠ ULONG_MAX b then min (i * BITMAP_BITS b + ffz b (bmp i)) size
      else find_first_zero_bit_from b bmp size fuel (i + 1)
    else size

/-- The function `find_first_zero_bit`. -/
def find_first_zero_bit (b : Build) (bmp : Nat → Nat) (size : Nat) : Nat :=
  find_first_zero_bit_from b bmp size size 0

/-! ## Memory and the page allocator façade -/

/-- Modelled from the spec: the page allocator façade (`mm_alloc_page`, `mm_free_page`,
`__pa`, `__va` of the missing `mm.h`).  `mem frame index` is the 64-bit word at entry
`index` of the page with that frame number; `live` is the set of outstanding pages;
`script` fixes what the allocator answers to the coming requests (`none`: the request
fails, `some p`: it hands out frame `p`); `fault` records an access to, or a release
of, a page that is not outstanding. -/
structure Mm where
  mem : Nat → Nat → Nat
  live : Finset Nat
  script : List (Option Nat)
  fault : Bool

/-- Modelled from the spec: `alloc_page() → 4KiB virt | null`.  The page handed out is
not outstanding, lies below 2^48 in physical memory and is zeroed
("allocates a new table page, initializes it to all-zero"). -/
def mm_alloc_page (st : Mm) : Option Nat × Mm :=
  match st.script with
  | [] => (none, st)
  | none :: rest => (none, { st with script := rest })
  | some p :: rest =>
    if p < 2 ^ 36 ∧ p ∉ st.live then
      (some p, { st with mem := fun q i => if q = p then 0 else st.mem q i,
                         live := insert p st.live, script := rest })
    else (none, { st with script := rest })

/-- Modelled from the spec: `free_page(virt)`.  Releasing a page that is not outstanding
is recorded as a fault. -/
def mm_free_page (st : Mm) (p : Nat) : Mm :=
  if p ∈ st.live then { st with live := st.live.erase p } else { st with fault := true }

/-- A read of page `p`: faults when the page is not outstanding. -/
def Mm.touch (st : Mm) (p : Nat) : Mm :=
  if p ∈ st.live then st else { st with fault := true }

/-- A write of word `v` to entry `i` of page `p`. -/
def Mm.store (st : Mm) (p i v : Nat) : Mm :=
  if p ∈ st.live then
    { st with mem := fun q j => if q = p ∧ j = i then v else st.mem q j }
  else { st with fault := true }

/-- Number of outstanding pages. -/
def Mm.count (st : Mm) : Nat := st.live.card

/-! ## Constants of the missing headers -/

/-- Modelled from the spec: `PAGE_SHIFT` (4 KiB pages). -/
def PAGE_SHIFT : Nat := 12

/-- Modelled from the spec: `PAGE_SIZE`. -/
def PAGE_SIZE : Nat := 4096

/-- Modelled from the spec: `EPT_AR_MASK`, the access bits {R,W,X}. -/
def EPT_AR_MASK : Nat := 7

/-- Modelled from the spec: `EPT_ACCESS_RWX`. -/
def EPT_ACCESS_RWX : Nat := 7

/-- Modelled from the spec: `EPT_ACCESS_ALL`, full {R,W,X}. -/
def EPT_ACCESS_ALL : Nat := 7

/-- Modelled from the spec: `EPT_ACCESS_NONE`. -/
def EPT_ACCESS_NONE : Nat := 0

/-- Modelled from the spec: `PAGE_LARGE`, the large-page bit of an entry. -/
def PAGE_LARGE : Nat := 0x80

/-- Modelled from the spec: `EPT_MT_WRITEBACK`, the write-back memory type. -/
def EPT_MT_WRITEBACK : Nat := 6

/-- Modelled from the spec: `VMX_EPT_MT_EPTE_SHIFT`. -/
def VMX_EPT_MT_EPTE_SHIFT : Nat := 3

/-- Modelled from the spec: `EPT_SUPPRESS_VE_BIT`, bit 63 of an entry. -/
def EPT_SUPPRESS_VE_BIT : Nat := 2 ^ 63

/-- Modelled from the spec: `PAGE_PA_MASK`, the frame field of an entry (bits 12..47:
"masks out the low 12 bits and the software-reserved high bits"). -/
def PAGE_PA_MASK : Nat := 0xFFFFFFFFF <<< PAGE_SHIFT

/-- Modelled from the spec: `PAGE_PA(entry)`. -/
def PAGE_PA (entry : Nat) : Nat := entry &&& PAGE_PA_MASK

/-- Modelled from the spec: `__pa` of a table page. -/
def pa_of (frame : Nat) : Nat := frame <<< PAGE_SHIFT

/-- Modelled from the spec: `__va` of a physical address, as a frame number. -/
def frame_of (pa : Nat) : Nat := pa >>> PAGE_SHIFT

/-- Modelled from the spec: `__pxe_idx`, "(gpa >> (12 + 9·lvl)) & 0x1FF" for the PML4. -/
def pxe_idx (gpa : Nat) : Nat := (gpa >>> 39) &&& 0x1FF

/-- Modelled from the spec: `__ppe_idx`, the PDPT index. -/
def ppe_idx (gpa : Nat) : Nat := (gpa >>> 30) &&& 0x1FF

/-- Modelled from the spec: `__pde_idx`, the PD index. -/
def pde_idx (gpa : Nat) : Nat := (gpa >>> 21) &&& 0x1FF

/-- Modelled from the spec: `__pte_idx`, the PT index. -/
def pte_idx (gpa : Nat) : Nat := (gpa >>> 12) &&& 0x1FF

/-! ## vcpu.c: the EPT hierarchy -/

/-- The function `init_epte`, as the new value of `*entry`. -/
def init_epte (b : Build) (entry access hpa : Nat) : Nat :=
  let e := entry ^^^ entry
  let e := e ||| (access &&& EPT_AR_MASK)
  let e := e ||| ((hpa >>> PAGE_SHIFT) <<< PAGE_SHIFT)
  if b.suppress_ve then e ||| EPT_SUPPRESS_VE_BIT else e

/-- The function `ept_page_addr`, on the value of `*pte`: the frame of the table the
entry refers to, `none` for the null result. -/
def ept_page_addr (entry : Nat) : Option Nat :=
  if entry &&& EPT_ACCESS_RWX = 0 then none else some (frame_of (PAGE_PA entry))

/-- One interior level of `ept_alloc_page` (the source repeats this block for the PML4,
the PDPT and the PDT): read the entry, and when it refers to no table allocate one and
link it with full access. -/
def ept_next_table (b : Build) (st : Mm) (table idx : Nat) : Option Nat × Mm :=
  let st := st.touch table
  match ept_page_addr (st.mem table idx) with
  | some sub => (some sub, st)
  | none =>
    match mm_alloc_page st with
    | (none, st1) => (none, st1)
    | (some sub, st1) =>
      (some sub, st1.store table idx (init_epte b (st1.mem table idx) EPT_ACCESS_ALL (pa_of sub)))

/-- The leaf word `ept_alloc_page` leaves in the PT entry. -/
def leaf_word (b : Build) (old access hpa : Nat) : Nat :=
  let e := init_epte b old access hpa
  let e := e ||| (EPT_MT_WRITEBACK <<< VMX_EPT_MT_EPTE_SHIFT)
  if b.suppress_ve then e ||| EPT_SUPPRESS_VE_BIT else e

/-- The function `ept_alloc_page`.  The result is the entry returned (`none` for `NULL`),
as the pair of the PT page and the index in it, and the memory afterwards. -/
def ept_alloc_page (b : Build) (st : Mm) (pml4 access gpa hpa : Nat) :
    Option (Nat × Nat) × Mm :=
  match ept_next_table b st pml4 (pxe_idx gpa) with
  | (none, st1) => (none, st1)
  | (some pdpt, st1) =>
    match ept_next_table b st1 pdpt (ppe_idx gpa) with
    | (none, st2) => (none, st2)
    | (some pdt, st2) =>
      match ept_next_table b st2 pdt (pde_idx gpa) with
      | (none, st3) => (none, st3)
      | (some pt, st3) =>
        (some (pt, pte_idx gpa),
          st3.store pt (pte_idx gpa) (leaf_word b (st3.mem pt (pte_idx gpa)) access hpa))

/-- The function `ept_pte`: the entry found, as the pair of its page and index. -/
def ept_pte (st : Mm) (pml4 gpa : Nat) : Option (Nat × Nat) :=
  match ept_page_addr (st.mem pml4 (pxe_idx gpa)) with
  | none => none
  | some pdpt =>
    match ept_page_addr (st.mem pdpt (ppe_idx gpa)) with
    | none => none
    | some pdt =>
      if st.mem pdpt (ppe_idx gpa) &&& PAGE_LARGE ≠ 0 then some (pdpt, ppe_idx gpa)
      else
        match ept_page_addr (st.mem pdt (pde_idx gpa)) with
        | none => none
        | some pd =>
          if st.mem pdt (pde_idx gpa) &&& PAGE_LARGE ≠ 0 then some (pdt, pde_idx gpa)
          else some (pd, pte_idx gpa)

/-- The loop `for (i = 0; i < n; ++i)` of `free_entries` over the entries of `table`;
`sub_free` is what the body does with a referenced page. -/
def free_loop (sub_free : Mm → Nat → Mm) (table : Nat) : Nat → Mm → Mm
  | 0, st => st
  | n + 1, st =>
    let st1 := (free_loop sub_free table n st).touch table
    let entry := st1.mem table n
    if entry ≠ 0 then sub_free st1 (frame_of (PAGE_PA entry)) else st1

/-- The function `free_entries` (arguments: `lvl`, memory, `table`). -/
def free_entries : Nat → Mm → Nat → Mm
  | 0, st, table =>
    mm_free_page (free_loop (fun s sub => mm_free_page s sub) table 512 st) table
  | lvl + 1, st, table =>
    mm_free_page
      (free_loop (fun s sub => if lvl + 1 > 2 then free_entries lvl s sub else mm_free_page s sub)
        table 512 st) table

/-- The frame field of an entry, as a frame number. -/
def epte_frame (entry : Nat) : Nat := frame_of (PAGE_PA entry)

/-- The access bits of an entry. -/
def epte_access (entry : Nat) : Nat := entry &&& EPT_AR_MASK

/-! ## vcpu.c: the EPT pointer pool -/

/-- Modelled from the spec: `struct ept` of the missing `ksm.h`: the hardware list page
(`ptr_list`, a page of encoded pointers), the per-slot roots (`pml4_list`) and the
occupancy bit-set (`ptr_bitmap`). -/
structure Ept where
  ptr_list : Option Nat
  pml4_list : Nat → Option Nat
  ptr_bitmap : Nat → Nat

/-- Modelled from the spec: what the code reads of its collaborators: the physical-memory
ranges of the `ksm` object, `mm_is_kernel_addr(__va(addr))` as a function of the physical
address, and the value of the MSR `IA32_APICBASE`. -/
structure Host where
  ranges : List (Nat × Nat)
  is_kernel_addr : Nat → Bool
  apicbase : Nat

/-- Modelled from the spec: `MSR_IA32_APICBASE_BASE`, the page-frame bits of the MSR. -/
def MSR_IA32_APICBASE_BASE : Nat := 0xFFFFF <<< 12

/-- Modelled from the spec: `VMX_EPT_DEFAULT_MT`, write-back. -/
def VMX_EPT_DEFAULT_MT : Nat := 6

/-- Modelled from the spec: `VMX_EPT_DEFAULT_GAW`, a walk length of four. -/
def VMX_EPT_DEFAULT_GAW : Nat := 3

/-- Modelled from the spec: `VMX_EPT_GAW_EPTP_SHIFT`. -/
def VMX_EPT_GAW_EPTP_SHIFT : Nat := 3

/-- Modelled from the spec: `VMX_EPT_AD_ENABLE_BIT`. -/
def VMX_EPT_AD_ENABLE_BIT : Nat := 1 <<< 6

/-- Modelled from the spec: `ERR_NOMEM`, the out-of-memory error of `vcpu_init`. -/
def ERR_NOMEM : Int := -12

/-- The inner loop of `setup_pml4` over one range,
`for (addr = start; addr < end; addr += PAGE_SIZE)`, with `addr` a 64-bit value.
The result is `none` when the loop has not left after `fuel` iterations, otherwise
whether every `ept_alloc_page` succeeded, and the memory. -/
def setup_range (b : Build) (host : Host) (root access range_end : Nat) :
    Nat → Nat → Mm → Option (Bool × Mm)
  | 0, addr, st => if addr < range_end then none else some (true, st)
  | fuel + 1, addr, st =>
    if addr < range_end then
      let r := if host.is_kernel_addr addr then EPT_ACCESS_ALL else access
      match ept_alloc_page b st root r addr addr with
      | (none, st1) => some (false, st1)
      | (some _, st1) =>
        setup_range b host root access range_end fuel ((addr + PAGE_SIZE) % 2 ^ 64) st1
    else some (true, st)

/-- The outer loop of `setup_pml4` over the ranges.  `addr` takes at most 2^52 different
values, so a range loop that has not left after 2^52 iterations never leaves. -/
def setup_ranges (b : Build) (host : Host) (root access : Nat) :
    List (Nat × Nat) → Mm → Option (Bool × Mm)
  | [], st => some (true, st)
  | range :: rest, st =>
    match setup_range b host root access range.2 (2 ^ 52) range.1 st with
    | none => none
    | some (false, st1) => some (false, st1)
    | some (true, st1) => setup_ranges b host root access rest st1

/-- The function `setup_pml4`, for the hierarchy whose root `EPT4(ept, eptp)` is `root`. -/
def setup_pml4 (b : Build) (host : Host) (st : Mm) (root access : Nat) : Option (Bool × Mm) :=
  match setup_ranges b host root access host.ranges st with
  | none => none
  | some (false, st1) => some (false, st1)
  | some (true, st1) =>
    let apic := host.apicbase &&& MSR_IA32_APICBASE_BASE
    match ept_alloc_page b st1 root EPT_ACCESS_ALL apic apic with
    | (none, st2) => some (false, st2)
    | (some _, st2) => some (true, st2)

/-- The function `setup_eptp`, as the new value of `*ptr`. -/
def setup_eptp (b : Build) (ptr pml4 : Nat) : Nat :=
  let e := ptr ^^^ ptr
  let e := e ||| VMX_EPT_DEFAULT_MT
  let e := e ||| (VMX_EPT_DEFAULT_GAW <<< VMX_EPT_GAW_EPTP_SHIFT)
  let e := if b.enable_pml then e ||| VMX_EPT_AD_ENABLE_BIT else e
  e ||| ((pml4 >>> PAGE_SHIFT) <<< PAGE_SHIFT)

/-- The function `ept_create_ptr`.  The result is `none` when a range loop does not
leave; otherwise the index stored in `*out` when the function returns `true` (`none`
for `false`), the pool and the memory. -/
def ept_create_ptr (b : Build) (host : Host) (st : Mm) (ept : Ept) (access : Nat) :
    Option (Option Nat × Ept × Mm) :=
  let eptp := find_first_zero_bit b ept.ptr_bitmap b.ptr_bitmap_size % 2 ^ 16
  if eptp = b.ptr_bitmap_size then some (none, ept, st)
  else
    match mm_alloc_page st with
    | (none, st1) =>
      some (none, { ept with pml4_list := Function.update ept.pml4_list eptp none }, st1)
    | (some root, st1) =>
      let ept1 := { ept with pml4_list := Function.update ept.pml4_list eptp (some root) }
      match setup_pml4 b host st1 root access with
      | none => none
      | some (false, st2) => some (none, ept1, mm_free_page st2 root)
      | some (true, st2) =>
        match ept1.ptr_list with
        | none => some (some eptp, { ept1 with ptr_bitmap := set_bit b eptp ept1.ptr_bitmap },
            { st2 with fault := true })
        | some list =>
          some (some eptp, { ept1 with ptr_bitmap := set_bit b eptp ept1.ptr_bitmap },
            st2.store list eptp (setup_eptp b (st2.mem list eptp) (pa_of root)))

/-- The function `ept_free_ptr`. -/
def ept_free_ptr (b : Build) (st : Mm) (ept : Ept) (eptp : Nat) : Ept × Mm :=
  let st1 := match ept.pml4_list eptp with
    | none => { st with fault := true }
    | some root => free_entries 4 st root
  ({ ept with ptr_bitmap := clear_bit b eptp ept.ptr_bitmap }, st1)

/-- Modelled from the spec: the loop `for_each_eptp(ept, i) ept_free_ptr(ept, i);` of
`free_pml4_list`, over the first `n` slots: every occupied slot is destroyed. -/
def free_pml4_loop (b : Build) : Nat → Ept × Mm → Ept × Mm
  | 0, s => s
  | n + 1, s =>
    let s1 := free_pml4_loop b n s
    if test_bit b n s1.1.ptr_bitmap then ept_free_ptr b s1.2 s1.1 n else s1

/-- The function `free_pml4_list`. -/
def free_pml4_list (b : Build) (st : Mm) (ept : Ept) : Ept × Mm :=
  free_pml4_loop b b.ptr_bitmap_size (ept, st)

/-- The loop `for (i = 0; i < EPTP_INIT_USED; ++i)` of `init_ept`: `none` when a range
loop does not leave, otherwise whether every `ept_create_ptr` returned `true`. -/
def init_ept_loop (b : Build) (host : Host) : Nat → Ept → Mm → Option (Bool × Ept × Mm)
  | 0, ept, st => some (true, ept, st)
  | n + 1, ept, st =>
    match ept_create_ptr b host st ept EPT_ACCESS_ALL with
    | none => none
    | some (none, ept1, st1) => some (false, ept1, st1)
    | some (some _, ept1, st1) => init_ept_loop b host n ept1 st1

/-- The function `init_ept`. -/
def init_ept (b : Build) (host : Host) (st : Mm) (ept : Ept) : Option (Bool × Ept × Mm) :=
  match mm_alloc_page st with
  | (none, st1) => some (false, { ept with ptr_list := none }, st1)
  | (some list, st1) =>
    let ept1 : Ept := { ept with ptr_list := some list, ptr_bitmap := fun _ => 0 }
    match init_ept_loop b host b.eptp_init_used ept1 st1 with
    | none => none
    | some (true, ept2, st2) => some (true, ept2, st2)
    | some (false, ept2, st2) =>
      let s3 := free_pml4_list b st2 ept2
      match s3.1.ptr_list with
      | some l => some (false, { s3.1 with ptr_list := none }, mm_free_page s3.2 l)
      | none => some (false, s3.1, s3.2)

/-- The function `free_ept`. -/
def free_ept (b : Build) (st : Mm) (ept : Ept) : Ept × Mm :=
  let s1 := free_pml4_list b st ept
  match s1.1.ptr_list with
  | some l => (s1.1, mm_free_page s1.2 l)
  | none => s1

/-! ## vcpu.c: vCPU initialisation -/

/-- Modelled from the spec: the fields of `struct vcpu` that `vcpu_init` fills. -/
structure Vcpu where
  ept : Ept
  idt_base : Option Nat
  vmxon : Option Nat
  vmcs : Option Nat
  ve : Option Nat
  pml : Option Nat
  vapic_page : Option Nat
  stack : Option Nat

/-- Modelled from the spec: `mm_free_page` on a pointer field (`NULL` is not released). -/
def mm_free_ptr (st : Mm) (p : Option Nat) : Mm :=
  match p with
  | some q => mm_free_page st q
  | none => st

/-- The labels `out_pml:` ... `out_ept:` of `vcpu_init`, entered at `out_pml`. -/
def vcpu_init_out_pml (b : Build) (st : Mm) (vcpu : Vcpu) : Int × Vcpu × Mm :=
  let st := if b.enable_pml then mm_free_ptr st vcpu.pml else st
  let st := mm_free_ptr st vcpu.ve
  let st := mm_free_ptr st vcpu.vmcs
  let st := mm_free_ptr st vcpu.vmxon
  let st := mm_free_ptr st vcpu.idt_base
  let s := free_ept b st vcpu.ept
  (ERR_NOMEM, { vcpu with ept := s.1 }, s.2)

/-- The label `out_ve:` of `vcpu_init`. -/
def vcpu_init_out_ve (b : Build) (st : Mm) (vcpu : Vcpu) : Int × Vcpu × Mm :=
  let st := mm_free_ptr st vcpu.ve
  let st := mm_free_ptr st vcpu.vmcs
  let st := mm_free_ptr st vcpu.vmxon
  let st := mm_free_ptr st vcpu.idt_base
  let s := free_ept b st vcpu.ept
  (ERR_NOMEM, { vcpu with ept := s.1 }, s.2)

/-- The label `out_vmcs:` of `vcpu_init`. -/
def vcpu_init_out_vmcs (b : Build) (st : Mm) (vcpu : Vcpu) : Int × Vcpu × Mm :=
  let st := mm_free_ptr st vcpu.vmcs
  let st := mm_free_ptr st vcpu.vmxon
  let st := mm_free_ptr st vcpu.idt_base
  let s := free_ept b st vcpu.ept
  (ERR_NOMEM, { vcpu with ept := s.1 }, s.2)

/-- The label `out_vmxon:` of `vcpu_init`. -/
def vcpu_init_out_vmxon (b : Build) (st : Mm) (vcpu : Vcpu) : Int × Vcpu × Mm :=
  let st := mm_free_ptr st vcpu.vmxon
  let st := mm_free_ptr st vcpu.idt_base
  let s := free_ept b st vcpu.ept
  (ERR_NOMEM, { vcpu with ept := s.1 }, s.2)

/-- The label `out_idt:` of `vcpu_init`. -/
def vcpu_init_out_idt (b : Build) (st : Mm) (vcpu : Vcpu) : Int × Vcpu × Mm :=
  let st := mm_free_ptr st vcpu.idt_base
  let s := free_ept b st vcpu.ept
  (ERR_NOMEM, { vcpu with ept := s.1 }, s.2)

/-- The label `out_ept:` of `vcpu_init`. -/
def vcpu_init_out_ept (b : Build) (st : Mm) (vcpu : Vcpu) : Int × Vcpu × Mm :=
  let s := free_ept b st vcpu.ept
  (ERR_NOMEM, { vcpu with ept := s.1 }, s.2)

/-- The function `vcpu_init`, from the virtual-APIC page on.  The stack is requested
from the allocator like a page (`mm_alloc_pool`). -/
def vcpu_init_vapic (b : Build) (st : Mm) (vcpu : Vcpu) : Int × Vcpu × Mm :=
  match mm_alloc_page st with
  | (none, st1) => vcpu_init_out_pml b st1 { vcpu with vapic_page := none }
  | (some vapic, st1) =>
    match mm_alloc_page st1 with
    | (some stack, st2) => (0, { vcpu with vapic_page := some vapic, stack := some stack }, st2)
    | (none, st2) =>
      vcpu_init_out_pml b st2 { vcpu with vapic_page := some vapic, stack := none }

/-- The function `vcpu_init`, from the IDT page on (after `init_ept` has succeeded). -/
def vcpu_init_pages (b : Build) (st : Mm) (vcpu : Vcpu) : Int × Vcpu × Mm :=
  match mm_alloc_page st with
  | (none, st1) => vcpu_init_out_ept b st1 { vcpu with idt_base := none }
  | (some idt, st1) =>
    match mm_alloc_page st1 with
    | (none, st2) => vcpu_init_out_idt b st2 { vcpu with idt_base := some idt, vmxon := none }
    | (some vmxon, st2) =>
      match mm_alloc_page st2 with
      | (none, st3) =>
        vcpu_init_out_vmxon b st3
          { vcpu with idt_base := some idt, vmxon := some vmxon, vmcs := none }
      | (some vmcs, st3) =>
        match mm_alloc_page st3 with
        | (none, st4) =>
          vcpu_init_out_vmcs b st4
            { vcpu with idt_base := some idt, vmxon := some vmxon, vmcs := some vmcs,
                        ve := none }
        | (some ve, st4) =>
          let vcpu1 := { vcpu with idt_base := some idt, vmxon := some vmxon,
                                   vmcs := some vmcs, ve := some ve }
          if b.enable_pml then
            match mm_alloc_page st4 with
            | (none, st5) => vcpu_init_out_ve b st5 { vcpu1 with pml := none }
            | (some pml, st5) => vcpu_init_vapic b st5 { vcpu1 with pml := some pml }
          else vcpu_init_vapic b st4 vcpu1

/-- The function `vcpu_init`: `none` when a range loop of `init_ept` does not leave,
otherwise the value returned, the vCPU and the memory. -/
def vcpu_init (b : Build) (host : Host) (st : Mm) (vcpu : Vcpu) : Option (Int × Vcpu × Mm) :=
  match init_ept b host st vcpu.ept with
  | none => none
  | some (false, ept, st1) => some (ERR_NOMEM, { vcpu with ept := ept }, st1)
  | some (true, ept, st1) => some (vcpu_init_pages b st1 { vcpu with ept := ept })

/-- A Windows build with the Microsoft compiler (32-bit `unsigned long`). -/
def msvc_build : Build :=
  { msc_ver := true, long_bits := 32, suppress_ve := false, enable_pml := false,
    ptr_bitmap_size := 4, eptp_init_used := 3 }

/-- A Windows build with GCC (MinGW, 32-bit `unsigned long`). -/
def gcc_build : Build :=
  { msc_ver := false, long_bits := 32, suppress_ve := false, enable_pml := false,
    ptr_bitmap_size := 4, eptp_init_used := 3 }

/-- An empty memory whose allocator answers as `script` says. -/
def mm_with (script : List (Option Nat)) : Mm :=
  { mem := fun _ _ => 0, live := ∅, script := script, fault := false }

/-! ## Words of the hierarchy -/

/-- The word `ept_alloc_page` writes into a parent entry for the table page `q`. -/
def pde_word (b : Build) (q : Nat) : Nat := init_epte b 0 EPT_ACCESS_ALL (pa_of q)

/-! ## The hierarchy invariant -/

/-- The table pages of a hierarchy: for the path of indices leading from the root to a
table (innermost index first), the frame of that table. -/
abbrev Shape := List Nat → Option Nat

/-- The shape with one more table. -/
def Shape.extend (sh : Shape) (ρ : List Nat) (q : Nat) : Shape :=
  fun x => if x = ρ then some q else sh x

/-- Well-formedness of the hierarchy rooted at `root`: its tables are outstanding pages
below 2^48, no page serves as two tables, and every entry of a PML4, PDPT or PD table is
either zero or the full-access link to the table below it. -/
structure Inv (b : Build) (st : Mm) (root : Nat) (sh : Shape) : Prop where
  root_eq : sh [] = some root
  len : ∀ π q, sh π = some q → π.length ≤ 3
  parent : ∀ i π q, sh (i :: π) = some q → ∃ p, sh π = some p
  idx : ∀ i π q, sh (i :: π) = some q → i < 512
  inj : ∀ π ρ q, sh π = some q → sh ρ = some q → π = ρ
  live : ∀ π q, sh π = some q → q ∈ st.live
  bound : ∀ π q, sh π = some q → q < 2 ^ 36
  entries : ∀ π p, sh π = some p → π.length < 3 → ∀ i, i < 512 →
    st.mem p i = match sh (i :: π) with
      | some q => pde_word b q
      | none => 0

/-- How the interior part of `ept_alloc_page` may change memory and the hierarchy: tables
are only added, on fresh zeroed pages; pages outside the hierarchy and the entries of
existing PT pages are left alone. -/
structure Grow (b : Build) (root : Nat) (st : Mm) (sh : Shape) (st1 : Mm) (sh1 : Shape) :
    Prop where
  inv : Inv b st1 root sh1
  ext : ∀ π q, sh π = some q → sh1 π = some q
  fault : st1.fault = st.fault
  live : ∀ x, x ∈ st1.live ↔ x ∈ st.live ∨ ∃ π, sh1 π = some x
  fresh : ∀ π q, sh1 π = some q → sh π = some q ∨ q ∉ st.live
  outside : ∀ x, (∀ π, sh1 π ≠ some x) → st1.mem x = st.mem x
  leaves : ∀ π q, sh1 π = some q → π.length = 3 → ∀ j,
    st1.mem q j = if sh π = some q then st.mem q j else 0

/-- The path of the PT page of `gpa`. -/
def pt_path (gpa : Nat) : List Nat := [pde_idx gpa, ppe_idx gpa, pxe_idx gpa]

/-! ## Teardown -/

/-- The pages of the sub-hierarchy at path `π`: the table at `π` and every table below. -/
def Below (sh : Shape) (π : List Nat) (x : Nat) : Prop := ∃ ρ, sh (ρ ++ π) = some x

/-- What releasing the sub-hierarchy at `π` does: exactly its pages leave the set of
outstanding pages; nothing is written, no fault is raised. -/
def FreesBelow (sh : Shape) (π : List Nat) (st st1 : Mm) : Prop :=
  st1.mem = st.mem ∧ st1.fault = st.fault ∧ st1.script = st.script ∧
    ∀ x, x ∈ st1.live ↔ x ∈ st.live ∧ ¬ Below sh π x

/-! ## Hierarchies grown by `ept_alloc_page` -/

/-- The memories in which the hierarchy at `root` was grown from a freshly allocated,
zeroed root page (allocated in `st0`) by calls of `ept_alloc_page`, failed ones
included. -/
inductive Grown (b : Build) (st0 : Mm) (root : Nat) : Mm → Prop
  | fresh (st1 : Mm) : mm_alloc_page st0 = (some root, st1) → Grown b st0 root st1
  | map (st : Mm) (access gpa hpa : Nat) : Grown b st0 root st →
      Grown b st0 root (ept_alloc_page b st root access gpa hpa).2

/-- The shape with the root only. -/
def Shape.single (root : Nat) : Shape := fun π => if π = [] then some root else none

/-- A memory with the root page 1 allocated, the allocator then handing out 2, 3, 4. -/
def grown_root_mm : Mm := (mm_alloc_page (mm_with [some 1, some 2, some 3, some 4])).2

/-- A memory with the root page 1 allocated, whose allocator then hands out 2 and 3,
fails once and hands out 4. -/
def retry_root_mm : Mm := (mm_alloc_page (mm_with [some 1, some 2, some 3, none, some 4])).2

/-- A host with one physical-memory range of four pages, no kernel-address page, and the
local APIC at 0xFEE00000. -/
def small_host : Host :=
  { ranges := [(0, 0x4000)], is_kernel_addr := fun _ => false, apicbase := 0xFEE00900 }

/-- A pool whose hardware list is page 1 and whose slots are all free. -/
def empty_pool : Ept :=
  { ptr_list := some 1, pml4_list := fun _ => none, ptr_bitmap := fun _ => 0 }

/-- A memory in which page 1 (the hardware list) is outstanding. -/
def pool_mm (script : List (Option Nat)) : Mm :=
  { mem := fun _ _ => 0, live := {1}, script := script, fault := false }

/-- A vCPU before `vcpu_init`. -/
def blank_vcpu : Vcpu :=
  { ept := { ptr_list := none, pml4_list := fun _ => none, ptr_bitmap := fun _ => 0 },
    idt_base := none, vmxon := none, vmcs := none, ve := none, pml := none,
    vapic_page := none, stack := none }

/-- A pool of capacity 4 whose four slots are occupied. -/
def full_pool : Ept :=
  { ptr_list := some 1, pml4_list := fun i => some (i + 2),
    ptr_bitmap := fun w => if w = 0 then 15 else 0 }

/-! ## The pool invariant -/

/-- Well-formedness of the pool: the hardware list page `L` is outstanding, every
occupied slot holds the root of a well-formed hierarchy (with tables `shapes i`) whose
encoded pointer is entry `i` of the list, and the hierarchies share no page with each
other or with the list. -/
structure PoolInv (b : Build) (st : Mm) (ept : Ept) (L : Nat) (shapes : Nat → Shape) :
    Prop where
  list : ept.ptr_list = some L
  list_live : L ∈ st.live
  words : ∀ w, ept.ptr_bitmap w < 2 ^ 32
  slot : ∀ i, test_bit b i ept.ptr_bitmap = true →
    ∃ root, ept.pml4_list i = some root ∧ Inv b st root (shapes i) ∧
      st.mem L i = setup_eptp b 0 (pa_of root)
  list_sep : ∀ i, test_bit b i ept.ptr_bitmap = true → ∀ π, shapes i π ≠ some L
  sep : ∀ i j, test_bit b i ept.ptr_bitmap = true → test_bit b j ept.ptr_bitmap = true →
    i ≠ j → ∀ π ρ x, shapes i π = some x → shapes j ρ ≠ some x

/-- The pool states reached from a successful `init_ept` by calls of `ept_create_ptr`
(whatever they return) and of `ept_free_ptr` on occupied slots. -/
inductive PoolReach (b : Build) (host : Host) : Ept → Mm → Prop
  | init (st : Mm) (ept0 ept : Ept) (st1 : Mm) :
      init_ept b host st ept0 = some (true, ept, st1) → PoolReach b host ept st1
  | create (ept : Ept) (st : Mm) (access : Nat) (res : Option Nat × Ept × Mm) :
      PoolReach b host ept st → ept_create_ptr b host st ept access = some res →
      PoolReach b host res.2.1 res.2.2
  | free (ept : Ept) (st : Mm) (i : Nat) :
      PoolReach b host ept st → test_bit b i ept.ptr_bitmap = true →
      PoolReach b host (ept_free_ptr b st ept i).1 (ept_free_ptr b st ept i).2

/-- The allocator hands out the pages 1 to 19, enough for `init_ept` on `small_host`. -/
def init_script : List (Option Nat) :=
  [some 1, some 2, some 3, some 4, some 5, some 6, some 7, some 8, some 9, some 10,
   some 11, some 12, some 13, some 14, some 15, some 16, some 17, some 18, some 19]

/-- The pool after `init_ept` on `small_host`. -/
def init_pool : Ept :=
  match init_ept msvc_build small_host (mm_with init_script) blank_vcpu.ept with
  | some (_, e, _) => e
  | none => blank_vcpu.ept

/-- The memory after `init_ept` on `small_host`. -/
def init_mm : Mm :=
  match init_ept msvc_build small_host (mm_with init_script) blank_vcpu.ept with
  | some (_, _, s) => s
  | none => mm_with init_script

/-! ## Predicates on the mappings of a hierarchy -/

/-- The leaf of `a` in the hierarchy at `root` maps `a` to itself with access `acc`. -/
def Mapped (b : Build) (st : Mm) (root a acc : Nat) : Prop :=
  ∃ q, ept_pte st root a = some (q, pte_idx a) ∧ st.mem q (pte_idx a) = leaf_word b 0 acc a

/-- The access `setup_pml4` maps the range page `a` with. -/
def range_access (host : Host) (access a : Nat) : Nat :=
  if host.is_kernel_addr a then EPT_ACCESS_ALL else access

/-- The local-APIC page of the host. -/
def apic_page (host : Host) : Nat := host.apicbase &&& MSR_IA32_APICBASE_BASE

/-- What create promises of the hierarchy at `root`: every page of every range is mapped
to itself, with full access when it is a kernel-address page or the APIC page and with
`access` otherwise; the APIC page is mapped to itself with full access. -/
def IdentityMapped (host : Host) (st : Mm) (root access : Nat) : Prop :=
  (∀ r, r ∈ host.ranges → ∀ a, a % 4096 = 0 → r.1 ≤ a → a < r.2 →
    ∃ e, ept_pte st root a = some e ∧ epte_frame (st.mem e.1 e.2) = a >>> 12 ∧
      epte_access (st.mem e.1 e.2) =
        if host.is_kernel_addr a = true ∨ a = apic_page host then EPT_ACCESS_ALL
        else access) ∧
  ∃ e, ept_pte st root (apic_page host) = some e ∧
    epte_frame (st.mem e.1 e.2) = apic_page host >>> 12 ∧
    epte_access (st.mem e.1 e.2) = EPT_ACCESS_ALL

/-- The pool after the first `ept_create_ptr` on `small_host` with access R|X. -/
def created_pool : Ept :=
  match ept_create_ptr msvc_build small_host
    (pool_mm [some 2, some 3, some 4, some 5, some 6, some 7]) empty_pool 5 with
  | some (_, e, _) => e
  | none => empty_pool

/-- The memory after the first `ept_create_ptr` on `small_host` with access R|X. -/
def created_mm : Mm :=
  match ept_create_ptr msvc_build small_host
    (pool_mm [some 2, some 3, some 4, some 5, some 6, some 7]) empty_pool 5 with
  | some (_, _, s) => s
  | none => pool_mm []

/-- A host whose only physical range is the page at 2^48. -/
def high_host : Host :=
  { ranges := [(2 ^ 48, 2 ^ 48 + 0x1000)], is_kernel_addr := fun _ => false,
    apicbase := 0xFEE00900 }

/-- The allocator serves every request of `vcpu_init` on `small_host` (pages 1 to 24)
except the last one, the stack. -/
def stack_fail_script : List (Option Nat) :=
  [some 1, some 2, some 3, some 4, some 5, some 6, some 7, some 8, some 9, some 10,
   some 11, some 12, some 13, some 14, some 15, some 16, some 17, some 18, some 19,
   some 20, some 21, some 22, some 23, some 24, none]

/-- The pool after `init_ept` within `vcpu_init` on `stack_fail_script`. -/
def stack_fail_pool : Ept :=
  match init_ept msvc_build small_host (mm_with stack_fail_script) blank_vcpu.ept with
  | some (_, e, _) => e
  | none => blank_vcpu.ept

/-- The memory after `init_ept` within `vcpu_init` on `stack_fail_script`. -/
def stack_fail_mm : Mm :=
  match init_ept msvc_build small_host (mm_with stack_fail_script) blank_vcpu.ept with
  | some (_, _, s) => s
  | none => mm_with stack_fail_script

/-- The memory when `vcpu_init` on `stack_fail_script` reaches `out_pml:`: the pages 20
to 24 are allocated, the stack request has failed. -/
def stack_fail_unwind_mm : Mm :=
  (mm_alloc_page (mm_alloc_page (mm_alloc_page (mm_alloc_page (mm_alloc_page
    (mm_alloc_page stack_fail_mm).2).2).2).2).2).2

/-- The vCPU when `vcpu_init` on `stack_fail_script` reaches `out_pml:`. -/
def stack_fail_vcpu : Vcpu :=
  { blank_vcpu with ept := stack_fail_pool, idt_base := some 20, vmxon := some 21,
                    vmcs := some 22, ve := some 23, vapic_page := some 24, stack := none }

/-- The memory `st1` keeps every page outstanding in `st0`, with its contents. -/
def Keeps (st0 st1 : Mm) : Prop :=
  ∀ x, x ∈ st0.live → x ∈ st1.live ∧ st1.mem x = st0.mem x

/-- A build in which `unsigned long` has 64 bits (an LP64 target other than Linux, for
which `bitmap.h` is compiled as well), without `_MSC_VER`. -/
def lp64_build : Build :=
  { msc_ver := false, long_bits := 64, suppress_ve := false, enable_pml := false,
    ptr_bitmap_size := 8, eptp_init_used := 3 }

/-- The large-page bit of an entry is set. -/
def epte_large (entry : Nat) : Bool := entry &&& PAGE_LARGE != 0

/-- The PML4 entry on the path of `gpa`, as its page and index. -/
def walk_pml4e (root gpa : Nat) : Nat × Nat := (root, pxe_idx gpa)

/-- The PDPT entry on the path of `gpa`: in the table the PML4 entry refers to. -/
def walk_pdpte (st : Mm) (root gpa : Nat) : Nat × Nat :=
  (epte_frame (st.mem root (pxe_idx gpa)), ppe_idx gpa)

/-- The PD entry on the path of `gpa`: in the table the PDPT entry refers to. -/
def walk_pde (st : Mm) (root gpa : Nat) : Nat × Nat :=
  (epte_frame (st.mem (walk_pdpte st root gpa).1 (walk_pdpte st root gpa).2), pde_idx gpa)

/-- The PT slot selected by the lowest 9-bit index of `gpa`: in the table the PD entry
refers to. -/
def walk_pt (st : Mm) (root gpa : Nat) : Nat × Nat :=
  (epte_frame (st.mem (walk_pde st root gpa).1 (walk_pde st root gpa).2), pte_idx gpa)

/-- The value of the entry at a location. -/
def Mm.word (st : Mm) (loc : Nat × Nat) : Nat := st.mem loc.1 loc.2

/-- The reference walk, in the words of the specification: the entry at the first level
whose large-page bit is set, else the PT slot; nothing when an entry on the way has all
access bits zero.  The path ends at a large-page entry. -/
def reference_walk (st : Mm) (root gpa : Nat) : Option (Nat × Nat) :=
  if epte_access (st.word (walk_pml4e root gpa)) = 0 then none
  else if epte_access (st.word (walk_pdpte st root gpa)) = 0 then none
  else if epte_large (st.word (walk_pdpte st root gpa)) then some (walk_pdpte st root gpa)
  else if epte_access (st.word (walk_pde st root gpa)) = 0 then none
  else if epte_large (st.word (walk_pde st root gpa)) then some (walk_pde st root gpa)
  else some (walk_pt st root gpa)

/-! ## vcpu.c: EPT violations and the root switch -/

/-- Modelled from the spec: the VMCS fields that `vcpu.c` reads or writes (their
encodings are constants of the missing headers). -/
inductive VmcsField
  | GUEST_PHYSICAL_ADDRESS
  | GUEST_CR3
  | GUEST_SS_AR_BYTES
  | EXIT_QUALIFICATION
  | GUEST_LINEAR_ADDRESS
  | VM_ENTRY_CONTROLS
  | VM_EXIT_CONTROLS
  | PIN_BASED_VM_EXEC_CONTROL
  | CPU_BASED_VM_EXEC_CONTROL
  | SECONDARY_VM_EXEC_CONTROL
  | VM_EXIT_MSR_STORE_COUNT
  | VM_EXIT_MSR_STORE_ADDR
  | VM_EXIT_MSR_LOAD_COUNT
  | VM_EXIT_MSR_LOAD_ADDR
  | VM_ENTRY_MSR_LOAD_COUNT
  | VM_ENTRY_INTR_INFO_FIELD
  | VIRTUAL_PROCESSOR_ID
  | EXCEPTION_BITMAP
  | PAGE_FAULT_ERROR_CODE_MASK
  | PAGE_FAULT_ERROR_CODE_MATCH
  | CR3_TARGET_COUNT
  | IO_BITMAP_A
  | IO_BITMAP_B
  | MSR_BITMAP
  | EPT_POINTER
  | VMCS_LINK_POINTER
  | CR0_GUEST_HOST_MASK
  | CR4_GUEST_HOST_MASK
  | CR0_READ_SHADOW
  | CR4_READ_SHADOW
  | VM_FUNCTION_CTRL
  | EPTP_LIST_ADDRESS
  | EPTP_INDEX
  | VE_INFO_ADDRESS
  | XSS_EXIT_BITMAP
  | PML_ADDRESS
  | GUEST_PML_INDEX
  | GUEST_ES_SELECTOR
  | GUEST_CS_SELECTOR
  | GUEST_SS_SELECTOR
  | GUEST_DS_SELECTOR
  | GUEST_FS_SELECTOR
  | GUEST_GS_SELECTOR
  | GUEST_LDTR_SELECTOR
  | GUEST_TR_SELECTOR
  | GUEST_ES_LIMIT
  | GUEST_CS_LIMIT
  | GUEST_SS_LIMIT
  | GUEST_DS_LIMIT
  | GUEST_FS_LIMIT
  | GUEST_GS_LIMIT
  | GUEST_LDTR_LIMIT
  | GUEST_TR_LIMIT
  | GUEST_GDTR_LIMIT
  | GUEST_IDTR_LIMIT
  | GUEST_ES_AR_BYTES
  | GUEST_CS_AR_BYTES
  | GUEST_DS_AR_BYTES
  | GUEST_FS_AR_BYTES
  | GUEST_GS_AR_BYTES
  | GUEST_LDTR_AR_BYTES
  | GUEST_TR_AR_BYTES
  | GUEST_INTERRUPTIBILITY_INFO
  | GUEST_ACTIVITY_STATE
  | GUEST_IA32_DEBUGCTL
  | GUEST_PENDING_DBG_EXCEPTIONS
  | GUEST_CR0
  | GUEST_CR4
  | GUEST_ES_BASE
  | GUEST_CS_BASE
  | GUEST_SS_BASE
  | GUEST_DS_BASE
  | GUEST_FS_BASE
  | GUEST_GS_BASE
  | GUEST_LDTR_BASE
  | GUEST_TR_BASE
  | GUEST_GDTR_BASE
  | GUEST_IDTR_BASE
  | GUEST_DR7
  | GUEST_RSP
  | GUEST_RIP
  | GUEST_RFLAGS
  | GUEST_SYSENTER_CS
  | GUEST_SYSENTER_ESP
  | GUEST_SYSENTER_EIP
  | HOST_ES_SELECTOR
  | HOST_CS_SELECTOR
  | HOST_SS_SELECTOR
  | HOST_DS_SELECTOR
  | HOST_FS_SELECTOR
  | HOST_GS_SELECTOR
  | HOST_TR_SELECTOR
  | HOST_CR0
  | HOST_CR3
  | HOST_CR4
  | HOST_FS_BASE
  | HOST_GS_BASE
  | HOST_TR_BASE
  | HOST_GDTR_BASE
  | HOST_IDTR_BASE
  | HOST_IA32_SYSENTER_CS
  | HOST_IA32_SYSENTER_ESP
  | HOST_IA32_SYSENTER_EIP
  | HOST_RSP
  | HOST_RIP
  | VM_INSTRUCTION_ERROR
  deriving DecidableEq

/-- What the code does to the processor and asks of its collaborators, in the order of
execution: a call of `ksm_find_page`, of the hook's `select_eptp`, of
`ksm_sandbox_handle_ept`; a VMCS write; `__invept_all()`; `__invvpid_all()`;
`vcpu_vmfunc(eptp, func)`; `KSM_PANIC(code, sub, p1, p2)`; a failed `BUG_ON`; and, in
`vcpu_run`, the copy of the IDT, the store of the revision id into a region,
`__writecr0`, `__writecr4`, `__vmx_on`, `__vmx_vmclear`, `__vmx_vmptrld`,
`vcpu_put_idt`, `__vmx_vmlaunch`, `__lidt` and `__vmx_off`. -/
inductive Event
  | find_page (gva : Nat)
  | select_eptp (phi eptp ar ac : Nat)
  | sandbox_handle_ept (dpl gpa gva cr3 eptp ar ac : Nat)
  | vmwrite (field : VmcsField) (value : Nat)
  | invept_all
  | invvpid_all
  | vmfunc (eptp func : Nat)
  | ksm_panic (code sub p1 p2 : Nat)
  | bug_on
  | copy_idt
  | store_revision_id (pa value : Nat)
  | writecr0 (value : Nat)
  | writecr4 (value : Nat)
  | vmx_on (pa : Nat)
  | vmx_vmclear (pa : Nat)
  | vmx_vmptrld (pa : Nat)
  | put_idt (cs vector : Nat)
  | vmx_vmlaunch
  | lidt
  | vmx_off
  deriving DecidableEq

/-- Modelled from the spec: `struct ve_except_info` of the missing `ksm.h`, the shared
#VE info page ("guest-physical address, guest-linear address, exit qualification,
current hierarchy index"), with the exception mask the handler resets. -/
structure ve_except_info where
  except_mask : Nat
  exit : Nat
  gla : Nat
  gpa : Nat
  eptp : Nat
  deriving DecidableEq

/-- Modelled from the spec: the state of the logical CPU that the handlers and `vcpu_run`
act on: the VMCS fields, the #VE info page `*vcpu->ve`, the cached control words of
`struct vcpu` (`entry_ctl`, `exit_ctl`, `pin_ctl`, `cpu_ctl`, `secondary_ctl`,
`vm_func_ctl`), its CR0/CR4 guest-host masks, `vcpu->ip`, the guest CR3 that
`__readcr3()` yields, and the effects so far. -/
structure Cpu where
  vmcs : VmcsField → Nat
  ve : ve_except_info
  entry_ctl : Nat
  exit_ctl : Nat
  pin_ctl : Nat
  cpu_ctl : Nat
  secondary_ctl : Nat
  vm_func_ctl : Nat
  cr0_guest_host_mask : Nat
  cr4_guest_host_mask : Nat
  ip : Nat
  cr3 : Nat
  log : List Event

/-- Further compile-time switches of `vcpu.c`: `#ifdef EPAGE_HOOK`, `#ifdef PMEM_SANDBOX`,
`#ifdef DBG`, `#ifdef EMULATE_VMFUNC`, `_WIN32_WINNT == 0x0A00` and `#ifdef __linux__`. -/
structure Config where
  epage_hook : Bool
  pmem_sandbox : Bool
  dbg : Bool
  emulate_vmfunc : Bool
  win10 : Bool
  linux : Bool

/-- Modelled from the spec: the hook and sandbox collaborators.  `find_page gva` is
`ksm_find_page(vcpu->ksm, gva)` (a hook handle, `none` for null); `select_eptp phi eptp
ar ac` is `phi->ops->select_eptp(phi, eptp, ar, ac)`; `sandbox_handle_ept` is
`ksm_sandbox_handle_ept`, which is handed `&vcpu->ept`, the descriptor and the
out-parameters `invd` and `eptp_switch`: it yields its verdict, what it leaves in `*invd`
and `*eptp_switch`, and the memory. -/
structure Collab where
  find_page : Nat → Option Nat
  select_eptp : Nat → Nat → Nat → Nat → Nat
  sandbox_handle_ept : Ept → Mm → Nat → Nat → Nat → Nat → Nat → Nat → Nat → Bool → Nat →
    Bool × Bool × Nat × Mm

/-- Modelled from the spec: `EPT_AR_SHIFT`, the position of the access-rights-present
bits in the exit qualification. -/
def EPT_AR_SHIFT : Nat := 3

/-- Modelled from the spec: `EPT_VE_VALID_GLA`, the guest-linear-address-valid bit of the
exit qualification. -/
def EPT_VE_VALID_GLA : Nat := 0x80

/-- Modelled from the spec: `SECONDARY_EXEC_ENABLE_VE`, hardware #VE delivery. -/
def SECONDARY_EXEC_ENABLE_VE : Nat := 0x40000

/-- Modelled from the spec: `VMX_AR_DPL(ar)`, the DPL bits of a segment access-rights
word. -/
def VMX_AR_DPL (ar : Nat) : Nat := (ar >>> 5) &&& 3

/-- Modelled from the spec: `EPT_BUGCHECK_CODE`. -/
def EPT_BUGCHECK_CODE : Nat := 0x3EDFAAAA

/-- Modelled from the spec: `EPT_UNHANDLED_VIOLATION`. -/
def EPT_UNHANDLED_VIOLATION : Nat := 0xEEEEEEEE

/-- Modelled from the spec: `vmcs_read(field)` and `vmcs_read64(field)`. -/
def vmcs_read (cpu : Cpu) (f : VmcsField) : Nat := cpu.vmcs f % 2 ^ 64

/-- Modelled from the spec: `vmcs_read32(field)`. -/
def vmcs_read32 (cpu : Cpu) (f : VmcsField) : Nat := cpu.vmcs f % 2 ^ 32

/-- Modelled from the spec: `vmcs_read16(field)`. -/
def vmcs_read16 (cpu : Cpu) (f : VmcsField) : Nat := cpu.vmcs f % 2 ^ 16

/-- Modelled from the spec: a VMCS write of `value`: the field holds the value and the
write is recorded. -/
def vmcs_write (cpu : Cpu) (f : VmcsField) (value : Nat) : Cpu :=
  { cpu with vmcs := Function.update cpu.vmcs f value,
             log := cpu.log ++ [Event.vmwrite f value] }

/-- Modelled from the spec: `vmcs_write16(field, value)`. -/
def vmcs_write16 (cpu : Cpu) (f : VmcsField) (value : Nat) : Cpu :=
  vmcs_write cpu f (value % 2 ^ 16)

/-- Modelled from the spec: `vmcs_write64(field, value)`. -/
def vmcs_write64 (cpu : Cpu) (f : VmcsField) (value : Nat) : Cpu :=
  vmcs_write cpu f (value % 2 ^ 64)

/-- Modelled from the spec: `__invept_all()`, the global invalidation, recorded. -/
def invept_all (cpu : Cpu) : Cpu := { cpu with log := cpu.log ++ [Event.invept_all] }

/-- Modelled from the spec: `vcpu_eptp_idx(vcpu)`, the current hierarchy index: the
hardware EPTP-index field when hardware #VE delivery is active, else the index in the
shared info page. -/
def vcpu_eptp_idx (cpu : Cpu) : Nat :=
  if cpu.secondary_ctl &&& SECONDARY_EXEC_ENABLE_VE ≠ 0 then vmcs_read16 cpu .EPTP_INDEX
  else cpu.ve.eptp % 2 ^ 16

/-- Modelled from the spec: `EPTP(ept, index)`, entry `index` of the hardware list, with
the memory after the read (a fault when the pool has no list page). -/
def eptp_entry (st : Mm) (ept : Ept) (index : Nat) : Nat × Mm :=
  match ept.ptr_list with
  | some list => (st.mem list index, st.touch list)
  | none => (0, { st with fault := true })

/-- What `do_ept_violation` hands back: its result, `*invd`, `*eptp_switch`, the memory
and the effects. -/
structure Verdict where
  handled : Bool
  invd : Bool
  eptp_switch : Nat
  st : Mm
  log : List Event

/-- The function `do_ept_violation`.  `invd` and `eptp_switch` are the values of the
out-parameters on entry; `ar` and `ac` are `u8`, `eptp` and `*eptp_switch` are `u16`.
A null slot root handed to `ept_alloc_page` is a fault. -/
def do_ept_violation (b : Build) (cfg : Config) (c : Collab) (ept : Ept) (st : Mm)
    (log : List Event) (_rip dpl gpa gva cr3 eptp ar ac : Nat) (invd : Bool)
    (eptp_switch : Nat) : Verdict :=
  if ar = EPT_ACCESS_NONE then
    match ept.pml4_list eptp with
    | none => ⟨false, invd, eptp_switch, { st with fault := true }, log⟩
    | some root =>
      match ept_alloc_page b st root EPT_ACCESS_ALL gpa gpa with
      | (none, st1) => ⟨false, invd, eptp_switch, st1, log⟩
      | (some _, st1) => ⟨true, invd, eptp_switch, st1, log⟩
  else
    let log1 := if cfg.epage_hook then log ++ [Event.find_page gva] else log
    match (if cfg.epage_hook then c.find_page gva else none) with
    | some phi =>
      ⟨true, invd, c.select_eptp phi eptp ar ac % 2 ^ 16, st,
        log1 ++ [Event.select_eptp phi eptp ar ac]⟩
    | none =>
      if cfg.pmem_sandbox then
        match c.sandbox_handle_ept ept st dpl gpa gva cr3 eptp ar ac invd eptp_switch with
        | (claimed, invd1, sw1, st1) =>
          ⟨claimed, invd1, sw1 % 2 ^ 16, st1,
            log1 ++ [Event.sandbox_handle_ept dpl gpa gva cr3 eptp ar ac]⟩
      else ⟨false, invd, eptp_switch, st, log1⟩

/-- The function `vcpu_switch_root_eptp` (`index` is a `u16`).  A failed `BUG_ON` does
not return. -/
def vcpu_switch_root_eptp (b : Build) (ept : Ept) (st : Mm) (cpu : Cpu) (index : Nat) :
    Mm × Cpu :=
  if test_bit b index ept.ptr_bitmap = false then
    (st, { cpu with log := cpu.log ++ [Event.bug_on] })
  else if cpu.secondary_ctl &&& SECONDARY_EXEC_ENABLE_VE ≠ 0 then
    if vmcs_read16 cpu .EPTP_INDEX = index then (st, cpu)
    else
      let cpu1 := vmcs_write16 cpu .EPTP_INDEX index
      ((eptp_entry st ept index).2,
        invept_all (vmcs_write64 cpu1 .EPT_POINTER (eptp_entry st ept index).1))
  else if cpu.ve.eptp % 2 ^ 16 = index then (st, cpu)
  else
    let cpu1 := { cpu with ve := { cpu.ve with eptp := index } }
    ((eptp_entry st ept index).2,
      invept_all (vmcs_write64 cpu1 .EPT_POINTER (eptp_entry st ept index).1))

/-- The access-rights-present bits of an exit qualification (a `u8`). -/
def exit_ar (exit : Nat) : Nat := ((exit >>> EPT_AR_SHIFT) &&& EPT_AR_MASK) % 2 ^ 8

/-- The access-attempted bits of an exit qualification (a `u8`). -/
def exit_ac (exit : Nat) : Nat := (exit &&& EPT_AR_MASK) % 2 ^ 8

/-- The verdict of the classifier on the VM-exit descriptor that `ept_handle_violation`
reads from the VMCS. -/
def root_verdict (b : Build) (cfg : Config) (c : Collab) (ept : Ept) (st : Mm) (cpu : Cpu) :
    Verdict :=
  let eptp := vcpu_eptp_idx cpu
  let gpa := vmcs_read cpu .GUEST_PHYSICAL_ADDRESS
  let cr3 := vmcs_read cpu .GUEST_CR3
  let dpl := VMX_AR_DPL (vmcs_read32 cpu .GUEST_SS_AR_BYTES)
  let exit := vmcs_read cpu .EXIT_QUALIFICATION
  let gva := if exit &&& EPT_VE_VALID_GLA ≠ 0 then vmcs_read cpu .GUEST_LINEAR_ADDRESS else 0
  do_ept_violation b cfg c ept st cpu.log cpu.ip dpl gpa gva cr3 eptp (exit_ar exit)
    (exit_ac exit) false eptp

/-- The function `ept_handle_violation` (root mode): its result, the memory and the CPU
afterwards. -/
def ept_handle_violation (b : Build) (cfg : Config) (c : Collab) (ept : Ept) (st : Mm)
    (cpu : Cpu) : Bool × Mm × Cpu :=
  let eptp := vcpu_eptp_idx cpu
  let v := root_verdict b cfg c ept st cpu
  let cpu1 := { cpu with log := v.log }
  if v.handled = false then (false, v.st, cpu1)
  else if v.eptp_switch ≠ eptp then
    (true, vcpu_switch_root_eptp b ept v.st cpu1 v.eptp_switch)
  else if v.invd then (true, v.st, invept_all cpu1)
  else (true, v.st, cpu1)

/-- The verdict of the classifier on the descriptor that `__ept_handle_violation` reads
from the #VE info page. -/
def nonroot_verdict (b : Build) (cfg : Config) (c : Collab) (ept : Ept) (st : Mm) (cpu : Cpu)
    (cs : Nat) : Verdict :=
  let info := cpu.ve
  let gpa := info.gpa
  let exit := info.exit
  let eptp := info.eptp % 2 ^ 16
  let gva := if info.exit &&& EPT_VE_VALID_GLA ≠ 0 then info.gla else 0
  do_ept_violation b cfg c ept st cpu.log cpu.ip (cs &&& 3) gpa gva cpu.cr3 eptp
    (exit_ar exit) (exit_ac exit) false eptp

/-- The function `__ept_handle_violation` (non-root mode, from the #VE vector).
`KSM_PANIC` does not return. -/
def __ept_handle_violation (b : Build) (cfg : Config) (c : Collab) (ept : Ept)
    (st : Mm) (cpu : Cpu) (cs rip : Nat) : Mm × Cpu :=
  let eptp := cpu.ve.eptp % 2 ^ 16
  let v := nonroot_verdict b cfg c ept st cpu cs
  let cpu1 := { cpu with ve := { cpu.ve with except_mask := 0 }, log := v.log }
  if v.handled = false then
    (v.st, { cpu1 with log := cpu1.log ++
      [Event.ksm_panic EPT_BUGCHECK_CODE EPT_UNHANDLED_VIOLATION rip cpu.ve.gpa] })
  else if v.eptp_switch ≠ eptp then
    (v.st, { cpu1 with log := cpu1.log ++ [Event.vmfunc eptp 0] })
  else (v.st, cpu1)

/-- A pool whose slot 0 holds the root page 1, with no hardware list page. -/
def one_root_pool : Ept :=
  { ptr_list := none, pml4_list := fun i => if i = 0 then some 1 else none,
    ptr_bitmap := fun w => if w = 0 then 1 else 0 }

/-- A memory in which the root page 1 is freshly allocated and the allocator serves no
further request. -/
def exhausted_root_mm : Mm := (mm_alloc_page (mm_with [some 1])).2

/-- No hook and no sandbox compiled in. -/
def plain_config : Config :=
  { epage_hook := false, pmem_sandbox := false, dbg := false, emulate_vmfunc := false,
    win10 := false, linux := false }

/-- Collaborators that claim nothing. -/
def idle_collab : Collab :=
  { find_page := fun _ => none, select_eptp := fun _ eptp _ _ => eptp,
    sandbox_handle_ept := fun _ st _ _ _ _ _ _ _ invd sw => (false, invd, sw, st) }

/-- A hook compiled in, no sandbox. -/
def hook_config : Config := { plain_config with epage_hook := true }

/-- A hook collaborator that claims the gva 0x7000 (handle 9) and selects hierarchy 3. -/
def hook_collab : Collab :=
  { find_page := fun gva => if gva = 0x7000 then some 9 else none,
    select_eptp := fun _ _ _ _ => 3,
    sandbox_handle_ept := fun _ st _ _ _ _ _ _ _ invd sw => (false, invd, sw, st) }
/-- A CPU with hardware #VE delivery not active, every VMCS field and the #VE info page
zero, and no effect yet. -/
def blank_cpu : Cpu :=
  { vmcs := fun _ => 0, ve := ⟨0, 0, 0, 0, 0⟩, entry_ctl := 0, exit_ctl := 0, pin_ctl := 0,
    cpu_ctl := 0, secondary_ctl := 0, vm_func_ctl := 0, cr0_guest_host_mask := 0,
    cr4_guest_host_mask := 0x2000, ip := 0, cr3 := 0, log := [] }

/-- The same with hardware #VE delivery active. -/
def native_cpu : Cpu := { blank_cpu with secondary_ctl := SECONDARY_EXEC_ENABLE_VE }

/-- A CPU with emulated #VE whose info page names hierarchy 2 as the current one. -/
def emulated_cpu_at_2 : Cpu := { blank_cpu with ve := ⟨0, 0, 0, 0, 2⟩ }
/-- A CPU in non-root mode whose #VE info page describes a write to gpa 0x5000, gva
0x7000 (valid), with AR = RWX present, in the current hierarchy 0. -/
def ve_fault_cpu : Cpu := { native_cpu with ve := ⟨0xFFFFFFFF, 0xBA, 0x7000, 0x5000, 0⟩ }

/-- A CPU in root mode whose VMCS describes an access to gpa 0xDEAD000 with no access
right present (exit qualification 2: AR = 0, AC = W), current hierarchy 0, emulated
#VE. -/
def absent_exit_cpu : Cpu :=
  { blank_cpu with
    vmcs := fun f => if f = VmcsField.GUEST_PHYSICAL_ADDRESS then 0xDEAD000
      else if f = VmcsField.EXIT_QUALIFICATION then 2 else 0 }

/-! ## vcpu.c: launch -/

/-- Modelled from the spec: what `vcpu_run` reads of the processor, of the operating
system and of the `ksm` object: the MSRs, the segment selectors, control registers,
descriptor-table registers, DR7 and RFLAGS, the intrinsics `__segmentlimit`, `__lar` and
the helper `__segmentbase`, the status that each VMX instruction returns (zero for
success), the kernel-debugger flags, `vpid_nr()`, the macro `__EXCEPTION_BITMAP`, the
physical addresses of the I/O and MSR bitmaps, `host_pgd`, the address of
`__vmx_entrypoint` and `KERNEL_STACK_SIZE`. -/
structure Machine where
  msr : Nat → Nat
  es : Nat
  cs : Nat
  ss : Nat
  ds : Nat
  fs : Nat
  gs : Nat
  ldt : Nat
  tr : Nat
  cr0 : Nat
  cr3 : Nat
  cr4 : Nat
  gdtr_base : Nat
  gdtr_limit : Nat
  idtr_base : Nat
  idtr_limit : Nat
  dr7 : Nat
  eflags : Nat
  segmentlimit : Nat → Nat
  lar : Nat → Nat
  segmentbase : Nat → Nat → Nat
  vmx_on_err : Nat
  vmclear_err : Nat
  vmptrld_err : Nat
  vmwrite_err : VmcsField → Nat
  vmlaunch_err : Nat
  kd_debugger_enabled : Bool
  kd_debugger_not_present : Bool
  vpid_nr : Nat
  exception_bitmap : Nat
  io_bitmap_a : Nat
  io_bitmap_b : Nat
  msr_bitmap : Nat
  host_pgd : Nat
  vmx_entrypoint : Nat
  kernel_stack_size : Nat

/-- Modelled from the spec: `MSR_IA32_VMX_BASIC`. -/
def MSR_IA32_VMX_BASIC : Nat := 0x480

/-- Modelled from the spec: `MSR_IA32_VMX_PINBASED_CTLS`. -/
def MSR_IA32_VMX_PINBASED_CTLS : Nat := 0x481

/-- Modelled from the spec: `MSR_IA32_VMX_PROCBASED_CTLS`, the capability MSR of the
primary controls. -/
def MSR_IA32_VMX_PROCBASED_CTLS : Nat := 0x482

/-- Modelled from the spec: `MSR_IA32_VMX_EXIT_CTLS`. -/
def MSR_IA32_VMX_EXIT_CTLS : Nat := 0x483

/-- Modelled from the spec: `MSR_IA32_VMX_ENTRY_CTLS`. -/
def MSR_IA32_VMX_ENTRY_CTLS : Nat := 0x484

/-- Modelled from the spec: `MSR_IA32_VMX_CR0_FIXED0`. -/
def MSR_IA32_VMX_CR0_FIXED0 : Nat := 0x486

/-- Modelled from the spec: `MSR_IA32_VMX_CR0_FIXED1`. -/
def MSR_IA32_VMX_CR0_FIXED1 : Nat := 0x487

/-- Modelled from the spec: `MSR_IA32_VMX_CR4_FIXED0`. -/
def MSR_IA32_VMX_CR4_FIXED0 : Nat := 0x488

/-- Modelled from the spec: `MSR_IA32_VMX_CR4_FIXED1`. -/
def MSR_IA32_VMX_CR4_FIXED1 : Nat := 0x489

/-- Modelled from the spec: `MSR_IA32_VMX_PROCBASED_CTLS2`, the capability MSR of the
secondary controls. -/
def MSR_IA32_VMX_PROCBASED_CTLS2 : Nat := 0x48B

/-- Modelled from the spec: `MSR_IA32_DEBUGCTLMSR`. -/
def MSR_IA32_DEBUGCTLMSR : Nat := 0x1D9

/-- Modelled from the spec: `MSR_IA32_SYSENTER_CS`. -/
def MSR_IA32_SYSENTER_CS : Nat := 0x174

/-- Modelled from the spec: `MSR_IA32_SYSENTER_ESP`. -/
def MSR_IA32_SYSENTER_ESP : Nat := 0x175

/-- Modelled from the spec: `MSR_IA32_SYSENTER_EIP`. -/
def MSR_IA32_SYSENTER_EIP : Nat := 0x176

/-- Modelled from the spec: `MSR_IA32_FS_BASE`. -/
def MSR_IA32_FS_BASE : Nat := 0xC0000100

/-- Modelled from the spec: `MSR_IA32_GS_BASE`. -/
def MSR_IA32_GS_BASE : Nat := 0xC0000101

/-- Modelled from the spec: `VMX_BASIC_TRUE_CTLS`, bit 55 of the basic MSR. -/
def VMX_BASIC_TRUE_CTLS : Nat := 2 ^ 55

/-- Modelled from the spec: `VM_ENTRY_IA32E_MODE`. -/
def VM_ENTRY_IA32E_MODE : Nat := 0x200

/-- Modelled from the spec: `VM_ENTRY_CONCEAL_IPT`. -/
def VM_ENTRY_CONCEAL_IPT : Nat := 0x20000

/-- Modelled from the spec: `VM_EXIT_ACK_INTR_ON_EXIT`. -/
def VM_EXIT_ACK_INTR_ON_EXIT : Nat := 0x8000

/-- Modelled from the spec: `VM_EXIT_HOST_ADDR_SPACE_SIZE`. -/
def VM_EXIT_HOST_ADDR_SPACE_SIZE : Nat := 0x200

/-- Modelled from the spec: `VM_EXIT_CONCEAL_IPT`. -/
def VM_EXIT_CONCEAL_IPT : Nat := 0x1000000

/-- Modelled from the spec: `CPU_BASED_ACTIVATE_SECONDARY_CONTROLS`, secondary-controls
activation. -/
def CPU_BASED_ACTIVATE_SECONDARY_CONTROLS : Nat := 0x80000000

/-- Modelled from the spec: `CPU_BASED_USE_MSR_BITMAPS`. -/
def CPU_BASED_USE_MSR_BITMAPS : Nat := 0x10000000

/-- Modelled from the spec: `CPU_BASED_USE_IO_BITMAPS`. -/
def CPU_BASED_USE_IO_BITMAPS : Nat := 0x2000000

/-- Modelled from the spec: `CPU_BASED_CR3_LOAD_EXITING`. -/
def CPU_BASED_CR3_LOAD_EXITING : Nat := 0x8000

/-- Modelled from the spec: `SECONDARY_EXEC_ENABLE_EPT`. -/
def SECONDARY_EXEC_ENABLE_EPT : Nat := 0x2

/-- Modelled from the spec: `SECONDARY_EXEC_DESC_TABLE_EXITING`. -/
def SECONDARY_EXEC_DESC_TABLE_EXITING : Nat := 0x4

/-- Modelled from the spec: `SECONDARY_EXEC_RDTSCP`. -/
def SECONDARY_EXEC_RDTSCP : Nat := 0x8

/-- Modelled from the spec: `SECONDARY_EXEC_ENABLE_VPID`. -/
def SECONDARY_EXEC_ENABLE_VPID : Nat := 0x20

/-- Modelled from the spec: `SECONDARY_EXEC_ENABLE_VMFUNC`. -/
def SECONDARY_EXEC_ENABLE_VMFUNC : Nat := 0x2000

/-- Modelled from the spec: `SECONDARY_EXEC_ENABLE_PML`. -/
def SECONDARY_EXEC_ENABLE_PML : Nat := 0x20000

/-- Modelled from the spec: `SECONDARY_EXEC_CONCEAL_VMX_IPT`. -/
def SECONDARY_EXEC_CONCEAL_VMX_IPT : Nat := 0x80000

/-- Modelled from the spec: `SECONDARY_EXEC_XSAVES`. -/
def SECONDARY_EXEC_XSAVES : Nat := 0x100000

/-- Modelled from the spec: `VM_FUNCTION_CTL_EPTP_SWITCHING`. -/
def VM_FUNCTION_CTL_EPTP_SWITCHING : Nat := 1

/-- Modelled from the spec: `EPTP_DEFAULT`, hierarchy 0. -/
def EPTP_DEFAULT : Nat := 0

/-- Modelled from the spec: `X86_TRAP_VE`, the #VE vector. -/
def X86_TRAP_VE : Nat := 20

/-- Modelled from the spec: `GUEST_ACTIVITY_ACTIVE`. -/
def GUEST_ACTIVITY_ACTIVE : Nat := 0

/-- Modelled from the spec: `PML_MAX_ENTRIES`. -/
def PML_MAX_ENTRIES : Nat := 512

/-- Modelled from the spec: `__pa` of a pointer field of `struct vcpu`. -/
def ptr_pa (p : Option Nat) : Nat :=
  match p with
  | some frame => pa_of frame
  | none => 0

/-- The function `__accessright`. -/
def accessright (m : Machine) (selector : Nat) : Nat :=
  if selector ≠ 0 then (m.lar selector >>> 8) &&& 0xF0FF else 0x10000

/-- The function `adjust_ctl_val`, as the new value of `*val`. -/
def adjust_ctl_val (m : Machine) (msr val : Nat) : Nat :=
  let v := m.msr msr % 2 ^ 64
  (val &&& ((v >>> 32) % 2 ^ 32)) ||| (v % 2 ^ 32)

/-- The offset `msr_off` of `vcpu_run`: the "true" capability MSRs when the basic MSR
announces them. -/
def msr_off (m : Machine) : Nat :=
  if (m.msr MSR_IA32_VMX_BASIC % 2 ^ 64) &&& VMX_BASIC_TRUE_CTLS ≠ 0 then 0xC else 0

/-- The constant `req_cpuctl` of `vcpu_run`, the required primary controls. -/
def req_cpuctl (cfg : Config) : Nat :=
  CPU_BASED_ACTIVATE_SECONDARY_CONTROLS ||| CPU_BASED_USE_MSR_BITMAPS |||
    CPU_BASED_USE_IO_BITMAPS ||| (if cfg.pmem_sandbox then CPU_BASED_CR3_LOAD_EXITING else 0)

/-- The constant `req_2ndctl` of `vcpu_run`, the required secondary controls. -/
def req_2ndctl : Nat := SECONDARY_EXEC_ENABLE_EPT ||| SECONDARY_EXEC_ENABLE_VPID

/-- The requested secondary controls of `vcpu_run`, before the adjustment. -/
def want_2ndctl (b : Build) (cfg : Config) (m : Machine) : Nat :=
  req_2ndctl ||| SECONDARY_EXEC_XSAVES |||
    (if cfg.emulate_vmfunc then 0 else SECONDARY_EXEC_ENABLE_VMFUNC) |||
    SECONDARY_EXEC_ENABLE_VE |||
    (if cfg.win10 then SECONDARY_EXEC_RDTSCP else 0) |||
    (if b.enable_pml then SECONDARY_EXEC_ENABLE_PML else 0) |||
    (if cfg.dbg then 0 else SECONDARY_EXEC_CONCEAL_VMX_IPT) |||
    (if cfg.linux ∨ ¬ m.kd_debugger_enabled ∨ m.kd_debugger_not_present
      then SECONDARY_EXEC_DESC_TABLE_EXITING else 0)

/-- The adjusted entry controls `vm_entry` of `vcpu_run`. -/
def run_entry (cfg : Config) (m : Machine) : Nat :=
  adjust_ctl_val m (MSR_IA32_VMX_ENTRY_CTLS + msr_off m)
    (VM_ENTRY_IA32E_MODE ||| (if cfg.dbg then 0 else VM_ENTRY_CONCEAL_IPT))

/-- The adjusted exit controls `vm_exit` of `vcpu_run`. -/
def run_exit (cfg : Config) (m : Machine) : Nat :=
  adjust_ctl_val m (MSR_IA32_VMX_EXIT_CTLS + msr_off m)
    (VM_EXIT_ACK_INTR_ON_EXIT ||| VM_EXIT_HOST_ADDR_SPACE_SIZE |||
      (if cfg.dbg then 0 else VM_EXIT_CONCEAL_IPT))

/-- The adjusted pin-based controls `vm_pinctl` of `vcpu_run`. -/
def run_pinctl (m : Machine) : Nat :=
  adjust_ctl_val m (MSR_IA32_VMX_PINBASED_CTLS + msr_off m) 0

/-- The adjusted primary controls `vm_cpuctl` of `vcpu_run`. -/
def run_cpuctl (cfg : Config) (m : Machine) : Nat :=
  adjust_ctl_val m (MSR_IA32_VMX_PROCBASED_CTLS + msr_off m) (req_cpuctl cfg)

/-- The adjusted secondary controls `vm_2ndctl` of `vcpu_run`. -/
def run_2ndctl (b : Build) (cfg : Config) (m : Machine) : Nat :=
  adjust_ctl_val m MSR_IA32_VMX_PROCBASED_CTLS2 (want_2ndctl b cfg m)

/-- One `err |= vmcs_write(field, value)`: the status is accumulated (a `u8`), the write
is recorded, and the field holds the value when the write succeeds. -/
def vmcs_write_err (m : Machine) (s : Nat × Cpu) (w : VmcsField × Nat) : Nat × Cpu :=
  ((s.1 ||| m.vmwrite_err w.1) % 2 ^ 8,
    if m.vmwrite_err w.1 = 0 then vmcs_write s.2 w.1 w.2
    else { s.2 with log := s.2.log ++ [Event.vmwrite w.1 w.2] })

/-- A run of `err |= vmcs_write(...)` statements. -/
def vmcs_writes (m : Machine) (s : Nat × Cpu) (ws : List (VmcsField × Nat)) : Nat × Cpu :=
  ws.foldl (vmcs_write_err m) s

/-- An effect recorded in the log. -/
def Cpu.emit (cpu : Cpu) (e : Event) : Cpu := { cpu with log := cpu.log ++ [e] }

/-- Modelled from the spec: the virtual address held in a pointer field of `struct vcpu`
(the model numbers a page by its frame). -/
def ptr_va (p : Option Nat) : Nat :=
  match p with
  | some frame => frame <<< PAGE_SHIFT
  | none => 0

/-- The value of `cr0` in `vcpu_run` after the fixed-bit MSRs are applied. -/
def run_cr0 (m : Machine) : Nat :=
  ((m.cr0 % 2 ^ 64) &&& (m.msr MSR_IA32_VMX_CR0_FIXED1 % 2 ^ 64)) |||
    (m.msr MSR_IA32_VMX_CR0_FIXED0 % 2 ^ 64)

/-- The value of `cr4` in `vcpu_run` after the fixed-bit MSRs are applied. -/
def run_cr4 (m : Machine) : Nat :=
  ((m.cr4 % 2 ^ 64) &&& (m.msr MSR_IA32_VMX_CR4_FIXED1 % 2 ^ 64)) |||
    (m.msr MSR_IA32_VMX_CR4_FIXED0 % 2 ^ 64)

/-- The operator `~` on a 64-bit word. -/
def not64 (x : Nat) : Nat := 2 ^ 64 - 1 - x % 2 ^ 64

/-- The writes of `vcpu_run` from "Processor control fields" to the CR0/CR4 controls, in
the order of the source, each value cut to the width of its `vmcs_write`. -/
def run_control_writes (b : Build) (cfg : Config) (m : Machine) (ept : Ept) (st : Mm)
    (cpu : Cpu) : List (VmcsField × Nat) :=
  [(VmcsField.VM_ENTRY_CONTROLS, run_entry cfg m % 2 ^ 32),
   (VmcsField.VM_EXIT_CONTROLS, run_exit cfg m % 2 ^ 32),
   (VmcsField.PIN_BASED_VM_EXEC_CONTROL, run_pinctl m % 2 ^ 32),
   (VmcsField.CPU_BASED_VM_EXEC_CONTROL, run_cpuctl cfg m % 2 ^ 32),
   (VmcsField.SECONDARY_VM_EXEC_CONTROL, run_2ndctl b cfg m % 2 ^ 32),
   (VmcsField.VM_EXIT_MSR_STORE_COUNT, 0),
   (VmcsField.VM_EXIT_MSR_STORE_ADDR, 0),
   (VmcsField.VM_EXIT_MSR_LOAD_COUNT, 0),
   (VmcsField.VM_EXIT_MSR_LOAD_ADDR, 0),
   (VmcsField.VM_ENTRY_MSR_LOAD_COUNT, 0),
   (VmcsField.VM_ENTRY_INTR_INFO_FIELD, 0),
   (VmcsField.VIRTUAL_PROCESSOR_ID, m.vpid_nr % 2 ^ 16),
   (VmcsField.EXCEPTION_BITMAP, m.exception_bitmap % 2 ^ 32),
   (VmcsField.PAGE_FAULT_ERROR_CODE_MASK, 0),
   (VmcsField.PAGE_FAULT_ERROR_CODE_MATCH, 0),
   (VmcsField.CR3_TARGET_COUNT, 0),
   (VmcsField.IO_BITMAP_A, m.io_bitmap_a % 2 ^ 64),
   (VmcsField.IO_BITMAP_B, m.io_bitmap_b % 2 ^ 64),
   (VmcsField.MSR_BITMAP, m.msr_bitmap % 2 ^ 64),
   (VmcsField.EPT_POINTER, (eptp_entry st ept EPTP_DEFAULT).1 % 2 ^ 64),
   (VmcsField.VMCS_LINK_POINTER, 2 ^ 64 - 1),
   (VmcsField.CR0_GUEST_HOST_MASK, cpu.cr0_guest_host_mask % 2 ^ 64),
   (VmcsField.CR4_GUEST_HOST_MASK, cpu.cr4_guest_host_mask % 2 ^ 64),
   (VmcsField.CR0_READ_SHADOW, run_cr0 m &&& not64 cpu.cr0_guest_host_mask),
   (VmcsField.CR4_READ_SHADOW, run_cr4 m &&& not64 cpu.cr4_guest_host_mask)]

/-- The guest segment selectors that `vcpu_run` writes, in the order of the source, each
value cut to the width of its `vmcs_write`. -/
def run_guest_selector_writes (m : Machine) : List (VmcsField × Nat) :=
  [(VmcsField.GUEST_ES_SELECTOR, m.es % 2 ^ 16),
   (VmcsField.GUEST_CS_SELECTOR, m.cs % 2 ^ 16),
   (VmcsField.GUEST_SS_SELECTOR, m.ss % 2 ^ 16),
   (VmcsField.GUEST_DS_SELECTOR, m.ds % 2 ^ 16),
   (VmcsField.GUEST_FS_SELECTOR, m.fs % 2 ^ 16),
   (VmcsField.GUEST_GS_SELECTOR, m.gs % 2 ^ 16),
   (VmcsField.GUEST_LDTR_SELECTOR, m.ldt % 2 ^ 16),
   (VmcsField.GUEST_TR_SELECTOR, m.tr % 2 ^ 16)]

/-- The guest segment and descriptor-table limits that `vcpu_run` writes. -/
def run_guest_limit_writes (m : Machine) : List (VmcsField × Nat) :=
  [(VmcsField.GUEST_ES_LIMIT, m.segmentlimit m.es % 2 ^ 32),
   (VmcsField.GUEST_CS_LIMIT, m.segmentlimit m.cs % 2 ^ 32),
   (VmcsField.GUEST_SS_LIMIT, m.segmentlimit m.ss % 2 ^ 32),
   (VmcsField.GUEST_DS_LIMIT, m.segmentlimit m.ds % 2 ^ 32),
   (VmcsField.GUEST_FS_LIMIT, m.segmentlimit m.fs % 2 ^ 32),
   (VmcsField.GUEST_GS_LIMIT, m.segmentlimit m.gs % 2 ^ 32),
   (VmcsField.GUEST_LDTR_LIMIT, m.segmentlimit m.ldt % 2 ^ 32),
   (VmcsField.GUEST_TR_LIMIT, m.segmentlimit m.tr % 2 ^ 32),
   (VmcsField.GUEST_GDTR_LIMIT, m.gdtr_limit % 2 ^ 32),
   (VmcsField.GUEST_IDTR_LIMIT, m.idtr_limit % 2 ^ 32)]

/-- The guest access-rights words that `vcpu_run` writes. -/
def run_guest_ar_writes (m : Machine) : List (VmcsField × Nat) :=
  [(VmcsField.GUEST_ES_AR_BYTES, accessright m m.es % 2 ^ 32),
   (VmcsField.GUEST_CS_AR_BYTES, accessright m m.cs % 2 ^ 32),
   (VmcsField.GUEST_SS_AR_BYTES, accessright m m.ss % 2 ^ 32),
   (VmcsField.GUEST_DS_AR_BYTES, accessright m m.ds % 2 ^ 32),
   (VmcsField.GUEST_FS_AR_BYTES, accessright m m.fs % 2 ^ 32),
   (VmcsField.GUEST_GS_AR_BYTES, accessright m m.gs % 2 ^ 32),
   (VmcsField.GUEST_LDTR_AR_BYTES, accessright m m.ldt % 2 ^ 32),
   (VmcsField.GUEST_TR_AR_BYTES, accessright m m.tr % 2 ^ 32)]

/-- The guest activity, debug and control-register fields that `vcpu_run` writes. -/
def run_guest_register_writes (m : Machine) : List (VmcsField × Nat) :=
  [(VmcsField.GUEST_INTERRUPTIBILITY_INFO, 0),
   (VmcsField.GUEST_ACTIVITY_STATE, GUEST_ACTIVITY_ACTIVE),
   (VmcsField.GUEST_IA32_DEBUGCTL, m.msr MSR_IA32_DEBUGCTLMSR % 2 ^ 64),
   (VmcsField.GUEST_PENDING_DBG_EXCEPTIONS, 0),
   (VmcsField.GUEST_CR0, run_cr0 m),
   (VmcsField.GUEST_CR3, m.cr3 % 2 ^ 64),
   (VmcsField.GUEST_CR4, run_cr4 m)]

/-- The guest segment bases, DR7, RSP, RIP, RFLAGS and SYSENTER fields that `vcpu_run`
writes. -/
def run_guest_base_writes (m : Machine) (vcpu : Vcpu) (gsp gip : Nat) : List (VmcsField × Nat) :=
  [(VmcsField.GUEST_ES_BASE, 0),
   (VmcsField.GUEST_CS_BASE, 0),
   (VmcsField.GUEST_SS_BASE, 0),
   (VmcsField.GUEST_DS_BASE, 0),
   (VmcsField.GUEST_FS_BASE, m.msr MSR_IA32_FS_BASE % 2 ^ 64),
   (VmcsField.GUEST_GS_BASE, m.msr MSR_IA32_GS_BASE % 2 ^ 64),
   (VmcsField.GUEST_LDTR_BASE, m.segmentbase m.gdtr_base m.ldt % 2 ^ 64),
   (VmcsField.GUEST_TR_BASE, m.segmentbase m.gdtr_base m.tr % 2 ^ 64),
   (VmcsField.GUEST_GDTR_BASE, m.gdtr_base % 2 ^ 64),
   (VmcsField.GUEST_IDTR_BASE, ptr_va vcpu.idt_base % 2 ^ 64),
   (VmcsField.GUEST_DR7, m.dr7 % 2 ^ 64),
   (VmcsField.GUEST_RSP, gsp % 2 ^ 64),
   (VmcsField.GUEST_RIP, gip % 2 ^ 64),
   (VmcsField.GUEST_RFLAGS, m.eflags % 2 ^ 64),
   (VmcsField.GUEST_SYSENTER_CS, m.msr MSR_IA32_SYSENTER_CS % 2 ^ 32),
   (VmcsField.GUEST_SYSENTER_ESP, m.msr MSR_IA32_SYSENTER_ESP % 2 ^ 64),
   (VmcsField.GUEST_SYSENTER_EIP, m.msr MSR_IA32_SYSENTER_EIP % 2 ^ 64)]

/-- The host-state fields that `vcpu_run` writes. -/
def run_host_writes (m : Machine) (vcpu : Vcpu) : List (VmcsField × Nat) :=
  [(VmcsField.HOST_ES_SELECTOR, (m.es &&& 0xF8) % 2 ^ 16),
   (VmcsField.HOST_CS_SELECTOR, (m.cs &&& 0xF8) % 2 ^ 16),
   (VmcsField.HOST_SS_SELECTOR, (m.ss &&& 0xF8) % 2 ^ 16),
   (VmcsField.HOST_DS_SELECTOR, (m.ds &&& 0xF8) % 2 ^ 16),
   (VmcsField.HOST_FS_SELECTOR, (m.fs &&& 0xF8) % 2 ^ 16),
   (VmcsField.HOST_GS_SELECTOR, (m.gs &&& 0xF8) % 2 ^ 16),
   (VmcsField.HOST_TR_SELECTOR, (m.tr &&& 0xF8) % 2 ^ 16),
   (VmcsField.HOST_CR0, run_cr0 m),
   (VmcsField.HOST_CR3, m.host_pgd % 2 ^ 64),
   (VmcsField.HOST_CR4, run_cr4 m),
   (VmcsField.HOST_FS_BASE, m.msr MSR_IA32_FS_BASE % 2 ^ 64),
   (VmcsField.HOST_GS_BASE, m.msr MSR_IA32_GS_BASE % 2 ^ 64),
   (VmcsField.HOST_TR_BASE, m.segmentbase m.gdtr_base m.tr % 2 ^ 64),
   (VmcsField.HOST_GDTR_BASE, m.gdtr_base % 2 ^ 64),
   (VmcsField.HOST_IDTR_BASE, m.idtr_base % 2 ^ 64),
   (VmcsField.HOST_IA32_SYSENTER_CS, m.msr MSR_IA32_SYSENTER_CS % 2 ^ 32),
   (VmcsField.HOST_IA32_SYSENTER_ESP, m.msr MSR_IA32_SYSENTER_ESP % 2 ^ 64),
   (VmcsField.HOST_IA32_SYSENTER_EIP, m.msr MSR_IA32_SYSENTER_EIP % 2 ^ 64),
   (VmcsField.HOST_RSP, (ptr_va vcpu.stack + m.kernel_stack_size - 8) % 2 ^ 64),
   (VmcsField.HOST_RIP, m.vmx_entrypoint % 2 ^ 64)]

/-- The writes of `vcpu_run` under "Guest" and "Host", in the order of the source. -/
def run_state_writes (m : Machine) (vcpu : Vcpu) (gsp gip : Nat) : List (VmcsField × Nat) :=
  run_guest_selector_writes m ++ run_guest_limit_writes m ++ run_guest_ar_writes m ++
    run_guest_register_writes m ++ run_guest_base_writes m vcpu gsp gip ++
    run_host_writes m vcpu

/-- The block "See if we need to emulate VMFUNC via a VMCALL" of `vcpu_run`, after
`vcpu->vm_func_ctl = 0`: with VMFUNC among the adjusted secondary controls the VM-function
controls and the address of the hardware list are written, else the emulation is noted
in `vcpu->vm_func_ctl`. -/
def run_vmfunc_block (b : Build) (cfg : Config) (m : Machine) (vcpu : Vcpu)
    (s : Nat × Cpu) : Nat × Cpu :=
  let s := (s.1, { s.2 with vm_func_ctl := 0 })
  if run_2ndctl b cfg m &&& SECONDARY_EXEC_ENABLE_VMFUNC ≠ 0 then
    vmcs_writes m s [(VmcsField.VM_FUNCTION_CTRL, VM_FUNCTION_CTL_EPTP_SWITCHING),
      (VmcsField.EPTP_LIST_ADDRESS, ptr_pa vcpu.ept.ptr_list % 2 ^ 64)]
  else (s.1, { s.2 with vm_func_ctl := s.2.vm_func_ctl ||| VM_FUNCTION_CTL_EPTP_SWITCHING })

/-- The #VE block of `vcpu_run`: with hardware #VE delivery among the adjusted secondary
controls the EPTP index and the address of the info page are written and the #VE vector
is installed, else the index is mirrored into the info page ("Emulate EPTP Index"). -/
def run_ve_block (b : Build) (cfg : Config) (m : Machine) (vcpu : Vcpu)
    (s : Nat × Cpu) : Nat × Cpu :=
  if run_2ndctl b cfg m &&& SECONDARY_EXEC_ENABLE_VE ≠ 0 then
    ((vmcs_writes m s [(VmcsField.EPTP_INDEX, EPTP_DEFAULT % 2 ^ 16),
        (VmcsField.VE_INFO_ADDRESS, ptr_pa vcpu.ve % 2 ^ 64)]).1,
      (vmcs_writes m s [(VmcsField.EPTP_INDEX, EPTP_DEFAULT % 2 ^ 16),
        (VmcsField.VE_INFO_ADDRESS, ptr_pa vcpu.ve % 2 ^ 64)]).2.emit
        (Event.put_idt m.cs X86_TRAP_VE))
  else (s.1, { s.2 with ve := { s.2.ve with eptp := EPTP_DEFAULT } })

/-- The XSAVES block of `vcpu_run`. -/
def run_xsaves_block (b : Build) (cfg : Config) (m : Machine) (s : Nat × Cpu) : Nat × Cpu :=
  if run_2ndctl b cfg m &&& SECONDARY_EXEC_XSAVES ≠ 0 then
    vmcs_writes m s [(VmcsField.XSS_EXIT_BITMAP, 0)]
  else s

/-- The PML block of `vcpu_run` (`#ifdef ENABLE_PML`). -/
def run_pml_block (b : Build) (cfg : Config) (m : Machine) (vcpu : Vcpu)
    (s : Nat × Cpu) : Nat × Cpu :=
  if b.enable_pml ∧ run_2ndctl b cfg m &&& SECONDARY_EXEC_ENABLE_PML ≠ 0 then
    vmcs_writes m s [(VmcsField.PML_ADDRESS, ptr_pa vcpu.pml % 2 ^ 64),
      (VmcsField.GUEST_PML_INDEX, (PML_MAX_ENTRIES - 1) % 2 ^ 16)]
  else s

/-- The end of `vcpu_run`: when every write succeeded, the invalidations and VMLAUNCH.  A
VMLAUNCH that succeeds does not return; otherwise the IDT is restored and VMX root
operation is left. -/
def run_finish (m : Machine) (s : Nat × Cpu) : Cpu :=
  if s.1 = 0 then
    if m.vmlaunch_err % 2 ^ 8 = 0 then
      ((s.2.emit Event.invept_all).emit Event.invvpid_all).emit Event.vmx_vmlaunch
    else
      ((((s.2.emit Event.invept_all).emit Event.invvpid_all).emit Event.vmx_vmlaunch).emit
        Event.lidt).emit Event.vmx_off
  else (s.2.emit Event.lidt).emit Event.vmx_off

/-- The part of `vcpu_run` from "Processor control fields" on, entered when both checks of
the required controls have passed: the VMCS writes with the VMFUNC, #VE, XSAVES and PML
blocks between them, then the end. -/
def vcpu_run_launch (b : Build) (cfg : Config) (m : Machine) (vcpu : Vcpu) (st : Mm)
    (cpu : Cpu) (gsp gip : Nat) : Cpu :=
  run_finish m
    (vmcs_writes m
      (run_pml_block b cfg m vcpu
        (run_xsaves_block b cfg m
          (run_ve_block b cfg m vcpu
            (run_vmfunc_block b cfg m vcpu
              (vmcs_writes m (0, cpu) (run_control_writes b cfg m vcpu.ept st cpu))))))
      (run_state_writes m vcpu gsp gip))

/-- The function `vcpu_run`: the CPU afterwards, with the effects in order. -/
def vcpu_run (b : Build) (cfg : Config) (m : Machine) (vcpu : Vcpu) (st : Mm) (cpu : Cpu)
    (gsp gip : Nat) : Cpu :=
  let vmx := m.msr MSR_IA32_VMX_BASIC % 2 ^ 64
  let cpu := cpu.emit Event.copy_idt
  let cpu := cpu.emit (Event.store_revision_id (ptr_pa vcpu.vmxon) (vmx % 2 ^ 32))
  let cpu := cpu.emit (Event.writecr0 (run_cr0 m))
  let cpu := cpu.emit (Event.writecr4 (run_cr4 m))
  let cpu := cpu.emit (Event.vmx_on (ptr_pa vcpu.vmxon))
  if m.vmx_on_err % 2 ^ 8 ≠ 0 then cpu
  else
    let cpu := cpu.emit (Event.store_revision_id (ptr_pa vcpu.vmcs) (vmx % 2 ^ 32))
    let cpu := cpu.emit (Event.vmx_vmclear (ptr_pa vcpu.vmcs))
    if m.vmclear_err % 2 ^ 8 ≠ 0 then cpu.emit Event.vmx_off
    else
      let cpu := cpu.emit (Event.vmx_vmptrld (ptr_pa vcpu.vmcs))
      if m.vmptrld_err % 2 ^ 8 ≠ 0 then cpu.emit Event.vmx_off
      else
        let cpu := { cpu with entry_ctl := run_entry cfg m, exit_ctl := run_exit cfg m,
                              pin_ctl := run_pinctl m, cpu_ctl := run_cpuctl cfg m }
        if run_cpuctl cfg m &&& req_cpuctl cfg ≠ req_cpuctl cfg then cpu
        else
          let cpu := { cpu with secondary_ctl := run_2ndctl b cfg m }
          if run_2ndctl b cfg m &&& req_2ndctl ≠ req_2ndctl then cpu
          else vcpu_run_launch b cfg m vcpu st cpu gsp gip

/-- The event is a VMCS write or a VMLAUNCH. -/
def Event.is_launch_step : Event → Bool
  | .vmwrite _ _ => true
  | .vmx_vmlaunch => true
  | _ => false

/-- A machine whose capability MSRs allow every control except hardware #VE delivery and
XSAVES in the secondary controls, force none, and whose VMX instructions all succeed. -/
def no_ve_machine : Machine :=
  { msr := fun i =>
      if i = MSR_IA32_VMX_PROCBASED_CTLS2 then 0xFFEBFFFF <<< 32
      else if i = MSR_IA32_VMX_BASIC then 1
      else 0xFFFFFFFF <<< 32,
    es := 0x28, cs := 0x10, ss := 0x18, ds := 0x28, fs := 0x50, gs := 0x28, ldt := 0,
    tr := 0x40, cr0 := 0x80050033, cr3 := 0x1AA000, cr4 := 0x3506F8,
    gdtr_base := 0x5000, gdtr_limit := 0x7F, idtr_base := 0x6000, idtr_limit := 0xFFF,
    dr7 := 0x400, eflags := 0x2, segmentlimit := fun _ => 0xFFFFFFFF,
    lar := fun _ => 0x9300, segmentbase := fun _ _ => 0,
    vmx_on_err := 0, vmclear_err := 0, vmptrld_err := 0, vmwrite_err := fun _ => 0,
    vmlaunch_err := 0, kd_debugger_enabled := false, kd_debugger_not_present := true,
    vpid_nr := 1, exception_bitmap := 0, io_bitmap_a := 0x30000, io_bitmap_b := 0x31000,
    msr_bitmap := 0x32000, host_pgd := 0x1AA000, vmx_entrypoint := 0x140001000,
    kernel_stack_size := 0x6000 }

/-- A machine whose capability MSR of the primary controls does not allow the MSR
bitmaps. -/
def no_msr_bitmap_machine : Machine :=
  { no_ve_machine with msr := fun i =>
      if i = MSR_IA32_VMX_PROCBASED_CTLS then 0xEFFFFFFF <<< 32
      else if i = MSR_IA32_VMX_BASIC then 1
      else 0xFFFFFFFF <<< 32 }

/-- A vCPU as `vcpu_init` leaves it on the pool of `init_ept`, with its scratch pages. -/
def launch_vcpu : Vcpu :=
  { ept := init_pool, idt_base := some 20, vmxon := some 21, vmcs := some 22,
    ve := some 23, pml := none, vapic_page := some 24, stack := some 25 }

/-- From `cpu` to `cpu1` no VMCS field was written and no VMLAUNCH executed: the VMCS is
the same and the effects added are neither. -/
def Quiet (cpu cpu1 : Cpu) : Prop :=
  cpu1.vmcs = cpu.vmcs ∧
    ∃ tail, cpu1.log = cpu.log ++ tail ∧ ∀ e, e ∈ tail → e.is_launch_step = false

/-! ## The panics of a log -/

/-- The panics recorded in an event log, in order: the four arguments of each
`KSM_PANIC`. -/
def panics : List Event → List (Nat × Nat × Nat × Nat)
  | [] => []
  | Event.ksm_panic code sub p1 p2 :: l => (code, sub, p1, p2) :: panics l
  | _ :: l => panics l

/-! ## Tables, slots and the record of the maps -/

/-- The memory of `grown_root_mm` after gpa 0x1000 is mapped to hpa 0x5000 with full
access: root 1, PDPT 2, PD 3, PT 4. -/
def mapped_once_mm : Mm := (ept_alloc_page msvc_build grown_root_mm 1 7 0x1000 0x5000).2

/-- The table page reached from the root of a hierarchy by following the entries at the
indices `π` (innermost index first), each decoded as `ept_page_addr` does. -/
def table_at (st : Mm) (root : Nat) : List Nat → Option Nat
  | [] => some root
  | i :: π =>
    match table_at st root π with
    | none => none
    | some p => ept_page_addr (st.mem p i)

/-- The slot of a guest-physical address: the page number the four 9-bit indices of the
walk are cut from (bits 12..47). -/
def gpa_slot (gpa : Nat) : Nat := gpa / 4096 % 2 ^ 36

/-- The hierarchies grown from a freshly allocated root by `ept_alloc_page` calls,
together with the record of the last successful call for each slot: its `access` and
`hpa`. -/
inductive Built (b : Build) (st0 : Mm) (root : Nat) : (Nat → Option (Nat × Nat)) → Mm → Prop
  | fresh (st1 : Mm) : mm_alloc_page st0 = (some root, st1) →
      Built b st0 root (fun _ => none) st1
  | map (m : Nat → Option (Nat × Nat)) (st : Mm) (access gpa hpa : Nat) :
      Built b st0 root m st →
      Built b st0 root
        (if (ept_alloc_page b st root access gpa hpa).1 = none then m
          else fun s => if s = gpa_slot gpa then some (access, hpa) else m s)
        (ept_alloc_page b st root access gpa hpa).2

/-- The memory of `grown_root_mm` after gpa 0x1000 is mapped to hpa 2^48 + 0x5000 with
access none. -/
def high_frame_mm : Mm :=
  (ept_alloc_page msvc_build grown_root_mm 1 0 0x1000 (2 ^ 48 + 0x5000)).2

/-- The memory of `grown_root_mm` after gpa 0x4000 is mapped to hpa 0x4000, the physical
address of the PT page (page 4) allocated by that call. -/
def self_mapped_mm : Mm := (ept_alloc_page msvc_build grown_root_mm 1 7 0x4000 0x4000).2

/-! ## The accesses of the teardown -/

/-- An access of the teardown to a page: the read of one of its entries (`table[i]`), or
its release (`mm_free_page`). -/
inductive Access
  | read (page : Nat)
  | release (page : Nat)
  deriving DecidableEq

/-- The accesses made by the loop of `free_entries` over the first `n` entries of
`table`, in order: every iteration reads `table[i]` and, when the entry is non-zero,
does to the page it refers to what `sub` lists. -/
def free_loop_accesses (sub : Nat → List Access) (mem : Nat → Nat → Nat) (table : Nat) :
    Nat → List Access
  | 0 => []
  | n + 1 =>
    free_loop_accesses sub mem table n ++ Access.read table ::
      (if mem table n ≠ 0 then sub (frame_of (PAGE_PA (mem table n))) else [])

/-- The accesses made by `free_entries` (arguments: memory contents, `lvl`, `table`), in
order. -/
def free_entries_accesses (mem : Nat → Nat → Nat) : Nat → Nat → List Access
  | 0, table =>
    free_loop_accesses (fun sub => [Access.release sub]) mem table 512 ++
      [Access.release table]
  | lvl + 1, table =>
    free_loop_accesses
      (fun sub => if lvl + 1 > 2 then free_entries_accesses mem lvl sub
        else [Access.release sub]) mem table 512 ++ [Access.release table]

/-- The memory after a list of accesses. -/
def replay : Mm → List Access → Mm
  | st, [] => st
  | st, Access.read p :: l => replay (st.touch p) l
  | st, Access.release p :: l => replay (mm_free_page st p) l

/-- The accesses of a list are in order on the set `live` of outstanding pages: each
page read or released is outstanding at that moment. -/
inductive InOrder : Finset Nat → List Access → Prop
  | nil (live : Finset Nat) : InOrder live []
  | read (live : Finset Nat) (p : Nat) (l : List Access) :
      p ∈ live → InOrder live l → InOrder live (Access.read p :: l)
  | release (live : Finset Nat) (p : Nat) (l : List Access) :
      p ∈ live → InOrder (live.erase p) l → InOrder live (Access.release p :: l)

/-- An access falls on the part of a hierarchy of shape `sh` below the table at `π`:
the page read is a PML4, PDPT or PD table there, the page released a table there. -/
def AccessBelow (sh : Shape) (π : List Nat) : Access → Prop
  | Access.read x => ∃ ρ, sh (ρ ++ π) = some x ∧ (ρ ++ π).length ≤ 2
  | Access.release x => ∃ ρ, sh (ρ ++ π) = some x

/-! ## vcpu.c: vCPU teardown -/

/-- The function `vcpu_free`.  The stack is returned to the allocator like a page
(`mm_free_pool`). -/
def vcpu_free (b : Build) (st : Mm) (vcpu : Vcpu) : Vcpu × Mm :=
  let st := mm_free_ptr st vcpu.idt_base
  let st := mm_free_ptr st vcpu.vmxon
  let st := mm_free_ptr st vcpu.vmcs
  let st := mm_free_ptr st vcpu.ve
  let st := if b.enable_pml then mm_free_ptr st vcpu.pml else st
  let st := mm_free_ptr st vcpu.vapic_page
  let st := mm_free_ptr st vcpu.stack
  let s := free_ept b st vcpu.ept
  ({ vcpu with ept := s.1 }, s.2)

/-- The allocator serves every request of `vcpu_init` on `small_host`: the pages 1 to
25. -/
def vcpu_script : List (Option Nat) :=
  init_script ++ [some 20, some 21, some 22, some 23, some 24, some 25]

/-- The memory when `init_ept` in the GCC build on `vcpu_script` has allocated the
hardware list (page 1). -/
def gcc_list_mm : Mm := (mm_alloc_page (mm_with vcpu_script)).2

/-- The pool when `init_ept` on `vcpu_script` has allocated the hardware list and
cleared the bit-set. -/
def gcc_list_pool : Ept :=
  { blank_vcpu.ept with ptr_list := some 1, ptr_bitmap := fun _ => 0 }

/-- The pool after the first `ept_create_ptr` of `init_ept` in the GCC build. -/
def gcc_one_pool : Ept :=
  match ept_create_ptr gcc_build small_host gcc_list_mm gcc_list_pool EPT_ACCESS_ALL with
  | some (_, e, _) => e
  | none => gcc_list_pool

/-- The memory after the first `ept_create_ptr` of `init_ept` in the GCC build: the
pages 1 to 7 are outstanding. -/
def gcc_one_mm : Mm :=
  match ept_create_ptr gcc_build small_host gcc_list_mm gcc_list_pool EPT_ACCESS_ALL with
  | some (_, _, s) => s
  | none => gcc_list_mm

/-- The pool after the second `ept_create_ptr` of `init_ept` in the GCC build. -/
def gcc_two_pool : Ept :=
  match ept_create_ptr gcc_build small_host gcc_one_mm gcc_one_pool EPT_ACCESS_ALL with
  | some (_, e, _) => e
  | none => gcc_one_pool

/-- The memory after the second `ept_create_ptr` of `init_ept` in the GCC build: the
pages 1 to 13 are outstanding. -/
def gcc_two_mm : Mm :=
  match ept_create_ptr gcc_build small_host gcc_one_mm gcc_one_pool EPT_ACCESS_ALL with
  | some (_, _, s) => s
  | none => gcc_one_mm

/-- The pool after the third `ept_create_ptr`, that is after `init_ept`, in the GCC
build. -/
def gcc_init_pool : Ept :=
  match ept_create_ptr gcc_build small_host gcc_two_mm gcc_two_pool EPT_ACCESS_ALL with
  | some (_, e, _) => e
  | none => gcc_two_pool

/-- The memory after the third `ept_create_ptr`, that is after `init_ept`, in the GCC
build: the pages 1 to 19 are outstanding. -/
def gcc_init_mm : Mm :=
  match ept_create_ptr gcc_build small_host gcc_two_mm gcc_two_pool EPT_ACCESS_ALL with
  | some (_, _, s) => s
  | none => gcc_two_mm

/-- The vCPU after `vcpu_init` in the GCC build on `vcpu_script`. -/
def gcc_vcpu : Vcpu :=
  { blank_vcpu with ept := gcc_init_pool, idt_base := some 20, vmxon := some 21,
                    vmcs := some 22, ve := some 23, vapic_page := some 24,
                    stack := some 25 }

/-- The memory after `vcpu_init` in the GCC build on `vcpu_script`. -/
def gcc_vcpu_mm : Mm :=
  (mm_alloc_page (mm_alloc_page (mm_alloc_page (mm_alloc_page (mm_alloc_page
    (mm_alloc_page gcc_init_mm).2).2).2).2).2).2

/-- The memory when `vcpu_free` on `gcc_vcpu` reaches `free_ept`: the pages 20 to 25 are
released. -/
def gcc_unwind_mm : Mm :=
  mm_free_page (mm_free_page (mm_free_page (mm_free_page (mm_free_page
    (mm_free_page gcc_vcpu_mm 20) 21) 22) 23) 24) 25

/-! ## Ownership in the pool -/

/-- Ownership in a well-formed pool: the pages outstanding are the pages `base` that
were outstanding before the pool was set up, the hardware list page `L`, and the table
pages of the hierarchies of the occupied slots; every occupied slot lies below the
capacity. -/
structure PoolOwn (b : Build) (st : Mm) (ept : Ept) (L : Nat) (shapes : Nat → Shape)
    (base : Finset Nat) : Prop where
  inv : PoolInv b st ept L shapes
  cap : ∀ i, test_bit b i ept.ptr_bitmap = true → i < b.ptr_bitmap_size
  live : ∀ x, x ∈ st.live ↔ x ∈ base ∨ x = L ∨
    ∃ i, test_bit b i ept.ptr_bitmap = true ∧ ∃ π, shapes i π = some x
  list_new : L ∉ base
  shape_new : ∀ i, test_bit b i ept.ptr_bitmap = true → ∀ π x, shapes i π = some x → x ∉ base

/-- The memory `st1` is reached from `st0` by successful allocations of the pages `l`,
in order. -/
inductive Allocs : Mm → List Nat → Mm → Prop
  | nil (st : Mm) : Allocs st [] st
  | cons (st st1 st2 : Mm) (p : Nat) (l : List Nat) :
      mm_alloc_page st = (some p, st1) → Allocs st1 l st2 → Allocs st (p :: l) st2

/-- The vCPU after `vcpu_init` in the `_MSC_VER` build on `vcpu_script`. -/
def msvc_vcpu : Vcpu :=
  match vcpu_init msvc_build small_host (mm_with vcpu_script) blank_vcpu with
  | some (_, v, _) => v
  | none => blank_vcpu

/-- The memory after `vcpu_init` in the `_MSC_VER` build on `vcpu_script`. -/
def msvc_vcpu_mm : Mm :=
  match vcpu_init msvc_build small_host (mm_with vcpu_script) blank_vcpu with
  | some (_, _, s) => s
  | none => mm_with vcpu_script

/-! # Theorems -/

theorem land_seven (x : Nat) : x &&& 7 = x % 8 := by
  have h : (7 : Nat) = 2 ^ 3 - 1 := by norm_num
  rw [h, Nat.and_pow_two_sub_one_eq_mod]

theorem land_shl_shr (x m k : Nat) : (x &&& (m <<< k)) >>> k = (x >>> k) &&& m := by
  apply Nat.eq_of_testBit_eq
  intro i
  simp [Nat.testBit_shiftRight, Nat.testBit_shiftLeft, Nat.testBit_and]

theorem epte_frame_eq (x : Nat) : epte_frame x = (x / 4096) % 2 ^ 36 := by
  unfold epte_frame frame_of PAGE_PA PAGE_PA_MASK PAGE_SHIFT
  rw [land_shl_shr, Nat.shiftRight_eq_div_pow]
  have h : (0xFFFFFFFFF : Nat) = 2 ^ 36 - 1 := by norm_num
  rw [h, Nat.and_pow_two_sub_one_eq_mod]

theorem land_two_pow (x k : Nat) : x &&& 2 ^ k = (x / 2 ^ k % 2) * 2 ^ k := by
  apply Nat.eq_of_testBit_eq
  intro i
  rw [Nat.testBit_and, Nat.testBit_two_pow]
  have h2 : x / 2 ^ k % 2 = 0 ∨ x / 2 ^ k % 2 = 1 := by omega
  by_cases hi : k = i
  · subst hi
    rcases h2 with h2 | h2
    · rw [h2]; simp [Nat.testBit_to_div_mod, h2]
    · rw [h2]; simp [Nat.testBit_to_div_mod, h2]
  · rcases h2 with h2 | h2
    · rw [h2]; simp [hi]
    · rw [h2]; simp [hi, Nat.testBit_two_pow]

theorem land_large (x : Nat) : x &&& 0x80 = (x / 128 % 2) * 128 := by
  have h := land_two_pow x 7
  simpa using h

theorem init_epte_old (b : Build) (e a h : Nat) : init_epte b e a h = init_epte b 0 a h := by
  simp [init_epte]

theorem shr_shl_page (h : Nat) : (h >>> 12) <<< 12 = h / 4096 * 4096 := by
  rw [Nat.shiftRight_eq_div_pow, Nat.shiftLeft_eq]

theorem lor_low (a k : Nat) (h : a < 4096) : a ||| (k * 4096) = k * 4096 + a := by
  have h2 : a < 2 ^ 12 := by simpa using h
  have := Nat.mul_add_lt_is_or h2 k
  rw [Nat.or_comm, Nat.mul_comm k 4096]
  simpa using this.symm

theorem lor_high (x : Nat) (h : x < 2 ^ 63) : x ||| 2 ^ 63 = 2 ^ 63 + x := by
  have := Nat.mul_add_lt_is_or h 1
  rw [Nat.or_comm]
  simpa using this.symm

/-- The value of `init_epte` when the address fits below bit 63. -/
theorem init_epte_val (b : Build) (e a h : Nat) (hh : h < 2 ^ 63) :
    init_epte b e a h = h / 4096 * 4096 + a % 8 + (if b.suppress_ve then 2 ^ 63 else 0) := by
  unfold init_epte EPT_AR_MASK PAGE_SHIFT EPT_SUPPRESS_VE_BIT
  simp only [Nat.xor_self, Nat.zero_or]
  rw [land_seven, shr_shl_page, lor_low _ _ (by omega)]
  split
  · rw [lor_high _ (by omega)]; omega
  · omega

theorem pde_word_val (b : Build) (q : Nat) (hq : q < 2 ^ 36) :
    pde_word b q = q * 4096 + 7 + (if b.suppress_ve then 2 ^ 63 else 0) := by
  unfold pde_word pa_of PAGE_SHIFT EPT_ACCESS_ALL
  rw [Nat.shiftLeft_eq, init_epte_val _ _ _ _ (by omega)]
  omega

theorem pde_word_ne_zero (b : Build) (q : Nat) (hq : q < 2 ^ 36) : pde_word b q ≠ 0 := by
  rw [pde_word_val b q hq]; omega

theorem pde_word_frame (b : Build) (q : Nat) (hq : q < 2 ^ 36) :
    frame_of (PAGE_PA (pde_word b q)) = q := by
  have h := epte_frame_eq (pde_word b q)
  unfold epte_frame at h
  rw [h, pde_word_val b q hq]
  split <;> omega

theorem pde_word_page_addr (b : Build) (q : Nat) (hq : q < 2 ^ 36) :
    ept_page_addr (pde_word b q) = some q := by
  unfold ept_page_addr
  have h7 : pde_word b q &&& EPT_ACCESS_RWX ≠ 0 := by
    unfold EPT_ACCESS_RWX
    rw [land_seven, pde_word_val b q hq]
    split <;> omega
  rw [if_neg h7, pde_word_frame b q hq]

theorem pde_word_large (b : Build) (q : Nat) (hq : q < 2 ^ 36) :
    pde_word b q &&& PAGE_LARGE = 0 := by
  unfold PAGE_LARGE
  rw [land_large, pde_word_val b q hq]
  split <;> omega

theorem ept_page_addr_zero : ept_page_addr 0 = none := by
  simp [ept_page_addr]

/-! ## Allocator facts -/

theorem mm_alloc_page_spec (st : Mm) :
    ((mm_alloc_page st).1 = none ∧ (mm_alloc_page st).2.mem = st.mem ∧
      (mm_alloc_page st).2.live = st.live ∧ (mm_alloc_page st).2.fault = st.fault ∧
      (mm_alloc_page st).2.script = st.script.tail) ∨
    (∃ q, (mm_alloc_page st).1 = some q ∧ q < 2 ^ 36 ∧ q ∉ st.live ∧
      (mm_alloc_page st).2.mem = (fun x i => if x = q then 0 else st.mem x i) ∧
      (mm_alloc_page st).2.live = insert q st.live ∧
      (mm_alloc_page st).2.fault = st.fault ∧
      (mm_alloc_page st).2.script = st.script.tail) := by
  unfold mm_alloc_page
  rcases hs : st.script with _ | ⟨o, rest⟩
  · left; simp [hs]
  · cases o with
    | none => left; simp
    | some p =>
      by_cases h : p < 2 ^ 36 ∧ p ∉ st.live
      · right
        refine ⟨p, ?_⟩
        simp only [if_pos h, List.tail_cons, and_self, true_and, and_true]
        exact ⟨h.1, h.2⟩
      · left
        simp only [if_neg h, List.tail_cons, and_self]

theorem touch_live {st : Mm} {p : Nat} (h : p ∈ st.live) : st.touch p = st := by
  simp [Mm.touch, h]

theorem Inv.entry_some {b : Build} {st : Mm} {root : Nat} {sh : Shape} (h : Inv b st root sh)
    {π : List Nat} {p i q : Nat} (hp : sh π = some p) (hl : π.length < 3) (hi : i < 512)
    (hq : sh (i :: π) = some q) : st.mem p i = pde_word b q := by
  rw [h.entries π p hp hl i hi, hq]

theorem Inv.entry_none {b : Build} {st : Mm} {root : Nat} {sh : Shape} (h : Inv b st root sh)
    {π : List Nat} {p i : Nat} (hp : sh π = some p) (hl : π.length < 3) (hi : i < 512)
    (hq : sh (i :: π) = none) : st.mem p i = 0 := by
  rw [h.entries π p hp hl i hi, hq]

/-- The invariant only reads the table pages of the shape. -/
theorem Inv.frame {b : Build} {st st1 : Mm} {root : Nat} {sh : Shape} (h : Inv b st root sh)
    (hlive : ∀ π q, sh π = some q → q ∈ st1.live)
    (hmem : ∀ π q, sh π = some q → π.length < 3 → ∀ i, i < 512 → st1.mem q i = st.mem q i) :
    Inv b st1 root sh where
  root_eq := h.root_eq
  len := h.len
  parent := h.parent
  idx := h.idx
  inj := h.inj
  live := hlive
  bound := h.bound
  entries := by
    intro π p hp hl i hi
    rw [hmem π p hp hl i hi]
    exact h.entries π p hp hl i hi

/-- Linking a fresh zeroed page below an empty entry keeps the hierarchy well-formed. -/
theorem Inv.extend {b : Build} {st st1 : Mm} {root : Nat} {sh : Shape} (h : Inv b st root sh)
    {π : List Nat} {p i q : Nat} (hp : sh π = some p) (hl : π.length < 3) (hi : i < 512)
    (hnone : sh (i :: π) = none) (hq : q ∉ st.live) (hqb : q < 2 ^ 36)
    (hlive : st1.live = insert q st.live)
    (hmem : st1.mem = fun x j =>
      if x = p ∧ j = i then pde_word b q else if x = q then 0 else st.mem x j) :
    Inv b st1 root (sh.extend (i :: π) q) := by
  have hfresh : ∀ ρ x, sh ρ = some x → x ≠ q := by
    intro ρ x hx hxq
    exact hq (hxq ▸ h.live ρ x hx)
  have hpq : p ≠ q := hfresh π p hp
  refine ⟨?_, ?_, ?_, ?_, ?_, ?_, ?_, ?_⟩
  · simp [Shape.extend, h.root_eq]
  · intro ρ x hx
    unfold Shape.extend at hx
    split at hx
    · subst ρ; simp; omega
    · exact h.len ρ x hx
  · intro j ρ x hx
    unfold Shape.extend at hx ⊢
    split at hx
    · rename_i heq
      injection heq with h1 h2
      subst h2
      refine ⟨p, ?_⟩
      rw [if_neg, hp]
      intro hc
      have := congrArg List.length hc
      simp at this
    · obtain ⟨p0, hp0⟩ := h.parent j ρ x hx
      by_cases hc : ρ = i :: π
      · exact ⟨q, by rw [if_pos hc]⟩
      · exact ⟨p0, by rw [if_neg hc, hp0]⟩
  · intro j ρ x hx
    unfold Shape.extend at hx
    split at hx
    · rename_i heq
      injection heq with h1 h2
      subst h1; exact hi
    · exact h.idx j ρ x hx
  · intro ρ1 ρ2 x h1 h2
    unfold Shape.extend at h1 h2
    split at h1 <;> split at h2
    · subst ρ1; subst ρ2; rfl
    · injection h1 with h1; subst h1
      exact absurd rfl (hfresh ρ2 _ h2)
    · injection h2 with h2; subst h2
      exact absurd rfl (hfresh ρ1 _ h1)
    · exact h.inj ρ1 ρ2 x h1 h2
  · intro ρ x hx
    unfold Shape.extend at hx
    rw [hlive]
    split at hx
    · injection hx with hx; subst hx; exact Finset.mem_insert_self _ _
    · exact Finset.mem_insert_of_mem (h.live ρ x hx)
  · intro ρ x hx
    unfold Shape.extend at hx
    split at hx
    · injection hx with hx; subst hx; exact hqb
    · exact h.bound ρ x hx
  · intro ρ x hx hlen j hj
    unfold Shape.extend at hx
    rw [hmem]
    split at hx
    · rename_i heq
      injection hx with hx
      subst hx; subst heq
      have hne : ¬ (q = p ∧ j = i) := fun hc => hpq hc.1.symm
      simp only [if_neg hne, if_true]
      have hne2 : (j :: i :: π) ≠ (i :: π) := by
        intro hc
        have := congrArg List.length hc
        simp at this
      have hn : sh (j :: i :: π) = none := by
        cases hs : sh (j :: i :: π) with
        | none => rfl
        | some y =>
          obtain ⟨z, hz⟩ := h.parent j (i :: π) y hs
          rw [hnone] at hz; cases hz
      simp [Shape.extend, hne2, hn]
    · rename_i hρ
      have hxq : x ≠ q := hfresh ρ x hx
      by_cases hxp : x = p
      · subst hxp
        have hρπ : ρ = π := h.inj ρ π x hx hp
        subst hρπ
        by_cases hji : j = i
        · subst hji
          simp [Shape.extend]
        · have hne2 : (j :: ρ) ≠ (i :: ρ) := by
            intro hc; injection hc with hc1 _; exact hji hc1
          simp only [hji, and_false, if_false, if_neg hxq, Shape.extend, if_neg hne2]
          exact h.entries ρ x hx hlen j hj
      · have hne : ¬ (x = p ∧ j = i) := fun hc => hxp hc.1
        have hne2 : (j :: ρ) ≠ (i :: π) := by
          intro hc; injection hc with _ hc2
          subst hc2
          rw [hp] at hx; injection hx with hx; exact hxp hx.symm
        simp only [if_neg hne, if_neg hxq, Shape.extend, if_neg hne2]
        exact h.entries ρ x hx hlen j hj

theorem Grow.refl {b : Build} {root : Nat} {st : Mm} {sh : Shape} (h : Inv b st root sh) :
    Grow b root st sh st sh where
  inv := h
  ext := fun _ _ hx => hx
  fault := rfl
  live := by
    intro x
    constructor
    · intro hx; exact Or.inl hx
    · rintro (hx | ⟨π, hx⟩)
      · exact hx
      · exact h.live π x hx
  fresh := fun _ _ hx => Or.inl hx
  outside := fun _ _ => rfl
  leaves := by
    intro π q hq _ j
    rw [if_pos hq]

theorem Grow.trans {b : Build} {root : Nat} {st st1 st2 : Mm} {sh sh1 sh2 : Shape}
    (h1 : Grow b root st sh st1 sh1) (h2 : Grow b root st1 sh1 st2 sh2) :
    Grow b root st sh st2 sh2 where
  inv := h2.inv
  ext := fun π q hx => h2.ext π q (h1.ext π q hx)
  fault := h2.fault.trans h1.fault
  live := by
    intro x
    rw [h2.live x, h1.live x]
    constructor
    · rintro ((hx | ⟨π, hx⟩) | hx)
      · exact Or.inl hx
      · exact Or.inr ⟨π, h2.ext π x hx⟩
      · exact Or.inr hx
    · rintro (hx | hx)
      · exact Or.inl (Or.inl hx)
      · exact Or.inr hx
  fresh := by
    intro π q hx
    rcases h2.fresh π q hx with h | h
    · exact h1.fresh π q h
    · right
      intro hc
      exact h ((h1.live q).2 (Or.inl hc))
  outside := by
    intro x hx
    rw [h2.outside x hx, h1.outside x]
    intro π hc
    exact hx π (h2.ext π x hc)
  leaves := by
    intro π q hq hl j
    rw [h2.leaves π q hq hl j]
    by_cases h : sh1 π = some q
    · rw [if_pos h, h1.leaves π q h hl j]
    · rw [if_neg h, if_neg]
      intro hc
      exact h (h1.ext π q hc)

theorem store_live (st : Mm) (p i v : Nat) : (st.store p i v).live = st.live := by
  unfold Mm.store; split <;> rfl

theorem store_script (st : Mm) (p i v : Nat) : (st.store p i v).script = st.script := by
  unfold Mm.store; split <;> rfl

theorem store_fault {st : Mm} {p : Nat} (h : p ∈ st.live) (i v : Nat) :
    (st.store p i v).fault = st.fault := by
  unfold Mm.store; rw [if_pos h]

theorem store_mem {st : Mm} {p : Nat} (h : p ∈ st.live) (i v : Nat) :
    (st.store p i v).mem = fun x j => if x = p ∧ j = i then v else st.mem x j := by
  unfold Mm.store; rw [if_pos h]

theorem ept_next_table_present {b : Build} {st : Mm} {p i q : Nat} (hp : p ∈ st.live)
    (he : ept_page_addr (st.mem p i) = some q) : ept_next_table b st p i = (some q, st) := by
  unfold ept_next_table
  simp only [touch_live hp, he]

theorem ept_next_table_fail {b : Build} {st : Mm} {p i : Nat} (hp : p ∈ st.live)
    (he : ept_page_addr (st.mem p i) = none) (ha : (mm_alloc_page st).1 = none) :
    ept_next_table b st p i = (none, (mm_alloc_page st).2) := by
  unfold ept_next_table
  simp only [touch_live hp, he]
  have hpair : mm_alloc_page st = (none, (mm_alloc_page st).2) := by rw [← ha]
  rw [hpair]

theorem ept_next_table_alloc {b : Build} {st : Mm} {p i q : Nat} (hp : p ∈ st.live)
    (he : ept_page_addr (st.mem p i) = none) (ha : (mm_alloc_page st).1 = some q) :
    ept_next_table b st p i =
      (some q, (mm_alloc_page st).2.store p i
        (init_epte b ((mm_alloc_page st).2.mem p i) EPT_ACCESS_ALL (pa_of q))) := by
  unfold ept_next_table
  simp only [touch_live hp, he]
  have hpair : mm_alloc_page st = (some q, (mm_alloc_page st).2) := by rw [← ha]
  rw [hpair]

/-- One interior level of `ept_alloc_page` on a well-formed hierarchy. -/
theorem ept_next_table_spec {b : Build} {st : Mm} {root : Nat} {sh : Shape}
    (h : Inv b st root sh) {π : List Nat} {p i : Nat} (hp : sh π = some p)
    (hl : π.length < 3) (hi : i < 512) :
    ∃ sh1, Grow b root st sh (ept_next_table b st p i).2 sh1 ∧
      ((ept_next_table b st p i).1 = none ∨
        ∃ q, (ept_next_table b st p i).1 = some q ∧ sh1 (i :: π) = some q) ∧
      (∀ q, sh (i :: π) = some q → ept_next_table b st p i = (some q, st)) := by
  have hplive : p ∈ st.live := h.live π p hp
  cases hs : sh (i :: π) with
  | some q =>
    have he : st.mem p i = pde_word b q := h.entry_some hp hl hi hs
    have hqb := h.bound _ _ hs
    have heq : ept_next_table b st p i = (some q, st) :=
      ept_next_table_present hplive (by rw [he, pde_word_page_addr b q hqb])
    rw [heq]
    refine ⟨sh, Grow.refl h, Or.inr ⟨q, rfl, hs⟩, ?_⟩
    intro q1 hq1
    injection hq1 with hq1
    subst hq1; rfl
  | none =>
    have he : st.mem p i = 0 := h.entry_none hp hl hi hs
    have hnone : ept_page_addr (st.mem p i) = none := by rw [he, ept_page_addr_zero]
    rcases mm_alloc_page_spec st with ⟨h1, hm, hlv, hf, _⟩ | ⟨q, h1, hqb, hq, hm, hlv, hf, _⟩
    · rw [ept_next_table_fail hplive hnone h1]
      refine ⟨sh, ?_, Or.inl rfl, ?_⟩
      · have hinv : Inv b (mm_alloc_page st).2 root sh := by
          apply h.frame
          · intro ρ x hx; rw [hlv]; exact h.live ρ x hx
          · intro ρ x _ _ j _; rw [hm]
        refine ⟨hinv, fun _ _ hx => hx, hf, ?_, fun _ _ hx => Or.inl hx, ?_, ?_⟩
        · intro x
          show x ∈ (mm_alloc_page st).2.live ↔ _
          rw [hlv]
          constructor
          · intro hx; exact Or.inl hx
          · rintro (hx | ⟨ρ, hx⟩)
            · exact hx
            · exact h.live ρ x hx
        · intro x _
          show (mm_alloc_page st).2.mem x = _
          rw [hm]
        · intro ρ x hx _ j
          show (mm_alloc_page st).2.mem x j = _
          rw [if_pos hx, hm]
      · intro q1 hq1; cases hq1
    · rw [ept_next_table_alloc hplive hnone h1]
      have hplive1 : p ∈ (mm_alloc_page st).2.live := by
        rw [hlv]; exact Finset.mem_insert_of_mem hplive
      have hpq : p ≠ q := fun hc => hq (hc ▸ hplive)
      have hstore : ∀ v, ((mm_alloc_page st).2.store p i v).mem =
          fun x j => if x = p ∧ j = i then v else if x = q then 0 else st.mem x j := by
        intro v
        rw [store_mem hplive1, hm]
      have hstlive : ∀ v, ((mm_alloc_page st).2.store p i v).live = insert q st.live := by
        intro v
        rw [store_live, hlv]
      have hstfault : ∀ v, ((mm_alloc_page st).2.store p i v).fault = st.fault := by
        intro v
        rw [store_fault hplive1, hf]
      have hw : init_epte b ((mm_alloc_page st).2.mem p i) EPT_ACCESS_ALL (pa_of q) =
          pde_word b q := init_epte_old _ _ _ _
      rw [hw]
      have hinv := h.extend hp hl hi hs hq hqb (hstlive (pde_word b q)) (hstore (pde_word b q))
      have hπne : π ≠ i :: π := by
        intro hc
        have := congrArg List.length hc
        simp at this
      refine ⟨sh.extend (i :: π) q, ?_, Or.inr ⟨q, rfl, by simp [Shape.extend]⟩, ?_⟩
      · refine ⟨hinv, ?_, hstfault _, ?_, ?_, ?_, ?_⟩
        · intro ρ x hx
          unfold Shape.extend
          rw [if_neg, hx]
          intro hc; subst hc; rw [hs] at hx; cases hx
        · intro x
          show x ∈ ((mm_alloc_page st).2.store p i (pde_word b q)).live ↔ _
          rw [hstlive]
          constructor
          · intro hx
            rcases Finset.mem_insert.1 hx with hx | hx
            · right; exact ⟨i :: π, by simp [Shape.extend, hx]⟩
            · exact Or.inl hx
          · rintro (hx | ⟨ρ, hx⟩)
            · exact Finset.mem_insert_of_mem hx
            · rw [← hstlive (pde_word b q)]; exact hinv.live ρ x hx
        · intro ρ x hx
          unfold Shape.extend at hx
          split at hx
          · injection hx with hx; subst hx; exact Or.inr hq
          · exact Or.inl hx
        · intro x hx
          show ((mm_alloc_page st).2.store p i (pde_word b q)).mem x = _
          rw [hstore]
          funext j
          have hxp : x ≠ p := by
            intro hc; subst hc
            apply hx π
            unfold Shape.extend
            rw [if_neg hπne, hp]
          have hxq : x ≠ q := by
            intro hc; subst hc
            apply hx (i :: π)
            simp [Shape.extend]
          simp only [hxp, false_and, if_false, hxq]
        · intro ρ x hx hlen j
          show ((mm_alloc_page st).2.store p i (pde_word b q)).mem x j = _
          rw [hstore]
          have hxp : x ≠ p := by
            intro hc; subst hc
            have h1 := hinv.inj ρ π x hx (by
              unfold Shape.extend
              rw [if_neg hπne, hp])
            subst h1; omega
          simp only [hxp, false_and, if_false]
          unfold Shape.extend at hx
          split at hx
          · rename_i heq
            injection hx with hx
            subst hx; subst heq
            simp only [if_true, hs]
            simp
          · have hxq : x ≠ q := fun hc => hq (hc ▸ h.live ρ x hx)
            simp only [if_neg hxq, if_pos hx]
      · intro q1 hq1; cases hq1

theorem land_511_lt (x : Nat) : x &&& 0x1FF < 512 := by
  have h : x &&& 0x1FF ≤ 0x1FF := Nat.and_le_right
  omega

theorem pxe_idx_lt (gpa : Nat) : pxe_idx gpa < 512 := land_511_lt _

theorem ppe_idx_lt (gpa : Nat) : ppe_idx gpa < 512 := land_511_lt _

theorem pde_idx_lt (gpa : Nat) : pde_idx gpa < 512 := land_511_lt _

theorem pte_idx_lt (gpa : Nat) : pte_idx gpa < 512 := land_511_lt _

/-- The function `ept_alloc_page` on a well-formed hierarchy: `st3` is the memory after
the interior levels, into which the leaf is then stored. -/
theorem ept_alloc_page_spec {b : Build} {st : Mm} {root : Nat} {sh : Shape}
    (h : Inv b st root sh) (access gpa hpa : Nat) :
    ∃ sh1 st3, Grow b root st sh st3 sh1 ∧
      (ept_alloc_page b st root access gpa hpa = (none, st3) ∨
        ∃ q, sh1 (pt_path gpa) = some q ∧
          ept_alloc_page b st root access gpa hpa =
            (some (q, pte_idx gpa),
              st3.store q (pte_idx gpa) (leaf_word b (st3.mem q (pte_idx gpa)) access hpa))) := by
  obtain ⟨sh1, g1, r1, -⟩ := ept_next_table_spec h h.root_eq (by simp) (pxe_idx_lt gpa)
  unfold ept_alloc_page
  generalize ept_next_table b st root (pxe_idx gpa) = x1 at g1 r1 ⊢
  obtain ⟨o1, st1⟩ := x1
  rcases r1 with r1 | ⟨p1, r1, hp1⟩
  · simp only at r1; subst r1
    exact ⟨sh1, st1, g1, Or.inl rfl⟩
  · simp only at r1; subst r1
    obtain ⟨sh2, g2, r2, -⟩ := ept_next_table_spec g1.inv hp1 (by simp) (ppe_idx_lt gpa)
    simp only
    generalize ept_next_table b st1 p1 (ppe_idx gpa) = x2 at g2 r2 ⊢
    obtain ⟨o2, st2⟩ := x2
    rcases r2 with r2 | ⟨p2, r2, hp2⟩
    · simp only at r2; subst r2
      exact ⟨sh2, st2, g1.trans g2, Or.inl rfl⟩
    · simp only at r2; subst r2
      obtain ⟨sh3, g3, r3, -⟩ := ept_next_table_spec g2.inv hp2 (by simp) (pde_idx_lt gpa)
      simp only
      generalize ept_next_table b st2 p2 (pde_idx gpa) = x3 at g3 r3 ⊢
      obtain ⟨o3, st3⟩ := x3
      rcases r3 with r3 | ⟨p3, r3, hp3⟩
      · simp only at r3; subst r3
        exact ⟨sh3, st3, (g1.trans g2).trans g3, Or.inl rfl⟩
      · simp only at r3; subst r3
        exact ⟨sh3, st3, (g1.trans g2).trans g3, Or.inr ⟨p3, hp3, rfl⟩⟩

/-- When the PT page of `gpa` exists already, `ept_alloc_page` only stores the leaf. -/
theorem ept_alloc_page_present {b : Build} {st : Mm} {root : Nat} {sh : Shape}
    (h : Inv b st root sh) (access gpa hpa : Nat) {q : Nat} (hq : sh (pt_path gpa) = some q) :
    ept_alloc_page b st root access gpa hpa =
      (some (q, pte_idx gpa),
        st.store q (pte_idx gpa) (leaf_word b (st.mem q (pte_idx gpa)) access hpa)) := by
  obtain ⟨p2, hp2⟩ := h.parent _ _ _ hq
  obtain ⟨p1, hp1⟩ := h.parent _ _ _ hp2
  obtain ⟨_, _, _, e1⟩ := ept_next_table_spec h h.root_eq (by simp) (pxe_idx_lt gpa)
  obtain ⟨_, _, _, e2⟩ := ept_next_table_spec h hp1 (by simp) (ppe_idx_lt gpa)
  obtain ⟨_, _, _, e3⟩ := ept_next_table_spec h hp2 (by simp) (pde_idx_lt gpa)
  unfold ept_alloc_page
  rw [e1 p1 hp1]
  simp only
  rw [e2 p2 hp2]
  simp only
  rw [e3 q hq]

/-- The function `ept_pte` on a well-formed hierarchy: it finds the PT entry of `gpa`
exactly when the PT page exists. -/
theorem ept_pte_spec {b : Build} {st : Mm} {root : Nat} {sh : Shape}
    (h : Inv b st root sh) (gpa : Nat) :
    ept_pte st root gpa = (sh (pt_path gpa)).map (fun q => (q, pte_idx gpa)) := by
  unfold ept_pte pt_path
  cases h1 : sh [pxe_idx gpa] with
  | none =>
    rw [h.entry_none h.root_eq (by simp) (pxe_idx_lt gpa) h1, ept_page_addr_zero]
    cases h3 : sh [pde_idx gpa, ppe_idx gpa, pxe_idx gpa] with
    | none => rfl
    | some q =>
      obtain ⟨p2, hp2⟩ := h.parent _ _ _ h3
      obtain ⟨p1, hp1⟩ := h.parent _ _ _ hp2
      rw [h1] at hp1; cases hp1
  | some p1 =>
    have hb1 := h.bound _ _ h1
    rw [h.entry_some h.root_eq (by simp) (pxe_idx_lt gpa) h1, pde_word_page_addr b p1 hb1]
    simp only
    cases h2 : sh [ppe_idx gpa, pxe_idx gpa] with
    | none =>
      rw [h.entry_none h1 (by simp) (ppe_idx_lt gpa) h2, ept_page_addr_zero]
      cases h3 : sh [pde_idx gpa, ppe_idx gpa, pxe_idx gpa] with
      | none => rfl
      | some q =>
        obtain ⟨p2, hp2⟩ := h.parent _ _ _ h3
        rw [h2] at hp2; cases hp2
    | some p2 =>
      have hb2 := h.bound _ _ h2
      rw [h.entry_some h1 (by simp) (ppe_idx_lt gpa) h2, pde_word_page_addr b p2 hb2]
      simp only [pde_word_large b p2 hb2, ne_eq, not_true_eq_false, if_false]
      cases h3 : sh [pde_idx gpa, ppe_idx gpa, pxe_idx gpa] with
      | none =>
        rw [h.entry_none h2 (by simp) (pde_idx_lt gpa) h3, ept_page_addr_zero]
        rfl
      | some p3 =>
        have hb3 := h.bound _ _ h3
        rw [h.entry_some h2 (by simp) (pde_idx_lt gpa) h3, pde_word_page_addr b p3 hb3]
        simp only [pde_word_large b p3 hb3, ne_eq, not_true_eq_false, if_false]
        rfl

theorem Inv.prefix_some {b : Build} {st : Mm} {root : Nat} {sh : Shape} (h : Inv b st root sh)
    (ρ π : List Nat) {x : Nat} (hx : sh (ρ ++ π) = some x) : ∃ p, sh π = some p := by
  induction ρ generalizing x with
  | nil => exact ⟨x, hx⟩
  | cons j ρ ih =>
    obtain ⟨y, hy⟩ := h.parent j (ρ ++ π) x hx
    exact ih hy

theorem below_child {sh : Shape} {π : List Nat} {i x : Nat} (h : Below sh (i :: π) x) :
    Below sh π x := by
  obtain ⟨ρ, hρ⟩ := h
  exact ⟨ρ ++ [i], by simpa using hρ⟩

theorem below_none {b : Build} {st : Mm} {root : Nat} {sh : Shape} (h : Inv b st root sh)
    {π : List Nat} (hn : sh π = none) (x : Nat) : ¬ Below sh π x := by
  rintro ⟨ρ, hρ⟩
  obtain ⟨p, hp⟩ := h.prefix_some ρ π hρ
  rw [hn] at hp; cases hp

theorem below_not_self {b : Build} {st : Mm} {root : Nat} {sh : Shape} (h : Inv b st root sh)
    {π : List Nat} {p : Nat} (hp : sh π = some p) (i : Nat) : ¬ Below sh (i :: π) p := by
  rintro ⟨ρ, hρ⟩
  have := h.inj _ _ _ hρ hp
  have := congrArg List.length this
  simp at this
  omega

theorem below_disjoint {b : Build} {st : Mm} {root : Nat} {sh : Shape} (h : Inv b st root sh)
    {π : List Nat} {i j x : Nat} (hi : Below sh (i :: π) x) (hj : Below sh (j :: π) x) :
    i = j := by
  obtain ⟨ρ1, h1⟩ := hi
  obtain ⟨ρ2, h2⟩ := hj
  have heq := h.inj _ _ _ h1 h2
  have h3 : (ρ1 ++ [i]) ++ π = (ρ2 ++ [j]) ++ π := by simpa using heq
  have h4 := List.append_cancel_right h3
  have h5 := congrArg List.getLast? h4
  simpa using h5

theorem below_iff {b : Build} {st : Mm} {root : Nat} {sh : Shape} (h : Inv b st root sh)
    {π : List Nat} {p : Nat} (hp : sh π = some p) (x : Nat) :
    Below sh π x ↔ x = p ∨ ∃ i, i < 512 ∧ Below sh (i :: π) x := by
  constructor
  · rintro ⟨ρ, hρ⟩
    rcases List.eq_nil_or_concat ρ with hnil | ⟨L, i, hL⟩
    · subst hnil
      simp only [List.nil_append] at hρ
      rw [hp] at hρ; injection hρ with hρ
      exact Or.inl hρ.symm
    · subst hL
      right
      have hρ2 : sh (L ++ i :: π) = some x := by simpa using hρ
      obtain ⟨y, hy⟩ := h.prefix_some L (i :: π) hρ2
      exact ⟨i, h.idx i π y hy, L, hρ2⟩
  · rintro (hx | ⟨i, _, hi⟩)
    · subst hx; exact ⟨[], by simpa using hp⟩
    · exact below_child hi

theorem below_leaf {b : Build} {st : Mm} {root : Nat} {sh : Shape} (h : Inv b st root sh)
    {π : List Nat} {p : Nat} (hp : sh π = some p) (hl : π.length = 3) (x : Nat) :
    Below sh π x ↔ x = p := by
  rw [below_iff h hp]
  constructor
  · rintro (hx | ⟨i, _, ρ, hρ⟩)
    · exact hx
    · have := h.len _ _ hρ
      simp at this
      omega
  · intro hx; exact Or.inl hx

theorem mm_free_page_live {st : Mm} {p : Nat} (h : p ∈ st.live) :
    mm_free_page st p = { st with live := st.live.erase p } := by
  simp [mm_free_page, h]

/-- Releasing a PT page. -/
theorem free_leaf_spec {b : Build} {st0 : Mm} {root : Nat} {sh : Shape}
    (h : Inv b st0 root sh) {π : List Nat} {p : Nat} (hp : sh π = some p)
    (hl : π.length = 3) (st : Mm) (hlive : ∀ x, Below sh π x → x ∈ st.live) :
    FreesBelow sh π st (mm_free_page st p) := by
  have hpl : p ∈ st.live := hlive p ((below_leaf h hp hl p).2 rfl)
  rw [mm_free_page_live hpl]
  refine ⟨rfl, rfl, rfl, ?_⟩
  intro x
  rw [below_leaf h hp hl x]
  simp only [Finset.mem_erase]
  tauto

/-- The loop of `free_entries` over the first `n` entries of the table at `π`. -/
theorem free_loop_spec {b : Build} {st0 : Mm} {root : Nat} {sh : Shape}
    (h : Inv b st0 root sh) {π : List Nat} {p : Nat} (hp : sh π = some p)
    (hl : π.length < 3) (sub_free : Mm → Nat → Mm)
    (hsub : ∀ (s : Mm) (i q : Nat), s.mem = st0.mem → sh (i :: π) = some q →
      (∀ x, Below sh (i :: π) x → x ∈ s.live) → FreesBelow sh (i :: π) s (sub_free s q))
    (st : Mm) (hmem : st.mem = st0.mem) (hlive : ∀ x, Below sh π x → x ∈ st.live)
    (n : Nat) (hn : n ≤ 512) :
    (free_loop sub_free p n st).mem = st.mem ∧ (free_loop sub_free p n st).fault = st.fault ∧
      (free_loop sub_free p n st).script = st.script ∧
      ∀ x, x ∈ (free_loop sub_free p n st).live ↔
        x ∈ st.live ∧ ¬ ∃ i, i < n ∧ Below sh (i :: π) x := by
  induction n with
  | zero =>
    refine ⟨rfl, rfl, rfl, ?_⟩
    intro x
    simp [free_loop]
  | succ n ih =>
    obtain ⟨im, ifa, isc, il⟩ := ih (by omega)
    have hpl : p ∈ (free_loop sub_free p n st).live := by
      rw [il]
      refine ⟨hlive p ⟨[], by simpa using hp⟩, ?_⟩
      rintro ⟨i, _, hi⟩
      exact below_not_self h hp i hi
    have hstep : free_loop sub_free p (n + 1) st =
        if (free_loop sub_free p n st).mem p n ≠ 0 then
          sub_free (free_loop sub_free p n st)
            (frame_of (PAGE_PA ((free_loop sub_free p n st).mem p n)))
        else free_loop sub_free p n st := by
      show (let st1 := (free_loop sub_free p n st).touch p
        let entry := st1.mem p n
        if entry ≠ 0 then sub_free st1 (frame_of (PAGE_PA entry)) else st1) = _
      rw [touch_live hpl]
    have hcell : (free_loop sub_free p n st).mem p n = st0.mem p n := by rw [im, hmem]
    rw [hstep, hcell]
    cases hs : sh (n :: π) with
    | none =>
      rw [h.entry_none hp hl (by omega) hs]
      simp only [ne_eq, not_true_eq_false, if_false]
      refine ⟨im, ifa, isc, ?_⟩
      intro x
      rw [il]
      constructor
      · rintro ⟨hx, hnx⟩
        refine ⟨hx, ?_⟩
        rintro ⟨i, hi, hb⟩
        rcases Nat.lt_succ_iff_lt_or_eq.1 hi with hi | hi
        · exact hnx ⟨i, hi, hb⟩
        · subst hi; exact below_none h hs x hb
      · rintro ⟨hx, hnx⟩
        refine ⟨hx, ?_⟩
        rintro ⟨i, hi, hb⟩
        exact hnx ⟨i, by omega, hb⟩
    | some q =>
      have hqb := h.bound _ _ hs
      rw [h.entry_some hp hl (by omega) hs, if_pos (pde_word_ne_zero b q hqb),
        pde_word_frame b q hqb]
      have hpre : ∀ x, Below sh (n :: π) x → x ∈ (free_loop sub_free p n st).live := by
        intro x hx
        rw [il]
        refine ⟨hlive x (below_child hx), ?_⟩
        rintro ⟨i, hi, hb⟩
        have := below_disjoint h hb hx
        omega
      obtain ⟨sm, sf, ss, sl⟩ := hsub (free_loop sub_free p n st) n q (im.trans hmem) hs hpre
      refine ⟨sm.trans im, sf.trans ifa, ss.trans isc, ?_⟩
      intro x
      rw [sl, il]
      constructor
      · rintro ⟨⟨hx, hnx⟩, hnb⟩
        refine ⟨hx, ?_⟩
        rintro ⟨i, hi, hb⟩
        rcases Nat.lt_succ_iff_lt_or_eq.1 hi with hi | hi
        · exact hnx ⟨i, hi, hb⟩
        · subst hi; exact hnb hb
      · rintro ⟨hx, hnx⟩
        refine ⟨⟨hx, ?_⟩, ?_⟩
        · rintro ⟨i, hi, hb⟩
          exact hnx ⟨i, by omega, hb⟩
        · intro hb
          exact hnx ⟨n, by omega, hb⟩

/-- Releasing the table at `π` after its loop. -/
theorem free_table_spec {b : Build} {st0 : Mm} {root : Nat} {sh : Shape}
    (h : Inv b st0 root sh) {π : List Nat} {p : Nat} (hp : sh π = some p)
    (hl : π.length < 3) (sub_free : Mm → Nat → Mm)
    (hsub : ∀ (s : Mm) (i q : Nat), s.mem = st0.mem → sh (i :: π) = some q →
      (∀ x, Below sh (i :: π) x → x ∈ s.live) → FreesBelow sh (i :: π) s (sub_free s q))
    (st : Mm) (hmem : st.mem = st0.mem) (hlive : ∀ x, Below sh π x → x ∈ st.live)
    (n : Nat) (hn : n = 512) :
    FreesBelow sh π st (mm_free_page (free_loop sub_free p n st) p) := by
  obtain ⟨im, ifa, isc, il⟩ := free_loop_spec h hp hl sub_free hsub st hmem hlive n (by omega)
  have hpl : p ∈ (free_loop sub_free p n st).live := by
    rw [il]
    refine ⟨hlive p ⟨[], by simpa using hp⟩, ?_⟩
    rintro ⟨i, _, hi⟩
    exact below_not_self h hp i hi
  rw [mm_free_page_live hpl]
  refine ⟨im, ifa, isc, ?_⟩
  intro x
  show x ∈ (free_loop sub_free p n st).live.erase p ↔ _
  rw [Finset.mem_erase, il, below_iff h hp x, hn]
  constructor
  · rintro ⟨hxp, hx, hnx⟩
    refine ⟨hx, ?_⟩
    rintro (hc | hc)
    · exact hxp hc
    · exact hnx hc
  · rintro ⟨hx, hnx⟩
    exact ⟨fun hc => hnx (Or.inl hc), hx, fun hc => hnx (Or.inr hc)⟩

theorem free_entries_succ (lvl : Nat) (st : Mm) (table : Nat) :
    free_entries (lvl + 1) st table =
      mm_free_page (free_loop (fun s sub =>
        if lvl + 1 > 2 then free_entries lvl s sub else mm_free_page s sub) table 512 st)
        table := by
  rw [free_entries]

/-- The function `free_entries` at level 2, 3 or 4 releases the sub-hierarchy of the table
it is given. -/
theorem free_entries_spec {b : Build} {st0 : Mm} {root : Nat} {sh : Shape}
    (h : Inv b st0 root sh) :
    ∀ (k : Nat) (π : List Nat) (p : Nat), k + π.length = 2 → sh π = some p →
      ∀ st : Mm, st.mem = st0.mem → (∀ x, Below sh π x → x ∈ st.live) →
        FreesBelow sh π st (free_entries (k + 2) st p) := by
  intro k
  induction k with
  | zero =>
    intro π p hk hp st hmem hlive
    have hl : π.length < 3 := by omega
    rw [free_entries_succ]
    have hf : (fun (s : Mm) (sub : Nat) =>
        if 0 + 1 + 1 > 2 then free_entries (0 + 1) s sub else mm_free_page s sub) =
        fun s sub => mm_free_page s sub := by
      funext s sub
      rw [if_neg (by omega)]
    rw [hf]
    apply free_table_spec h hp hl _ _ st hmem hlive _ rfl
    intro s i q _ hq hlv
    exact free_leaf_spec h hq (by simp; omega) s hlv
  | succ k ih =>
    intro π p hk hp st hmem hlive
    have hl : π.length < 3 := by omega
    rw [free_entries_succ]
    have hf : (fun (s : Mm) (sub : Nat) =>
        if k + 1 + 1 + 1 > 2 then free_entries (k + 1 + 1) s sub else mm_free_page s sub) =
        fun s sub => free_entries (k + 2) s sub := by
      funext s sub
      rw [if_pos (by omega)]
    rw [hf]
    apply free_table_spec h hp hl _ _ st hmem hlive _ rfl
    intro s i q hm hq hlv
    exact ih (i :: π) q (by simp; omega) hq s hm hlv

/-! ## A whole `ept_alloc_page` call -/

theorem leaf_word_old (b : Build) (old access hpa : Nat) :
    leaf_word b old access hpa = leaf_word b 0 access hpa := by
  unfold leaf_word
  rw [init_epte_old]

theorem lor_48 (a : Nat) (h : a < 8) : a ||| 48 = a + 48 := by
  interval_cases a <;> rfl

theorem lor_right_comm (x y z : Nat) : (x ||| y) ||| z = (x ||| z) ||| y := by
  rw [Nat.or_assoc, Nat.or_comm y z, ← Nat.or_assoc]

/-- The leaf word in arithmetic form: frame, access bits, write-back memory type and,
where enabled, the suppress-#VE bit. -/
theorem leaf_word_val (b : Build) (old access hpa : Nat) (ha : access < 8)
    (hh : hpa < 2 ^ 48) :
    leaf_word b old access hpa =
      hpa / 4096 * 4096 + access + 48 + (if b.suppress_ve then 2 ^ 63 else 0) := by
  have hk : hpa / 4096 * 4096 + (access + 48) < 2 ^ 63 := by omega
  have h1 : (hpa / 4096 * 4096 + access) ||| 48 = hpa / 4096 * 4096 + (access + 48) := by
    rw [← lor_low access _ (by omega), lor_right_comm, lor_48 access ha,
      lor_low _ _ (by omega)]
  have hE := init_epte_val b old access hpa (by omega)
  rw [Nat.mod_eq_of_lt ha] at hE
  have h48 : EPT_MT_WRITEBACK <<< VMX_EPT_MT_EPTE_SHIFT = 48 := by decide
  unfold leaf_word
  dsimp only
  rw [hE, h48]
  unfold EPT_SUPPRESS_VE_BIT
  cases hs : b.suppress_ve
  · rw [if_neg Bool.false_ne_true, if_neg Bool.false_ne_true, Nat.add_zero, h1]
    omega
  · rw [if_pos rfl, if_pos rfl, Nat.add_comm _ (2 ^ 63), ← lor_high _ (by omega),
      lor_right_comm _ (2 ^ 63) 48, h1, Nat.or_assoc, Nat.or_self, lor_high _ hk]
    omega

/-- A whole call of `ept_alloc_page` on a well-formed hierarchy. -/
theorem ept_alloc_page_inv {b : Build} {st : Mm} {root : Nat} {sh : Shape}
    (h : Inv b st root sh) (access gpa hpa : Nat) :
    ∃ sh1, Inv b (ept_alloc_page b st root access gpa hpa).2 root sh1 ∧
      (∀ π q, sh π = some q → sh1 π = some q) ∧
      (ept_alloc_page b st root access gpa hpa).2.fault = st.fault ∧
      (∀ x, x ∈ (ept_alloc_page b st root access gpa hpa).2.live ↔
        x ∈ st.live ∨ ∃ π, sh1 π = some x) ∧
      (∀ π q, sh1 π = some q → sh π = some q ∨ q ∉ st.live) ∧
      (∀ x, (∀ π, sh1 π ≠ some x) →
        (ept_alloc_page b st root access gpa hpa).2.mem x = st.mem x) ∧
      (∀ π q, sh1 π = some q → π.length = 3 → ∀ j,
        (π ≠ pt_path gpa ∨ j ≠ pte_idx gpa) →
        (ept_alloc_page b st root access gpa hpa).2.mem q j =
          if sh π = some q then st.mem q j else 0) ∧
      ((ept_alloc_page b st root access gpa hpa).1 = none ∨
        ∃ q, (ept_alloc_page b st root access gpa hpa).1 = some (q, pte_idx gpa) ∧
          sh1 (pt_path gpa) = some q ∧
          (ept_alloc_page b st root access gpa hpa).2.mem q (pte_idx gpa) =
            leaf_word b 0 access hpa) := by
  obtain ⟨sh1, st3, g, hr⟩ := ept_alloc_page_spec h access gpa hpa
  rcases hr with hr | ⟨q, hq, hr⟩
  · rw [hr]
    exact ⟨sh1, g.inv, g.ext, g.fault, g.live, g.fresh, g.outside,
      fun π q hq hl j _ => g.leaves π q hq hl j, Or.inl rfl⟩
  · rw [hr]
    have hql : q ∈ st3.live := g.inv.live _ _ hq
    have hmem := store_mem hql (pte_idx gpa) (leaf_word b (st3.mem q (pte_idx gpa)) access hpa)
    have hne : ∀ π x, sh1 π = some x → π.length < 3 → x ≠ q := by
      intro π x hx hl hc
      subst hc
      have := congrArg List.length (g.inv.inj _ _ _ hx hq)
      simp [pt_path] at this
      omega
    refine ⟨sh1, ?_, g.ext, ?_, ?_, g.fresh, ?_, ?_, Or.inr ⟨q, rfl, hq, ?_⟩⟩
    · apply g.inv.frame
      · intro π x hx
        show x ∈ (st3.store _ _ _).live
        rw [store_live]; exact g.inv.live π x hx
      · intro π x hx hl i _
        show (st3.store _ _ _).mem x i = _
        rw [hmem]
        simp only [hne π x hx hl, false_and, if_false]
    · show (st3.store _ _ _).fault = _
      rw [store_fault hql]; exact g.fault
    · intro x
      show x ∈ (st3.store _ _ _).live ↔ _
      rw [store_live]; exact g.live x
    · intro x hx
      show (st3.store _ _ _).mem x = _
      rw [hmem, ← g.outside x hx]
      funext j
      have : x ≠ q := fun hc => hx _ (hc ▸ hq)
      simp only [this, false_and, if_false]
    · intro π x hx hl j hne2
      show (st3.store _ _ _).mem x j = _
      rw [hmem, ← g.leaves π x hx hl j]
      have : ¬ (x = q ∧ j = pte_idx gpa) := by
        rintro ⟨hc1, hc2⟩
        subst hc1
        rcases hne2 with h1 | h1
        · exact h1 (g.inv.inj _ _ _ hx hq)
        · exact h1 hc2
      simp only [this, if_false]
    · show (st3.store _ _ _).mem q (pte_idx gpa) = _
      rw [hmem]
      simp only [and_self, if_true]
      exact leaf_word_old _ _ _ _

/-- A grown hierarchy is well-formed, and its tables are exactly the pages allocated
since the root was requested. -/
theorem Grown.owned {b : Build} {st0 : Mm} {root : Nat} {st : Mm} (h : Grown b st0 root st) :
    ∃ sh, Inv b st root sh ∧ (∀ x, x ∈ st.live ↔ x ∈ st0.live ∨ ∃ π, sh π = some x) ∧
      (∀ π x, sh π = some x → x ∉ st0.live) ∧ st.fault = st0.fault ∧
      (∀ x, x ∈ st0.live → st.mem x = st0.mem x) := by
  induction h with
  | fresh st1 h1 =>
    rcases mm_alloc_page_spec st0 with ⟨hn, -⟩ | ⟨q, hq, hqb, hql, hm, hlv, hf, -⟩
    · rw [h1] at hn; cases hn
    · rw [h1] at hq hm hlv hf
      simp only at hq hm hlv hf
      injection hq with hq
      subst hq
      refine ⟨Shape.single root, ⟨?_, ?_, ?_, ?_, ?_, ?_, ?_, ?_⟩, ?_, ?_, hf, ?_⟩
      · simp [Shape.single]
      · intro π q hx
        unfold Shape.single at hx
        split at hx
        · subst π; simp
        · cases hx
      · intro i π q hx
        simp [Shape.single] at hx
      · intro i π q hx
        simp [Shape.single] at hx
      · intro π ρ q h1 h2
        unfold Shape.single at h1 h2
        split at h1 <;> split at h2
        · subst π; subst ρ; rfl
        · cases h2
        · cases h1
        · cases h1
      · intro π q hx
        unfold Shape.single at hx
        split at hx
        · injection hx with hx; subst hx; rw [hlv]; exact Finset.mem_insert_self _ _
        · cases hx
      · intro π q hx
        unfold Shape.single at hx
        split at hx
        · injection hx with hx; subst hx; exact hqb
        · cases hx
      · intro π p hx _ i _
        unfold Shape.single at hx
        split at hx
        · injection hx with hx; subst hx
          rw [hm]
          simp [Shape.single]
        · cases hx
      · intro x
        rw [hlv, Finset.mem_insert]
        constructor
        · rintro (hx | hx)
          · exact Or.inr ⟨[], by simp [Shape.single, hx]⟩
          · exact Or.inl hx
        · rintro (hx | ⟨π, hx⟩)
          · exact Or.inr hx
          · unfold Shape.single at hx
            split at hx
            · injection hx with hx; exact Or.inl hx.symm
            · cases hx
      · intro π x hx
        unfold Shape.single at hx
        split at hx
        · injection hx with hx; subst hx; exact hql
        · cases hx
      · intro x hx
        rw [hm]
        funext j
        have : x ≠ root := fun hc => hql (hc ▸ hx)
        simp only [this, if_false]
  | map st access gpa hpa _ ih =>
    obtain ⟨sh, hinv, hacc, hdis, hf, hfr⟩ := ih
    obtain ⟨sh1, i1, e1, f1, l1, fr1, o1, -, -⟩ := ept_alloc_page_inv hinv access gpa hpa
    have hdis1 : ∀ π x, sh1 π = some x → x ∉ st0.live := by
      intro π x hx
      rcases fr1 π x hx with h2 | h2
      · exact hdis π x h2
      · intro hc
        exact h2 ((hacc x).2 (Or.inl hc))
    refine ⟨sh1, i1, ?_, hdis1, f1.trans hf, ?_⟩
    rotate_left
    · intro x hx
      rw [o1 x (fun π hc => hdis1 π x hc hx)]
      exact hfr x hx
    · intro x
      rw [l1, hacc]
      constructor
      · rintro ((hx | ⟨π, hx⟩) | hx)
        · exact Or.inl hx
        · exact Or.inr ⟨π, e1 π x hx⟩
        · exact Or.inr hx
      · rintro (hx | hx)
        · exact Or.inl (Or.inl hx)
        · exact Or.inr hx

theorem store_same {st : Mm} {p i v : Nat} (hp : p ∈ st.live) (hv : st.mem p i = v) :
    st.store p i v = st := by
  unfold Mm.store
  rw [if_pos hp]
  have hm : (fun q j => if q = p ∧ j = i then v else st.mem q j) = st.mem := by
    funext q j
    split
    · rename_i hc
      rw [hc.1, hc.2, hv]
    · rfl
  rw [hm]

theorem grown_root_mm_grown (b : Build) :
    Grown b (mm_with [some 1, some 2, some 3, some 4]) 1 grown_root_mm :=
  Grown.fresh _ rfl

/-! ## C1: map / lookup round trip -/

/-- C1 (amended): in a hierarchy grown by map calls, for every access in the {R,W,X}
combinations, every gpa and every hpa below 2^48, when `ept_alloc_page` succeeds then
`ept_pte` returns the entry that the map returned, the frame field of that entry is
`hpa >> 12`, its access bits are `access`, and the rest of the word is the write-back
memory type and, where enabled, the suppress-#VE bit. -/
theorem ept_map_lookup_round_trip (b : Build) (st0 st st1 : Mm)
    (root access gpa hpa : Nat) (e : Nat × Nat) (hg : Grown b st0 root st)
    (ha : access < 8) (hh : hpa < 2 ^ 48)
    (hmap : ept_alloc_page b st root access gpa hpa = (some e, st1)) :
    ept_pte st1 root gpa = some e ∧
      epte_frame (st1.mem e.1 e.2) = hpa >>> 12 ∧
      epte_access (st1.mem e.1 e.2) = access ∧
      st1.mem e.1 e.2 =
        hpa / 4096 * 4096 + access + 48 + (if b.suppress_ve then 2 ^ 63 else 0) := by
  obtain ⟨sh, hinv, -, -, -, -⟩ := hg.owned
  obtain ⟨sh1, i1, -, -, -, -, -, -, hr⟩ := ept_alloc_page_inv hinv access gpa hpa
  rw [hmap] at i1 hr
  rcases hr with hr | ⟨q, hq1, hq2, hq3⟩
  · cases hr
  · simp only at hq1 hq3 i1
    injection hq1 with hq1
    subst hq1
    have hw := leaf_word_val b 0 access hpa ha hh
    rw [hw] at hq3
    refine ⟨?_, ?_, ?_, hq3⟩
    · rw [ept_pte_spec i1 gpa, hq2]; rfl
    · show epte_frame (st1.mem q (pte_idx gpa)) = _
      rw [hq3, epte_frame_eq, Nat.shiftRight_eq_div_pow]
      split <;> omega
    · show epte_access (st1.mem q (pte_idx gpa)) = _
      unfold epte_access EPT_AR_MASK
      rw [hq3, land_seven]
      split <;> omega

/-- C1 witness: mapping gpa 0x1000 to hpa 0x5000 with full access in a fresh hierarchy. -/
theorem ept_map_lookup_round_trip_witness :
    ept_pte (ept_alloc_page msvc_build grown_root_mm 1 7 0x1000 0x5000).2 1 0x1000
      = some (4, 1) :=
  (ept_map_lookup_round_trip msvc_build (mm_with [some 1, some 2, some 3, some 4])
    grown_root_mm (ept_alloc_page msvc_build grown_root_mm 1 7 0x1000 0x5000).2
    1 7 0x1000 0x5000 (4, 1) (grown_root_mm_grown _) (by decide) (by decide)
    (Prod.ext (by decide) rfl)).1

/-- C1 counterexample: a page-aligned hpa at or above 2^48 is mapped successfully, but
the frame field of the entry is not `hpa >> 12`. -/
theorem ept_map_high_hpa_frame :
    Grown msvc_build (mm_with [some 1, some 2, some 3, some 4]) 1 grown_root_mm ∧
      (ept_alloc_page msvc_build grown_root_mm 1 7 0 (2 ^ 52)).1 = some (4, 0) ∧
      ept_pte (ept_alloc_page msvc_build grown_root_mm 1 7 0 (2 ^ 52)).2 1 0 = some (4, 0) ∧
      epte_frame ((ept_alloc_page msvc_build grown_root_mm 1 7 0 (2 ^ 52)).2.mem 4 0)
        ≠ 2 ^ 52 >>> 12 :=
  ⟨grown_root_mm_grown _, by decide, by decide, by decide⟩

/-! ## C2: map is idempotent -/

/-- C2 (amended): in a hierarchy grown by map calls, when `ept_alloc_page` succeeds, the
same call made again returns the same entry and leaves memory, the set of outstanding
pages and the allocator exactly as they were after the first call: the leaf word is
the same, no page is allocated, no interior entry changes. -/
theorem ept_map_idempotent (b : Build) (st0 st st1 : Mm) (root access gpa hpa : Nat)
    (e : Nat × Nat) (hg : Grown b st0 root st)
    (hmap : ept_alloc_page b st root access gpa hpa = (some e, st1)) :
    ept_alloc_page b st1 root access gpa hpa = (some e, st1) := by
  obtain ⟨sh, hinv, -, -, -, -⟩ := hg.owned
  obtain ⟨sh1, i1, -, -, -, -, -, -, hr⟩ := ept_alloc_page_inv hinv access gpa hpa
  rw [hmap] at i1 hr
  rcases hr with hr | ⟨q, hq1, hq2, hq3⟩
  · cases hr
  · simp only at hq1 hq3 i1
    injection hq1 with hq1
    subst hq1
    rw [ept_alloc_page_present i1 access gpa hpa hq2,
      store_same (i1.live _ _ hq2) (by rw [hq3]; exact (leaf_word_old _ _ _ _).symm)]

/-- C2 witness: the call of the C1 witness, repeated. -/
theorem ept_map_idempotent_witness :
    ept_alloc_page msvc_build (ept_alloc_page msvc_build grown_root_mm 1 7 0x1000 0x5000).2
      1 7 0x1000 0x5000
      = (some (4, 1), (ept_alloc_page msvc_build grown_root_mm 1 7 0x1000 0x5000).2) :=
  ept_map_idempotent msvc_build (mm_with [some 1, some 2, some 3, some 4])
    grown_root_mm (ept_alloc_page msvc_build grown_root_mm 1 7 0x1000 0x5000).2
    1 7 0x1000 0x5000 (4, 1) (grown_root_mm_grown _) (Prod.ext (by decide) rfl)

/-- C2 counterexample: the first call fails at the PT allocation and returns null; the
same call made again succeeds, returns an entry and allocates page 4. -/
theorem ept_map_twice_after_failure :
    Grown msvc_build (mm_with [some 1, some 2, some 3, none, some 4]) 1 retry_root_mm ∧
      (ept_alloc_page msvc_build retry_root_mm 1 7 0x1000 0x5000).1 = none ∧
      (ept_alloc_page msvc_build
        (ept_alloc_page msvc_build retry_root_mm 1 7 0x1000 0x5000).2 1 7 0x1000 0x5000).1
        = some (4, 1) ∧
      4 ∉ (ept_alloc_page msvc_build retry_root_mm 1 7 0x1000 0x5000).2.live ∧
      4 ∈ (ept_alloc_page msvc_build
        (ept_alloc_page msvc_build retry_root_mm 1 7 0x1000 0x5000).2 1 7 0x1000 0x5000).2.live :=
  ⟨Grown.fresh _ rfl, by decide, by decide, by decide, by decide⟩

/-! ## C3: teardown leaks nothing -/

/-- C3: for a hierarchy grown from a freshly allocated zeroed root by any sequence of
`ept_alloc_page` calls, failed ones included, `free_entries(root, 4)` releases the root
and every table page allocated for the hierarchy: the set and the count of outstanding
pages are again what they were before the root was allocated, and no page that is not
outstanding is read or released on the way. -/
theorem free_entries_releases_all (b : Build) (st0 st : Mm) (root : Nat)
    (hg : Grown b st0 root st) :
    (free_entries 4 st root).live = st0.live ∧
      (free_entries 4 st root).count = st0.count ∧
      (free_entries 4 st root).fault = st0.fault := by
  obtain ⟨sh, hinv, hacc, hdis, hf, -⟩ := hg.owned
  have hfree := free_entries_spec hinv 2 [] root rfl hinv.root_eq st rfl
    (fun x hx => hx.elim (fun ρ hρ => hinv.live _ _ hρ))
  have e22 : 2 + 2 = 4 := rfl
  rw [e22] at hfree
  obtain ⟨-, ff, -, fl⟩ := hfree
  generalize free_entries 4 st root = fin at ff fl ⊢
  have hlive : fin.live = st0.live := by
    apply Finset.ext
    intro x
    have h4 := fl x
    rw [hacc x] at h4
    constructor
    · intro hx
      rcases (h4.1 hx) with ⟨h5 | ⟨π, h5⟩, h6⟩
      · exact h5
      · exact absurd ⟨π, by simpa using h5⟩ h6
    · intro hx
      apply h4.2
      refine ⟨Or.inl hx, ?_⟩
      rintro ⟨ρ, hρ⟩
      exact hdis _ _ hρ hx
  refine ⟨hlive, ?_, ff.trans hf⟩
  unfold Mm.count
  rw [hlive]

/-- C3 witness: a hierarchy with one mapping, torn down. -/
theorem free_entries_releases_all_witness :
    (free_entries 4 (ept_alloc_page msvc_build grown_root_mm 1 7 0x1000 0x5000).2 1).live
      = ∅ :=
  (free_entries_releases_all msvc_build (mm_with [some 1, some 2, some 3, some 4])
    (ept_alloc_page msvc_build grown_root_mm 1 7 0x1000 0x5000).2 1
    (Grown.map _ 7 0x1000 0x5000 (grown_root_mm_grown _))).1

/-! ## C10: find-first on the bit-set -/

/-- C10 failing input: in the build without `_MSC_VER` the search for the first clear bit
of an all-clear word returns 1, although bit 0 is clear, and the search for the first set
bit of the word 1 returns 1, although bit 0 is set; the `_MSC_VER` branch returns 0 in
both cases. -/
theorem find_first_one_based_on_gcc :
    find_first_zero_bit gcc_build (fun _ => 0) 32 = 1 ∧
      test_bit gcc_build 0 (fun _ => 0) = false ∧
      find_first_bit gcc_build (fun _ => 1) 32 = 1 ∧
      test_bit gcc_build 0 (fun _ => 1) = true ∧
      find_first_zero_bit msvc_build (fun _ => 0) 32 = 0 ∧
      find_first_bit msvc_build (fun _ => 1) 32 = 0 := by
  decide

/-! ## The bit-set with 32-bit words -/

theorem pos_bit_eq {b : Build} (hb : b.long_bits = 32) (pos : Nat) :
    pos_bit b pos = 2 ^ (pos % 32) := by
  have hk : pos % 32 < 32 := Nat.mod_lt _ (by decide)
  have hlt : 2 ^ (pos % 32) < 2 ^ 32 := Nat.pow_lt_pow_right (by decide) hk
  unfold pos_bit BITMAP_BITS
  rw [hb]
  simp only [Nat.mod_mod, Nat.one_shiftLeft, Nat.sub_self, Nat.add_zero, ite_self]
  rw [Nat.mod_eq_of_lt hlt]

theorem land_two_pow_ne_zero (w k : Nat) : (w &&& 2 ^ k != 0) = w.testBit k := by
  rw [land_two_pow, Nat.testBit_to_div_mod]
  have h2 : w / 2 ^ k % 2 = 0 ∨ w / 2 ^ k % 2 = 1 := by omega
  have hp : 2 ^ k ≠ 0 := by positivity
  rcases h2 with h2 | h2
  · rw [h2]; simp
  · rw [h2]; simp [hp]

theorem test_bit_eq {b : Build} (hb : b.long_bits = 32) (i : Nat) (bmp : Nat → Nat) :
    test_bit b i bmp = (bmp (i / 32)).testBit (i % 32) := by
  unfold test_bit bit_at BITMAP_BITS
  rw [pos_bit_eq hb, hb, land_two_pow_ne_zero]

theorem index_eq_of_div_mod {i e : Nat} (h1 : i / 32 = e / 32) (h2 : i % 32 = e % 32) :
    i = e := by omega

theorem test_bit_set_bit {b : Build} (hb : b.long_bits = 32) (e i : Nat) (bmp : Nat → Nat) :
    test_bit b i (set_bit b e bmp) = (decide (i = e) || test_bit b i bmp) := by
  rw [test_bit_eq hb, test_bit_eq hb]
  unfold set_bit bit_at BITMAP_BITS
  rw [pos_bit_eq hb, hb]
  by_cases h1 : i / 32 = e / 32
  · rw [if_pos h1, Nat.testBit_or, Nat.testBit_two_pow]
    by_cases h2 : e % 32 = i % 32
    · have : i = e := index_eq_of_div_mod h1 h2.symm
      simp [this]
    · have : i ≠ e := fun hc => h2 (by rw [hc])
      simp [h2, this]
  · have : i ≠ e := fun hc => h1 (by rw [hc])
    rw [if_neg h1]
    simp [this]

theorem testBit_ulong_not {b : Build} (hb : b.long_bits = 32) (x j : Nat) :
    (ulong_not b x).testBit j = (decide (j < 32) && !(x % 2 ^ 32).testBit j) := by
  unfold ulong_not ULONG_MAX
  rw [hb]
  have hx : x % 2 ^ 32 < 2 ^ 32 := Nat.mod_lt _ (by positivity)
  have := Nat.testBit_two_pow_sub_succ hx j
  rw [← this]
  congr 1
  omega

theorem test_bit_clear_bit {b : Build} (hb : b.long_bits = 32) (e i : Nat) (bmp : Nat → Nat) :
    test_bit b i (clear_bit b e bmp) = (!decide (i = e) && test_bit b i bmp) := by
  rw [test_bit_eq hb, test_bit_eq hb]
  unfold clear_bit bit_at BITMAP_BITS
  rw [pos_bit_eq hb, hb]
  have hi : i % 32 < 32 := Nat.mod_lt _ (by decide)
  have he : e % 32 < 32 := Nat.mod_lt _ (by decide)
  have hlt : 2 ^ (e % 32) < 2 ^ 32 := Nat.pow_lt_pow_right (by decide) he
  by_cases h1 : i / 32 = e / 32
  · rw [if_pos h1, Nat.testBit_and, testBit_ulong_not hb, Nat.mod_eq_of_lt hlt,
      Nat.testBit_two_pow]
    by_cases h2 : e % 32 = i % 32
    · have : i = e := index_eq_of_div_mod h1 h2.symm
      simp [this]
    · have : i ≠ e := fun hc => h2 (by rw [hc])
      simp [h2, this, hi]
  · have : i ≠ e := fun hc => h1 (by rw [hc])
    rw [if_neg h1]
    simp [this]

theorem set_bit_lt {b : Build} (hb : b.long_bits = 32) (e : Nat) (bmp : Nat → Nat)
    (h : ∀ w, bmp w < 2 ^ 32) : ∀ w, set_bit b e bmp w < 2 ^ 32 := by
  intro w
  unfold set_bit
  split
  · rw [pos_bit_eq hb]
    exact Nat.or_lt_two_pow (h w)
      (Nat.pow_lt_pow_right (by decide) (Nat.mod_lt _ (by decide)))
  · exact h w

theorem clear_bit_lt {b : Build} (e : Nat) (bmp : Nat → Nat)
    (h : ∀ w, bmp w < 2 ^ 32) : ∀ w, clear_bit b e bmp w < 2 ^ 32 := by
  intro w
  unfold clear_bit
  split
  · exact Nat.lt_of_le_of_lt Nat.and_le_left (h w)
  · exact h w

/-- The lowest set bit among the low `n` bits, when there is one. -/
theorem lowest_set_spec : ∀ (n x : Nat), x % 2 ^ n ≠ 0 →
    lowest_set n x < n ∧ x.testBit (lowest_set n x) = true ∧
      ∀ j, j < lowest_set n x → x.testBit j = false := by
  intro n
  induction n with
  | zero => intro x h; simp [Nat.mod_one] at h
  | succ n ih =>
    intro x h
    unfold lowest_set
    by_cases h1 : x % 2 = 1
    · rw [if_pos h1]
      refine ⟨by omega, ?_, ?_⟩
      · rw [Nat.testBit_zero]; simp [h1]
      · intro j hj; omega
    · rw [if_neg h1]
      have h2 : (x / 2) % 2 ^ n ≠ 0 := by
        intro hc
        apply h
        have h3 : x % 2 ^ (n + 1) = 2 * ((x / 2) % 2 ^ n) + x % 2 := by
          rw [Nat.pow_succ, Nat.mul_comm (2 ^ n) 2, Nat.mod_mul]
          omega
        rw [h3, hc]; omega
      obtain ⟨a, c, d⟩ := ih (x / 2) h2
      refine ⟨by omega, ?_, ?_⟩
      · rw [Nat.testBit_succ]; exact c
      · intro j hj
        cases j with
        | zero => rw [Nat.testBit_zero]; simp [h1]
        | succ j => rw [Nat.testBit_succ]; exact d j (by omega)

/-- The lowest set bit does not depend on how many bits are scanned beyond it. -/
theorem lowest_set_unique {x z1 z2 : Nat} (h1 : x.testBit z1 = true)
    (h1b : ∀ j, j < z1 → x.testBit j = false) (h2 : x.testBit z2 = true)
    (h2b : ∀ j, j < z2 → x.testBit j = false) : z1 = z2 := by
  rcases Nat.lt_trichotomy z1 z2 with h | h | h
  · rw [h2b z1 h] at h1; cases h1
  · exact h
  · rw [h1b z2 h] at h2; cases h2

/-- The lowest clear bit of a 32-bit word that is not all ones, as both branches of
`__ffz` compute it: 0-based with `_MSC_VER`, 1-based without. -/
theorem ffz_spec {b : Build} (hb : b.long_bits = 32) {w : Nat} (hw : w < 2 ^ 32)
    (hne : w ≠ ULONG_MAX b) :
    ∃ z, z < 32 ∧ w.testBit z = false ∧ (∀ j, j < z → w.testBit j = true) ∧
      ffz b w = if b.msc_ver then z else z + 1 := by
  have hmax : ULONG_MAX b = 2 ^ 32 - 1 := by unfold ULONG_MAX; rw [hb]
  rw [hmax] at hne
  have hy : ulong_not b w = 2 ^ 32 - 1 - w := by
    unfold ulong_not; rw [hmax, Nat.mod_eq_of_lt (by rw [hb]; exact hw)]
  have hy0 : ulong_not b w ≠ 0 := by rw [hy]; omega
  have hylt : ulong_not b w < 2 ^ 32 := by rw [hy]; omega
  have h32 : ulong_not b w % 2 ^ 32 ≠ 0 := by rw [Nat.mod_eq_of_lt hylt]; exact hy0
  obtain ⟨a, c, d⟩ := lowest_set_spec 32 (ulong_not b w) h32
  have hbit : ∀ j, j < 32 → (ulong_not b w).testBit j = !w.testBit j := by
    intro j hj
    rw [testBit_ulong_not hb, Nat.mod_eq_of_lt hw]
    simp [hj]
  refine ⟨lowest_set 32 (ulong_not b w), a, ?_, ?_, ?_⟩
  · have := hbit _ a
    rw [c] at this
    simpa using this.symm
  · intro j hj
    have h1 := hbit j (by omega)
    rw [d j hj] at h1
    simpa using h1.symm
  · unfold ffz
    cases hm : b.msc_ver
    · simp only [Bool.false_eq_true, if_false]
      unfold builtin_ffs
      rw [if_neg h32, Nat.mod_eq_of_lt hylt]
    · simp only [if_true]
      unfold BitScanForward64
      have hylt64 : ulong_not b w < 2 ^ 64 := by omega
      rw [Nat.mod_eq_of_lt hylt64]
      have h64 : ulong_not b w % 2 ^ 64 ≠ 0 := by rw [Nat.mod_eq_of_lt hylt64]; exact hy0
      obtain ⟨a2, c2, d2⟩ := lowest_set_spec 64 (ulong_not b w) h64
      exact lowest_set_unique c2 d2 c d

theorem test_bit_word {b : Build} (hb : b.long_bits = 32) (bmp : Nat → Nat) (i z : Nat)
    (hz : z < 32) : test_bit b (i * 32 + z) bmp = (bmp i).testBit z := by
  rw [test_bit_eq hb]
  have h1 : (i * 32 + z) / 32 = i := by omega
  have h2 : (i * 32 + z) % 32 = z := by omega
  rw [h1, h2]

theorem word_full_of_bits {b : Build} (hb : b.long_bits = 32) {w : Nat}
    (h : w = ULONG_MAX b) (z : Nat) (hz : z < 32) : w.testBit z = true := by
  have hmax : ULONG_MAX b = 2 ^ 32 - 1 := by unfold ULONG_MAX; rw [hb]
  rw [h, hmax, Nat.testBit_two_pow_sub_one]
  simp [hz]

/-- The search loop of `find_first_zero_bit` with the `_MSC_VER` branch of `__ffz`. -/
theorem find_first_zero_bit_from_msvc {b : Build} (hb : b.long_bits = 32)
    (hm : b.msc_ver = true) (bmp : Nat → Nat) (hw : ∀ w, bmp w < 2 ^ 32) (size : Nat) :
    ∀ (fuel i : Nat), size ≤ i + fuel → (∀ j, j < i * 32 → j < size → test_bit b j bmp = true) →
      find_first_zero_bit_from b bmp size fuel i ≤ size ∧
      (∀ j, j < find_first_zero_bit_from b bmp size fuel i → test_bit b j bmp = true) ∧
      (find_first_zero_bit_from b bmp size fuel i < size →
        test_bit b (find_first_zero_bit_from b bmp size fuel i) bmp = false) := by
  intro fuel
  induction fuel with
  | zero =>
    intro i hf hpre
    unfold find_first_zero_bit_from
    refine ⟨le_refl _, ?_, fun h => absurd h (lt_irrefl _)⟩
    intro j hj
    exact hpre j (by omega) hj
  | succ fuel ih =>
    intro i hf hpre
    unfold find_first_zero_bit_from BITMAP_BITS
    rw [hb]
    by_cases h1 : i * 32 < size
    · rw [if_pos h1]
      by_cases h2 : bmp i = ULONG_MAX b
      · rw [if_neg (by simpa using h2)]
        apply ih (i + 1) (by omega)
        intro j hj hjs
        by_cases h3 : j < i * 32
        · exact hpre j h3 hjs
        · have h4 : j = i * 32 + (j - i * 32) := by omega
          rw [h4, test_bit_word hb bmp i _ (by omega)]
          exact word_full_of_bits hb h2 _ (by omega)
      · rw [if_pos h2]
        obtain ⟨z, hz, hz0, hz1, hzf⟩ := ffz_spec hb (hw i) h2
        rw [hm] at hzf
        simp only [if_true] at hzf
        rw [hzf]
        refine ⟨Nat.min_le_right _ _, ?_, ?_⟩
        · intro j hj
          have hj2 : j < i * 32 + z := lt_of_lt_of_le hj (Nat.min_le_left _ _)
          have hj3 : j < size := lt_of_lt_of_le hj (Nat.min_le_right _ _)
          by_cases h3 : j < i * 32
          · exact hpre j h3 hj3
          · have h4 : j = i * 32 + (j - i * 32) := by omega
            rw [h4, test_bit_word hb bmp i _ (by omega)]
            exact hz1 _ (by omega)
        · intro hlt
          have h5 : min (i * 32 + z) size = i * 32 + z := by
            rcases Nat.le_total (i * 32 + z) size with h | h
            · exact Nat.min_eq_left h
            · rw [Nat.min_eq_right h] at hlt; omega
          rw [h5, test_bit_word hb bmp i z hz]
          exact hz0
    · rw [if_neg h1]
      refine ⟨le_refl _, ?_, fun h => absurd h (lt_irrefl _)⟩
      intro j hj
      exact hpre j (by omega) hj

/-- With the `_MSC_VER` branch, `find_first_zero_bit` returns the smallest index below
`size` whose bit is clear, and `size` when there is none. -/
theorem find_first_zero_bit_msvc {b : Build} (hb : b.long_bits = 32)
    (hm : b.msc_ver = true) (bmp : Nat → Nat) (hw : ∀ w, bmp w < 2 ^ 32) (size : Nat) :
    find_first_zero_bit b bmp size ≤ size ∧
      (∀ j, j < find_first_zero_bit b bmp size → test_bit b j bmp = true) ∧
      (find_first_zero_bit b bmp size < size →
        test_bit b (find_first_zero_bit b bmp size) bmp = false) :=
  find_first_zero_bit_from_msvc hb hm bmp hw size size 0 (by omega) (fun j hj => by omega)

/-- On a full bit-set the search loop of `find_first_zero_bit` returns `size`, with
either branch of `__ffz`. -/
theorem find_first_zero_bit_from_full {b : Build} (hb : b.long_bits = 32)
    (bmp : Nat → Nat) (hw : ∀ w, bmp w < 2 ^ 32) (size : Nat)
    (hfull : ∀ j, j < size → test_bit b j bmp = true) :
    ∀ (fuel i : Nat), find_first_zero_bit_from b bmp size fuel i = size := by
  intro fuel
  induction fuel with
  | zero => intro i; rfl
  | succ fuel ih =>
    intro i
    unfold find_first_zero_bit_from BITMAP_BITS
    rw [hb]
    by_cases h1 : i * 32 < size
    · rw [if_pos h1]
      by_cases h2 : bmp i = ULONG_MAX b
      · rw [if_neg (by simpa using h2)]
        exact ih (i + 1)
      · rw [if_pos h2]
        obtain ⟨z, hz, hz0, -, hzf⟩ := ffz_spec hb (hw i) h2
        have hge : size ≤ i * 32 + z := by
          by_contra hc
          have := hfull (i * 32 + z) (by omega)
          rw [test_bit_word hb bmp i z hz, hz0] at this
          cases this
        apply Nat.min_eq_right
        rw [hzf]
        split <;> omega
    · rw [if_neg h1]

theorem find_first_zero_bit_full {b : Build} (hb : b.long_bits = 32)
    (bmp : Nat → Nat) (hw : ∀ w, bmp w < 2 ^ 32) (size : Nat)
    (hfull : ∀ j, j < size → test_bit b j bmp = true) :
    find_first_zero_bit b bmp size = size :=
  find_first_zero_bit_from_full hb bmp hw size hfull size 0

/-! ## C4: create on allocation failure -/

/-- C4 failing input: the root (page 2), a PDPT (3), a PD (4) and a PT (5) are allocated,
then the PD for the APIC page cannot be allocated.  `ept_create_ptr` returns failure
having released the root only: pages 3, 4 and 5 stay outstanding (4 outstanding pages,
1 before the call), and the slot root, null before the call, now holds the released
root. -/
theorem ept_create_ptr_failure_leaks :
    (ept_create_ptr msvc_build small_host (pool_mm [some 2, some 3, some 4, some 5, none])
        empty_pool 7).map (fun r => (r.1, r.2.2.count, r.2.1.pml4_list 0))
      = some (none, 4, some 2) ∧
    (ept_create_ptr msvc_build small_host (pool_mm [some 2, some 3, some 4, some 5, none])
        empty_pool 7).map
      (fun r => (decide (2 ∈ r.2.2.live), decide (3 ∈ r.2.2.live),
        decide (4 ∈ r.2.2.live), decide (5 ∈ r.2.2.live)))
      = some (false, true, true, true) ∧
    (pool_mm [some 2, some 3, some 4, some 5, none]).count = 1 ∧
    empty_pool.pml4_list 0 = none :=
  ⟨by decide, by decide, by decide, by decide⟩

/-! ## C7: the slot chosen by create -/

/-- C7 failing input: in the build without `_MSC_VER`, the first `ept_create_ptr` on a pool
with every slot free returns index 1 in `*out`, although the occupancy bit of slot 0 is
clear; the `_MSC_VER` build returns 0. -/
theorem ept_create_ptr_skips_slot_zero_on_gcc :
    (ept_create_ptr gcc_build small_host
        (pool_mm [some 2, some 3, some 4, some 5, some 6, some 7]) empty_pool 7).map
      (fun r => r.1) = some (some 1) ∧
    test_bit gcc_build 0 empty_pool.ptr_bitmap = false ∧
    (ept_create_ptr msvc_build small_host
        (pool_mm [some 2, some 3, some 4, some 5, some 6, some 7]) empty_pool 7).map
      (fun r => r.1) = some (some 0) :=
  ⟨by decide, by decide, by decide⟩

/-! ## C8: create on a full pool -/

/-- C8: with 32-bit bit-set words and a capacity below 2^16, on a pool whose slots are all
occupied `ept_create_ptr` returns failure without allocating a page and without
changing the occupancy bit-set, any slot root or any hardware-list entry: the pool and
the memory are returned as they were. -/
theorem ept_create_ptr_full_pool (b : Build) (host : Host) (st : Mm) (ept : Ept)
    (access : Nat) (hb : b.long_bits = 32) (hcap : b.ptr_bitmap_size < 2 ^ 16)
    (hw : ∀ w, ept.ptr_bitmap w < 2 ^ 32)
    (hfull : ∀ i, i < b.ptr_bitmap_size → test_bit b i ept.ptr_bitmap = true) :
    ept_create_ptr b host st ept access = some (none, ept, st) := by
  unfold ept_create_ptr
  rw [find_first_zero_bit_full hb ept.ptr_bitmap hw b.ptr_bitmap_size hfull,
    Nat.mod_eq_of_lt hcap]
  simp

/-- C8 witness: capacity 4 holding 4 hierarchies, in the build without `_MSC_VER`. -/
theorem ept_create_ptr_full_pool_witness :
    ept_create_ptr gcc_build small_host (pool_mm [some 6]) full_pool 7
      = some (none, full_pool, pool_mm [some 6]) :=
  ept_create_ptr_full_pool gcc_build small_host (pool_mm [some 6]) full_pool 7 rfl
    (by decide) (by intro w; unfold full_pool; dsimp only; split <;> decide) (by decide)

/-! ## The identity mapping built by `setup_pml4` -/

theorem setup_range_grown {b : Build} {host : Host} {st0 : Mm} {root access e : Nat} :
    ∀ (fuel addr : Nat) (st : Mm) (r : Bool) (st1 : Mm), Grown b st0 root st →
      setup_range b host root access e fuel addr st = some (r, st1) →
      Grown b st0 root st1 := by
  intro fuel
  induction fuel with
  | zero =>
    intro addr st r st1 hg h
    unfold setup_range at h
    split at h
    · cases h
    · injection h with h; injection h with _ h2; subst h2; exact hg
  | succ fuel ih =>
    intro addr st r st1 hg h
    unfold setup_range at h
    split at h
    · have hg2 := Grown.map st (if host.is_kernel_addr addr then EPT_ACCESS_ALL else access)
        addr addr hg
      simp only at h
      generalize ept_alloc_page b st root
        (if host.is_kernel_addr addr = true then EPT_ACCESS_ALL else access) addr addr = x
        at h hg2
      obtain ⟨o, s1⟩ := x
      cases o with
      | none =>
        simp only at h
        injection h with h; injection h with _ h2; subst h2; exact hg2
      | some v =>
        simp only at h
        exact ih _ _ _ _ hg2 h
    · injection h with h; injection h with _ h2; subst h2; exact hg

theorem setup_ranges_grown {b : Build} {host : Host} {st0 : Mm} {root access : Nat} :
    ∀ (ranges : List (Nat × Nat)) (st : Mm) (r : Bool) (st1 : Mm), Grown b st0 root st →
      setup_ranges b host root access ranges st = some (r, st1) →
      Grown b st0 root st1 := by
  intro ranges
  induction ranges with
  | nil =>
    intro st r st1 hg h
    unfold setup_ranges at h
    injection h with h; injection h with _ h2; subst h2; exact hg
  | cons range rest ih =>
    intro st r st1 hg h
    unfold setup_ranges at h
    cases hx : setup_range b host root access range.2 (2 ^ 52) range.1 st with
    | none => rw [hx] at h; cases h
    | some v =>
      obtain ⟨r2, s2⟩ := v
      rw [hx] at h
      have hg2 := setup_range_grown _ _ _ _ _ hg hx
      cases r2 with
      | false =>
        simp only at h
        injection h with h; injection h with _ h2; subst h2; exact hg2
      | true =>
        simp only at h
        exact ih _ _ _ hg2 h

theorem setup_pml4_grown {b : Build} {host : Host} {st0 st : Mm} {root access : Nat}
    {r : Bool} {st1 : Mm} (hg : Grown b st0 root st)
    (h : setup_pml4 b host st root access = some (r, st1)) : Grown b st0 root st1 := by
  unfold setup_pml4 at h
  cases hx : setup_ranges b host root access host.ranges st with
  | none => rw [hx] at h; cases h
  | some v =>
    obtain ⟨r2, s2⟩ := v
    rw [hx] at h
    have hg2 := setup_ranges_grown _ _ _ _ hg hx
    cases r2 with
    | false =>
      simp only at h
      injection h with h; injection h with _ h2; subst h2; exact hg2
    | true =>
      simp only at h
      have hg3 := Grown.map s2 EPT_ACCESS_ALL (host.apicbase &&& MSR_IA32_APICBASE_BASE)
        (host.apicbase &&& MSR_IA32_APICBASE_BASE) hg2
      generalize ept_alloc_page b s2 root EPT_ACCESS_ALL
        (host.apicbase &&& MSR_IA32_APICBASE_BASE)
        (host.apicbase &&& MSR_IA32_APICBASE_BASE) = x at h hg3
      obtain ⟨o, s3⟩ := x
      cases o with
      | none =>
        simp only at h
        injection h with h; injection h with _ h2; subst h2; exact hg3
      | some v =>
        simp only at h
        injection h with h; injection h with _ h2; subst h2; exact hg3

/-- The ways `ept_create_ptr` returns. -/
theorem ept_create_ptr_cases {b : Build} {host : Host} {st : Mm} {ept : Ept} {access : Nat}
    {res : Option Nat × Ept × Mm} (h : ept_create_ptr b host st ept access = some res)
    (eptp : Nat)
    (he : eptp = find_first_zero_bit b ept.ptr_bitmap b.ptr_bitmap_size % 2 ^ 16) :
    (eptp = b.ptr_bitmap_size ∧ res = (none, ept, st)) ∨
    (eptp ≠ b.ptr_bitmap_size ∧
      ((mm_alloc_page st).1 = none ∧
        res = (none, { ept with pml4_list := Function.update ept.pml4_list eptp none },
          (mm_alloc_page st).2) ∨
      ∃ root st2, mm_alloc_page st = (some root, (mm_alloc_page st).2) ∧
        ((setup_pml4 b host (mm_alloc_page st).2 root access = some (false, st2) ∧
          res = (none, { ept with pml4_list := Function.update ept.pml4_list eptp (some root) },
            mm_free_page st2 root)) ∨
        (setup_pml4 b host (mm_alloc_page st).2 root access = some (true, st2) ∧
          res = (some eptp,
            { ept with pml4_list := Function.update ept.pml4_list eptp (some root),
                       ptr_bitmap := set_bit b eptp ept.ptr_bitmap },
            match ept.ptr_list with
            | none => { st2 with fault := true }
            | some list =>
              st2.store list eptp (setup_eptp b (st2.mem list eptp) (pa_of root))))))) := by
  unfold ept_create_ptr at h
  simp only at h
  rw [← he] at h
  by_cases h1 : eptp = b.ptr_bitmap_size
  · rw [if_pos h1] at h
    injection h with h
    exact Or.inl ⟨h1, h.symm⟩
  · rw [if_neg h1] at h
    right
    refine ⟨h1, ?_⟩
    generalize hx : mm_alloc_page st = x at h ⊢
    obtain ⟨o, s1⟩ := x
    cases o with
    | none =>
      simp only at h
      injection h with h
      exact Or.inl ⟨rfl, h.symm⟩
    | some root =>
      simp only at h
      right
      cases hs : setup_pml4 b host s1 root access with
      | none => rw [hs] at h; cases h
      | some v =>
        obtain ⟨r2, s2⟩ := v
        rw [hs] at h
        refine ⟨root, s2, rfl, ?_⟩
        cases r2 with
        | false =>
          simp only at h
          injection h with h
          exact Or.inl ⟨hs, h.symm⟩
        | true =>
          simp only at h
          right
          refine ⟨hs, ?_⟩
          cases hl : ept.ptr_list with
          | none =>
            rw [hl] at h
            simp only at h
            injection h with h
            exact h.symm
          | some list =>
            rw [hl] at h
            simp only at h
            injection h with h
            exact h.symm

theorem setup_eptp_old (b : Build) (ptr pml4 : Nat) :
    setup_eptp b ptr pml4 = setup_eptp b 0 pml4 := by
  simp [setup_eptp]

theorem setup_eptp_ne_zero (b : Build) (ptr pml4 : Nat) : setup_eptp b ptr pml4 ≠ 0 := by
  intro h
  have h1 : (setup_eptp b ptr pml4).testBit 1 = true := by
    have h6 : Nat.testBit 6 1 = true := by decide
    unfold setup_eptp VMX_EPT_DEFAULT_MT
    simp only [Nat.xor_self, Nat.zero_or]
    split <;> simp only [Nat.testBit_or, h6, Bool.true_or, Bool.or_true]
  rw [h] at h1
  simp at h1

theorem pool_inv_create {b : Build} {host : Host} {st : Mm} {ept : Ept} {L : Nat}
    {shapes : Nat → Shape} {access : Nat} {res : Option Nat × Ept × Mm}
    (hb : b.long_bits = 32) (hm : b.msc_ver = true) (hcap : b.ptr_bitmap_size < 2 ^ 16)
    (h : PoolInv b st ept L shapes)
    (hc : ept_create_ptr b host st ept access = some res) :
    ∃ shapes1, PoolInv b res.2.2 res.2.1 L shapes1 ∧ res.2.2.fault = st.fault := by
  obtain ⟨hle, -, hclear⟩ := find_first_zero_bit_msvc hb hm ept.ptr_bitmap h.words
    b.ptr_bitmap_size
  have hmod : find_first_zero_bit b ept.ptr_bitmap b.ptr_bitmap_size % 2 ^ 16 =
      find_first_zero_bit b ept.ptr_bitmap b.ptr_bitmap_size :=
    Nat.mod_eq_of_lt (by omega)
  rcases ept_create_ptr_cases hc _ hmod.symm with ⟨-, hres⟩ | ⟨hne, hrest⟩
  · rw [hres]
    exact ⟨shapes, h, rfl⟩
  · generalize find_first_zero_bit b ept.ptr_bitmap b.ptr_bitmap_size = eptp
      at hle hclear hne hrest
    have hfree : test_bit b eptp ept.ptr_bitmap = false := hclear (by omega)
    have hother : ∀ i, test_bit b i ept.ptr_bitmap = true → i ≠ eptp := by
      intro i hi hc2
      rw [hc2, hfree] at hi
      cases hi
    rcases hrest with ⟨hnone, hres⟩ | ⟨root, st2, halloc, hrest⟩
    · rcases mm_alloc_page_spec st with ⟨-, hmem, hlive, hfault, -⟩ | ⟨q, hq, -⟩
      · rw [hres]
        refine ⟨shapes, ⟨h.list, ?_, h.words, ?_, h.list_sep, h.sep⟩, hfault⟩
        · show L ∈ (mm_alloc_page st).2.live
          rw [hlive]; exact h.list_live
        · intro i hi
          obtain ⟨r, hr, hinv, hent⟩ := h.slot i hi
          refine ⟨r, ?_, ?_, ?_⟩
          · show Function.update ept.pml4_list eptp none i = some r
            rw [Function.update_noteq (hother i hi)]; exact hr
          · apply hinv.frame
            · intro π x hx
              show x ∈ (mm_alloc_page st).2.live
              rw [hlive]; exact hinv.live π x hx
            · intro π x _ _ j _
              show (mm_alloc_page st).2.mem x j = _
              rw [hmem]
          · show (mm_alloc_page st).2.mem L i = _
            rw [hmem]; exact hent
      · rw [hnone] at hq; cases hq
    · have hg0 : Grown b st root (mm_alloc_page st).2 := Grown.fresh _ halloc
      have hrl : root ∉ st.live := by
        rcases mm_alloc_page_spec st with ⟨hn, -⟩ | ⟨q, hq, -, hql, -⟩
        · rw [halloc] at hn; cases hn
        · rw [halloc] at hq
          injection hq with hq
          subst hq; exact hql
      have hkeep : ∀ (s : Mm) (sh : Shape), Inv b s root sh →
          (∀ x, x ∈ s.live ↔ x ∈ st.live ∨ ∃ π, sh π = some x) →
          (∀ x, x ∈ st.live → s.mem x = st.mem x) →
          ∀ (s1 : Mm), (∀ x, x ∈ st.live → x ∈ s1.live) →
            (∀ x, x ∈ st.live → x ≠ L → s1.mem x = s.mem x) →
            ∀ i r, Inv b st r (shapes i) → (∀ π, shapes i π ≠ some L) →
              Inv b s1 r (shapes i) := by
        intro s sh _ _ hfr s1 hl1 hm1 i r hinv hsep
        apply hinv.frame
        · intro π x hx
          exact hl1 x (hinv.live π x hx)
        · intro π x hx _ j _
          have hxl := hinv.live π x hx
          have hxL : x ≠ L := fun hc2 => hsep π (hc2 ▸ hx)
          rw [hm1 x hxl hxL, hfr x hxl]
      rcases hrest with ⟨hsetup, hres⟩ | ⟨hsetup, hres⟩
      · obtain ⟨sh, hinv, hacc, hdis, hfault, hfr⟩ := (setup_pml4_grown hg0 hsetup).owned
        have hrlive : root ∈ st2.live := hinv.live [] root hinv.root_eq
        rw [hres]
        show ∃ shapes1, PoolInv b (mm_free_page st2 root) _ L shapes1 ∧
          (mm_free_page st2 root).fault = st.fault
        rw [mm_free_page_live hrlive]
        have hl1 : ∀ x, x ∈ st.live → x ∈ st2.live.erase root := by
          intro x hx
          rw [Finset.mem_erase]
          exact ⟨fun hc2 => hrl (hc2 ▸ hx), (hacc x).2 (Or.inl hx)⟩
        refine ⟨shapes, ⟨h.list, hl1 L h.list_live, h.words, ?_, h.list_sep, h.sep⟩, hfault⟩
        intro i hi
        obtain ⟨r, hr, hinvi, hent⟩ := h.slot i hi
        refine ⟨r, ?_, ?_, ?_⟩
        · show Function.update ept.pml4_list eptp (some root) i = some r
          rw [Function.update_noteq (hother i hi)]; exact hr
        · exact hkeep st2 sh hinv hacc hfr { st2 with live := st2.live.erase root } hl1
            (fun _ _ _ => rfl) i r hinvi (h.list_sep i hi)
        · show st2.mem L i = _
          rw [hfr L h.list_live]; exact hent
      · obtain ⟨sh, hinv, hacc, hdis, hfault, hfr⟩ := (setup_pml4_grown hg0 hsetup).owned
        have hL2 : L ∈ st2.live := (hacc L).2 (Or.inl h.list_live)
        have hLsh : ∀ π, sh π ≠ some L := fun π hc2 => hdis π L hc2 h.list_live
        rw [hres, h.list]
        simp only
        have hmem := store_mem hL2 eptp (setup_eptp b (st2.mem L eptp) (pa_of root))
        have hl1 : ∀ x, x ∈ st.live →
            x ∈ (st2.store L eptp (setup_eptp b (st2.mem L eptp) (pa_of root))).live := by
          intro x hx
          rw [store_live]
          exact (hacc x).2 (Or.inl hx)
        have hm1 : ∀ x, x ∈ st.live → x ≠ L →
            (st2.store L eptp (setup_eptp b (st2.mem L eptp) (pa_of root))).mem x =
              st2.mem x := by
          intro x _ hxL
          rw [hmem]
          funext j
          simp only [hxL, false_and, if_false]
        refine ⟨Function.update shapes eptp sh, ⟨rfl, hl1 L h.list_live, ?_, ?_, ?_, ?_⟩, ?_⟩
        · exact set_bit_lt hb eptp _ h.words
        · intro i hi
          rw [test_bit_set_bit hb] at hi
          by_cases hie : i = eptp
          · subst hie
            refine ⟨root, ?_, ?_, ?_⟩
            · show Function.update ept.pml4_list i (some root) i = some root
              rw [Function.update_same]
            · rw [Function.update_same]
              apply hinv.frame
              · intro π x hx
                rw [store_live]; exact hinv.live π x hx
              · intro π x hx _ j _
                rw [hmem]
                have hxL : x ≠ L := fun hc2 => hLsh π (hc2 ▸ hx)
                simp only [hxL, false_and, if_false]
            · rw [hmem]
              simp only [and_self, if_true]
              exact setup_eptp_old _ _ _
          · have hi2 : test_bit b i ept.ptr_bitmap = true := by simpa [hie] using hi
            obtain ⟨r, hr, hinvi, hent⟩ := h.slot i hi2
            refine ⟨r, ?_, ?_, ?_⟩
            · show Function.update ept.pml4_list eptp (some root) i = some r
              rw [Function.update_noteq hie]; exact hr
            · rw [Function.update_noteq hie]
              exact hkeep st2 sh hinv hacc hfr _ hl1 hm1 i r hinvi (h.list_sep i hi2)
            · rw [hmem]
              simp only [hie, and_false, if_false]
              rw [hfr L h.list_live]; exact hent
        · intro i hi π
          rw [test_bit_set_bit hb] at hi
          by_cases hie : i = eptp
          · subst hie
            rw [Function.update_same]; exact hLsh π
          · have hi2 : test_bit b i ept.ptr_bitmap = true := by simpa [hie] using hi
            rw [Function.update_noteq hie]; exact h.list_sep i hi2 π
        · intro i j hi hj hij π ρ x hx hx2
          rw [test_bit_set_bit hb] at hi hj
          by_cases hie : i = eptp
          · have hje : j ≠ eptp := fun hc2 => hij (hie.trans hc2.symm)
            have hj2 : test_bit b j ept.ptr_bitmap = true := by simpa [hje] using hj
            rw [hie, Function.update_same] at hx
            rw [Function.update_noteq hje] at hx2
            obtain ⟨r, -, hinvj, -⟩ := h.slot j hj2
            exact hdis π x hx (hinvj.live ρ x hx2)
          · have hi2 : test_bit b i ept.ptr_bitmap = true := by simpa [hie] using hi
            rw [Function.update_noteq hie] at hx
            by_cases hje : j = eptp
            · rw [hje, Function.update_same] at hx2
              obtain ⟨r, -, hinvi, -⟩ := h.slot i hi2
              exact hdis ρ x hx2 (hinvi.live π x hx)
            · have hj2 : test_bit b j ept.ptr_bitmap = true := by simpa [hje] using hj
              rw [Function.update_noteq hje] at hx2
              exact h.sep i j hi2 hj2 hij π ρ x hx hx2
        · rw [store_fault hL2]; exact hfault

theorem ept_free_ptr_some {b : Build} {st : Mm} {ept : Ept} {i root : Nat}
    (h : ept.pml4_list i = some root) :
    ept_free_ptr b st ept i =
      ({ ept with ptr_bitmap := clear_bit b i ept.ptr_bitmap }, free_entries 4 st root) := by
  unfold ept_free_ptr
  rw [h]

theorem pool_inv_free_frame {b : Build} {st : Mm} {ept : Ept} {L : Nat} {shapes : Nat → Shape}
    (hb : b.long_bits = 32) (h : PoolInv b st ept L shapes) {i : Nat}
    (hi : test_bit b i ept.ptr_bitmap = true) (fin : Mm) (fm : fin.mem = st.mem)
    (fl : ∀ x, x ∈ fin.live ↔ x ∈ st.live ∧ ¬ Below (shapes i) [] x) :
    PoolInv b fin { ept with ptr_bitmap := clear_bit b i ept.ptr_bitmap } L shapes := by
  have hkeep : ∀ j, test_bit b j ept.ptr_bitmap = true → j ≠ i →
      ∀ π x, shapes j π = some x → x ∈ fin.live := by
    intro j hj hji π x hx
    obtain ⟨r, -, hinvj, -⟩ := h.slot j hj
    rw [fl]
    refine ⟨hinvj.live π x hx, ?_⟩
    rintro ⟨ρ, hρ⟩
    exact h.sep j i hj hi hji π _ x hx hρ
  refine ⟨h.list, ?_, clear_bit_lt i _ h.words, ?_, ?_, ?_⟩
  · rw [fl]
    refine ⟨h.list_live, ?_⟩
    rintro ⟨ρ, hρ⟩
    exact h.list_sep i hi _ hρ
  · intro j hj
    rw [test_bit_clear_bit hb] at hj
    have hji : j ≠ i := by
      intro hc; subst hc; simp at hj
    have hj2 : test_bit b j ept.ptr_bitmap = true := by simpa [hji] using hj
    obtain ⟨r, hr, hinvj, hentj⟩ := h.slot j hj2
    refine ⟨r, hr, ?_, ?_⟩
    · apply hinvj.frame
      · exact hkeep j hj2 hji
      · intro π x _ _ k _
        rw [fm]
    · rw [fm]; exact hentj
  · intro j hj π
    rw [test_bit_clear_bit hb] at hj
    have hji : j ≠ i := by
      intro hc; subst hc; simp at hj
    have hj2 : test_bit b j ept.ptr_bitmap = true := by simpa [hji] using hj
    exact h.list_sep j hj2 π
  · intro j k hj hk hjk π ρ x hx hx2
    rw [test_bit_clear_bit hb] at hj hk
    have hji : j ≠ i := by
      intro hc; subst hc; simp at hj
    have hki : k ≠ i := by
      intro hc; subst hc; simp at hk
    have hj2 : test_bit b j ept.ptr_bitmap = true := by simpa [hji] using hj
    have hk2 : test_bit b k ept.ptr_bitmap = true := by simpa [hki] using hk
    exact h.sep j k hj2 hk2 hjk π ρ x hx hx2

theorem ept_free_ptr_fst {b : Build} {st : Mm} {ept : Ept} {i root : Nat}
    (h : ept.pml4_list i = some root) :
    (ept_free_ptr b st ept i).1 = { ept with ptr_bitmap := clear_bit b i ept.ptr_bitmap } := by
  rw [ept_free_ptr_some h]

theorem ept_free_ptr_snd {b : Build} {st : Mm} {ept : Ept} {i root : Nat}
    (h : ept.pml4_list i = some root) :
    (ept_free_ptr b st ept i).2 = free_entries 4 st root := by
  rw [ept_free_ptr_some h]

theorem pool_inv_free {b : Build} {st : Mm} {ept : Ept} {L : Nat} {shapes : Nat → Shape}
    (hb : b.long_bits = 32) (h : PoolInv b st ept L shapes) {i : Nat}
    (hi : test_bit b i ept.ptr_bitmap = true) :
    PoolInv b (ept_free_ptr b st ept i).2 (ept_free_ptr b st ept i).1 L shapes ∧
      (ept_free_ptr b st ept i).2.fault = st.fault ∧
      (ept_free_ptr b st ept i).2.mem = st.mem ∧
      (∀ x, x ∈ (ept_free_ptr b st ept i).2.live ↔
        x ∈ st.live ∧ ¬ Below (shapes i) [] x) ∧
      (ept_free_ptr b st ept i).1.ptr_bitmap = clear_bit b i ept.ptr_bitmap := by
  obtain ⟨root, hroot, hinv, hent⟩ := h.slot i hi
  rw [ept_free_ptr_fst hroot, ept_free_ptr_snd hroot]
  have hfree := free_entries_spec hinv 2 [] root rfl hinv.root_eq st rfl
    (fun x hx => hx.elim (fun ρ hρ => hinv.live _ _ hρ))
  have e22 : 2 + 2 = 4 := rfl
  rw [e22] at hfree
  obtain ⟨fm, ff, -, fl⟩ := hfree
  exact ⟨pool_inv_free_frame hb h hi _ fm fl, ff, fm, fl, rfl⟩

theorem test_bit_zero_bitmap {b : Build} (hb : b.long_bits = 32) (i : Nat) :
    test_bit b i (fun _ => 0) = false := by
  rw [test_bit_eq hb]
  simp

theorem init_ept_loop_inv {b : Build} {host : Host} {L : Nat}
    (hb : b.long_bits = 32) (hm : b.msc_ver = true) (hcap : b.ptr_bitmap_size < 2 ^ 16) :
    ∀ (n : Nat) (ept : Ept) (st : Mm) (shapes : Nat → Shape) (r : Bool) (ept1 : Ept)
      (st1 : Mm), PoolInv b st ept L shapes →
      init_ept_loop b host n ept st = some (r, ept1, st1) →
      ∃ shapes1, PoolInv b st1 ept1 L shapes1 ∧ st1.fault = st.fault := by
  intro n
  induction n with
  | zero =>
    intro ept st shapes r ept1 st1 h hl
    unfold init_ept_loop at hl
    injection hl with hl
    injection hl with _ hl
    injection hl with h1 h2
    subst h1; subst h2
    exact ⟨shapes, h, rfl⟩
  | succ n ih =>
    intro ept st shapes r ept1 st1 h hl
    unfold init_ept_loop at hl
    cases hc : ept_create_ptr b host st ept EPT_ACCESS_ALL with
    | none => rw [hc] at hl; cases hl
    | some res =>
      obtain ⟨shapes2, h2, hf2⟩ := pool_inv_create hb hm hcap h hc
      obtain ⟨o, e2, s2⟩ := res
      rw [hc] at hl
      cases o with
      | none =>
        simp only at hl
        injection hl with hl
        injection hl with _ hl
        injection hl with h3 h4
        subst h3; subst h4
        exact ⟨shapes2, h2, hf2⟩
      | some v =>
        simp only at hl
        obtain ⟨shapes3, h3, hf3⟩ := ih e2 s2 shapes2 r ept1 st1 h2 hl
        exact ⟨shapes3, h3, hf3.trans hf2⟩

theorem init_ept_inv {b : Build} {host : Host} {st : Mm} {ept0 ept : Ept} {st1 : Mm}
    (hb : b.long_bits = 32) (hm : b.msc_ver = true) (hcap : b.ptr_bitmap_size < 2 ^ 16)
    (h : init_ept b host st ept0 = some (true, ept, st1)) :
    ∃ L shapes, PoolInv b st1 ept L shapes ∧ st1.fault = st.fault := by
  unfold init_ept at h
  rcases mm_alloc_page_spec st with ⟨hn, -⟩ | ⟨L, hq, -, -, hmem, hlive, hfault, -⟩
  · have hpair : mm_alloc_page st = (none, (mm_alloc_page st).2) := by rw [← hn]
    rw [hpair] at h
    simp only at h
    injection h with h
    injection h with h _
    cases h
  · have hpair : mm_alloc_page st = (some L, (mm_alloc_page st).2) := by rw [← hq]
    rw [hpair] at h
    simp only at h
    have h0 : PoolInv b (mm_alloc_page st).2
        { ept0 with ptr_list := some L, ptr_bitmap := fun _ => 0 } L
        (fun _ => Shape.single 0) := by
      refine ⟨rfl, ?_, ?_, ?_, ?_, ?_⟩
      · rw [hlive]; exact Finset.mem_insert_self _ _
      · intro w; show (0 : Nat) < 2 ^ 32; decide
      · intro i hi
        rw [show test_bit b i (fun _ => 0) = false from test_bit_zero_bitmap hb i] at hi
        cases hi
      · intro i hi
        rw [show test_bit b i (fun _ => 0) = false from test_bit_zero_bitmap hb i] at hi
        cases hi
      · intro i j hi
        rw [show test_bit b i (fun _ => 0) = false from test_bit_zero_bitmap hb i] at hi
        cases hi
    cases hl : init_ept_loop b host b.eptp_init_used
        { ept0 with ptr_list := some L, ptr_bitmap := fun _ => 0 } (mm_alloc_page st).2 with
    | none => rw [hl] at h; cases h
    | some v =>
      obtain ⟨r, e2, s2⟩ := v
      obtain ⟨shapes2, h2, hf2⟩ := init_ept_loop_inv hb hm hcap _ _ _ _ _ _ _ h0 hl
      rw [hl] at h
      cases r with
      | true =>
        simp only at h
        injection h with h
        injection h with _ h
        injection h with h3 h4
        subst h3; subst h4
        exact ⟨L, shapes2, h2, hf2.trans hfault⟩
      | false =>
        simp only at h
        split at h <;>
        · injection h with h
          injection h with h _
          cases h

/-- Every reachable pool state is well-formed (with the `_MSC_VER` branch of the bit
search). -/
theorem pool_reach_inv {b : Build} {host : Host} {ept : Ept} {st : Mm}
    (hb : b.long_bits = 32) (hm : b.msc_ver = true) (hcap : b.ptr_bitmap_size < 2 ^ 16)
    (h : PoolReach b host ept st) : ∃ L shapes, PoolInv b st ept L shapes := by
  induction h with
  | init st ept0 ept st1 hi =>
    obtain ⟨L, shapes, h1, -⟩ := init_ept_inv hb hm hcap hi
    exact ⟨L, shapes, h1⟩
  | create ept st access res _ hc ih =>
    obtain ⟨L, shapes, h1⟩ := ih
    obtain ⟨shapes1, h2, -⟩ := pool_inv_create hb hm hcap h1 hc
    exact ⟨L, shapes1, h2⟩
  | free ept st i _ hi ih =>
    obtain ⟨L, shapes, h1⟩ := ih
    exact ⟨L, shapes, (pool_inv_free hb h1 hi).1⟩

theorem free_loop_mem (sub_free : Mm → Nat → Mm) (hs : ∀ s q, (sub_free s q).mem = s.mem)
    (table : Nat) : ∀ (n : Nat) (st : Mm), (free_loop sub_free table n st).mem = st.mem := by
  intro n
  induction n with
  | zero => intro st; rfl
  | succ n ih =>
    intro st
    have ht : ∀ s : Mm, (s.touch table).mem = s.mem := by
      intro s; unfold Mm.touch; split <;> rfl
    show (let st1 := (free_loop sub_free table n st).touch table
      let entry := st1.mem table n
      if entry ≠ 0 then sub_free st1 (frame_of (PAGE_PA entry)) else st1).mem = _
    simp only
    split
    · rw [hs, ht, ih]
    · rw [ht, ih]

theorem mm_free_page_mem (st : Mm) (p : Nat) : (mm_free_page st p).mem = st.mem := by
  unfold mm_free_page; split <;> rfl

/-- Teardown writes nothing. -/
theorem free_entries_mem : ∀ (lvl : Nat) (st : Mm) (table : Nat),
    (free_entries lvl st table).mem = st.mem := by
  intro lvl
  induction lvl with
  | zero =>
    intro st table
    rw [free_entries, mm_free_page_mem, free_loop_mem _ (fun s q => mm_free_page_mem s q)]
  | succ lvl ih =>
    intro st table
    rw [free_entries_succ, mm_free_page_mem, free_loop_mem]
    intro s q
    split
    · exact ih s q
    · exact mm_free_page_mem s q

theorem ept_free_ptr_mem (b : Build) (st : Mm) (ept : Ept) (i : Nat) :
    (ept_free_ptr b st ept i).2.mem = st.mem := by
  unfold ept_free_ptr
  cases ept.pml4_list i with
  | none => rfl
  | some root => exact free_entries_mem 4 st root

theorem init_pool_reach : PoolReach msvc_build small_host init_pool init_mm :=
  PoolReach.init (mm_with init_script) blank_vcpu.ept init_pool init_mm rfl

/-! ## C6: occupancy and the hardware list -/

/-- C6 (amended): in every pool state reached from a successful `init_ept` by calls of
`ept_create_ptr` (successful or failing) and of `ept_free_ptr` on occupied slots, for
every slot index `i`, if occupancy bit `i` is set then the hardware list page is
outstanding and its entry `i` is non-zero.  (Build with the `_MSC_VER` bit search,
32-bit bit-set words and a capacity below 2^16.) -/
theorem pool_occupied_list_entry (b : Build) (host : Host) (ept : Ept) (st : Mm)
    (hb : b.long_bits = 32) (hm : b.msc_ver = true) (hcap : b.ptr_bitmap_size < 2 ^ 16)
    (hr : PoolReach b host ept st) (i : Nat) (hi : test_bit b i ept.ptr_bitmap = true) :
    ∃ L, ept.ptr_list = some L ∧ L ∈ st.live ∧ st.mem L i ≠ 0 := by
  obtain ⟨L, shapes, h⟩ := pool_reach_inv hb hm hcap hr
  obtain ⟨root, -, -, hent⟩ := h.slot i hi
  refine ⟨L, h.list, h.list_live, ?_⟩
  rw [hent]
  exact setup_eptp_ne_zero _ _ _

/-- C6 witness: slot 0 of the pool that `init_ept` leaves. -/
theorem pool_occupied_list_entry_witness :
    ∃ L, init_pool.ptr_list = some L ∧ L ∈ init_mm.live ∧ init_mm.mem L 0 ≠ 0 :=
  pool_occupied_list_entry msvc_build small_host init_pool init_mm rfl rfl (by decide)
    init_pool_reach 0 (by decide)

/-- C6 counterexample: after `init_ept` and `ept_free_ptr` of slot 0, occupancy bit 0 is
clear while entry 0 of the hardware list (page 1) is still non-zero. -/
theorem pool_stale_list_entry :
    PoolReach msvc_build small_host (ept_free_ptr msvc_build init_mm init_pool 0).1
      (ept_free_ptr msvc_build init_mm init_pool 0).2 ∧
    test_bit msvc_build 0 (ept_free_ptr msvc_build init_mm init_pool 0).1.ptr_bitmap = false ∧
    (ept_free_ptr msvc_build init_mm init_pool 0).1.ptr_list = some 1 ∧
    (ept_free_ptr msvc_build init_mm init_pool 0).2.mem 1 0 ≠ 0 := by
  refine ⟨PoolReach.free _ _ 0 init_pool_reach (by decide), by decide, by decide, ?_⟩
  rw [ept_free_ptr_mem]
  decide

theorem idx_eq (x k : Nat) : (x >>> k) &&& 0x1FF = x / 2 ^ k % 512 := by
  have h : (0x1FF : Nat) = 2 ^ 9 - 1 := by norm_num
  rw [h, Nat.and_pow_two_sub_one_eq_mod, Nat.shiftRight_eq_div_pow]

/-- Two page-aligned addresses below 2^48 with the same four indices are equal. -/
theorem cell_inj {a c : Nat} (ha : a % 4096 = 0) (ha2 : a < 2 ^ 48) (hc : c % 4096 = 0)
    (hc2 : c < 2 ^ 48) (hp : pt_path a = pt_path c) (ht : pte_idx a = pte_idx c) : a = c := by
  unfold pt_path at hp
  injection hp with h1 hp
  injection hp with h2 hp
  injection hp with h3 _
  unfold pde_idx at h1
  unfold ppe_idx at h2
  unfold pxe_idx at h3
  unfold pte_idx at ht
  rw [idx_eq, idx_eq] at h1 h2 h3 ht
  norm_num at h1 h2 h3 ht
  omega

theorem mapped_frame {b : Build} {st : Mm} {root : Nat} {sh : Shape} (h : Inv b st root sh)
    {a addr acc : Nat} (ha : a % 4096 = 0) (ha2 : a < 2 ^ 48) (hc : addr % 4096 = 0)
    (hc2 : addr < 2 ^ 48) (hne : a ≠ addr) (hm : Mapped b st root a acc)
    (acc1 hpa1 : Nat) : Mapped b (ept_alloc_page b st root acc1 addr hpa1).2 root a acc := by
  obtain ⟨q, hpte, hmem⟩ := hm
  rw [ept_pte_spec h a] at hpte
  have hq : sh (pt_path a) = some q := by
    cases hs : sh (pt_path a) with
    | none => rw [hs] at hpte; cases hpte
    | some q1 =>
      rw [hs] at hpte
      simp only [Option.map_some', Option.some.injEq, Prod.mk.injEq, and_true] at hpte
      rw [hpte]
  obtain ⟨sh1, i1, e1, -, -, -, -, lf, -⟩ := ept_alloc_page_inv h acc1 addr hpa1
  refine ⟨q, ?_, ?_⟩
  · rw [ept_pte_spec i1 a, e1 _ _ hq]; rfl
  · have hcell : pt_path a ≠ pt_path addr ∨ pte_idx a ≠ pte_idx addr := by
      by_contra hcon
      push_neg at hcon
      exact hne (cell_inj ha ha2 hc hc2 hcon.1 hcon.2)
    rw [lf (pt_path a) q (e1 _ _ hq) (by simp [pt_path]) (pte_idx a) hcell, if_pos hq]
    exact hmem

theorem mapped_new {b : Build} {st : Mm} {root : Nat} {sh : Shape} (h : Inv b st root sh)
    {addr acc : Nat} {v : Nat × Nat} {st1 : Mm}
    (hmap : ept_alloc_page b st root acc addr addr = (some v, st1)) :
    Mapped b st1 root addr acc := by
  obtain ⟨sh1, i1, -, -, -, -, -, -, hr⟩ := ept_alloc_page_inv h acc addr addr
  rw [hmap] at i1 hr
  rcases hr with hr | ⟨q, -, hq2, hq3⟩
  · cases hr
  · refine ⟨q, ?_, hq3⟩
    rw [ept_pte_spec i1 addr, hq2]; rfl

theorem setup_range_mapped {b : Build} {host : Host} {st0 : Mm} {root access e : Nat}
    (he : e ≤ 2 ^ 48) :
    ∀ (fuel addr : Nat) (st st1 : Mm) (A : Nat → Prop), Grown b st0 root st →
      (∀ a, A a → a % 4096 = 0 ∧ a < 2 ^ 48) →
      (∀ a, A a → Mapped b st root a (range_access host access a)) →
      addr % 4096 = 0 →
      setup_range b host root access e fuel addr st = some (true, st1) →
      ∀ a, (A a ∨ (a % 4096 = 0 ∧ addr ≤ a ∧ a < e)) →
        Mapped b st1 root a (range_access host access a) := by
  intro fuel
  induction fuel with
  | zero =>
    intro addr st st1 A _ _ hQ _ h a ha
    unfold setup_range at h
    split at h
    · cases h
    · injection h with h; injection h with _ h2; subst h2
      rcases ha with ha | ha
      · exact hQ a ha
      · omega
  | succ fuel ih =>
    intro addr st st1 A hg hA hQ hal h a ha
    unfold setup_range at h
    split at h
    · rename_i hlt
      simp only at h
      obtain ⟨sh, hinv, -⟩ := hg.owned
      have hg2 := Grown.map st (if host.is_kernel_addr addr then EPT_ACCESS_ALL else access)
        addr addr hg
      have hfr : ∀ c, A c → c ≠ addr → Mapped b (ept_alloc_page b st root
          (if host.is_kernel_addr addr = true then EPT_ACCESS_ALL else access) addr addr).2
          root c (range_access host access c) := by
        intro c hc hne
        exact mapped_frame hinv (hA c hc).1 (hA c hc).2 hal (by omega) hne (hQ c hc) _ _
      have hnew : ∀ v s, ept_alloc_page b st root
          (if host.is_kernel_addr addr = true then EPT_ACCESS_ALL else access) addr addr
            = (some v, s) → Mapped b s root addr (range_access host access addr) := by
        intro v s hv
        exact mapped_new hinv hv
      generalize ept_alloc_page b st root
        (if host.is_kernel_addr addr = true then EPT_ACCESS_ALL else access) addr addr = x
        at h hg2 hfr hnew
      obtain ⟨o, s1⟩ := x
      cases o with
      | none =>
        simp only at h
        injection h with h; injection h with h _; cases h
      | some v =>
        simp only at h
        have hnext : (addr + PAGE_SIZE) % 2 ^ 64 = addr + 4096 := by
          unfold PAGE_SIZE
          exact Nat.mod_eq_of_lt (by omega)
        rw [hnext] at h
        apply ih (addr + 4096) s1 st1 (fun c => A c ∨ c = addr) hg2 ?_ ?_ (by omega) h a
        · rcases ha with ha | ⟨h1, h2, h3⟩
          · exact Or.inl (Or.inl ha)
          · by_cases hc : a = addr
            · exact Or.inl (Or.inr hc)
            · exact Or.inr ⟨h1, by omega, h3⟩
        · rintro c (hc | hc)
          · exact hA c hc
          · subst hc; exact ⟨hal, by omega⟩
        · rintro c (hc | hc)
          · by_cases hca : c = addr
            · subst hca; exact hnew v s1 rfl
            · exact hfr c hc hca
          · subst hc; exact hnew v s1 rfl
    · injection h with h; injection h with _ h2; subst h2
      rcases ha with ha | ha
      · exact hQ a ha
      · omega

theorem setup_ranges_mapped {b : Build} {host : Host} {st0 : Mm} {root access : Nat} :
    ∀ (ranges : List (Nat × Nat)) (st st1 : Mm) (A : Nat → Prop), Grown b st0 root st →
      (∀ a, A a → a % 4096 = 0 ∧ a < 2 ^ 48) →
      (∀ a, A a → Mapped b st root a (range_access host access a)) →
      (∀ r, r ∈ ranges → r.1 % 4096 = 0 ∧ r.2 ≤ 2 ^ 48) →
      setup_ranges b host root access ranges st = some (true, st1) →
      ∀ a, (A a ∨ ∃ r, r ∈ ranges ∧ a % 4096 = 0 ∧ r.1 ≤ a ∧ a < r.2) →
        Mapped b st1 root a (range_access host access a) := by
  intro ranges
  induction ranges with
  | nil =>
    intro st st1 A _ _ hQ _ h a ha
    unfold setup_ranges at h
    injection h with h; injection h with _ h2; subst h2
    rcases ha with ha | ⟨r, hr, -⟩
    · exact hQ a ha
    · cases hr
  | cons range rest ih =>
    intro st st1 A hg hA hQ hR h a ha
    unfold setup_ranges at h
    have hrange := hR range (List.mem_cons_self _ _)
    cases hx : setup_range b host root access range.2 (2 ^ 52) range.1 st with
    | none => rw [hx] at h; cases h
    | some v =>
      obtain ⟨r2, s2⟩ := v
      rw [hx] at h
      cases r2 with
      | false =>
        simp only at h
        injection h with h; injection h with h _; cases h
      | true =>
        simp only at h
        have hg2 := setup_range_grown _ _ _ _ _ hg hx
        have hm2 := setup_range_mapped hrange.2 _ _ _ _ A hg hA hQ hrange.1 hx
        apply ih s2 st1 (fun c => A c ∨ (c % 4096 = 0 ∧ range.1 ≤ c ∧ c < range.2)) hg2
          ?_ hm2 (fun r hr => hR r (List.mem_cons_of_mem _ hr)) h a
        · rcases ha with ha | ⟨r, hr, h1, h2, h3⟩
          · exact Or.inl (Or.inl ha)
          · rcases List.mem_cons.1 hr with hr | hr
            · subst hr; exact Or.inl (Or.inr ⟨h1, h2, h3⟩)
            · exact Or.inr ⟨r, hr, h1, h2, h3⟩
        · rintro c (hc | ⟨h1, -, h3⟩)
          · exact hA c hc
          · exact ⟨h1, by omega⟩

theorem land_shl (x m k : Nat) : x &&& (m <<< k) = ((x >>> k) &&& m) <<< k := by
  apply Nat.eq_of_testBit_eq
  intro j
  simp only [Nat.testBit_and, Nat.testBit_shiftLeft, Nat.testBit_shiftRight]
  by_cases hj : k ≤ j
  · have : k + (j - k) = j := by omega
    simp [hj, this]
  · simp [hj]

theorem apic_page_aligned (host : Host) : apic_page host % 4096 = 0 ∧ apic_page host < 2 ^ 48 := by
  unfold apic_page MSR_IA32_APICBASE_BASE
  constructor
  · rw [land_shl, Nat.shiftLeft_eq]
    omega
  · have h : host.apicbase &&& (0xFFFFF <<< 12) ≤ 0xFFFFF <<< 12 := Nat.and_le_right
    have h2 : (0xFFFFF : Nat) <<< 12 < 2 ^ 48 := by decide
    omega

theorem setup_pml4_mapped {b : Build} {host : Host} {st0 st st1 : Mm} {root access : Nat}
    (hg : Grown b st0 root st)
    (hR : ∀ r, r ∈ host.ranges → r.1 % 4096 = 0 ∧ r.2 ≤ 2 ^ 48)
    (h : setup_pml4 b host st root access = some (true, st1)) :
    (∀ a, (∃ r, r ∈ host.ranges ∧ a % 4096 = 0 ∧ r.1 ≤ a ∧ a < r.2) → a ≠ apic_page host →
        Mapped b st1 root a (range_access host access a)) ∧
      Mapped b st1 root (apic_page host) EPT_ACCESS_ALL := by
  unfold setup_pml4 at h
  cases hx : setup_ranges b host root access host.ranges st with
  | none => rw [hx] at h; cases h
  | some v =>
    obtain ⟨r2, s2⟩ := v
    rw [hx] at h
    cases r2 with
    | false =>
      simp only at h
      injection h with h; injection h with h _; cases h
    | true =>
      simp only at h
      have hg2 := setup_ranges_grown _ _ _ _ hg hx
      have hm2 := setup_ranges_mapped host.ranges st s2 (fun _ => False) hg
        (fun a ha => ha.elim) (fun a ha => ha.elim) hR hx
      obtain ⟨sh, hinv, -⟩ := hg2.owned
      have hap := apic_page_aligned host
      have hfr : ∀ a, (∃ r, r ∈ host.ranges ∧ a % 4096 = 0 ∧ r.1 ≤ a ∧ a < r.2) →
          a ≠ apic_page host →
          Mapped b (ept_alloc_page b s2 root EPT_ACCESS_ALL (apic_page host)
            (apic_page host)).2 root a (range_access host access a) := by
        intro a ha hne
        obtain ⟨r, hr, h1, h2, h3⟩ := ha
        have hlt : a < 2 ^ 48 := lt_of_lt_of_le h3 (hR r hr).2
        exact mapped_frame hinv h1 hlt hap.1 hap.2 hne
          (hm2 a (Or.inr ⟨r, hr, h1, h2, h3⟩)) _ _
      have hnew : ∀ v s, ept_alloc_page b s2 root EPT_ACCESS_ALL (apic_page host)
          (apic_page host) = (some v, s) → Mapped b s root (apic_page host) EPT_ACCESS_ALL :=
        fun v s hv => mapped_new hinv hv
      change (match ept_alloc_page b s2 root EPT_ACCESS_ALL (apic_page host)
          (apic_page host) with
        | (none, st2) => some (false, st2)
        | (some _, st2) => some (true, st2)) = some (true, st1) at h
      generalize ept_alloc_page b s2 root EPT_ACCESS_ALL (apic_page host)
        (apic_page host) = x at h hfr hnew
      obtain ⟨o, s3⟩ := x
      cases o with
      | none =>
        simp only at h
        injection h with h; injection h with h _; cases h
      | some v =>
        simp only at h
        injection h with h; injection h with _ h2; subst h2
        exact ⟨hfr, hnew v s3 rfl⟩

theorem store_mem_other (st : Mm) {p x : Nat} (h : x ≠ p) (i v : Nat) :
    (st.store p i v).mem x = st.mem x := by
  unfold Mm.store
  split
  · funext j
    simp only [h, false_and, if_false]
  · rfl

theorem mapped_congr {b : Build} {st st1 : Mm} {root : Nat} {sh : Shape}
    (h : Inv b st root sh) (hl : st1.live = st.live)
    (hm : ∀ π x, sh π = some x → st1.mem x = st.mem x) {a acc : Nat}
    (hmp : Mapped b st root a acc) : Mapped b st1 root a acc := by
  have h1 : Inv b st1 root sh := by
    apply h.frame
    · intro π x hx; rw [hl]; exact h.live π x hx
    · intro π x hx _ j _; rw [hm π x hx]
  obtain ⟨q, hpte, hmem⟩ := hmp
  rw [ept_pte_spec h a] at hpte
  refine ⟨q, ?_, ?_⟩
  · rw [ept_pte_spec h1 a]; exact hpte
  · have hq : sh (pt_path a) = some q := by
      cases hs : sh (pt_path a) with
      | none => rw [hs] at hpte; cases hpte
      | some q1 =>
        rw [hs] at hpte
        simp only [Option.map_some', Option.some.injEq, Prod.mk.injEq, and_true] at hpte
        rw [hpte]
    rw [hm _ _ hq]; exact hmem

theorem mapped_leaf {b : Build} {st : Mm} {root a acc : Nat} (h : Mapped b st root a acc)
    (hacc : acc < 8) (ha : a < 2 ^ 48) :
    ∃ e, ept_pte st root a = some e ∧ epte_frame (st.mem e.1 e.2) = a >>> 12 ∧
      epte_access (st.mem e.1 e.2) = acc := by
  obtain ⟨q, hpte, hmem⟩ := h
  refine ⟨(q, pte_idx a), hpte, ?_, ?_⟩
  · show epte_frame (st.mem q (pte_idx a)) = _
    rw [hmem, leaf_word_val b 0 acc a hacc ha, epte_frame_eq, Nat.shiftRight_eq_div_pow]
    split <;> omega
  · show epte_access (st.mem q (pte_idx a)) = _
    unfold epte_access EPT_AR_MASK
    rw [hmem, leaf_word_val b 0 acc a hacc ha, land_seven]
    split <;> omega

/-- C9 (amended): on a pool whose hardware list page is allocated, with page-aligned
physical ranges that end at or below 2^48 and `access` among the {R,W,X} combinations,
after `ept_create_ptr(ept, access, &i)` succeeds slot `i` holds a root such that for
every range `[start, end)` and every page-aligned `a` in it `ept_pte` yields a leaf whose
frame is `a >> 12` and whose access bits are full when `a` is a kernel-address page or
the APIC page and `access` otherwise; the APIC page is mapped to itself with full
access. -/
theorem ept_create_ptr_identity_maps (b : Build) (host : Host) (st : Mm) (ept : Ept)
    (access out : Nat) (ept1 : Ept) (st1 : Mm) (ha : access < 8)
    (hlist : ∀ L, ept.ptr_list = some L → L ∈ st.live)
    (hR : ∀ r, r ∈ host.ranges → r.1 % 4096 = 0 ∧ r.2 ≤ 2 ^ 48)
    (hc : ept_create_ptr b host st ept access = some (some out, ept1, st1)) :
    ∃ root, ept1.pml4_list out = some root ∧ IdentityMapped host st1 root access := by
  rcases ept_create_ptr_cases hc _ rfl with ⟨-, hres⟩ | ⟨-, hrest⟩
  · injection hres with h1 _; cases h1
  · rcases hrest with ⟨-, hres⟩ | ⟨root, st2, halloc, hrest⟩
    · injection hres with h1 _; cases h1
    · rcases hrest with ⟨-, hres⟩ | ⟨hsetup, hres⟩
      · injection hres with h1 _; cases h1
      · have hg0 : Grown b st root (mm_alloc_page st).2 := Grown.fresh _ halloc
        obtain ⟨sh, hinv, hacc, hdis, -, -⟩ := (setup_pml4_grown hg0 hsetup).owned
        obtain ⟨hm1, hm2⟩ := setup_pml4_mapped hg0 hR hsetup
        injection hres with h1 hres
        injection hres with h2 h3
        injection h1 with h1
        subst h1
        have htrans : ∀ a acc, Mapped b st2 root a acc → Mapped b st1 root a acc := by
          intro a acc hmp
          rw [h3]
          cases hl : ept.ptr_list with
          | none =>
            exact mapped_congr hinv rfl (fun _ _ _ => rfl) hmp
          | some L =>
            simp only
            apply mapped_congr hinv (store_live _ _ _ _) _ hmp
            intro π x hx
            have hxL : x ≠ L := fun hc2 => hdis π x hx (hc2 ▸ hlist L hl)
            exact store_mem_other _ hxL _ _
        refine ⟨root, ?_, ?_, ?_⟩
        · rw [h2]
          show Function.update ept.pml4_list _ (some root) _ = some root
          rw [Function.update_same]
        · intro r hr a h1 h2 h3
          have hlt : a < 2 ^ 48 := lt_of_lt_of_le h3 (hR r hr).2
          by_cases hap : a = apic_page host
          · rw [if_pos (Or.inr hap), hap]
            exact mapped_leaf (htrans _ _ hm2) (by decide) (apic_page_aligned host).2
          · have hmp := htrans _ _ (hm1 a ⟨r, hr, h1, h2, h3⟩ hap)
            unfold range_access at hmp
            by_cases hk : host.is_kernel_addr a = true
            · rw [if_pos hk] at hmp
              rw [if_pos (Or.inl hk)]
              exact mapped_leaf hmp (by decide) hlt
            · rw [if_neg hk] at hmp
              rw [if_neg (by rintro (h | h); exact hk h; exact hap h)]
              exact mapped_leaf hmp ha hlt
        · exact mapped_leaf (htrans _ _ hm2) (by decide) (apic_page_aligned host).2

/-- C9 witness: create over the range [0, 0x4000) with access R|X. -/
theorem ept_create_ptr_identity_maps_witness :
    ∃ root, created_pool.pml4_list 0 = some root ∧
      IdentityMapped small_host created_mm root 5 :=
  ept_create_ptr_identity_maps msvc_build small_host
    (pool_mm [some 2, some 3, some 4, some 5, some 6, some 7]) empty_pool 5 0
    created_pool created_mm (by decide)
    (by intro L h; injection h with h; subst h; decide) (by decide) rfl

/-- C9 counterexample: for the range [2^48, 2^48 + 0x1000) create succeeds, and `ept_pte`
at the page-aligned address 2^48 of the range yields a leaf whose frame field is 0, not
`2^48 >> 12`. -/
theorem ept_create_ptr_high_range_frame :
    (ept_create_ptr msvc_build high_host
        (pool_mm [some 2, some 3, some 4, some 5, some 6, some 7]) empty_pool 7).map
      (fun r => (r.1, r.2.1.pml4_list 0, ept_pte r.2.2 2 (2 ^ 48),
        epte_frame (r.2.2.mem 5 0))) = some (some 0, some 2, some (5, 0), 0) ∧
    2 ^ 48 >>> 12 ≠ 0 :=
  ⟨by decide, by decide⟩

/-! ## Unwinding of `vcpu_init` -/

theorem keeps_refl (st : Mm) : Keeps st st := fun _ hx => ⟨hx, rfl⟩

theorem keeps_alloc {st0 st : Mm} (h : Keeps st0 st) : Keeps st0 (mm_alloc_page st).2 := by
  intro x hx
  obtain ⟨h1, h2⟩ := h x hx
  rcases mm_alloc_page_spec st with ⟨-, hm, hl, -⟩ | ⟨q, -, -, hq, hm, hl, -⟩
  · rw [hl, hm]; exact ⟨h1, h2⟩
  · rw [hl, hm]
    refine ⟨Finset.mem_insert_of_mem h1, ?_⟩
    have : x ≠ q := fun hc => hq (hc ▸ h1)
    funext j
    simp only [this, if_false]
    rw [h2]

theorem keeps_free {st0 st : Mm} (h : Keeps st0 st) {y : Nat} (hy : y ∉ st0.live) :
    Keeps st0 (mm_free_page st y) := by
  intro x hx
  obtain ⟨h1, h2⟩ := h x hx
  unfold mm_free_page
  split
  · refine ⟨?_, h2⟩
    show x ∈ st.live.erase y
    rw [Finset.mem_erase]
    exact ⟨fun hc => hy (hc ▸ hx), h1⟩
  · exact ⟨h1, h2⟩

/-- The pool invariant only depends on the pages outstanding when it was established. -/
theorem pool_inv_keeps {b : Build} {st0 st : Mm} {ept : Ept} {L : Nat}
    {shapes : Nat → Shape} (h : PoolInv b st0 ept L shapes) (hk : Keeps st0 st) :
    PoolInv b st ept L shapes := by
  refine ⟨h.list, (hk L h.list_live).1, h.words, ?_, h.list_sep, h.sep⟩
  intro i hi
  obtain ⟨root, hr, hinv, hent⟩ := h.slot i hi
  refine ⟨root, hr, ?_, ?_⟩
  · apply hinv.frame
    · intro π x hx; exact (hk x (hinv.live π x hx)).1
    · intro π x hx _ j _; rw [(hk x (hinv.live π x hx)).2]
  · rw [(hk L h.list_live).2]; exact hent

/-- The loop of `free_pml4_list` releases pages of the pool only. -/
theorem free_pml4_loop_keeps {b : Build} (hb : b.long_bits = 32) {L : Nat}
    {shapes : Nat → Shape} {x : Nat} :
    ∀ (n : Nat) (ept : Ept) (st : Mm), PoolInv b st ept L shapes → x ∈ st.live →
      (∀ i, test_bit b i ept.ptr_bitmap = true → ∀ π, shapes i π ≠ some x) →
      PoolInv b (free_pml4_loop b n (ept, st)).2 (free_pml4_loop b n (ept, st)).1 L shapes ∧
        x ∈ (free_pml4_loop b n (ept, st)).2.live ∧
        ∀ i, test_bit b i (free_pml4_loop b n (ept, st)).1.ptr_bitmap = true →
          test_bit b i ept.ptr_bitmap = true := by
  intro n
  induction n with
  | zero =>
    intro ept st h hx _
    exact ⟨h, hx, fun _ hi => hi⟩
  | succ n ih =>
    intro ept st h hx hsh
    obtain ⟨h1, hx1, hb1⟩ := ih ept st h hx hsh
    show PoolInv b (if test_bit b n (free_pml4_loop b n (ept, st)).1.ptr_bitmap then
        ept_free_ptr b (free_pml4_loop b n (ept, st)).2 (free_pml4_loop b n (ept, st)).1 n
        else free_pml4_loop b n (ept, st)).2
      (if test_bit b n (free_pml4_loop b n (ept, st)).1.ptr_bitmap then
        ept_free_ptr b (free_pml4_loop b n (ept, st)).2 (free_pml4_loop b n (ept, st)).1 n
        else free_pml4_loop b n (ept, st)).1 L shapes ∧
      x ∈ (if test_bit b n (free_pml4_loop b n (ept, st)).1.ptr_bitmap then
        ept_free_ptr b (free_pml4_loop b n (ept, st)).2 (free_pml4_loop b n (ept, st)).1 n
        else free_pml4_loop b n (ept, st)).2.live ∧
      ∀ i, test_bit b i (if test_bit b n (free_pml4_loop b n (ept, st)).1.ptr_bitmap then
        ept_free_ptr b (free_pml4_loop b n (ept, st)).2 (free_pml4_loop b n (ept, st)).1 n
        else free_pml4_loop b n (ept, st)).1.ptr_bitmap = true →
          test_bit b i ept.ptr_bitmap = true
    generalize free_pml4_loop b n (ept, st) = s at h1 hx1 hb1 ⊢
    by_cases ht : test_bit b n s.1.ptr_bitmap = true
    · rw [if_pos ht]
      obtain ⟨h2, -, -, hl2, hbm⟩ := pool_inv_free hb h1 ht
      refine ⟨h2, ?_, ?_⟩
      · rw [hl2]
        refine ⟨hx1, ?_⟩
        rintro ⟨ρ, hρ⟩
        exact hsh n (hb1 n ht) _ hρ
      · intro i hi
        rw [hbm, test_bit_clear_bit hb] at hi
        apply hb1 i
        cases hd : decide (i = n) <;> simp [hd] at hi
        exact hi
    · rw [if_neg ht]
      exact ⟨h1, hx1, hb1⟩

/-- The function `free_ept` releases pages of the pool only. -/
theorem free_ept_keeps {b : Build} (hb : b.long_bits = 32) {st : Mm} {ept : Ept} {L : Nat}
    {shapes : Nat → Shape} {x : Nat} (h : PoolInv b st ept L shapes) (hx : x ∈ st.live)
    (hxL : x ≠ L)
    (hsh : ∀ i, test_bit b i ept.ptr_bitmap = true → ∀ π, shapes i π ≠ some x) :
    x ∈ (free_ept b st ept).2.live := by
  obtain ⟨h1, hx1, -⟩ := free_pml4_loop_keeps hb b.ptr_bitmap_size ept st h hx hsh
  unfold free_ept free_pml4_list
  simp only
  generalize free_pml4_loop b b.ptr_bitmap_size (ept, st) = s at h1 hx1 ⊢
  rw [h1.list]
  simp only
  rw [mm_free_page_live h1.list_live]
  show x ∈ s.2.live.erase L
  rw [Finset.mem_erase]
  exact ⟨hxL, hx1⟩

theorem mm_free_page_keeps_live {st : Mm} {x y : Nat} (hx : x ∈ st.live) (hxy : x ≠ y) :
    x ∈ (mm_free_page st y).live := by
  unfold mm_free_page
  split
  · show x ∈ st.live.erase y
    rw [Finset.mem_erase]; exact ⟨hxy, hx⟩
  · exact hx

/-- A page that is outstanding at `out_pml:`, was not outstanding when the pool was
initialised and is none of the pages released by name, is still outstanding when
`vcpu_init` returns. -/
theorem vcpu_init_out_pml_keeps {b : Build} (hb : b.long_bits = 32) {st0 st : Mm}
    {vcpu : Vcpu} {L : Nat} {shapes : Nat → Shape} {x : Nat}
    (h : PoolInv b st0 vcpu.ept L shapes) (hk : Keeps st0 st) (hx : x ∈ st.live)
    (hx0 : x ∉ st0.live)
    (hpml : ∀ y, vcpu.pml = some y → y ∉ st0.live ∧ x ≠ y)
    (hve : ∀ y, vcpu.ve = some y → y ∉ st0.live ∧ x ≠ y)
    (hvmcs : ∀ y, vcpu.vmcs = some y → y ∉ st0.live ∧ x ≠ y)
    (hvmxon : ∀ y, vcpu.vmxon = some y → y ∉ st0.live ∧ x ≠ y)
    (hidt : ∀ y, vcpu.idt_base = some y → y ∉ st0.live ∧ x ≠ y) :
    x ∈ (vcpu_init_out_pml b st vcpu).2.2.live := by
  have step : ∀ (s : Mm) (p : Option Nat), Keeps st0 s → x ∈ s.live →
      (∀ y, p = some y → y ∉ st0.live ∧ x ≠ y) →
      Keeps st0 (mm_free_ptr s p) ∧ x ∈ (mm_free_ptr s p).live := by
    intro s p hks hxs hp
    cases p with
    | none => exact ⟨hks, hxs⟩
    | some y =>
      exact ⟨keeps_free hks (hp y rfl).1, mm_free_page_keeps_live hxs (hp y rfl).2⟩
  have s1 : Keeps st0 (if b.enable_pml then mm_free_ptr st vcpu.pml else st) ∧
      x ∈ (if b.enable_pml then mm_free_ptr st vcpu.pml else st).live := by
    split
    · exact step st _ hk hx hpml
    · exact ⟨hk, hx⟩
  have s2 := step _ vcpu.ve s1.1 s1.2 hve
  have s3 := step _ vcpu.vmcs s2.1 s2.2 hvmcs
  have s4 := step _ vcpu.vmxon s3.1 s3.2 hvmxon
  have s5 := step _ vcpu.idt_base s4.1 s4.2 hidt
  have hxL : x ≠ L := fun hc => hx0 (hc ▸ h.list_live)
  have hsh : ∀ i, test_bit b i vcpu.ept.ptr_bitmap = true → ∀ π, shapes i π ≠ some x := by
    intro i hi π hc
    obtain ⟨root, -, hinv, -⟩ := h.slot i hi
    exact hx0 (hinv.live π x hc)
  exact free_ept_keeps hb (pool_inv_keeps h s5.1) s5.2 hxL hsh

/-! ## C5: vCPU initialisation on allocation failure -/

theorem stack_fail_init :
    init_ept msvc_build small_host (mm_with stack_fail_script) blank_vcpu.ept
      = some (true, stack_fail_pool, stack_fail_mm) := rfl

theorem stack_fail_pages :
    vcpu_init_pages msvc_build stack_fail_mm { blank_vcpu with ept := stack_fail_pool }
      = vcpu_init_out_pml msvc_build stack_fail_unwind_mm stack_fail_vcpu := rfl

/-- After a successful `init_ept`, a page allocated later and not released by name is
still outstanding when `vcpu_init` leaves through `out_pml:`. -/
theorem vcpu_init_out_pml_leak {b : Build} {host : Host} {st0 : Mm} {ept0 : Ept}
    {st1 st : Mm} {vcpu : Vcpu} {x : Nat} (hb : b.long_bits = 32) (hm : b.msc_ver = true)
    (hcap : b.ptr_bitmap_size < 2 ^ 16)
    (hinit : init_ept b host st0 ept0 = some (true, vcpu.ept, st1))
    (hk : Keeps st1 st) (hx : x ∈ st.live) (hx0 : x ∉ st1.live)
    (hpml : ∀ y, vcpu.pml = some y → y ∉ st1.live ∧ x ≠ y)
    (hve : ∀ y, vcpu.ve = some y → y ∉ st1.live ∧ x ≠ y)
    (hvmcs : ∀ y, vcpu.vmcs = some y → y ∉ st1.live ∧ x ≠ y)
    (hvmxon : ∀ y, vcpu.vmxon = some y → y ∉ st1.live ∧ x ≠ y)
    (hidt : ∀ y, vcpu.idt_base = some y → y ∉ st1.live ∧ x ≠ y)
    (R : Int × Vcpu × Mm) (hR : R = vcpu_init_out_pml b st vcpu) :
    x ∈ R.2.2.live := by
  obtain ⟨L, shapes, hpool, -⟩ := init_ept_inv hb hm hcap hinit
  rw [hR]
  exact vcpu_init_out_pml_keeps hb hpool hk hx hx0 hpml hve hvmcs hvmxon hidt

theorem vcpu_init_result_of_eq {o : Option (Int × Vcpu × Mm)} {X : Int × Vcpu × Mm}
    {v x : Nat} (h : o = some X) (h3 : X.1 = ERR_NOMEM) (h4 : X.2.1.vapic_page = some v)
    (h5 : x ∈ X.2.2.live) :
    o.map (fun r => (r.1, r.2.1.vapic_page, decide (x ∈ r.2.2.live)))
      = some (ERR_NOMEM, some v, true) := by
  subst h
  simp [h3, h4, h5]

theorem stack_fail_vapic_live (R : Int × Vcpu × Mm)
    (hR : R = vcpu_init_out_pml msvc_build stack_fail_unwind_mm stack_fail_vcpu) :
    24 ∈ R.2.2.live := by
  have hk : Keeps stack_fail_mm stack_fail_unwind_mm :=
    keeps_alloc (keeps_alloc (keeps_alloc (keeps_alloc (keeps_alloc (keeps_alloc
      (keeps_refl _))))))
  have h1 : 24 ∈ stack_fail_unwind_mm.live := by decide
  have h2 : 24 ∉ stack_fail_mm.live := by decide
  have hi : init_ept msvc_build small_host (mm_with stack_fail_script) blank_vcpu.ept
      = some (true, stack_fail_vcpu.ept, stack_fail_mm) := stack_fail_init
  have h3 : ∀ y, stack_fail_vcpu.pml = some y → y ∉ stack_fail_mm.live ∧ 24 ≠ y :=
    fun y h => by cases h
  have h4 : ∀ y, stack_fail_vcpu.ve = some y → y ∉ stack_fail_mm.live ∧ 24 ≠ y :=
    fun y h => by injection h with h; subst h; exact ⟨by decide, by decide⟩
  have h5 : ∀ y, stack_fail_vcpu.vmcs = some y → y ∉ stack_fail_mm.live ∧ 24 ≠ y :=
    fun y h => by injection h with h; subst h; exact ⟨by decide, by decide⟩
  have h6 : ∀ y, stack_fail_vcpu.vmxon = some y → y ∉ stack_fail_mm.live ∧ 24 ≠ y :=
    fun y h => by injection h with h; subst h; exact ⟨by decide, by decide⟩
  have h7 : ∀ y, stack_fail_vcpu.idt_base = some y → y ∉ stack_fail_mm.live ∧ 24 ≠ y :=
    fun y h => by injection h with h; subst h; exact ⟨by decide, by decide⟩
  have hb : msvc_build.long_bits = 32 := rfl
  have hm : msvc_build.msc_ver = true := rfl
  have hc : msvc_build.ptr_bitmap_size < 2 ^ 16 := by decide
  exact vcpu_init_out_pml_leak hb hm hc hi hk h1 h2 h3 h4 h5 h6 h7 R hR

/-- C5 failing inputs.  (1) The sixth allocation of `vcpu_init` (the PD for the APIC page
of the first hierarchy) fails: `vcpu_init` returns `ERR_NOMEM`, but three of the five
earlier allocations (pages 3, 4, 5) stay outstanding; the baseline was zero.
(2) Every allocation succeeds except the last one, the stack: `vcpu_init` returns
`ERR_NOMEM`, and the virtual-APIC page (page 24), allocated during the call, is still
outstanding. -/
theorem vcpu_init_failure_leaks :
    (vcpu_init msvc_build small_host (mm_with [some 1, some 2, some 3, some 4, some 5, none])
        blank_vcpu).map
      (fun r => (r.1, r.2.2.count, decide (3 ∈ r.2.2.live), decide (4 ∈ r.2.2.live),
        decide (5 ∈ r.2.2.live)))
      = some (ERR_NOMEM, 3, true, true, true) ∧
    (mm_with [some 1, some 2, some 3, some 4, some 5, none]).count = 0 ∧
    (vcpu_init msvc_build small_host (mm_with stack_fail_script) blank_vcpu).map
      (fun r => (r.1, r.2.1.vapic_page, decide (24 ∈ r.2.2.live)))
      = some (ERR_NOMEM, some 24, true) ∧
    24 ∉ (mm_with stack_fail_script).live := by
  refine ⟨by decide, by decide, ?_, by decide⟩
  have hres : vcpu_init msvc_build small_host (mm_with stack_fail_script) blank_vcpu
      = some (vcpu_init_out_pml msvc_build stack_fail_unwind_mm stack_fail_vcpu) := by
    unfold vcpu_init
    rw [stack_fail_init]
    simp only
    rw [stack_fail_pages]
  generalize vcpu_init msvc_build small_host (mm_with stack_fail_script) blank_vcpu = o
    at hres
  generalize hX : vcpu_init_out_pml msvc_build stack_fail_unwind_mm stack_fail_vcpu = X
    at hres
  have h5 := stack_fail_vapic_live X hX.symm
  have h3 : X.1 = ERR_NOMEM := by rw [← hX]; unfold vcpu_init_out_pml; rfl
  have h4 : X.2.1.vapic_page = some 24 := by rw [← hX]; unfold vcpu_init_out_pml; rfl
  exact vcpu_init_result_of_eq hres h3 h4 h5

/-! ## The slot chosen by create, with the `_MSC_VER` bit search -/

theorem store_mem_cell (st : Mm) (p i v j : Nat) (h : j ≠ i) :
    (st.store p i v).mem p j = st.mem p j := by
  unfold Mm.store
  split
  · simp only [h, and_false, if_false]
  · rfl

/-- With the `_MSC_VER` branch of the bit search (32-bit words, capacity below 2^16), a
successful `ept_create_ptr` returns the smallest index whose occupancy bit was clear,
sets that bit, and leaves the occupancy bit, the root and the hardware-list entry of
every other slot unchanged. -/
theorem ept_create_ptr_lowest_free_msvc (b : Build) (host : Host) (st : Mm) (ept : Ept)
    (access out : Nat) (ept1 : Ept) (st1 : Mm) (hb : b.long_bits = 32)
    (hm : b.msc_ver = true) (hcap : b.ptr_bitmap_size < 2 ^ 16)
    (hw : ∀ w, ept.ptr_bitmap w < 2 ^ 32)
    (hlist : ∀ L, ept.ptr_list = some L → L ∈ st.live)
    (hc : ept_create_ptr b host st ept access = some (some out, ept1, st1)) :
    out < b.ptr_bitmap_size ∧ test_bit b out ept.ptr_bitmap = false ∧
      (∀ j, j < out → test_bit b j ept.ptr_bitmap = true) ∧
      test_bit b out ept1.ptr_bitmap = true ∧
      ept1.ptr_list = ept.ptr_list ∧
      ∀ j, j ≠ out →
        test_bit b j ept1.ptr_bitmap = test_bit b j ept.ptr_bitmap ∧
        ept1.pml4_list j = ept.pml4_list j ∧
        ∀ L, ept.ptr_list = some L → st1.mem L j = st.mem L j := by
  obtain ⟨hle, hset, hclear⟩ := find_first_zero_bit_msvc hb hm ept.ptr_bitmap hw
    b.ptr_bitmap_size
  have hmod : find_first_zero_bit b ept.ptr_bitmap b.ptr_bitmap_size % 2 ^ 16 =
      find_first_zero_bit b ept.ptr_bitmap b.ptr_bitmap_size :=
    Nat.mod_eq_of_lt (by omega)
  rcases ept_create_ptr_cases hc _ hmod.symm with ⟨-, hres⟩ | ⟨hne, hrest⟩
  · injection hres with h1 _; cases h1
  · generalize find_first_zero_bit b ept.ptr_bitmap b.ptr_bitmap_size = eptp
      at hle hset hclear hne hrest
    rcases hrest with ⟨-, hres⟩ | ⟨root, st2, halloc, hrest⟩
    · injection hres with h1 _; cases h1
    · rcases hrest with ⟨-, hres⟩ | ⟨hsetup, hres⟩
      · injection hres with h1 _; cases h1
      · have hg0 : Grown b st root (mm_alloc_page st).2 := Grown.fresh _ halloc
        obtain ⟨sh, -, -, -, -, hfr⟩ := (setup_pml4_grown hg0 hsetup).owned
        injection hres with h1 hres
        injection hres with h2 h3
        injection h1 with h1
        subst h1
        have hlt : out < b.ptr_bitmap_size := by omega
        refine ⟨hlt, hclear hlt, hset, ?_, ?_, ?_⟩
        · rw [h2]
          show test_bit b out (set_bit b out ept.ptr_bitmap) = true
          rw [test_bit_set_bit hb]
          simp
        · rw [h2]
        · intro j hj
          refine ⟨?_, ?_, ?_⟩
          · rw [h2]
            show test_bit b j (set_bit b out ept.ptr_bitmap) = _
            rw [test_bit_set_bit hb]
            simp [hj]
          · rw [h2]
            show Function.update ept.pml4_list out (some root) j = _
            rw [Function.update_noteq hj]
          · intro L hL
            rw [h3, hL]
            simp only
            rw [store_mem_cell _ _ _ _ _ hj, hfr L (hlist L hL)]

/-! ## The range loops leave -/

/-- For a range that ends at or below 2^48 the loop over its pages leaves, whatever the
allocator does. -/
theorem setup_range_returns (b : Build) (host : Host) (root access e : Nat)
    (he : e ≤ 2 ^ 48) :
    ∀ (fuel addr : Nat) (st : Mm), (e - addr + 4095) / 4096 ≤ fuel →
      ∃ r st1, setup_range b host root access e fuel addr st = some (r, st1) := by
  intro fuel
  induction fuel with
  | zero =>
    intro addr st hf
    unfold setup_range
    rw [if_neg (by omega)]
    exact ⟨true, st, rfl⟩
  | succ fuel ih =>
    intro addr st hf
    unfold setup_range
    by_cases hlt : addr < e
    · rw [if_pos hlt]
      simp only
      generalize ept_alloc_page b st root
        (if host.is_kernel_addr addr = true then EPT_ACCESS_ALL else access) addr addr = x
      obtain ⟨o, s1⟩ := x
      cases o with
      | none => exact ⟨false, s1, rfl⟩
      | some v =>
        simp only
        have hnext : (addr + PAGE_SIZE) % 2 ^ 64 = addr + 4096 := by
          unfold PAGE_SIZE
          exact Nat.mod_eq_of_lt (by omega)
        rw [hnext]
        exact ih (addr + 4096) s1 (by omega)
    · rw [if_neg hlt]
      exact ⟨true, st, rfl⟩

theorem setup_ranges_returns (b : Build) (host : Host) (root access : Nat) :
    ∀ (ranges : List (Nat × Nat)) (st : Mm), (∀ r, r ∈ ranges → r.2 ≤ 2 ^ 48) →
      ∃ r st1, setup_ranges b host root access ranges st = some (r, st1) := by
  intro ranges
  induction ranges with
  | nil => intro st _; exact ⟨true, st, rfl⟩
  | cons range rest ih =>
    intro st hR
    have he := hR range (List.mem_cons_self _ _)
    obtain ⟨r, s1, h1⟩ := setup_range_returns b host root access range.2 he (2 ^ 52)
      range.1 st (by omega)
    unfold setup_ranges
    rw [h1]
    cases r with
    | false => exact ⟨false, s1, rfl⟩
    | true =>
      simp only
      exact ih s1 (fun r hr => hR r (List.mem_cons_of_mem _ hr))

theorem setup_pml4_returns (b : Build) (host : Host) (st : Mm) (root access : Nat)
    (hR : ∀ r, r ∈ host.ranges → r.2 ≤ 2 ^ 48) :
    ∃ r st1, setup_pml4 b host st root access = some (r, st1) := by
  obtain ⟨r, s1, h1⟩ := setup_ranges_returns b host root access host.ranges st hR
  unfold setup_pml4
  rw [h1]
  cases r with
  | false => exact ⟨false, s1, rfl⟩
  | true =>
    simp only
    generalize ept_alloc_page b s1 root EPT_ACCESS_ALL
      (host.apicbase &&& MSR_IA32_APICBASE_BASE)
      (host.apicbase &&& MSR_IA32_APICBASE_BASE) = x
    obtain ⟨o, s2⟩ := x
    cases o with
    | none => exact ⟨false, s2, rfl⟩
    | some v => exact ⟨true, s2, rfl⟩

/-- When every physical range ends at or below 2^48, `ept_create_ptr` returns. -/
theorem ept_create_ptr_returns (b : Build) (host : Host) (st : Mm) (ept : Ept)
    (access : Nat) (hR : ∀ r, r ∈ host.ranges → r.2 ≤ 2 ^ 48) :
    ∃ res, ept_create_ptr b host st ept access = some res := by
  unfold ept_create_ptr
  simp only
  split
  · exact ⟨_, rfl⟩
  · generalize mm_alloc_page st = x
    obtain ⟨o, s1⟩ := x
    cases o with
    | none => exact ⟨_, rfl⟩
    | some root =>
      simp only
      obtain ⟨r, s2, h2⟩ := setup_pml4_returns b host s1 root access hR
      rw [h2]
      cases r with
      | false => exact ⟨_, rfl⟩
      | true =>
        simp only
        cases ept.ptr_list with
        | none => exact ⟨_, rfl⟩
        | some l => exact ⟨_, rfl⟩

/-! ## The search for the first set bit, with the `_MSC_VER` branch -/

theorem ffs_spec_msvc {b : Build} (hm : b.msc_ver = true) {w : Nat} (hw : w < 2 ^ 32)
    (hne : w ≠ 0) :
    ∃ z, z < 32 ∧ w.testBit z = true ∧ (∀ j, j < z → w.testBit j = false) ∧ ffs b w = z := by
  have hlt64 : w < 2 ^ 64 := by omega
  have h64 : w % 2 ^ 64 ≠ 0 := by rw [Nat.mod_eq_of_lt hlt64]; exact hne
  obtain ⟨-, c, d⟩ := lowest_set_spec 64 w h64
  refine ⟨lowest_set 64 w, ?_, c, d, ?_⟩
  · by_contra hge
    have hpow : 2 ^ 32 ≤ 2 ^ lowest_set 64 w := Nat.pow_le_pow_right (by decide) (by omega)
    have := Nat.testBit_lt_two_pow (lt_of_lt_of_le hw hpow)
    rw [c] at this
    cases this
  · unfold ffs BitScanForward64
    rw [hm, if_pos rfl, Nat.mod_eq_of_lt hlt64]

theorem find_first_bit_from_msvc {b : Build} (hb : b.long_bits = 32)
    (hm : b.msc_ver = true) (bmp : Nat → Nat) (hw : ∀ w, bmp w < 2 ^ 32) (size : Nat) :
    ∀ (fuel i : Nat), size ≤ i + fuel →
      (∀ j, j < i * 32 → j < size → test_bit b j bmp = false) →
      find_first_bit_from b bmp size fuel i ≤ size ∧
      (∀ j, j < find_first_bit_from b bmp size fuel i → test_bit b j bmp = false) ∧
      (find_first_bit_from b bmp size fuel i < size →
        test_bit b (find_first_bit_from b bmp size fuel i) bmp = true) := by
  intro fuel
  induction fuel with
  | zero =>
    intro i hf hpre
    unfold find_first_bit_from
    refine ⟨le_refl _, ?_, fun h => absurd h (lt_irrefl _)⟩
    intro j hj
    exact hpre j (by omega) hj
  | succ fuel ih =>
    intro i hf hpre
    unfold find_first_bit_from BITMAP_BITS
    rw [hb]
    by_cases h1 : i * 32 < size
    · rw [if_pos h1]
      by_cases h2 : bmp i = 0
      · rw [if_neg (by simpa using h2)]
        apply ih (i + 1) (by omega)
        intro j hj hjs
        by_cases h3 : j < i * 32
        · exact hpre j h3 hjs
        · have h4 : j = i * 32 + (j - i * 32) := by omega
          rw [h4, test_bit_word hb bmp i _ (by omega), h2]
          simp
      · rw [if_pos h2]
        obtain ⟨z, hz, hz1, hz0, hzf⟩ := ffs_spec_msvc hm (hw i) h2
        rw [hzf]
        refine ⟨Nat.min_le_right _ _, ?_, ?_⟩
        · intro j hj
          have hj2 : j < i * 32 + z := lt_of_lt_of_le hj (Nat.min_le_left _ _)
          have hj3 : j < size := lt_of_lt_of_le hj (Nat.min_le_right _ _)
          by_cases h3 : j < i * 32
          · exact hpre j h3 hj3
          · have h4 : j = i * 32 + (j - i * 32) := by omega
            rw [h4, test_bit_word hb bmp i _ (by omega)]
            exact hz0 _ (by omega)
        · intro hlt
          have h5 : min (i * 32 + z) size = i * 32 + z := by
            rcases Nat.le_total (i * 32 + z) size with h | h
            · exact Nat.min_eq_left h
            · rw [Nat.min_eq_right h] at hlt; omega
          rw [h5, test_bit_word hb bmp i z hz]
          exact hz1
    · rw [if_neg h1]
      refine ⟨le_refl _, ?_, fun h => absurd h (lt_irrefl _)⟩
      intro j hj
      exact hpre j (by omega) hj

/-- With the `_MSC_VER` branch, `find_first_bit` returns the smallest index below `size`
whose bit is set, and `size` when there is none. -/
theorem find_first_bit_msvc {b : Build} (hb : b.long_bits = 32)
    (hm : b.msc_ver = true) (bmp : Nat → Nat) (hw : ∀ w, bmp w < 2 ^ 32) (size : Nat) :
    find_first_bit b bmp size ≤ size ∧
      (∀ j, j < find_first_bit b bmp size → test_bit b j bmp = false) ∧
      (find_first_bit b bmp size < size →
        test_bit b (find_first_bit b bmp size) bmp = true) :=
  find_first_bit_from_msvc hb hm bmp hw size size 0 (by omega) (fun j hj => by omega)

/-! ## C11: the bit-set as a set -/

/-- C11 failing input: with a 64-bit `unsigned long`, `set_bit(33)` on an all-clear bitmap
sets bit 1 of the word and leaves bit 33 clear, so that afterwards `test_bit(1)` is true
although 1 is not 33 and `test_bit(1)` was false before; `clear_bit(33)` clears bit 1,
so that `test_bit(1)`, true before, is false afterwards; and `set_bit(31)` sets the
bits 31 to 63 of the word.  With a 32-bit `unsigned long` the same calls touch only
their own bit. -/
theorem bit_set_aliases_on_64_bit_words :
    set_bit lp64_build 33 (fun _ => 0) 0 = 2 ∧
      test_bit lp64_build 1 (set_bit lp64_build 33 (fun _ => 0)) = true ∧
      test_bit lp64_build 1 (fun _ => 0) = false ∧
      test_bit lp64_build 1 (fun _ => 2) = true ∧
      test_bit lp64_build 1 (clear_bit lp64_build 33 (fun _ => 2)) = false ∧
      set_bit lp64_build 31 (fun _ => 0) 0 = 0xFFFFFFFF80000000 ∧
      test_bit gcc_build 1 (set_bit gcc_build 33 (fun _ => 0)) = false ∧
      test_bit gcc_build 1 (clear_bit gcc_build 33 (fun _ => 2)) = true := by
  decide

/-! ## C20: lookup follows the reference walk -/

/-- C20: for every memory, root and gpa, `ept_pte` is the reference walk: it returns
nothing exactly when the PML4 entry, the PDPT entry or (the PDPT entry being no large
page) the PD entry on the path of gpa has all access bits zero; otherwise it returns the
PDPT entry when the large-page bit of that entry is set, else the PD entry when the
large-page bit of that entry is set, else the PT slot selected by the lowest 9-bit index
of gpa. -/
theorem ept_pte_reference_walk (st : Mm) (root gpa : Nat) :
    ept_pte st root gpa = reference_walk st root gpa ∧
      (ept_pte st root gpa = none ↔
        epte_access (st.word (walk_pml4e root gpa)) = 0 ∨
        epte_access (st.word (walk_pdpte st root gpa)) = 0 ∨
        (epte_large (st.word (walk_pdpte st root gpa)) = false ∧
          epte_access (st.word (walk_pde st root gpa)) = 0)) ∧
      (ept_pte st root gpa = none ∨
        ept_pte st root gpa =
          some (if epte_large (st.word (walk_pdpte st root gpa)) then walk_pdpte st root gpa
            else if epte_large (st.word (walk_pde st root gpa)) then walk_pde st root gpa
            else walk_pt st root gpa)) := by
  have key : ept_pte st root gpa = reference_walk st root gpa := by
    unfold ept_pte reference_walk ept_page_addr epte_access epte_large Mm.word walk_pt walk_pde
      walk_pdpte walk_pml4e epte_frame EPT_ACCESS_RWX EPT_AR_MASK
    by_cases h4 : st.mem root (pxe_idx gpa) &&& 7 = 0
    · simp [h4]
    · by_cases h3 : st.mem (frame_of (PAGE_PA (st.mem root (pxe_idx gpa)))) (ppe_idx gpa)
          &&& 7 = 0
      · simp [h4, h3]
      · by_cases l3 : st.mem (frame_of (PAGE_PA (st.mem root (pxe_idx gpa)))) (ppe_idx gpa)
            &&& PAGE_LARGE = 0
        · by_cases h2 : st.mem (frame_of (PAGE_PA (st.mem (frame_of (PAGE_PA
              (st.mem root (pxe_idx gpa)))) (ppe_idx gpa)))) (pde_idx gpa) &&& 7 = 0
          · simp [h4, h3, l3, h2]
          · by_cases l2 : st.mem (frame_of (PAGE_PA (st.mem (frame_of (PAGE_PA
                (st.mem root (pxe_idx gpa)))) (ppe_idx gpa)))) (pde_idx gpa) &&& PAGE_LARGE = 0
            · simp [h4, h3, l3, h2, l2]
            · simp [h4, h3, l3, h2, l2]
        · simp [h4, h3, l3]
  refine ⟨key, ?_, ?_⟩
  · rw [key]
    unfold reference_walk
    by_cases h4 : epte_access (st.word (walk_pml4e root gpa)) = 0
    · simp [h4]
    · by_cases h3 : epte_access (st.word (walk_pdpte st root gpa)) = 0
      · simp [h4, h3]
      · cases l3 : epte_large (st.word (walk_pdpte st root gpa))
        · by_cases h2 : epte_access (st.word (walk_pde st root gpa)) = 0
          · simp [h4, h3, h2]
          · cases l2 : epte_large (st.word (walk_pde st root gpa)) <;> simp [h4, h3, h2]
        · simp [h4, h3]
  · rw [key]
    unfold reference_walk
    by_cases h4 : epte_access (st.word (walk_pml4e root gpa)) = 0
    · simp [h4]
    · by_cases h3 : epte_access (st.word (walk_pdpte st root gpa)) = 0
      · simp [h4, h3]
      · cases l3 : epte_large (st.word (walk_pdpte st root gpa))
        · by_cases h2 : epte_access (st.word (walk_pde st root gpa)) = 0
          · simp [h4, h3, h2]
          · cases l2 : epte_large (st.word (walk_pde st root gpa)) <;> simp [h4, h3, h2]
        · simp [h4, h3]

/-! ## The violation classifier -/

theorem map_identity_lookup {b : Build} {st0 st st1 : Mm} {root gpa : Nat} {e : Nat × Nat}
    (hg : Grown b st0 root st) (hh : gpa < 2 ^ 48)
    (hmap : ept_alloc_page b st root EPT_ACCESS_ALL gpa gpa = (some e, st1)) :
    ept_pte st1 root gpa = some e ∧
      epte_frame (st1.mem e.1 e.2) = gpa >>> 12 ∧
      epte_access (st1.mem e.1 e.2) = EPT_ACCESS_ALL := by
  obtain ⟨sh, hinv, -, -, -, -⟩ := hg.owned
  obtain ⟨sh1, i1, -, -, -, -, -, -, hr⟩ := ept_alloc_page_inv hinv EPT_ACCESS_ALL gpa gpa
  rw [hmap] at i1 hr
  rcases hr with hr | ⟨q, hq1, hq2, hq3⟩
  · cases hr
  · simp only at hq1 hq3 i1
    injection hq1 with hq1
    subst hq1
    have hw := leaf_word_val b 0 EPT_ACCESS_ALL gpa (by decide) hh
    rw [hw] at hq3
    refine ⟨?_, ?_, ?_⟩
    · rw [ept_pte_spec i1 gpa, hq2]; rfl
    · show epte_frame (st1.mem q (pte_idx gpa)) = _
      rw [hq3, epte_frame_eq, Nat.shiftRight_eq_div_pow]
      unfold EPT_ACCESS_ALL
      split <;> omega
    · show epte_access (st1.mem q (pte_idx gpa)) = _
      unfold epte_access EPT_AR_MASK
      rw [hq3, land_seven]
      unfold EPT_ACCESS_ALL
      split <;> omega

theorem exhausted_root_mm_grown (b : Build) :
    Grown b (mm_with [some 1]) 1 exhausted_root_mm :=
  Grown.fresh _ rfl

/-! ## C12: classifier rule 1, the absent mapping -/

/-- C12 (amended): for a descriptor with AR = 0 and gpa below 2^48, on a current
hierarchy built by map calls: when `ept_alloc_page` finds the table pages it needs,
`do_ept_violation` returns handled = true, leaves `*eptp_switch` and `*invd` as the caller
set them (the current index and false), consults neither collaborator, and afterwards
`ept_pte` on the current hierarchy at gpa yields the leaf of the map, with frame
`gpa >> 12` and full {R,W,X} access; when a table page cannot be allocated it returns
handled = false, the out-parameters again untouched. -/
theorem do_ept_violation_absent (b : Build) (cfg : Config) (c : Collab) (ept : Ept)
    (st0 st : Mm) (log : List Event) (rip dpl gpa gva cr3 eptp ac : Nat) (invd : Bool)
    (sw root : Nat) (hroot : ept.pml4_list eptp = some root)
    (hg : Grown b st0 root st) (hgpa : gpa < 2 ^ 48) :
    (∀ e st1, ept_alloc_page b st root EPT_ACCESS_ALL gpa gpa = (some e, st1) →
      (do_ept_violation b cfg c ept st log rip dpl gpa gva cr3 eptp 0 ac invd sw).handled
          = true ∧
        (do_ept_violation b cfg c ept st log rip dpl gpa gva cr3 eptp 0 ac invd sw).eptp_switch
          = sw ∧
        (do_ept_violation b cfg c ept st log rip dpl gpa gva cr3 eptp 0 ac invd sw).invd
          = invd ∧
        (do_ept_violation b cfg c ept st log rip dpl gpa gva cr3 eptp 0 ac invd sw).log = log ∧
        (do_ept_violation b cfg c ept st log rip dpl gpa gva cr3 eptp 0 ac invd sw).st = st1 ∧
        ept_pte st1 root gpa = some e ∧
        epte_frame (st1.mem e.1 e.2) = gpa >>> 12 ∧
        epte_access (st1.mem e.1 e.2) = EPT_ACCESS_ALL) ∧
    (∀ st1, ept_alloc_page b st root EPT_ACCESS_ALL gpa gpa = (none, st1) →
      (do_ept_violation b cfg c ept st log rip dpl gpa gva cr3 eptp 0 ac invd sw).handled
          = false ∧
        (do_ept_violation b cfg c ept st log rip dpl gpa gva cr3 eptp 0 ac invd sw).eptp_switch
          = sw ∧
        (do_ept_violation b cfg c ept st log rip dpl gpa gva cr3 eptp 0 ac invd sw).invd
          = invd ∧
        (do_ept_violation b cfg c ept st log rip dpl gpa gva cr3 eptp 0 ac invd sw).log = log ∧
        (do_ept_violation b cfg c ept st log rip dpl gpa gva cr3 eptp 0 ac invd sw).st
          = st1) := by
  constructor
  · intro e st1 hmap
    have hv : do_ept_violation b cfg c ept st log rip dpl gpa gva cr3 eptp 0 ac invd sw
        = ⟨true, invd, sw, st1, log⟩ := by
      unfold do_ept_violation
      rw [if_pos (show (0 : Nat) = EPT_ACCESS_NONE from rfl), hroot]
      simp only [hmap]
    rw [hv]
    exact ⟨rfl, rfl, rfl, rfl, rfl, map_identity_lookup hg hgpa hmap⟩
  · intro st1 hmap
    have hv : do_ept_violation b cfg c ept st log rip dpl gpa gva cr3 eptp 0 ac invd sw
        = ⟨false, invd, sw, st1, log⟩ := by
      unfold do_ept_violation
      rw [if_pos (show (0 : Nat) = EPT_ACCESS_NONE from rfl), hroot]
      simp only [hmap]
    rw [hv]
    exact ⟨rfl, rfl, rfl, rfl, rfl⟩

/-- C12 witness: AR = 0 at gpa 0xDEAD000 on a fresh hierarchy, the allocator serving the
three table pages. -/
theorem do_ept_violation_absent_witness :
    (do_ept_violation msvc_build plain_config idle_collab one_root_pool grown_root_mm []
        0 0 0xDEAD000 0 0 0 0 2 false 0).handled = true ∧
      ept_pte (ept_alloc_page msvc_build grown_root_mm 1 EPT_ACCESS_ALL 0xDEAD000
        0xDEAD000).2 1 0xDEAD000 = some (4, 173) :=
  have h := (do_ept_violation_absent msvc_build plain_config idle_collab one_root_pool
    (mm_with [some 1, some 2, some 3, some 4]) grown_root_mm []
    0 0 0xDEAD000 0 0 0 2 false 0 1 rfl (grown_root_mm_grown _) (by decide)).1 (4, 173)
    (ept_alloc_page msvc_build grown_root_mm 1 EPT_ACCESS_ALL 0xDEAD000 0xDEAD000).2
    (Prod.ext (by decide) rfl)
  ⟨h.1, h.2.2.2.2.2.1⟩

/-- C12 counterexample: AR = 0 on a well-formed current hierarchy whose allocator cannot
serve the PDPT page: `do_ept_violation` returns handled = false and no mapping is
materialised. -/
theorem do_ept_violation_absent_no_memory :
    Grown msvc_build (mm_with [some 1]) 1 exhausted_root_mm ∧
      one_root_pool.pml4_list 0 = some 1 ∧
      (do_ept_violation msvc_build plain_config idle_collab one_root_pool exhausted_root_mm
        [] 0 0 0xDEAD000 0 0 0 0 2 false 0).handled = false ∧
      ept_pte (do_ept_violation msvc_build plain_config idle_collab one_root_pool
        exhausted_root_mm [] 0 0 0xDEAD000 0 0 0 0 2 false 0).st 1 0xDEAD000 = none :=
  ⟨exhausted_root_mm_grown _, rfl, by decide, by decide⟩

/-! ## C13: classifier rule 2, the page hook -/

/-- C13: with the hook compiled in, for a descriptor with AR != 0 whose gva the hook
collaborator claims, `do_ept_violation` returns handled = true with `*eptp_switch` the
(16-bit) index that `select_eptp(current, AR, AC)` returns; it asks `ksm_find_page` and
`select_eptp` and nothing else (the sandbox is not consulted), and memory and `*invd`
stay as they were. -/
theorem do_ept_violation_hook (b : Build) (cfg : Config) (c : Collab) (ept : Ept) (st : Mm)
    (log : List Event) (rip dpl gpa gva cr3 eptp ar ac : Nat) (invd : Bool) (sw phi : Nat)
    (hcfg : cfg.epage_hook = true) (har : ar ≠ 0) (hphi : c.find_page gva = some phi) :
    (do_ept_violation b cfg c ept st log rip dpl gpa gva cr3 eptp ar ac invd sw).handled
        = true ∧
      (do_ept_violation b cfg c ept st log rip dpl gpa gva cr3 eptp ar ac invd sw).eptp_switch
        = c.select_eptp phi eptp ar ac % 2 ^ 16 ∧
      (do_ept_violation b cfg c ept st log rip dpl gpa gva cr3 eptp ar ac invd sw).invd = invd ∧
      (do_ept_violation b cfg c ept st log rip dpl gpa gva cr3 eptp ar ac invd sw).st = st ∧
      (do_ept_violation b cfg c ept st log rip dpl gpa gva cr3 eptp ar ac invd sw).log
        = log ++ [Event.find_page gva, Event.select_eptp phi eptp ar ac] := by
  have hv : do_ept_violation b cfg c ept st log rip dpl gpa gva cr3 eptp ar ac invd sw
      = ⟨true, invd, c.select_eptp phi eptp ar ac % 2 ^ 16, st,
          (log ++ [Event.find_page gva]) ++ [Event.select_eptp phi eptp ar ac]⟩ := by
    unfold do_ept_violation
    rw [if_neg (show ¬ ar = EPT_ACCESS_NONE from har)]
    simp only [hcfg, if_true, hphi]
  rw [hv]
  refine ⟨rfl, rfl, rfl, rfl, ?_⟩
  simp

/-- C13 witness: the hook selects hierarchy 3 for the gva 0x7000, the current one being
hierarchy 0. -/
theorem do_ept_violation_hook_witness :
    (do_ept_violation msvc_build hook_config hook_collab one_root_pool grown_root_mm []
        0 0 0x5000 0x7000 0 0 7 2 false 0).eptp_switch = 3 :=
  (do_ept_violation_hook msvc_build hook_config hook_collab one_root_pool grown_root_mm []
    0 0 0x5000 0x7000 0 0 7 2 false 0 9 rfl (by decide) rfl).2.1

/-! ## C14: classifier fallthrough -/

/-- C14: for a descriptor with AR != 0, when the hook is not compiled in or claims no
page at gva, and the sandbox is not compiled in or declines (returns false, having left
its out-parameters and the memory as they were), `do_ept_violation` returns
handled = false and leaves memory, `*eptp_switch` and `*invd` unchanged. -/
theorem do_ept_violation_fallthrough (b : Build) (cfg : Config) (c : Collab) (ept : Ept)
    (st : Mm) (log : List Event) (rip dpl gpa gva cr3 eptp ar ac : Nat) (invd : Bool)
    (sw : Nat) (har : ar ≠ 0) (hsw : sw < 2 ^ 16)
    (hhook : cfg.epage_hook = true → c.find_page gva = none)
    (hsand : cfg.pmem_sandbox = true →
      c.sandbox_handle_ept ept st dpl gpa gva cr3 eptp ar ac invd sw = (false, invd, sw, st)) :
    (do_ept_violation b cfg c ept st log rip dpl gpa gva cr3 eptp ar ac invd sw).handled
        = false ∧
      (do_ept_violation b cfg c ept st log rip dpl gpa gva cr3 eptp ar ac invd sw).eptp_switch
        = sw ∧
      (do_ept_violation b cfg c ept st log rip dpl gpa gva cr3 eptp ar ac invd sw).invd = invd ∧
      (do_ept_violation b cfg c ept st log rip dpl gpa gva cr3 eptp ar ac invd sw).st = st := by
  have hnone : (if cfg.epage_hook then c.find_page gva else none) = none := by
    cases hc : cfg.epage_hook
    · rfl
    · exact hhook hc
  unfold do_ept_violation
  rw [if_neg (show ¬ ar = EPT_ACCESS_NONE from har)]
  simp only [hnone]
  cases hs : cfg.pmem_sandbox
  · simp
  · simp [hsand hs]
    exact hsw

/-- C14 witness: AR = RWX, AC = W, neither collaborator compiled in. -/
theorem do_ept_violation_fallthrough_witness :
    (do_ept_violation msvc_build plain_config idle_collab one_root_pool grown_root_mm []
        0 0 0xDEAD000 0 0 0 7 2 false 0).handled = false :=
  (do_ept_violation_fallthrough msvc_build plain_config idle_collab one_root_pool
    grown_root_mm [] 0 0 0xDEAD000 0 0 0 7 2 false 0 (by decide) (by decide)
    (fun h => by cases h) (fun h => by cases h)).1
/-! ## The root switch -/

theorem vmcs_write_log (cpu : Cpu) (f : VmcsField) (v : Nat) :
    (vmcs_write cpu f v).log = cpu.log ++ [Event.vmwrite f v] := rfl

theorem eptp_entry_some {st : Mm} {ept : Ept} {L : Nat} (h : ept.ptr_list = some L)
    (i : Nat) : eptp_entry st ept i = (st.mem L i, st.touch L) := by
  unfold eptp_entry
  rw [h]

/-! ## C15: the root switch with hardware #VE delivery -/

/-- C15: with hardware #VE delivery active, for an occupied target index `t`: when the
VMCS field EPTP_INDEX differs from `t`, `vcpu_switch_root_eptp` writes EPTP_INDEX = t,
then EPT_POINTER = entry `t` of the hardware list, then issues one global invept, and
does nothing else to the VMCS; the same call made again changes nothing.  When
EPTP_INDEX is `t` already it writes no field and issues no invept. -/
theorem vcpu_switch_root_eptp_native (b : Build) (ept : Ept) (st : Mm) (cpu : Cpu)
    (t L : Nat) (hve : cpu.secondary_ctl &&& SECONDARY_EXEC_ENABLE_VE ≠ 0)
    (hocc : test_bit b t ept.ptr_bitmap = true) (hlist : ept.ptr_list = some L)
    (ht : t < 2 ^ 16) :
    (vmcs_read16 cpu .EPTP_INDEX ≠ t →
      (vcpu_switch_root_eptp b ept st cpu t).2.log =
          cpu.log ++ [Event.vmwrite .EPTP_INDEX t,
            Event.vmwrite .EPT_POINTER (st.mem L t % 2 ^ 64), Event.invept_all] ∧
        (vcpu_switch_root_eptp b ept st cpu t).2.vmcs .EPTP_INDEX = t ∧
        (vcpu_switch_root_eptp b ept st cpu t).2.vmcs .EPT_POINTER = st.mem L t % 2 ^ 64 ∧
        (∀ f, f ≠ VmcsField.EPTP_INDEX → f ≠ VmcsField.EPT_POINTER →
          (vcpu_switch_root_eptp b ept st cpu t).2.vmcs f = cpu.vmcs f) ∧
        (vcpu_switch_root_eptp b ept st cpu t).2.log.count Event.invept_all =
          cpu.log.count Event.invept_all + 1 ∧
        vcpu_switch_root_eptp b ept (vcpu_switch_root_eptp b ept st cpu t).1
            (vcpu_switch_root_eptp b ept st cpu t).2 t =
          vcpu_switch_root_eptp b ept st cpu t) ∧
    (vmcs_read16 cpu .EPTP_INDEX = t → vcpu_switch_root_eptp b ept st cpu t = (st, cpu)) := by
  have hocc' : ¬ test_bit b t ept.ptr_bitmap = false := by rw [hocc]; decide
  have ht' : t % 65536 = t := Nat.mod_eq_of_lt ht
  constructor
  · intro hne
    have hv : vcpu_switch_root_eptp b ept st cpu t =
        (st.touch L, invept_all (vmcs_write64 (vmcs_write16 cpu .EPTP_INDEX t) .EPT_POINTER
          (st.mem L t))) := by
      unfold vcpu_switch_root_eptp
      rw [if_neg hocc', if_pos hve, if_neg hne, eptp_entry_some hlist]
    rw [hv]
    refine ⟨?_, ?_, ?_, ?_, ?_, ?_⟩
    · simp [invept_all, vmcs_write64, vmcs_write16, vmcs_write, ht']
    · simp [invept_all, vmcs_write64, vmcs_write16, vmcs_write, ht']
    · simp [invept_all, vmcs_write64, vmcs_write16, vmcs_write]
    · intro f h1 h2
      simp [invept_all, vmcs_write64, vmcs_write16, vmcs_write, Function.update, h1, h2]
    · simp [invept_all, vmcs_write64, vmcs_write16, vmcs_write, List.count_append]
    · unfold vcpu_switch_root_eptp
      have hve2 : (invept_all (vmcs_write64 (vmcs_write16 cpu .EPTP_INDEX t) .EPT_POINTER
          (st.mem L t))).secondary_ctl &&& SECONDARY_EXEC_ENABLE_VE ≠ 0 := hve
      have hidx : vmcs_read16 (invept_all (vmcs_write64 (vmcs_write16 cpu .EPTP_INDEX t)
          .EPT_POINTER (st.mem L t))) .EPTP_INDEX = t := by
        simp [vmcs_read16, invept_all, vmcs_write64, vmcs_write16, vmcs_write,
          ht']
      rw [if_neg hocc', if_pos hve2, if_pos hidx]
  · intro heq
    unfold vcpu_switch_root_eptp
    rw [if_neg hocc', if_pos hve, if_pos heq]

/-- C15 witness: on the pool that `init_ept` leaves, a switch from index 0 to index 2
writes EPTP_INDEX = 2, updates EPT_POINTER and issues one invept. -/
theorem vcpu_switch_root_eptp_native_witness :
    (vcpu_switch_root_eptp msvc_build init_pool init_mm native_cpu 2).2.log =
      [Event.vmwrite .EPTP_INDEX 2, Event.vmwrite .EPT_POINTER (init_mm.mem 1 2 % 2 ^ 64),
        Event.invept_all] :=
  ((vcpu_switch_root_eptp_native msvc_build init_pool init_mm native_cpu 2 1 (by decide)
    (by decide) (by decide) (by decide)).1 (by decide)).1

/-! ## C16: the root switch with emulated #VE -/

/-- C16 (amended): with hardware #VE delivery not active, for an occupied target index
`t`: when `t` differs from the index stored in the shared #VE info page,
`vcpu_switch_root_eptp` stores `t` there, writes EPT_POINTER = entry `t` of the hardware
list and issues one global invept; when the info page holds `t` already it returns at
once, having written nothing and issued no invept. -/
theorem vcpu_switch_root_eptp_emulated (b : Build) (ept : Ept) (st : Mm) (cpu : Cpu)
    (t L : Nat) (hve : cpu.secondary_ctl &&& SECONDARY_EXEC_ENABLE_VE = 0)
    (hocc : test_bit b t ept.ptr_bitmap = true) (hlist : ept.ptr_list = some L) :
    (cpu.ve.eptp % 2 ^ 16 ≠ t →
      (vcpu_switch_root_eptp b ept st cpu t).2.ve.eptp = t ∧
        (vcpu_switch_root_eptp b ept st cpu t).2.log =
          cpu.log ++ [Event.vmwrite .EPT_POINTER (st.mem L t % 2 ^ 64), Event.invept_all] ∧
        (vcpu_switch_root_eptp b ept st cpu t).2.vmcs .EPT_POINTER = st.mem L t % 2 ^ 64 ∧
        (∀ f, f ≠ VmcsField.EPT_POINTER →
          (vcpu_switch_root_eptp b ept st cpu t).2.vmcs f = cpu.vmcs f)) ∧
    (cpu.ve.eptp % 2 ^ 16 = t → vcpu_switch_root_eptp b ept st cpu t = (st, cpu)) := by
  have hocc' : ¬ test_bit b t ept.ptr_bitmap = false := by rw [hocc]; decide
  have hve' : ¬ cpu.secondary_ctl &&& SECONDARY_EXEC_ENABLE_VE ≠ 0 := fun h => h hve
  constructor
  · intro hne
    have hv : vcpu_switch_root_eptp b ept st cpu t =
        (st.touch L, invept_all (vmcs_write64 { cpu with ve := { cpu.ve with eptp := t } }
          .EPT_POINTER (st.mem L t))) := by
      unfold vcpu_switch_root_eptp
      rw [if_neg hocc', if_neg hve', if_neg hne, eptp_entry_some hlist]
    rw [hv]
    refine ⟨rfl, ?_, ?_, ?_⟩
    · simp [invept_all, vmcs_write64, vmcs_write]
    · simp [invept_all, vmcs_write64, vmcs_write]
    · intro f h1
      simp [invept_all, vmcs_write64, vmcs_write, Function.update, h1]
  · intro heq
    unfold vcpu_switch_root_eptp
    rw [if_neg hocc', if_neg hve', if_pos heq]

/-- C16 witness: on the pool that `init_ept` leaves, with emulated #VE, a switch from
index 0 to index 2. -/
theorem vcpu_switch_root_eptp_emulated_witness :
    (vcpu_switch_root_eptp msvc_build init_pool init_mm blank_cpu 2).2.ve.eptp = 2 :=
  ((vcpu_switch_root_eptp_emulated msvc_build init_pool init_mm blank_cpu 2 1 (by decide)
    (by decide) (by decide)).1 (by decide)).1

/-- C16 counterexample: with emulated #VE, the info page naming hierarchy 2 and the
occupied target 2, `vcpu_switch_root_eptp` writes no VMCS field (EPT_POINTER keeps its
old value, which is not entry 2 of the hardware list) and issues no invept. -/
theorem vcpu_switch_root_eptp_emulated_same_index :
    emulated_cpu_at_2.secondary_ctl &&& SECONDARY_EXEC_ENABLE_VE = 0 ∧
      test_bit msvc_build 2 init_pool.ptr_bitmap = true ∧
      (vcpu_switch_root_eptp msvc_build init_pool init_mm emulated_cpu_at_2 2).2.log = [] ∧
      (vcpu_switch_root_eptp msvc_build init_pool init_mm emulated_cpu_at_2 2).2.vmcs
        .EPT_POINTER = 0 ∧
      init_pool.ptr_list = some 1 ∧
      init_mm.mem 1 2 ≠ 0 := by
  refine ⟨by decide, by decide, by decide, by decide, by decide, ?_⟩
  decide
/-! ## C17: the non-root switch request -/

theorem nonroot_switch_request (b : Build) (cfg : Config) (c : Collab) (ept : Ept) (st : Mm)
    (cpu : Cpu) (cs rip : Nat)
    (hh : (nonroot_verdict b cfg c ept st cpu cs).handled = true)
    (hs : (nonroot_verdict b cfg c ept st cpu cs).eptp_switch ≠ cpu.ve.eptp % 2 ^ 16) :
    (__ept_handle_violation b cfg c ept st cpu cs rip).2.log =
      (nonroot_verdict b cfg c ept st cpu cs).log ++ [Event.vmfunc (cpu.ve.eptp % 2 ^ 16) 0] := by
  unfold __ept_handle_violation
  simp only [hh, Bool.true_eq_false, if_false, hs, ne_eq, not_false_eq_true, if_true]

theorem nonroot_no_switch_request (b : Build) (cfg : Config) (c : Collab) (ept : Ept)
    (st : Mm) (cpu : Cpu) (cs rip : Nat)
    (hh : (nonroot_verdict b cfg c ept st cpu cs).handled = true)
    (hs : (nonroot_verdict b cfg c ept st cpu cs).eptp_switch = cpu.ve.eptp % 2 ^ 16) :
    (__ept_handle_violation b cfg c ept st cpu cs rip).2.log =
      (nonroot_verdict b cfg c ept st cpu cs).log := by
  unfold __ept_handle_violation
  simp only [hh, Bool.true_eq_false, if_false, hs, ne_eq, not_true_eq_false]

/-- C17 failing input: in non-root mode, current hierarchy 0, the hook claims the gva and
selects hierarchy 3.  The classifier returns handled = true with switch-to = 3, and
`__ept_handle_violation` makes one VMFUNC request, `vcpu_vmfunc(0, 0)`: its index
argument is the current index 0, not switch-to; no request names hierarchy 3. -/
theorem nonroot_switch_requests_current_index :
    (nonroot_verdict msvc_build hook_config hook_collab init_pool init_mm ve_fault_cpu
        0x10).handled = true ∧
      (nonroot_verdict msvc_build hook_config hook_collab init_pool init_mm ve_fault_cpu
        0x10).eptp_switch = 3 ∧
      (__ept_handle_violation msvc_build hook_config hook_collab init_pool init_mm
        ve_fault_cpu 0x10 0x401000).2.log =
        [Event.find_page 0x7000, Event.select_eptp 9 0 7 2, Event.vmfunc 0 0] ∧
      Event.vmfunc 3 0 ∉ (__ept_handle_violation msvc_build hook_config hook_collab
        init_pool init_mm ve_fault_cpu 0x10 0x401000).2.log := by
  have h1 : (nonroot_verdict msvc_build hook_config hook_collab init_pool init_mm ve_fault_cpu
      0x10).handled = true := by decide
  have h2 : (nonroot_verdict msvc_build hook_config hook_collab init_pool init_mm ve_fault_cpu
      0x10).eptp_switch = 3 := by decide
  have h3 : (nonroot_verdict msvc_build hook_config hook_collab init_pool init_mm ve_fault_cpu
      0x10).log = [Event.find_page 0x7000, Event.select_eptp 9 0 7 2] := by decide
  have h4 := nonroot_switch_request msvc_build hook_config hook_collab init_pool init_mm
    ve_fault_cpu 0x10 0x401000 h1 (by rw [h2]; decide)
  rw [h3] at h4
  refine ⟨h1, h2, ?_, ?_⟩
  · rw [h4]; decide
  · rw [h4]; decide

/-! ## C18: root-mode post-processing -/

theorem root_verdict_absent (b : Build) (cfg : Config) (c : Collab) (ept : Ept) (st : Mm)
    (cpu : Cpu) (har : exit_ar (vmcs_read cpu .EXIT_QUALIFICATION) = 0) :
    (root_verdict b cfg c ept st cpu).eptp_switch = vcpu_eptp_idx cpu ∧
      (root_verdict b cfg c ept st cpu).invd = false ∧
      (root_verdict b cfg c ept st cpu).log = cpu.log := by
  unfold root_verdict do_ept_violation
  simp only [har]
  rw [if_pos (show (0 : Nat) = EPT_ACCESS_NONE from rfl)]
  cases ept.pml4_list (vcpu_eptp_idx cpu) with
  | none => exact ⟨rfl, rfl, rfl⟩
  | some root =>
    simp only
    rcases ept_alloc_page b st root EPT_ACCESS_ALL (vmcs_read cpu .GUEST_PHYSICAL_ADDRESS)
      (vmcs_read cpu .GUEST_PHYSICAL_ADDRESS) with ⟨_ | e, st1⟩
    · exact ⟨rfl, rfl, rfl⟩
    · exact ⟨rfl, rfl, rfl⟩

/-- C18: `ept_handle_violation` returns the handled flag of the classifier.  When handled
with switch-to other than the current index, what it does afterwards is
`vcpu_switch_root_eptp(switch-to)` and nothing else; when handled with switch-to the
current index it issues one global invept if `invd` is set and none otherwise, and
touches no VMCS field; when unhandled it performs no switch and no invept.  After a
descriptor with AR = 0 (an absent mapping materialised, or not) the CPU is as before:
no switch, no invept, no collaborator consulted. -/
theorem ept_handle_violation_post (b : Build) (cfg : Config) (c : Collab) (ept : Ept)
    (st : Mm) (cpu : Cpu) :
    (ept_handle_violation b cfg c ept st cpu).1 = (root_verdict b cfg c ept st cpu).handled ∧
      ((root_verdict b cfg c ept st cpu).handled = true →
        (root_verdict b cfg c ept st cpu).eptp_switch ≠ vcpu_eptp_idx cpu →
        (ept_handle_violation b cfg c ept st cpu).2 =
          vcpu_switch_root_eptp b ept (root_verdict b cfg c ept st cpu).st
            { cpu with log := (root_verdict b cfg c ept st cpu).log }
            (root_verdict b cfg c ept st cpu).eptp_switch) ∧
      ((root_verdict b cfg c ept st cpu).handled = true →
        (root_verdict b cfg c ept st cpu).eptp_switch = vcpu_eptp_idx cpu →
        (ept_handle_violation b cfg c ept st cpu).2 =
          ((root_verdict b cfg c ept st cpu).st,
            { cpu with log := (root_verdict b cfg c ept st cpu).log ++
                (if (root_verdict b cfg c ept st cpu).invd then [Event.invept_all] else []) })) ∧
      ((root_verdict b cfg c ept st cpu).handled = false →
        (ept_handle_violation b cfg c ept st cpu).2 =
          ((root_verdict b cfg c ept st cpu).st,
            { cpu with log := (root_verdict b cfg c ept st cpu).log })) ∧
      (exit_ar (vmcs_read cpu .EXIT_QUALIFICATION) = 0 →
        (ept_handle_violation b cfg c ept st cpu).2.2 = cpu) := by
  refine ⟨?_, ?_, ?_, ?_, ?_⟩
  · unfold ept_handle_violation
    cases hh : (root_verdict b cfg c ept st cpu).handled
    · simp [hh]
    · by_cases hs : (root_verdict b cfg c ept st cpu).eptp_switch = vcpu_eptp_idx cpu
      · cases hi : (root_verdict b cfg c ept st cpu).invd <;> simp [hh, hs, hi]
      · simp [hh, hs]
  · intro hh hs
    unfold ept_handle_violation
    simp [hh, hs]
  · intro hh hs
    unfold ept_handle_violation
    cases hi : (root_verdict b cfg c ept st cpu).invd <;> simp [hh, hs, hi, invept_all]
  · intro hh
    unfold ept_handle_violation
    simp [hh]
  · intro har
    obtain ⟨h1, h2, h3⟩ := root_verdict_absent b cfg c ept st cpu har
    unfold ept_handle_violation
    cases hh : (root_verdict b cfg c ept st cpu).handled
    · simp [hh, h3]
    · simp [hh, h1, h2, h3]

/-- C18 witness: a VM exit with AR = 0 at gpa 0xDEAD000: the mapping is materialised,
`ept_handle_violation` returns true, and no invept and no switch is made. -/
theorem ept_handle_violation_post_witness :
    (ept_handle_violation msvc_build plain_config idle_collab one_root_pool grown_root_mm
        absent_exit_cpu).1 = true ∧
      (ept_handle_violation msvc_build plain_config idle_collab one_root_pool grown_root_mm
        absent_exit_cpu).2.2 = absent_exit_cpu :=
  have h := ept_handle_violation_post msvc_build plain_config idle_collab one_root_pool
    grown_root_mm absent_exit_cpu
  ⟨h.1.trans (by decide), h.2.2.2.2 (by decide)⟩

/-! ## Launch: the required controls -/

theorem land_lacks {v req k : Nat} (hreq : req.testBit k = true) (hv : v &&& 2 ^ k = 0) :
    v &&& req ≠ req := by
  intro h
  have h1 : (v &&& req).testBit k = true := by rw [h]; exact hreq
  rw [Nat.testBit_and, hreq, Bool.and_true] at h1
  have h2 : (v &&& 2 ^ k).testBit k = true := by
    rw [Nat.testBit_and, h1, Nat.testBit_two_pow_self]
    rfl
  rw [hv] at h2
  simp at h2

theorem req_cpuctl_bits (cfg : Config) :
    (req_cpuctl cfg).testBit 31 = true ∧ (req_cpuctl cfg).testBit 28 = true ∧
      (req_cpuctl cfg).testBit 25 = true := by
  unfold req_cpuctl
  simp only [Nat.testBit_or]
  refine ⟨?_, ?_, ?_⟩
  · have : CPU_BASED_ACTIVATE_SECONDARY_CONTROLS.testBit 31 = true := by decide
    simp [this]
  · have : CPU_BASED_USE_MSR_BITMAPS.testBit 28 = true := by decide
    simp [this]
  · have : CPU_BASED_USE_IO_BITMAPS.testBit 25 = true := by decide
    simp [this]

/-- The adjustment keeps a requested bit exactly when the high word of the capability MSR
allows it, and sets every bit of the low word. -/
theorem adjust_ctl_val_testBit (m : Machine) (msr val i : Nat) (hi : i < 32) :
    (adjust_ctl_val m msr val).testBit i =
      ((val.testBit i && (m.msr msr % 2 ^ 64).testBit (32 + i)) ||
        (m.msr msr % 2 ^ 64).testBit i) := by
  unfold adjust_ctl_val
  simp only [Nat.testBit_or, Nat.testBit_and, Nat.testBit_mod_two_pow, Nat.testBit_shiftRight,
    hi, decide_True, Bool.true_and]


theorem quiet_refl (cpu : Cpu) : Quiet cpu cpu :=
  ⟨rfl, [], (List.append_nil _).symm, fun _ he => absurd he (List.not_mem_nil _)⟩

theorem quiet_emit {cpu cpu1 : Cpu} (h : Quiet cpu cpu1) (e : Event)
    (he : e.is_launch_step = false) : Quiet cpu (cpu1.emit e) := by
  obtain ⟨h1, tail, h2, h3⟩ := h
  refine ⟨h1, tail ++ [e], ?_, ?_⟩
  · show cpu1.log ++ [e] = _
    rw [h2, List.append_assoc]
  · intro x hx
    rcases List.mem_append.1 hx with hx | hx
    · exact h3 x hx
    · rw [List.mem_singleton.1 hx]; exact he

theorem quiet_congr {cpu cpu1 cpu2 : Cpu} (h : Quiet cpu cpu1) (hv : cpu2.vmcs = cpu1.vmcs)
    (hl : cpu2.log = cpu1.log) : Quiet cpu cpu2 := by
  obtain ⟨h1, tail, h2, h3⟩ := h
  exact ⟨hv.trans h1, tail, hl.trans h2, h3⟩

theorem vcpu_run_abort (b : Build) (cfg : Config) (m : Machine) (vcpu : Vcpu) (st : Mm)
    (cpu : Cpu) (gsp gip : Nat)
    (h : run_cpuctl cfg m &&& req_cpuctl cfg ≠ req_cpuctl cfg ∨
      run_2ndctl b cfg m &&& req_2ndctl ≠ req_2ndctl) :
    Quiet cpu (vcpu_run b cfg m vcpu st cpu gsp gip) := by
  have q5 := quiet_emit (quiet_emit (quiet_emit (quiet_emit (quiet_emit (quiet_refl cpu)
    Event.copy_idt rfl) (Event.store_revision_id (ptr_pa vcpu.vmxon)
      (m.msr MSR_IA32_VMX_BASIC % 2 ^ 64 % 2 ^ 32)) rfl) (Event.writecr0 (run_cr0 m)) rfl)
    (Event.writecr4 (run_cr4 m)) rfl) (Event.vmx_on (ptr_pa vcpu.vmxon)) rfl
  unfold vcpu_run
  dsimp only
  by_cases h1 : m.vmx_on_err % 2 ^ 8 ≠ 0
  · rw [if_pos h1]
    exact q5
  · rw [if_neg h1]
    have q7 := quiet_emit (quiet_emit q5 (Event.store_revision_id (ptr_pa vcpu.vmcs)
      (m.msr MSR_IA32_VMX_BASIC % 2 ^ 64 % 2 ^ 32)) rfl) (Event.vmx_vmclear (ptr_pa vcpu.vmcs))
      rfl
    by_cases h2 : m.vmclear_err % 2 ^ 8 ≠ 0
    · rw [if_pos h2]
      exact quiet_emit q7 _ rfl
    · rw [if_neg h2]
      have q8 := quiet_emit q7 (Event.vmx_vmptrld (ptr_pa vcpu.vmcs)) rfl
      by_cases h3 : m.vmptrld_err % 2 ^ 8 ≠ 0
      · rw [if_pos h3]
        exact quiet_emit q8 _ rfl
      · rw [if_neg h3]
        by_cases h4 : run_cpuctl cfg m &&& req_cpuctl cfg ≠ req_cpuctl cfg
        · rw [if_pos h4]
          exact quiet_congr q8 rfl rfl
        · rw [if_neg h4]
          have h5 : run_2ndctl b cfg m &&& req_2ndctl ≠ req_2ndctl := h.resolve_left h4
          rw [if_pos h5]
          exact quiet_congr q8 rfl rfl

/-! ## C19: launch refuses unsupported platforms -/

/-- C19 (amended): for every pair of capability-MSR values, each requested control word
being adjusted to (requested AND allowed-ones) OR must-be-ones, `vcpu_run` returns before
it writes any VMCS field and before VMLAUNCH whenever the adjusted primary controls lack
secondary-controls activation, the MSR bitmaps or the I/O bitmaps, or the adjusted
secondary controls lack EPT or VPID. -/
theorem vcpu_run_refuses (b : Build) (cfg : Config) (m : Machine) (vcpu : Vcpu) (st : Mm)
    (cpu : Cpu) (gsp gip : Nat)
    (h : run_cpuctl cfg m &&& CPU_BASED_ACTIVATE_SECONDARY_CONTROLS = 0 ∨
      run_cpuctl cfg m &&& CPU_BASED_USE_MSR_BITMAPS = 0 ∨
      run_cpuctl cfg m &&& CPU_BASED_USE_IO_BITMAPS = 0 ∨
      run_2ndctl b cfg m &&& SECONDARY_EXEC_ENABLE_EPT = 0 ∨
      run_2ndctl b cfg m &&& SECONDARY_EXEC_ENABLE_VPID = 0) :
    (vcpu_run b cfg m vcpu st cpu gsp gip).vmcs = cpu.vmcs ∧
      ∃ tail, (vcpu_run b cfg m vcpu st cpu gsp gip).log = cpu.log ++ tail ∧
        ∀ e, e ∈ tail → e.is_launch_step = false := by
  apply vcpu_run_abort
  obtain ⟨b31, b28, b25⟩ := req_cpuctl_bits cfg
  rcases h with h | h | h | h | h
  · exact Or.inl (land_lacks b31 h)
  · exact Or.inl (land_lacks b28 h)
  · exact Or.inl (land_lacks b25 h)
  · exact Or.inr (land_lacks (show req_2ndctl.testBit 1 = true by decide) h)
  · exact Or.inr (land_lacks (show req_2ndctl.testBit 5 = true by decide) h)

/-- C19 witness: the capability MSR of the primary controls does not allow the MSR
bitmaps; `vcpu_run` enters VMX root operation, loads the VMCS and returns. -/
theorem vcpu_run_refuses_witness :
    (vcpu_run msvc_build plain_config no_msr_bitmap_machine launch_vcpu init_mm blank_cpu
        0x7000 0x401000).vmcs = blank_cpu.vmcs :=
  (vcpu_run_refuses msvc_build plain_config no_msr_bitmap_machine launch_vcpu init_mm
    blank_cpu 0x7000 0x401000 (Or.inr (Or.inl (by decide)))).1


/-! ## Launch: the path to VMLAUNCH -/

theorem vmcs_write_err_ok {m : Machine} (hwr : ∀ f, m.vmwrite_err f = 0) (s : Nat × Cpu)
    (w : VmcsField × Nat) (hs : s.1 = 0) :
    (vmcs_write_err m s w).1 = 0 ∧
      (vmcs_write_err m s w).2.log = s.2.log ++ [Event.vmwrite w.1 w.2] := by
  unfold vmcs_write_err
  rw [hwr, hs, if_pos rfl]
  exact ⟨rfl, rfl⟩

theorem vmcs_writes_ok {m : Machine} (hwr : ∀ f, m.vmwrite_err f = 0) :
    ∀ (ws : List (VmcsField × Nat)) (s : Nat × Cpu), s.1 = 0 →
      (vmcs_writes m s ws).1 = 0 ∧
        (vmcs_writes m s ws).2.log = s.2.log ++ ws.map (fun w => Event.vmwrite w.1 w.2) := by
  intro ws
  induction ws with
  | nil =>
    intro s hs
    exact ⟨hs, (List.append_nil _).symm⟩
  | cons w ws ih =>
    intro s hs
    obtain ⟨h1, h2⟩ := vmcs_write_err_ok hwr s w hs
    obtain ⟨h3, h4⟩ := ih (vmcs_write_err m s w) h1
    unfold vmcs_writes at h3 h4 ⊢
    rw [List.foldl_cons]
    refine ⟨h3, ?_⟩
    rw [h4, h2, List.map_cons, List.append_assoc]
    rfl

theorem run_vmfunc_block_ok (b : Build) (cfg : Config) {m : Machine}
    (hwr : ∀ f, m.vmwrite_err f = 0) (vcpu : Vcpu) (s : Nat × Cpu) (hs : s.1 = 0) :
    (run_vmfunc_block b cfg m vcpu s).1 = 0 ∧
      s.2.log <+: (run_vmfunc_block b cfg m vcpu s).2.log := by
  unfold run_vmfunc_block
  dsimp only
  split
  · obtain ⟨h1, h2⟩ := vmcs_writes_ok hwr
      [(VmcsField.VM_FUNCTION_CTRL, VM_FUNCTION_CTL_EPTP_SWITCHING),
        (VmcsField.EPTP_LIST_ADDRESS, ptr_pa vcpu.ept.ptr_list % 2 ^ 64)]
      (s.1, { s.2 with vm_func_ctl := 0 }) hs
    exact ⟨h1, ⟨_, h2.symm⟩⟩
  · exact ⟨hs, List.prefix_refl _⟩

theorem run_ve_block_ok (b : Build) (cfg : Config) {m : Machine}
    (hwr : ∀ f, m.vmwrite_err f = 0) (vcpu : Vcpu) (s : Nat × Cpu) (hs : s.1 = 0) :
    (run_ve_block b cfg m vcpu s).1 = 0 ∧
      s.2.log <+: (run_ve_block b cfg m vcpu s).2.log := by
  unfold run_ve_block
  split
  · obtain ⟨h1, h2⟩ := vmcs_writes_ok hwr
      [(VmcsField.EPTP_INDEX, EPTP_DEFAULT % 2 ^ 16),
        (VmcsField.VE_INFO_ADDRESS, ptr_pa vcpu.ve % 2 ^ 64)] s hs
    refine ⟨h1, ?_⟩
    show s.2.log <+: _ ++ [Event.put_idt m.cs X86_TRAP_VE]
    rw [h2, List.append_assoc]
    exact List.prefix_append _ _
  · exact ⟨hs, List.prefix_refl _⟩

theorem run_xsaves_block_ok (b : Build) (cfg : Config) {m : Machine}
    (hwr : ∀ f, m.vmwrite_err f = 0) (s : Nat × Cpu) (hs : s.1 = 0) :
    (run_xsaves_block b cfg m s).1 = 0 ∧
      s.2.log <+: (run_xsaves_block b cfg m s).2.log := by
  unfold run_xsaves_block
  split
  · obtain ⟨h1, h2⟩ := vmcs_writes_ok hwr [(VmcsField.XSS_EXIT_BITMAP, 0)] s hs
    exact ⟨h1, ⟨_, h2.symm⟩⟩
  · exact ⟨hs, List.prefix_refl _⟩

theorem run_pml_block_ok (b : Build) (cfg : Config) {m : Machine}
    (hwr : ∀ f, m.vmwrite_err f = 0) (vcpu : Vcpu) (s : Nat × Cpu) (hs : s.1 = 0) :
    (run_pml_block b cfg m vcpu s).1 = 0 ∧
      s.2.log <+: (run_pml_block b cfg m vcpu s).2.log := by
  unfold run_pml_block
  split
  · obtain ⟨h1, h2⟩ := vmcs_writes_ok hwr
      [(VmcsField.PML_ADDRESS, ptr_pa vcpu.pml % 2 ^ 64),
        (VmcsField.GUEST_PML_INDEX, (PML_MAX_ENTRIES - 1) % 2 ^ 16)] s hs
    exact ⟨h1, ⟨_, h2.symm⟩⟩
  · exact ⟨hs, List.prefix_refl _⟩

theorem run_finish_ok (m : Machine) (s : Nat × Cpu) (hs : s.1 = 0) :
    s.2.log <+: (run_finish m s).log ∧ Event.vmx_vmlaunch ∈ (run_finish m s).log := by
  unfold run_finish
  rw [if_pos hs]
  split
  · constructor
    · show s.2.log <+: s.2.log ++ [Event.invept_all] ++ [Event.invvpid_all] ++
        [Event.vmx_vmlaunch]
      rw [List.append_assoc, List.append_assoc]
      exact List.prefix_append _ _
    · show Event.vmx_vmlaunch ∈ s.2.log ++ [Event.invept_all] ++ [Event.invvpid_all] ++
        [Event.vmx_vmlaunch]
      simp
  · constructor
    · show s.2.log <+: s.2.log ++ [Event.invept_all] ++ [Event.invvpid_all] ++
        [Event.vmx_vmlaunch] ++ [Event.lidt] ++ [Event.vmx_off]
      rw [List.append_assoc, List.append_assoc, List.append_assoc, List.append_assoc]
      exact List.prefix_append _ _
    · show Event.vmx_vmlaunch ∈ s.2.log ++ [Event.invept_all] ++ [Event.invvpid_all] ++
        [Event.vmx_vmlaunch] ++ [Event.lidt] ++ [Event.vmx_off]
      simp

/-- When the VMX instructions and every VMCS write succeed and the adjusted controls hold
the required ones, `vcpu_run` writes the control fields and executes VMLAUNCH. -/
theorem vcpu_run_launches (b : Build) (cfg : Config) (m : Machine) (vcpu : Vcpu) (st : Mm)
    (cpu : Cpu) (gsp gip : Nat) (hon : m.vmx_on_err % 2 ^ 8 = 0)
    (hclear : m.vmclear_err % 2 ^ 8 = 0) (hptrld : m.vmptrld_err % 2 ^ 8 = 0)
    (hwr : ∀ f, m.vmwrite_err f = 0)
    (hcpu : run_cpuctl cfg m &&& req_cpuctl cfg = req_cpuctl cfg)
    (h2nd : run_2ndctl b cfg m &&& req_2ndctl = req_2ndctl) :
    Event.vmwrite .SECONDARY_VM_EXEC_CONTROL (run_2ndctl b cfg m % 2 ^ 32) ∈
        (vcpu_run b cfg m vcpu st cpu gsp gip).log ∧
      Event.vmx_vmlaunch ∈ (vcpu_run b cfg m vcpu st cpu gsp gip).log := by
  unfold vcpu_run
  dsimp only
  rw [if_neg (not_not.2 hon), if_neg (not_not.2 hclear), if_neg (not_not.2 hptrld),
    if_neg (not_not.2 hcpu), if_neg (not_not.2 h2nd)]
  unfold vcpu_run_launch
  generalize hc : ({ ((((((((cpu.emit Event.copy_idt).emit
      (Event.store_revision_id (ptr_pa vcpu.vmxon)
        (m.msr MSR_IA32_VMX_BASIC % 2 ^ 64 % 2 ^ 32))).emit
      (Event.writecr0 (run_cr0 m))).emit (Event.writecr4 (run_cr4 m))).emit
      (Event.vmx_on (ptr_pa vcpu.vmxon))).emit
      (Event.store_revision_id (ptr_pa vcpu.vmcs)
        (m.msr MSR_IA32_VMX_BASIC % 2 ^ 64 % 2 ^ 32))).emit
      (Event.vmx_vmclear (ptr_pa vcpu.vmcs))).emit
      (Event.vmx_vmptrld (ptr_pa vcpu.vmcs))) with
      entry_ctl := run_entry cfg m, exit_ctl := run_exit cfg m, pin_ctl := run_pinctl m,
      cpu_ctl := run_cpuctl cfg m, secondary_ctl := run_2ndctl b cfg m } : Cpu) = c0
  obtain ⟨a1, a2⟩ := vmcs_writes_ok hwr (run_control_writes b cfg m vcpu.ept st c0) (0, c0) rfl
  obtain ⟨b1, b2⟩ := run_vmfunc_block_ok b cfg hwr vcpu _ a1
  obtain ⟨c1, c2⟩ := run_ve_block_ok b cfg hwr vcpu _ b1
  obtain ⟨d1, d2⟩ := run_xsaves_block_ok b cfg hwr _ c1
  obtain ⟨e1, e2⟩ := run_pml_block_ok b cfg hwr vcpu _ d1
  obtain ⟨f1, f2⟩ := vmcs_writes_ok hwr (run_state_writes m vcpu gsp gip) _ e1
  obtain ⟨g1, g2⟩ := run_finish_ok m _ f1
  refine ⟨?_, g2⟩
  apply g1.subset
  rw [f2]
  apply List.mem_append_left
  apply e2.subset
  apply d2.subset
  apply c2.subset
  apply b2.subset
  rw [a2]
  apply List.mem_append_right
  unfold run_control_writes
  simp

/-- C19 counterexample: the capability MSR of the secondary controls allows neither
hardware #VE delivery nor XSAVES, so the adjusted secondary controls lack both; `vcpu_run`
nevertheless writes the VMCS control fields and executes VMLAUNCH. -/
theorem vcpu_run_launches_without_ve :
    run_2ndctl msvc_build plain_config no_ve_machine &&& SECONDARY_EXEC_ENABLE_VE = 0 ∧
      run_2ndctl msvc_build plain_config no_ve_machine &&& SECONDARY_EXEC_XSAVES = 0 ∧
      Event.vmwrite .SECONDARY_VM_EXEC_CONTROL
          (run_2ndctl msvc_build plain_config no_ve_machine % 2 ^ 32) ∈
        (vcpu_run msvc_build plain_config no_ve_machine launch_vcpu init_mm blank_cpu
          0x7000 0x401000).log ∧
      Event.vmx_vmlaunch ∈
        (vcpu_run msvc_build plain_config no_ve_machine launch_vcpu init_mm blank_cpu
          0x7000 0x401000).log :=
  ⟨by decide, by decide,
    vcpu_run_launches msvc_build plain_config no_ve_machine launch_vcpu init_mm blank_cpu
      0x7000 0x401000 (by decide) (by decide) (by decide) (fun _ => rfl) (by decide)
      (by decide)⟩

/-! ## Non-root violations: the panic -/

theorem panics_append (l m : List Event) : panics (l ++ m) = panics l ++ panics m := by
  induction l with
  | nil => rfl
  | cons e l ih =>
    cases e <;> simp [panics, ih]

theorem do_ept_violation_panics (b : Build) (cfg : Config) (c : Collab) (ept : Ept) (st : Mm)
    (log : List Event) (rip dpl gpa gva cr3 eptp ar ac : Nat) (invd : Bool)
    (eptp_switch : Nat) :
    panics (do_ept_violation b cfg c ept st log rip dpl gpa gva cr3 eptp ar ac invd
      eptp_switch).log = panics log := by
  unfold do_ept_violation
  by_cases har : ar = EPT_ACCESS_NONE
  · rw [if_pos har]
    cases ept.pml4_list eptp with
    | none => rfl
    | some root =>
      simp only []
      rcases ept_alloc_page b st root EPT_ACCESS_ALL gpa gpa with ⟨_ | e, st1⟩ <;> rfl
  · rw [if_neg har]
    by_cases hk : cfg.epage_hook = true
    · simp only [hk, if_true]
      cases c.find_page gva with
      | some phi => simp [panics_append, panics]
      | none =>
        by_cases hp : cfg.pmem_sandbox = true
        · simp [hp, panics_append, panics]
        · simp [hp, panics_append, panics]
    · simp only [hk]
      by_cases hp : cfg.pmem_sandbox = true
      · simp [hp, panics_append, panics]
      · simp [hp]

/-- C22 (non-root unhandled violations are fatal): the panics that
`__ept_handle_violation` adds to the log are exactly one,
`KSM_PANIC(EPT_BUGCHECK_CODE, EPT_UNHANDLED_VIOLATION, rip, gpa)` with the `rip` passed
in and the gpa read from the #VE info page, when the classifier returns handled = false
for the descriptor, and none when it returns handled = true; so it panics if and only
if the classifier returns handled = false. -/
theorem nonroot_unhandled_violation_is_fatal (b : Build) (cfg : Config) (c : Collab)
    (ept : Ept) (st : Mm) (cpu : Cpu) (cs rip : Nat) :
    panics (__ept_handle_violation b cfg c ept st cpu cs rip).2.log =
        panics cpu.log ++
          (if (nonroot_verdict b cfg c ept st cpu cs).handled = false then
            [(EPT_BUGCHECK_CODE, EPT_UNHANDLED_VIOLATION, rip, cpu.ve.gpa)] else []) ∧
      (panics (__ept_handle_violation b cfg c ept st cpu cs rip).2.log ≠ panics cpu.log ↔
        (nonroot_verdict b cfg c ept st cpu cs).handled = false) := by
  have hv : panics (nonroot_verdict b cfg c ept st cpu cs).log = panics cpu.log := by
    unfold nonroot_verdict
    exact do_ept_violation_panics _ _ _ _ _ _ _ _ _ _ _ _ _ _ _ _
  have h1 : panics (__ept_handle_violation b cfg c ept st cpu cs rip).2.log =
        panics cpu.log ++
          (if (nonroot_verdict b cfg c ept st cpu cs).handled = false then
            [(EPT_BUGCHECK_CODE, EPT_UNHANDLED_VIOLATION, rip, cpu.ve.gpa)] else []) := by
    unfold __ept_handle_violation
    cases hh : (nonroot_verdict b cfg c ept st cpu cs).handled
    · simp [hh, panics_append, panics, hv]
    · by_cases hs : (nonroot_verdict b cfg c ept st cpu cs).eptp_switch = cpu.ve.eptp % 65536
      · simp [hh, hs, hv]
      · simp [hh, hs, hv, panics_append, panics]
  refine ⟨h1, ?_⟩
  rw [h1]
  cases hh : (nonroot_verdict b cfg c ept st cpu cs).handled <;> simp

/-! ## Map: the frame on other pages -/

/-- Two addresses with the same four indices have the same page number modulo 2^36. -/
theorem slot_inj {a c : Nat} (hp : pt_path a = pt_path c) (ht : pte_idx a = pte_idx c) :
    a / 4096 % 2 ^ 36 = c / 4096 % 2 ^ 36 := by
  unfold pt_path at hp
  injection hp with h1 hp
  injection hp with h2 hp
  injection hp with h3 _
  unfold pde_idx at h1
  unfold ppe_idx at h2
  unfold pxe_idx at h3
  unfold pte_idx at ht
  rw [idx_eq, idx_eq] at h1 h2 h3 ht
  norm_num at h1 h2 h3 ht ⊢
  omega

theorem mapped_once_mm_grown :
    Grown msvc_build (mm_with [some 1, some 2, some 3, some 4]) 1 mapped_once_mm :=
  Grown.map _ 7 0x1000 0x5000 (grown_root_mm_grown _)

/-- C26 (amended): in a hierarchy grown by map calls, for all gpa and gpa2 whose page
numbers differ modulo 2^36 (for addresses below 2^48: lying in different 4 KiB pages),
if `ept_pte(root, gpa2)` returns an entry before `ept_alloc_page(root, access, gpa, hpa)`,
then after the call, successful or failing, `ept_pte(root, gpa2)` returns the same entry
and the entry holds the same value. -/
theorem ept_map_keeps_other_pages (b : Build) (st0 st : Mm) (root access gpa hpa gpa2 : Nat)
    (e : Nat × Nat) (hg : Grown b st0 root st)
    (hne : gpa / 4096 % 2 ^ 36 ≠ gpa2 / 4096 % 2 ^ 36)
    (hpte : ept_pte st root gpa2 = some e) :
    ept_pte (ept_alloc_page b st root access gpa hpa).2 root gpa2 = some e ∧
      (ept_alloc_page b st root access gpa hpa).2.mem e.1 e.2 = st.mem e.1 e.2 := by
  obtain ⟨sh, hinv, -, -, -, -⟩ := hg.owned
  obtain ⟨sh1, i1, hext, -, -, -, -, hleaf, -⟩ := ept_alloc_page_inv hinv access gpa hpa
  rw [ept_pte_spec hinv gpa2] at hpte
  cases hs : sh (pt_path gpa2) with
  | none => rw [hs] at hpte; cases hpte
  | some q =>
    rw [hs] at hpte
    simp only [Option.map_some', Option.some.injEq] at hpte
    subst hpte
    refine ⟨?_, ?_⟩
    · rw [ept_pte_spec i1 gpa2, hext _ _ hs]; rfl
    · have hd : pt_path gpa2 ≠ pt_path gpa ∨ pte_idx gpa2 ≠ pte_idx gpa := by
        by_contra hc
        push_neg at hc
        exact hne (slot_inj hc.1 hc.2).symm
      have := hleaf _ _ (hext _ _ hs) rfl (pte_idx gpa2) hd
      rw [if_pos hs] at this
      exact this

/-- C26 witness: with gpa 0x1000 mapped, mapping gpa 0x2000 leaves the entry of 0x1000
where it was, with the same value. -/
theorem ept_map_keeps_other_pages_witness :
    ept_pte (ept_alloc_page msvc_build mapped_once_mm 1 3 0x2000 0x9000).2 1 0x1000
        = some (4, 1) ∧
      (ept_alloc_page msvc_build mapped_once_mm 1 3 0x2000 0x9000).2.mem 4 1
        = mapped_once_mm.mem 4 1 :=
  ept_map_keeps_other_pages msvc_build (mm_with [some 1, some 2, some 3, some 4])
    mapped_once_mm 1 3 0x2000 0x9000 0x1000 (4, 1) mapped_once_mm_grown (by decide)
    (by decide)

/-- C26 counterexample: gpa 2^48 + 0x1000 and gpa 0x1000 lie in different 4 KiB pages,
and the walk uses bits 12..47 only: mapping the first overwrites the entry of the
second, which `ept_pte` still returns, now with another value. -/
theorem ept_map_aliases_above_48_bits :
    Grown msvc_build (mm_with [some 1, some 2, some 3, some 4]) 1 mapped_once_mm ∧
      (2 ^ 48 + 0x1000) / 4096 ≠ 0x1000 / 4096 ∧
      ept_pte mapped_once_mm 1 0x1000 = some (4, 1) ∧
      (ept_alloc_page msvc_build mapped_once_mm 1 1 (2 ^ 48 + 0x1000) 0x9000).1
        = some (4, 1) ∧
      ept_pte (ept_alloc_page msvc_build mapped_once_mm 1 1 (2 ^ 48 + 0x1000) 0x9000).2 1
        0x1000 = some (4, 1) ∧
      mapped_once_mm.mem 4 1 = 0x5037 ∧
      (ept_alloc_page msvc_build mapped_once_mm 1 1 (2 ^ 48 + 0x1000) 0x9000).2.mem 4 1
        = 0x9031 :=
  ⟨mapped_once_mm_grown, by decide, by decide, by decide, by decide, by decide, by decide⟩

/-! ## Map under allocation failure -/

/-- One interior level of `ept_alloc_page` acquires at most the page it returns. -/
theorem ept_next_table_live (b : Build) (st : Mm) (p i x : Nat)
    (hx : x ∈ (ept_next_table b st p i).2.live) :
    x ∈ st.live ∨ (ept_next_table b st p i).1 = some x := by
  unfold ept_next_table at hx ⊢
  have ht : (st.touch p).live = st.live := by unfold Mm.touch; split <;> rfl
  cases he : ept_page_addr ((st.touch p).mem p i) with
  | some sub =>
    simp only [he] at hx ⊢
    left; rw [← ht]; exact hx
  | none =>
    simp only [he] at hx ⊢
    rcases mm_alloc_page_spec (st.touch p) with
      ⟨h1, -, hlv, -, -⟩ | ⟨q, h1, -, -, -, hlv, -, -⟩
    · have hpair : mm_alloc_page (st.touch p) = (none, (mm_alloc_page (st.touch p)).2) := by
        rw [← h1]
      rw [hpair] at hx ⊢
      simp only at hx ⊢
      left; rw [← ht, ← hlv]; exact hx
    · have hpair : mm_alloc_page (st.touch p) = (some q, (mm_alloc_page (st.touch p)).2) := by
        rw [← h1]
      rw [hpair] at hx ⊢
      simp only at hx ⊢
      rw [store_live, hlv] at hx
      rcases Finset.mem_insert.1 hx with hx | hx
      · right; rw [hx]
      · left; rw [← ht]; exact hx

/-- One interior level of `ept_alloc_page` on a well-formed hierarchy changes the shape
at most at the table it returns, and not at all when it fails. -/
theorem ept_next_table_shape {b : Build} {st : Mm} {root : Nat} {sh : Shape}
    (h : Inv b st root sh) {π : List Nat} {p i : Nat} (hp : sh π = some p)
    (hl : π.length < 3) (hi : i < 512) :
    ∃ sh1, Grow b root st sh (ept_next_table b st p i).2 sh1 ∧
      (((ept_next_table b st p i).1 = none ∧ ∀ ρ, sh1 ρ = sh ρ) ∨
        ∃ q, (ept_next_table b st p i).1 = some q ∧ sh1 (i :: π) = some q) ∧
      (∀ ρ, ρ ≠ i :: π → sh1 ρ = sh ρ) := by
  obtain ⟨sh1, g, r, -⟩ := ept_next_table_spec h hp hl hi
  have hold : ∀ ρ x, sh1 ρ = some x → x ∈ st.live → sh ρ = some x := by
    intro ρ x hx hlive
    rcases g.fresh ρ x hx with h1 | h1
    · exact h1
    · exact absurd hlive h1
  have hnone : ∀ ρ, sh1 ρ = none → sh ρ = none := by
    intro ρ hx
    cases hs : sh ρ with
    | none => rfl
    | some y => rw [g.ext ρ y hs] at hx; cases hx
  have hsame : ∀ ρ, (∀ x, sh1 ρ = some x → x ∈ st.live) → sh1 ρ = sh ρ := by
    intro ρ hx
    cases hs : sh1 ρ with
    | none => exact (hnone ρ hs).symm
    | some x => exact (hold ρ x hs (hx x hs)).symm
  refine ⟨sh1, g, ?_, ?_⟩
  · by_cases hr : (ept_next_table b st p i).1 = none
    · left
      refine ⟨hr, fun ρ => hsame ρ ?_⟩
      intro x hx
      rcases ept_next_table_live b st p i x (g.inv.live ρ x hx) with h1 | h1
      · exact h1
      · rw [hr] at h1; cases h1
    · right
      rcases r with r | r
      · exact absurd r hr
      · exact r
  · intro ρ hρ
    apply hsame
    intro x hx
    rcases ept_next_table_live b st p i x (g.inv.live ρ x hx) with h1 | h1
    · exact h1
    · rcases r with r | ⟨q, r, hq⟩
      · rw [r] at h1; cases h1
      · rw [r] at h1
        injection h1 with h1
        subst h1
        exact absurd (g.inv.inj ρ (i :: π) q hx hq) hρ

/-- A failing `ept_alloc_page` on a well-formed hierarchy adds tables at most at the
PDPT and the PD of `gpa`. -/
theorem ept_alloc_page_fail_shape {b : Build} {st : Mm} {root : Nat} {sh : Shape}
    (h : Inv b st root sh) (access gpa hpa : Nat)
    (hfail : (ept_alloc_page b st root access gpa hpa).1 = none) :
    ∃ sh1, Grow b root st sh (ept_alloc_page b st root access gpa hpa).2 sh1 ∧
      (∀ ρ, ρ ≠ [pxe_idx gpa] → ρ ≠ [ppe_idx gpa, pxe_idx gpa] → sh1 ρ = sh ρ) := by
  obtain ⟨sh1, g1, r1, f1⟩ := ept_next_table_shape h h.root_eq (by simp) (pxe_idx_lt gpa)
  unfold ept_alloc_page at hfail ⊢
  generalize ept_next_table b st root (pxe_idx gpa) = x1 at g1 r1 hfail ⊢
  obtain ⟨o1, st1⟩ := x1
  rcases r1 with ⟨r1, -⟩ | ⟨p1, r1, hp1⟩
  · simp only at r1; subst r1
    exact ⟨sh1, g1, fun ρ h1 _ => f1 ρ h1⟩
  · simp only at r1; subst r1
    obtain ⟨sh2, g2, r2, f2⟩ := ept_next_table_shape g1.inv hp1 (by simp) (ppe_idx_lt gpa)
    simp only at hfail ⊢
    generalize ept_next_table b st1 p1 (ppe_idx gpa) = x2 at g2 r2 hfail ⊢
    obtain ⟨o2, st2⟩ := x2
    rcases r2 with ⟨r2, -⟩ | ⟨p2, r2, hp2⟩
    · simp only at r2; subst r2
      exact ⟨sh2, g1.trans g2, fun ρ h1 h2 => (f2 ρ h2).trans (f1 ρ h1)⟩
    · simp only at r2; subst r2
      obtain ⟨sh3, g3, r3, -⟩ := ept_next_table_shape g2.inv hp2 (by simp) (pde_idx_lt gpa)
      simp only at hfail ⊢
      generalize ept_next_table b st2 p2 (pde_idx gpa) = x3 at g3 r3 hfail ⊢
      obtain ⟨o3, st3⟩ := x3
      rcases r3 with ⟨r3, e3⟩ | ⟨p3, r3, -⟩
      · simp only at r3; subst r3
        exact ⟨sh3, (g1.trans g2).trans g3,
          fun ρ h1 h2 => (e3 ρ).trans ((f2 ρ h2).trans (f1 ρ h1))⟩
      · simp only at r3; subst r3
        simp at hfail

/-- One interior level of `ept_alloc_page` yields no table exactly when the entry refers
to none and the allocator fails. -/
theorem ept_next_table_none_iff (b : Build) (st : Mm) (p i : Nat) :
    (ept_next_table b st p i).1 = none ↔
      ept_page_addr ((st.touch p).mem p i) = none ∧ (mm_alloc_page (st.touch p)).1 = none := by
  unfold ept_next_table
  cases he : ept_page_addr ((st.touch p).mem p i) with
  | some sub => simp [he]
  | none =>
    simp only [he, true_and]
    rcases ha : mm_alloc_page (st.touch p) with ⟨_ | q, s⟩
    · simp
    · simp

/-- The function `ept_alloc_page` returns null exactly when the level that yields the
PDPT, the PD or the PT yields no table, that is when the allocator fails for that
page. -/
theorem ept_alloc_page_null_iff (b : Build) (st : Mm) (root access gpa hpa : Nat) :
    (ept_alloc_page b st root access gpa hpa).1 = none ↔
      (ept_next_table b st root (pxe_idx gpa)).1 = none ∨
      ∃ pdpt st1, ept_next_table b st root (pxe_idx gpa) = (some pdpt, st1) ∧
        ((ept_next_table b st1 pdpt (ppe_idx gpa)).1 = none ∨
          ∃ pd st2, ept_next_table b st1 pdpt (ppe_idx gpa) = (some pd, st2) ∧
            (ept_next_table b st2 pd (pde_idx gpa)).1 = none) := by
  unfold ept_alloc_page
  rcases h1 : ept_next_table b st root (pxe_idx gpa) with ⟨_ | pdpt, st1⟩
  · simp
  · simp only [Option.some_ne_none, false_or, Prod.mk.injEq, Option.some.injEq]
    rcases h2 : ept_next_table b st1 pdpt (ppe_idx gpa) with ⟨_ | pd, st2⟩
    · constructor
      · intro _
        exact ⟨pdpt, st1, ⟨rfl, rfl⟩, Or.inl (by rw [h2])⟩
      · intro _; rfl
    · simp only
      rcases h3 : ept_next_table b st2 pd (pde_idx gpa) with ⟨_ | pt, st3⟩
      · constructor
        · intro _
          refine ⟨pdpt, st1, ⟨rfl, rfl⟩, Or.inr ⟨pd, st2, ?_, ?_⟩⟩
          · rw [h2]
          · rw [h3]
        · intro _; rfl
      · constructor
        · intro h; cases h
        · rintro ⟨a, s, ⟨ha, hs⟩, hr⟩
          subst ha; subst hs
          rw [h2] at hr
          rcases hr with hr | ⟨c, s2, hc, hr⟩
          · cases hr
          · injection hc with hc1 hc2
            injection hc1 with hc1
            subst hc1; subst hc2
            rw [h3] at hr
            cases hr

/-- C23 (amended): in a hierarchy grown by map calls, when `ept_alloc_page` returns null
(a table page could not be allocated), `ept_pte` returns for every gpa what it returned
before and the entries it finds hold the values they held (no leaf entry is written);
a word of a page outstanding before changes only from zero to the link of a page
allocated in the call; every page allocated in the call is linked from an entry of an
outstanding page, and its 512 entries are zero except, in the PDPT of `gpa` when the PD
was allocated after it, the entry at the PDPT index of `gpa`, which links a page
allocated in the same call. -/
theorem ept_map_failure_keeps_hierarchy (b : Build) (st0 st : Mm)
    (root access gpa hpa : Nat) (hg : Grown b st0 root st)
    (hfail : (ept_alloc_page b st root access gpa hpa).1 = none) :
    (∀ g, ept_pte (ept_alloc_page b st root access gpa hpa).2 root g = ept_pte st root g) ∧
      (∀ g e, ept_pte st root g = some e →
        (ept_alloc_page b st root access gpa hpa).2.mem e.1 e.2 = st.mem e.1 e.2) ∧
      (∀ x j, x ∈ st.live → j < 512 →
        (ept_alloc_page b st root access gpa hpa).2.mem x j ≠ st.mem x j →
        st.mem x j = 0 ∧ ∃ r, r ∈ (ept_alloc_page b st root access gpa hpa).2.live ∧
          r ∉ st.live ∧ (ept_alloc_page b st root access gpa hpa).2.mem x j = pde_word b r) ∧
      (∀ q, q ∈ (ept_alloc_page b st root access gpa hpa).2.live → q ∉ st.live →
        (∃ p i, p ∈ (ept_alloc_page b st root access gpa hpa).2.live ∧ i < 512 ∧
          (ept_alloc_page b st root access gpa hpa).2.mem p i = pde_word b q ∧
          ept_page_addr ((ept_alloc_page b st root access gpa hpa).2.mem p i) = some q) ∧
        (∀ j, j < 512 → (ept_alloc_page b st root access gpa hpa).2.mem q j ≠ 0 →
          j = ppe_idx gpa ∧
          ept_page_addr ((ept_alloc_page b st root access gpa hpa).2.mem root (pxe_idx gpa))
            = some q ∧
          ∃ r, r ∈ (ept_alloc_page b st root access gpa hpa).2.live ∧ r ∉ st.live ∧
            (ept_alloc_page b st root access gpa hpa).2.mem q j = pde_word b r)) := by
  obtain ⟨sh, hinv, -, -, -, -⟩ := hg.owned
  obtain ⟨sh1, g, hsame⟩ := ept_alloc_page_fail_shape hinv access gpa hpa hfail
  generalize (ept_alloc_page b st root access gpa hpa).2 = st1 at g ⊢
  have hnew : ∀ π c, sh1 π = some c → sh π = none → c ∉ st.live := by
    intro π c hc hs
    rcases g.fresh π c hc with h1 | h1
    · rw [hs] at h1; cases h1
    · exact h1
  have hpath : ∀ π c, sh1 π = some c → sh π = none →
      π = [pxe_idx gpa] ∨ π = [ppe_idx gpa, pxe_idx gpa] := by
    intro π c hc hs
    by_contra hcon
    push_neg at hcon
    rw [hsame π hcon.1 hcon.2, hs] at hc
    cases hc
  have hshape : ∀ q, q ∈ st1.live → q ∉ st.live → ∃ π, sh1 π = some q ∧ sh π = none := by
    intro q hq hqn
    rcases (g.live q).1 hq with h1 | ⟨π, h1⟩
    · exact absurd h1 hqn
    · refine ⟨π, h1, ?_⟩
      cases hs : sh π with
      | none => rfl
      | some y =>
        have := g.ext π y hs
        rw [h1] at this
        injection this with this
        subst this
        exact absurd (hinv.live π _ hs) hqn
  have hchild : ∀ π q j c, sh1 π = some q → sh π = none → sh1 (j :: π) = some c →
      sh (j :: π) = none := by
    intro π q j c hq hs hc
    cases hs2 : sh (j :: π) with
    | none => rfl
    | some y =>
      obtain ⟨p, hp⟩ := hinv.parent j π y hs2
      rw [hs] at hp; cases hp
  refine ⟨?_, ?_, ?_, ?_⟩
  · intro a
    rw [ept_pte_spec g.inv a, ept_pte_spec hinv a, hsame (pt_path a)]
    · intro hc; have := congrArg List.length hc; simp [pt_path] at this
    · intro hc; have := congrArg List.length hc; simp [pt_path] at this
  · intro a e he
    rw [ept_pte_spec hinv a] at he
    cases hs : sh (pt_path a) with
    | none => rw [hs] at he; cases he
    | some q =>
      rw [hs] at he
      simp only [Option.map_some', Option.some.injEq] at he
      subst he
      have := g.leaves _ _ (g.ext _ _ hs) rfl (pte_idx a)
      rw [if_pos hs] at this
      exact this
  · intro x j hx hj hne
    by_cases hin : ∃ π, sh1 π = some x
    · obtain ⟨π, hπ⟩ := hin
      have hπ0 : sh π = some x := by
        rcases g.fresh π x hπ with h1 | h1
        · exact h1
        · exact absurd hx h1
      by_cases hl : π.length < 3
      · have e1 := g.inv.entries π x hπ hl j hj
        have e0 := hinv.entries π x hπ0 hl j hj
        cases hs : sh (j :: π) with
        | some c =>
          rw [hs] at e0
          rw [g.ext _ _ hs] at e1
          exact absurd (e1.trans e0.symm) hne
        | none =>
          rw [hs] at e0
          cases hs1 : sh1 (j :: π) with
          | none =>
            rw [hs1] at e1
            exact absurd (e1.trans e0.symm) hne
          | some c =>
            rw [hs1] at e1
            exact ⟨e0, c, g.inv.live _ _ hs1, hnew _ _ hs1 hs, e1⟩
      · have hl3 : π.length = 3 := by
          have := hinv.len π x hπ0
          omega
        have := g.leaves π x hπ hl3 j
        rw [if_pos hπ0] at this
        exact absurd this hne
    · push_neg at hin
      have := g.outside x hin
      exact absurd (congrFun this j) hne
  · intro q hq hqn
    obtain ⟨π, hπ, hπ0⟩ := hshape q hq hqn
    have hπp := hpath π q hπ hπ0
    have hqb := g.inv.bound π q hπ
    refine ⟨?_, ?_⟩
    · rcases hπp with h1 | h1
      · subst h1
        have hr := g.inv.root_eq
        have e1 := g.inv.entry_some hr (by simp) (pxe_idx_lt gpa) hπ
        exact ⟨root, pxe_idx gpa, g.inv.live _ _ hr, pxe_idx_lt gpa, e1,
          by rw [e1, pde_word_page_addr b q hqb]⟩
      · subst h1
        obtain ⟨p, hp⟩ := g.inv.parent _ _ _ hπ
        have e1 := g.inv.entry_some hp (by simp) (ppe_idx_lt gpa) hπ
        exact ⟨p, ppe_idx gpa, g.inv.live _ _ hp, ppe_idx_lt gpa, e1,
          by rw [e1, pde_word_page_addr b q hqb]⟩
    · intro j hj hne
      have hl : π.length < 3 := by
        rcases hπp with h1 | h1 <;> subst h1 <;> simp
      have e1 := g.inv.entries π q hπ hl j hj
      cases hs1 : sh1 (j :: π) with
      | none => rw [hs1] at e1; exact absurd e1 hne
      | some c =>
        rw [hs1] at e1
        have hc0 := hchild π q j c hπ hπ0 hs1
        have hcp := hpath _ c hs1 hc0
        rcases hcp with h2 | h2
        · have := congrArg List.length h2
          rcases hπp with h1 | h1 <;> subst h1 <;> simp at this
        · injection h2 with h2 h3
          subst h3
          have e2 := g.inv.entry_some g.inv.root_eq (by simp) (pxe_idx_lt gpa) hπ
          exact ⟨h2, by rw [e2, pde_word_page_addr b q hqb], c, g.inv.live _ _ hs1,
            hnew _ _ hs1 hc0, e1⟩

/-- C23 witness: with gpa 0x1000 mapped and the allocator exhausted, mapping gpa
0x40000000 fails at the PD page; the lookups are as before, and the entry of 0x1000
keeps its value. -/
theorem ept_map_failure_keeps_hierarchy_witness :
    (ept_alloc_page msvc_build mapped_once_mm 1 7 0x40000000 0x9000).1 = none ∧
      ept_pte (ept_alloc_page msvc_build mapped_once_mm 1 7 0x40000000 0x9000).2 1 0x1000
        = ept_pte mapped_once_mm 1 0x1000 ∧
      (ept_alloc_page msvc_build mapped_once_mm 1 7 0x40000000 0x9000).2.mem 4 1
        = mapped_once_mm.mem 4 1 :=
  have h := ept_map_failure_keeps_hierarchy msvc_build
    (mm_with [some 1, some 2, some 3, some 4]) mapped_once_mm 1 7 0x40000000 0x9000
    mapped_once_mm_grown (by decide)
  ⟨by decide, h.1 0x1000, h.2.1 0x1000 (4, 1) (by decide)⟩

/-- C23 counterexample: the allocator serves the PDPT (page 2) and the PD (page 3) and
fails for the PT.  The call returns null, and the PDPT allocated in the call does not
have all entries zero: its entry 0 is the link to the PD. -/
theorem ept_map_failure_links_partial_tables :
    Grown msvc_build (mm_with [some 1, some 2, some 3, none, some 4]) 1 retry_root_mm ∧
      (ept_alloc_page msvc_build retry_root_mm 1 7 0x1000 0x5000).1 = none ∧
      2 ∉ retry_root_mm.live ∧
      2 ∈ (ept_alloc_page msvc_build retry_root_mm 1 7 0x1000 0x5000).2.live ∧
      (ept_alloc_page msvc_build retry_root_mm 1 7 0x1000 0x5000).2.mem 2 0
        = pde_word msvc_build 3 ∧
      (ept_alloc_page msvc_build retry_root_mm 1 7 0x1000 0x5000).2.mem 2 0 ≠ 0 :=
  ⟨Grown.fresh _ rfl, by decide, by decide, by decide, by decide, by decide⟩

/-! ## Well-formedness of the hierarchy -/

theorem Built.grown {b : Build} {st0 : Mm} {root : Nat} {m : Nat → Option (Nat × Nat)}
    {st : Mm} (h : Built b st0 root m st) : Grown b st0 root st := by
  induction h with
  | fresh st1 h1 => exact Grown.fresh st1 h1
  | map m st access gpa hpa _ ih => exact Grown.map st access gpa hpa ih

/-- On a well-formed hierarchy the walk by `ept_page_addr` reaches the tables of the
shape. -/
theorem table_at_spec {b : Build} {st : Mm} {root : Nat} {sh : Shape} (h : Inv b st root sh) :
    ∀ π : List Nat, π.length ≤ 3 → (∀ i, i ∈ π → i < 512) → table_at st root π = sh π := by
  intro π
  induction π with
  | nil => intro _ _; rw [h.root_eq]; rfl
  | cons i π ih =>
    intro hl hi
    have hl2 : π.length < 3 := by simp at hl; omega
    have ih1 := ih (by omega) (fun k hk => hi k (List.mem_cons_of_mem _ hk))
    have hi1 : i < 512 := hi i (List.mem_cons_self _ _)
    unfold table_at
    rw [ih1]
    cases hp : sh π with
    | none =>
      simp only
      cases hs : sh (i :: π) with
      | none => rfl
      | some q =>
        obtain ⟨p, hp1⟩ := h.parent i π q hs
        rw [hp] at hp1; cases hp1
    | some p =>
      simp only
      cases hs : sh (i :: π) with
      | none => rw [h.entry_none hp hl2 hi1 hs, ept_page_addr_zero]
      | some q =>
        rw [h.entry_some hp hl2 hi1 hs, pde_word_page_addr b q (h.bound _ _ hs)]

theorem slot_congr {a c : Nat} (h : gpa_slot a = gpa_slot c) :
    pt_path a = pt_path c ∧ pte_idx a = pte_idx c := by
  unfold gpa_slot at h
  unfold pt_path pde_idx ppe_idx pxe_idx pte_idx
  rw [idx_eq, idx_eq, idx_eq, idx_eq, idx_eq, idx_eq, idx_eq, idx_eq]
  norm_num at h ⊢
  refine ⟨⟨?_, ?_, ?_⟩, ?_⟩ <;> omega

theorem leaf_word_mask (b : Build) (old access hpa : Nat) :
    leaf_word b old access hpa = leaf_word b old (access &&& 7) hpa := by
  unfold leaf_word init_epte EPT_AR_MASK
  rw [Nat.and_assoc, Nat.and_self]

theorem leaf_word_frame (b : Build) (old access hpa : Nat) (hh : hpa < 2 ^ 48) :
    epte_frame (leaf_word b old access hpa) = hpa >>> 12 := by
  have ha : access &&& 7 < 8 := by rw [land_seven]; omega
  rw [leaf_word_mask, leaf_word_val b old _ hpa ha hh, epte_frame_eq,
    Nat.shiftRight_eq_div_pow]
  split <;> omega

theorem ept_pte_some {b : Build} {st : Mm} {root : Nat} {sh : Shape} (h : Inv b st root sh)
    {g : Nat} {e : Nat × Nat} (he : ept_pte st root g = some e) :
    sh (pt_path g) = some e.1 ∧ e.2 = pte_idx g := by
  rw [ept_pte_spec h g] at he
  cases hs : sh (pt_path g) with
  | none => rw [hs] at he; cases he
  | some q =>
    rw [hs] at he
    simp only [Option.map_some', Option.some.injEq] at he
    subst he
    exact ⟨rfl, rfl⟩

theorem ept_pte_of_shape {b : Build} {st : Mm} {root : Nat} {sh : Shape}
    (h : Inv b st root sh) {g q : Nat} (hq : sh (pt_path g) = some q) :
    ept_pte st root g = some (q, pte_idx g) := by
  rw [ept_pte_spec h g, hq]; rfl

/-- A failing `ept_alloc_page` on a well-formed hierarchy leaves every lookup and every
entry found by a lookup as it was. -/
theorem ept_alloc_page_fail_lookup {b : Build} {st : Mm} {root : Nat} {sh : Shape}
    (h : Inv b st root sh) (access gpa hpa : Nat)
    (hfail : (ept_alloc_page b st root access gpa hpa).1 = none) :
    (∀ g, ept_pte (ept_alloc_page b st root access gpa hpa).2 root g = ept_pte st root g) ∧
      (∀ g e, ept_pte st root g = some e →
        (ept_alloc_page b st root access gpa hpa).2.mem e.1 e.2 = st.mem e.1 e.2) := by
  obtain ⟨sh1, g, hsame⟩ := ept_alloc_page_fail_shape h access gpa hpa hfail
  refine ⟨?_, ?_⟩
  · intro a
    rw [ept_pte_spec g.inv a, ept_pte_spec h a, hsame (pt_path a)]
    · intro hc; have := congrArg List.length hc; simp [pt_path] at this
    · intro hc; have := congrArg List.length hc; simp [pt_path] at this
  · intro a e he
    obtain ⟨hs, -⟩ := ept_pte_some h he
    have := g.leaves _ _ (g.ext _ _ hs) rfl e.2
    rw [if_pos hs] at this
    exact this

/-- The leaf entries of a hierarchy grown by map calls: the entry of a slot never mapped
is zero when its PT page exists, and the entry of a mapped slot is the leaf word of the
last successful map. -/
theorem Built.leaf {b : Build} {st0 : Mm} {root : Nat} {m : Nat → Option (Nat × Nat)}
    {st : Mm} (h : Built b st0 root m st) :
    (∀ g, m (gpa_slot g) = none → ∀ e, ept_pte st root g = some e → st.mem e.1 e.2 = 0) ∧
      (∀ g a hp, m (gpa_slot g) = some (a, hp) →
        ∃ e, ept_pte st root g = some e ∧ st.mem e.1 e.2 = leaf_word b 0 a hp) := by
  induction h with
  | fresh st1 h1 =>
    refine ⟨?_, ?_⟩
    · intro g _ e he
      exfalso
      rcases mm_alloc_page_spec st0 with ⟨h2, -⟩ | ⟨q, h2, -, -, hm, -⟩
      · rw [h1] at h2; cases h2
      · rw [h1] at h2 hm
        simp only at h2 hm
        injection h2 with h2
        subst h2
        unfold ept_pte at he
        rw [hm] at he
        simp [ept_page_addr_zero] at he
    · intro g a hp hc; cases hc
  | map m st access gpa hpa hb ih =>
    obtain ⟨sh, hinv, -⟩ := hb.grown.owned
    by_cases hfail : (ept_alloc_page b st root access gpa hpa).1 = none
    · rw [if_pos hfail]
      obtain ⟨f1, f2⟩ := ept_alloc_page_fail_lookup hinv access gpa hpa hfail
      refine ⟨?_, ?_⟩
      · intro g hm e he
        rw [f1 g] at he
        rw [f2 g e he]
        exact ih.1 g hm e he
      · intro g a hp hm
        obtain ⟨e, he, hv⟩ := ih.2 g a hp hm
        exact ⟨e, by rw [f1 g]; exact he, by rw [f2 g e he]; exact hv⟩
    · rw [if_neg hfail]
      obtain ⟨sh1, i1, hext, -, -, -, -, hleaf, hr⟩ := ept_alloc_page_inv hinv access gpa hpa
      rcases hr with hr | ⟨q, -, hq2, hq3⟩
      · exact absurd hr hfail
      · refine ⟨?_, ?_⟩
        · intro g hm e he
          by_cases hs : gpa_slot g = gpa_slot gpa
          · simp only [hs, if_true] at hm
            cases hm
          · simp only [hs, if_false] at hm
            obtain ⟨he1, he2⟩ := ept_pte_some i1 he
            have hd : pt_path g ≠ pt_path gpa ∨ pte_idx g ≠ pte_idx gpa := by
              by_contra hc
              push_neg at hc
              exact hs (slot_inj hc.1 hc.2)
            have hv := hleaf _ _ he1 rfl e.2 (by rw [he2]; exact hd)
            rw [hv]
            by_cases h0 : sh (pt_path g) = some e.1
            · rw [if_pos h0]
              apply ih.1 g hm e
              rw [ept_pte_of_shape hinv h0, ← he2]
            · rw [if_neg h0]
        · intro g a hp hm
          by_cases hs : gpa_slot g = gpa_slot gpa
          · simp only [hs, if_true] at hm
            injection hm with hm
            injection hm with hm1 hm2
            subst hm1; subst hm2
            obtain ⟨hp1, hp2⟩ := slot_congr hs
            refine ⟨(q, pte_idx g), ept_pte_of_shape i1 (by rw [hp1]; exact hq2), ?_⟩
            show (ept_alloc_page b st root access gpa hpa).2.mem q (pte_idx g) = _
            rw [hp2]; exact hq3
          · simp only [hs, if_false] at hm
            obtain ⟨e, he, hv⟩ := ih.2 g a hp hm
            obtain ⟨he1, he2⟩ := ept_pte_some hinv he
            have hd : pt_path g ≠ pt_path gpa ∨ pte_idx g ≠ pte_idx gpa := by
              by_contra hc
              push_neg at hc
              exact hs (slot_inj hc.1 hc.2)
            refine ⟨e, ?_, ?_⟩
            · rw [ept_pte_of_shape i1 (hext _ _ he1), ← he2]
            · have hv2 := hleaf _ _ (hext _ _ he1) rfl e.2 (by rw [he2]; exact hd)
              rw [hv2, if_pos he1]
              exact hv

theorem pde_word_access (b : Build) (q : Nat) (hq : q < 2 ^ 36) :
    epte_access (pde_word b q) = 7 := by
  unfold epte_access EPT_AR_MASK
  rw [pde_word_val b q hq, land_seven]
  split <;> omega

theorem pde_word_pa (b : Build) (q : Nat) (hq : q < 2 ^ 36) :
    PAGE_PA (pde_word b q) = pa_of q := by
  have h := pde_word_frame b q hq
  have h2 := epte_frame_eq (pde_word b q)
  unfold epte_frame at h2
  rw [h] at h2
  have hm : PAGE_PA (pde_word b q) % 4096 = 0 := by
    unfold PAGE_PA PAGE_PA_MASK PAGE_SHIFT
    apply Nat.eq_of_testBit_eq
    intro k
    rw [Nat.zero_testBit]
    by_cases hk : k < 12
    · rw [show (4096 : Nat) = 2 ^ 12 from rfl, Nat.testBit_mod_two_pow]
      simp only [hk, decide_True, Bool.true_and, Nat.testBit_and, Nat.testBit_shiftLeft]
      have : ¬ 12 ≤ k := by omega
      simp [this]
    · rw [show (4096 : Nat) = 2 ^ 12 from rfl, Nat.testBit_mod_two_pow]
      simp [hk]
  unfold frame_of PAGE_SHIFT at h
  unfold pa_of PAGE_SHIFT
  rw [Nat.shiftRight_eq_div_pow] at h
  rw [Nat.shiftLeft_eq]
  norm_num at h ⊢
  omega

/-- A non-zero entry of an interior table of a well-formed hierarchy is the link of the
table below it. -/
theorem Inv.interior {b : Build} {st : Mm} {root : Nat} {sh : Shape} (h : Inv b st root sh)
    {π : List Nat} {p j : Nat} (hl : π.length ≤ 2) (hi : ∀ i, i ∈ π → i < 512) (hj : j < 512)
    (hp : table_at st root π = some p) (hne : st.mem p j ≠ 0) :
    ∃ q, sh π = some p ∧ sh (j :: π) = some q ∧ st.mem p j = pde_word b q ∧ q < 2 ^ 36 := by
  rw [table_at_spec h π (by omega) hi] at hp
  cases hs : sh (j :: π) with
  | none => exact absurd (h.entry_none hp (by omega) hj hs) hne
  | some q => exact ⟨q, hp, rfl, h.entry_some hp (by omega) hj hs, h.bound _ _ hs⟩

/-- C24 (amended): in every hierarchy grown from a freshly allocated zeroed root by
`ept_alloc_page` calls with arbitrary access, every non-zero entry of the PML4, of a
PDPT or of a PD has R, W and X set, its frame field is the physical address of a table
page that was allocated after the hierarchy was started, is outstanding, is the next
table of the walk, and is the frame of no other non-zero PML4, PDPT or PD entry; and
every non-zero PT entry is the leaf word of the last successful map of its slot, so its
frame field is that map's `hpa >> 12` whenever that `hpa` is below 2^48. -/
theorem ept_map_preserves_well_formedness (b : Build) (st0 st : Mm) (root : Nat)
    (m : Nat → Option (Nat × Nat)) (hb : Built b st0 root m st) :
    (∀ π p j, π.length ≤ 2 → (∀ i, i ∈ π → i < 512) → j < 512 →
        table_at st root π = some p → st.mem p j ≠ 0 →
        epte_access (st.mem p j) = EPT_ACCESS_RWX ∧
        ∃ q, PAGE_PA (st.mem p j) = pa_of q ∧ epte_frame (st.mem p j) = q ∧
          table_at st root (j :: π) = some q ∧ q ∈ st.live ∧ q ∉ st0.live ∧
          ∀ π2 p2 j2, π2.length ≤ 2 → (∀ i, i ∈ π2 → i < 512) → j2 < 512 →
            table_at st root π2 = some p2 → st.mem p2 j2 ≠ 0 →
            epte_frame (st.mem p2 j2) = q → p2 = p ∧ j2 = j) ∧
      (∀ g e, ept_pte st root g = some e → st.mem e.1 e.2 ≠ 0 →
        ∃ access hpa, m (gpa_slot g) = some (access, hpa) ∧
          st.mem e.1 e.2 = leaf_word b 0 access hpa ∧
          (hpa < 2 ^ 48 → epte_frame (st.mem e.1 e.2) = hpa >>> 12)) := by
  obtain ⟨sh, hinv, -, hfresh, -, -⟩ := hb.grown.owned
  refine ⟨?_, ?_⟩
  · intro π p j hl hi hj hp hne
    obtain ⟨q, hsp, hsq, hw, hqb⟩ := hinv.interior hl hi hj hp hne
    have hi2 : ∀ i, i ∈ j :: π → i < 512 := by
      intro i hi1
      rcases List.mem_cons.1 hi1 with h1 | h1
      · rw [h1]; exact hj
      · exact hi i h1
    refine ⟨by rw [hw]; exact pde_word_access b q hqb, q, by rw [hw]; exact pde_word_pa b q hqb,
      by rw [hw]; exact pde_word_frame b q hqb, ?_, hinv.live _ _ hsq, hfresh _ _ hsq, ?_⟩
    · rw [table_at_spec hinv (j :: π) (by simp; omega) hi2]
      exact hsq
    · intro π2 p2 j2 hl2 hi3 hj2 hp2 hne2 hf
      obtain ⟨q2, hsp2, hsq2, hw2, hqb2⟩ := hinv.interior hl2 hi3 hj2 hp2 hne2
      rw [hw2] at hf
      have hq : q2 = q := by
        have := pde_word_frame b q2 hqb2
        unfold epte_frame at hf
        rw [this] at hf
        exact hf
      subst hq
      have hpath := hinv.inj _ _ _ hsq2 hsq
      injection hpath with h1 h2
      subst h1; subst h2
      rw [hsp] at hsp2
      injection hsp2 with hsp2
      exact ⟨hsp2.symm, rfl⟩
  · intro g e he hne
    obtain ⟨l1, l2⟩ := hb.leaf
    cases hm : m (gpa_slot g) with
    | none => exact absurd (l1 g hm e he) hne
    | some ah =>
      obtain ⟨a, hp⟩ := ah
      obtain ⟨e2, he2, hv⟩ := l2 g a hp hm
      rw [he] at he2
      injection he2 with he2
      subst he2
      exact ⟨a, hp, rfl, hv, fun hh => by rw [hv]; exact leaf_word_frame b 0 a hp hh⟩

theorem mapped_once_mm_built :
    Built msvc_build (mm_with [some 1, some 2, some 3, some 4]) 1
      (fun s => if s = gpa_slot 0x1000 then some (7, 0x5000) else none) mapped_once_mm := by
  have h := Built.map (fun _ => none) grown_root_mm 7 0x1000 0x5000
    (@Built.fresh msvc_build (mm_with [some 1, some 2, some 3, some 4]) 1 grown_root_mm rfl)
  rw [if_neg (by decide)] at h
  exact h

theorem high_frame_mm_built :
    Built msvc_build (mm_with [some 1, some 2, some 3, some 4]) 1
      (fun s => if s = gpa_slot 0x1000 then some (0, 2 ^ 48 + 0x5000) else none)
      high_frame_mm := by
  have h := Built.map (fun _ => none) grown_root_mm 0 0x1000 (2 ^ 48 + 0x5000)
    (@Built.fresh msvc_build (mm_with [some 1, some 2, some 3, some 4]) 1 grown_root_mm rfl)
  rw [if_neg (by decide)] at h
  exact h

/-- C24 witness: after gpa 0x1000 is mapped to hpa 0x5000, entry 0 of the PML4 has full
access, and the PT entry of gpa 0x1000 is the leaf word of that map, with frame 5. -/
theorem ept_map_preserves_well_formedness_witness :
    epte_access (mapped_once_mm.mem 1 0) = EPT_ACCESS_RWX ∧
      ∃ access hpa, (if gpa_slot 0x1000 = gpa_slot 0x1000 then some (7, 0x5000) else none)
          = some (access, hpa) ∧
        mapped_once_mm.mem 4 1 = leaf_word msvc_build 0 access hpa ∧
        (hpa < 2 ^ 48 → epte_frame (mapped_once_mm.mem 4 1) = hpa >>> 12) :=
  have h := ept_map_preserves_well_formedness msvc_build
    (mm_with [some 1, some 2, some 3, some 4]) mapped_once_mm 1 _ mapped_once_mm_built
  ⟨(h.1 [] 1 0 (by decide) (by simp) (by decide) rfl (by decide)).1,
    h.2 0x1000 (4, 1) (by decide) (by decide)⟩

/-- C24 counterexample: gpa 0x1000 is mapped to hpa 2^48 + 0x5000 with access none in a
fresh hierarchy.  The PT entry is non-zero, and its frame field is 5, not the mapped
host frame 2^36 + 5. -/
theorem ept_map_high_hpa_leaf_frame :
    Built msvc_build (mm_with [some 1, some 2, some 3, some 4]) 1
        (fun s => if s = gpa_slot 0x1000 then some (0, 2 ^ 48 + 0x5000) else none)
        high_frame_mm ∧
      ept_pte high_frame_mm 1 0x1000 = some (4, 1) ∧
      high_frame_mm.mem 4 1 ≠ 0 ∧
      epte_frame (high_frame_mm.mem 4 1) = 5 ∧
      (2 ^ 48 + 0x5000) >>> 12 = 2 ^ 36 + 5 :=
  ⟨high_frame_mm_built, by decide, by decide, by decide, by decide⟩

/-- A leaf entry can hold the frame of a table page: with gpa 0x4000 mapped to hpa
0x4000, the PD entry that links the PT page 4 and the PT entry of gpa 0x4000 both have
frame 4. -/
theorem leaf_frame_of_table_page :
    table_at self_mapped_mm 1 [0, 0] = some 3 ∧
      epte_frame (self_mapped_mm.mem 3 0) = 4 ∧
      ept_pte self_mapped_mm 1 0x4000 = some (4, 4) ∧
      epte_frame (self_mapped_mm.mem 4 4) = 4 :=
  ⟨by decide, by decide, by decide, by decide⟩

/-! ## Teardown: the order of accesses -/

theorem touch_mem (st : Mm) (p : Nat) : (st.touch p).mem = st.mem := by
  unfold Mm.touch; split <;> rfl

theorem replay_append (st : Mm) (l m : List Access) :
    replay st (l ++ m) = replay (replay st l) m := by
  induction l generalizing st with
  | nil => rfl
  | cons a l ih =>
    cases a with
    | read p => exact ih _
    | release p => exact ih _

theorem replay_mem (st : Mm) (l : List Access) : (replay st l).mem = st.mem := by
  induction l generalizing st with
  | nil => rfl
  | cons a l ih =>
    cases a with
    | read p => exact (ih _).trans (touch_mem st p)
    | release p => exact (ih _).trans (mm_free_page_mem st p)

/-- The loop of `free_entries` does what its list of accesses says. -/
theorem free_loop_replay (sub_free : Mm → Nat → Mm) (sub : Nat → List Access)
    (mem : Nat → Nat → Nat)
    (hsub : ∀ (s : Mm) (q : Nat), s.mem = mem → sub_free s q = replay s (sub q))
    (table : Nat) (st : Mm) (hmem : st.mem = mem) (n : Nat) :
    free_loop sub_free table n st = replay st (free_loop_accesses sub mem table n) := by
  induction n with
  | zero => rfl
  | succ n ih =>
    unfold free_loop free_loop_accesses
    simp only
    rw [ih, replay_append]
    have hm : ((replay st (free_loop_accesses sub mem table n)).touch table).mem = mem := by
      rw [touch_mem, replay_mem, hmem]
    show (if ((replay st (free_loop_accesses sub mem table n)).touch table).mem table n ≠ 0
        then sub_free ((replay st (free_loop_accesses sub mem table n)).touch table)
          (frame_of (PAGE_PA
            (((replay st (free_loop_accesses sub mem table n)).touch table).mem table n)))
        else (replay st (free_loop_accesses sub mem table n)).touch table) =
      replay ((replay st (free_loop_accesses sub mem table n)).touch table)
        (if mem table n ≠ 0 then sub (frame_of (PAGE_PA (mem table n))) else [])
    rw [hm]
    by_cases he : mem table n ≠ 0
    · rw [if_pos he, if_pos he, hsub _ _ hm]
    · rw [if_neg he, if_neg he]; rfl

theorem free_entries_accesses_zero (mem : Nat → Nat → Nat) (table : Nat) :
    free_entries_accesses mem 0 table =
      free_loop_accesses (fun sub => [Access.release sub]) mem table 512 ++
        [Access.release table] := by
  rw [free_entries_accesses]

theorem free_entries_accesses_succ (mem : Nat → Nat → Nat) (lvl table : Nat) :
    free_entries_accesses mem (lvl + 1) table =
      free_loop_accesses
        (fun sub => if lvl + 1 > 2 then free_entries_accesses mem lvl sub
          else [Access.release sub]) mem table 512 ++ [Access.release table] := by
  rw [free_entries_accesses]

theorem replay_release (st : Mm) (p : Nat) :
    replay st [Access.release p] = mm_free_page st p := rfl

/-- The function `free_entries` does what its list of accesses says. -/
theorem free_entries_replay : ∀ (lvl : Nat) (st : Mm) (table : Nat),
    free_entries lvl st table = replay st (free_entries_accesses st.mem lvl table) := by
  intro lvl
  induction lvl with
  | zero =>
    intro st table
    have h := free_loop_replay (fun s sub => mm_free_page s sub)
      (fun sub => [Access.release sub]) st.mem (fun _ _ _ => rfl) table st rfl 512
    rw [free_entries, free_entries_accesses_zero, replay_append, replay_release, h]
  | succ lvl ih =>
    intro st table
    have h := free_loop_replay
      (fun s sub => if lvl + 1 > 2 then free_entries lvl s sub else mm_free_page s sub)
      (fun sub => if lvl + 1 > 2 then free_entries_accesses st.mem lvl sub
        else [Access.release sub]) st.mem (by
          intro s q hs
          beta_reduce
          by_cases hl : lvl + 1 > 2
          · rw [if_pos hl, if_pos hl, ih, hs]
          · rw [if_neg hl, if_neg hl]; rfl) table st rfl 512
    rw [free_entries_succ, free_entries_accesses_succ, replay_append, replay_release, h]

theorem touch_fault_false {st : Mm} {p : Nat} (h : (st.touch p).fault = false) :
    p ∈ st.live ∧ st.fault = false := by
  unfold Mm.touch at h
  by_cases hp : p ∈ st.live
  · rw [if_pos hp] at h; exact ⟨hp, h⟩
  · rw [if_neg hp] at h; cases h

theorem mm_free_page_fault_false {st : Mm} {p : Nat} (h : (mm_free_page st p).fault = false) :
    p ∈ st.live ∧ st.fault = false := by
  unfold mm_free_page at h
  by_cases hp : p ∈ st.live
  · rw [if_pos hp] at h; exact ⟨hp, h⟩
  · rw [if_neg hp] at h; cases h

/-- A replay that ends without a fault read and released outstanding pages only. -/
theorem replay_in_order (l : List Access) :
    ∀ st : Mm, (replay st l).fault = false → st.fault = false ∧ InOrder st.live l := by
  induction l with
  | nil => intro st h; exact ⟨h, InOrder.nil _⟩
  | cons a l ih =>
    intro st h
    cases a with
    | read p =>
      obtain ⟨h1, h2⟩ := ih (st.touch p) h
      obtain ⟨hp, hf⟩ := touch_fault_false h1
      rw [touch_live hp] at h2
      exact ⟨hf, InOrder.read _ _ _ hp h2⟩
    | release p =>
      obtain ⟨h1, h2⟩ := ih (mm_free_page st p) h
      obtain ⟨hp, hf⟩ := mm_free_page_fault_false h1
      rw [mm_free_page_live hp] at h2
      exact ⟨hf, InOrder.release _ _ _ hp h2⟩

theorem in_order_mem {live : Finset Nat} {l : List Access} (h : InOrder live l) :
    ∀ p, (Access.read p ∈ l → p ∈ live) ∧ (Access.release p ∈ l → p ∈ live) := by
  induction h with
  | nil live => intro p; simp
  | read live q l hq _ ih =>
    intro p
    obtain ⟨i1, i2⟩ := ih p
    refine ⟨?_, ?_⟩
    · intro hm
      rcases List.mem_cons.1 hm with h1 | h1
      · injection h1 with h1; rw [h1]; exact hq
      · exact i1 h1
    · intro hm
      rcases List.mem_cons.1 hm with h1 | h1
      · cases h1
      · exact i2 h1
  | release live q l hq _ ih =>
    intro p
    obtain ⟨i1, i2⟩ := ih p
    refine ⟨?_, ?_⟩
    · intro hm
      rcases List.mem_cons.1 hm with h1 | h1
      · cases h1
      · exact Finset.mem_of_mem_erase (i1 h1)
    · intro hm
      rcases List.mem_cons.1 hm with h1 | h1
      · injection h1 with h1; rw [h1]; exact hq
      · exact Finset.mem_of_mem_erase (i2 h1)

theorem in_order_suffix (l1 : List Access) :
    ∀ (live : Finset Nat) (l2 : List Access), InOrder live (l1 ++ l2) →
      ∃ live2, InOrder live2 l2 := by
  induction l1 with
  | nil => intro live l2 h; exact ⟨live, h⟩
  | cons a l ih =>
    intro live l2 h
    cases h with
    | read _ q _ _ h2 => exact ih live l2 h2
    | release _ q _ _ h2 => exact ih (live.erase q) l2 h2

/-- In a list of accesses that is in order, a page is neither read nor released again
after its release. -/
theorem in_order_after_release {live : Finset Nat} {l l1 l2 : List Access} {p : Nat}
    (h : InOrder live l) (hl : l = l1 ++ Access.release p :: l2) :
    Access.read p ∉ l2 ∧ Access.release p ∉ l2 := by
  subst hl
  obtain ⟨live2, h2⟩ := in_order_suffix l1 live _ h
  cases h2 with
  | release _ _ _ _ h3 =>
    obtain ⟨i1, i2⟩ := in_order_mem h3 p
    exact ⟨fun hm => Finset.not_mem_erase p live2 (i1 hm),
      fun hm => Finset.not_mem_erase p live2 (i2 hm)⟩

theorem access_below_child {sh : Shape} {π : List Nat} {i : Nat} {a : Access}
    (h : AccessBelow sh (i :: π) a) : AccessBelow sh π a := by
  have e : ∀ ρ : List Nat, ρ ++ i :: π = (ρ ++ [i]) ++ π := by intro ρ; simp
  cases a with
  | read x =>
    obtain ⟨ρ, h1, h2⟩ := h
    exact ⟨ρ ++ [i], by rw [← e]; exact h1, by rw [← e]; exact h2⟩
  | release x =>
    obtain ⟨ρ, h1⟩ := h
    exact ⟨ρ ++ [i], by rw [← e]; exact h1⟩

/-- The accesses of the loop of `free_entries` over an interior table of a well-formed
hierarchy fall below that table. -/
theorem free_loop_accesses_below {b : Build} {st : Mm} {root : Nat} {sh : Shape}
    (h : Inv b st root sh) {π : List Nat} {p : Nat} (hp : sh π = some p)
    (hl : π.length < 3) (sub : Nat → List Access)
    (hsub : ∀ i q, sh (i :: π) = some q → ∀ a, a ∈ sub q → AccessBelow sh (i :: π) a)
    (n : Nat) (hn : n ≤ 512) :
    ∀ a, a ∈ free_loop_accesses sub st.mem p n → AccessBelow sh π a := by
  induction n with
  | zero => intro a ha; cases ha
  | succ n ih =>
    intro a ha
    unfold free_loop_accesses at ha
    rcases List.mem_append.1 ha with h1 | h1
    · exact ih (by omega) a h1
    · rcases List.mem_cons.1 h1 with h2 | h2
      · rw [h2]
        exact ⟨[], hp, by simp; omega⟩
      · by_cases he : st.mem p n ≠ 0
        · rw [if_pos he] at h2
          cases hs : sh (n :: π) with
          | none => exact absurd (h.entry_none hp hl (by omega) hs) he
          | some q =>
            have hw := h.entry_some hp hl (by omega) hs
            rw [hw, pde_word_frame b q (h.bound _ _ hs)] at h2
            exact access_below_child (hsub n q hs a h2)
        · rw [if_neg he] at h2; cases h2

/-- The accesses of `free_entries` on a table of a well-formed hierarchy fall below
that table: what is read is a PML4, PDPT or PD table, what is released a table. -/
theorem free_entries_accesses_below {b : Build} {st : Mm} {root : Nat} {sh : Shape}
    (h : Inv b st root sh) :
    ∀ (k : Nat) (π : List Nat) (p : Nat), k + π.length = 2 → sh π = some p →
      ∀ a, a ∈ free_entries_accesses st.mem (k + 2) p → AccessBelow sh π a := by
  intro k
  induction k with
  | zero =>
    intro π p hk hp a ha
    rw [free_entries_accesses_succ] at ha
    rcases List.mem_append.1 ha with h1 | h1
    · refine free_loop_accesses_below h hp (by omega) _ ?_ 512 (le_refl _) a h1
      intro i q hq c hc
      rw [if_neg (by omega)] at hc
      rcases List.mem_singleton.1 hc with h2
      rw [h2]
      exact ⟨[], hq⟩
    · rw [List.mem_singleton.1 h1]
      exact ⟨[], hp⟩
  | succ k ih =>
    intro π p hk hp a ha
    rw [free_entries_accesses_succ] at ha
    rcases List.mem_append.1 ha with h1 | h1
    · refine free_loop_accesses_below h hp (by omega) _ ?_ 512 (le_refl _) a h1
      intro i q hq c hc
      rw [if_pos (by omega)] at hc
      exact ih (i :: π) q (by simp; omega) hq c hc
    · rw [List.mem_singleton.1 h1]
      exact ⟨[], hp⟩

theorem Inv.idx_all {b : Build} {st : Mm} {root : Nat} {sh : Shape} (h : Inv b st root sh) :
    ∀ (π : List Nat) (x : Nat), sh π = some x → ∀ i, i ∈ π → i < 512 := by
  intro π
  induction π with
  | nil => intro x _ i hi; cases hi
  | cons j π ih =>
    intro x hx i hi
    rcases List.mem_cons.1 hi with h1 | h1
    · rw [h1]; exact h.idx j π x hx
    · obtain ⟨p, hp⟩ := h.parent j π x hx
      exact ih p hp i h1

/-- The accesses of `free_entries(root, 4)` on a well-formed hierarchy whose pages are
outstanding are in order. -/
theorem free_entries_in_order {b : Build} {st : Mm} {root : Nat} {sh : Shape}
    (h : Inv b st root sh) : InOrder st.live (free_entries_accesses st.mem 4 root) := by
  have hinv : Inv b { st with fault := false } root sh :=
    h.frame (fun π q hq => h.live π q hq) (fun _ _ _ _ _ _ => rfl)
  have hfree := free_entries_spec hinv 2 [] root rfl hinv.root_eq { st with fault := false }
    rfl (fun x hx => hx.elim (fun ρ hρ => hinv.live _ _ hρ))
  have ff : (free_entries 4 { st with fault := false } root).fault = false := hfree.2.1
  have hr : free_entries 4 { st with fault := false } root =
      replay { st with fault := false } (free_entries_accesses st.mem 4 root) :=
    free_entries_replay 4 { st with fault := false } root
  generalize free_entries_accesses st.mem 4 root = T at hr ⊢
  rw [hr] at ff
  exact (replay_in_order T _ ff).2

/-- C25 (teardown is memory-order safe): on a hierarchy grown by map calls,
`free_entries(root, 4)` does what its list of accesses says, and in that list every page
read or released is outstanding at that moment: after its release a page is neither
read nor released again.  Every page read is the PML4, a PDPT or a PD of the hierarchy
(at most two levels below the root), every page released is a table at most three
levels below the root, and the PT page holding a leaf entry is never read, so no leaf
is decoded as a reference to a table. -/
theorem free_entries_memory_order_safe (b : Build) (st0 st : Mm) (root : Nat)
    (hg : Grown b st0 root st) :
    free_entries 4 st root = replay st (free_entries_accesses st.mem 4 root) ∧
      InOrder st.live (free_entries_accesses st.mem 4 root) ∧
      (∀ l1 p l2, free_entries_accesses st.mem 4 root = l1 ++ Access.release p :: l2 →
        Access.read p ∉ l2 ∧ Access.release p ∉ l2) ∧
      (∀ p, Access.read p ∈ free_entries_accesses st.mem 4 root →
        ∃ π, π.length ≤ 2 ∧ (∀ i, i ∈ π → i < 512) ∧ table_at st root π = some p) ∧
      (∀ p, Access.release p ∈ free_entries_accesses st.mem 4 root →
        ∃ π, π.length ≤ 3 ∧ (∀ i, i ∈ π → i < 512) ∧ table_at st root π = some p) ∧
      (∀ g e, ept_pte st root g = some e →
        Access.read e.1 ∉ free_entries_accesses st.mem 4 root) := by
  obtain ⟨sh, hinv, -⟩ := hg.owned
  have hord := free_entries_in_order hinv
  have hbelow : ∀ a, a ∈ free_entries_accesses st.mem 4 root → AccessBelow sh [] a :=
    free_entries_accesses_below hinv 2 [] root rfl hinv.root_eq
  refine ⟨free_entries_replay 4 st root, ?_⟩
  generalize free_entries_accesses st.mem 4 root = T at hord hbelow
  have hread : ∀ p, Access.read p ∈ T → ∃ π, sh π = some p ∧ π.length ≤ 2 := by
    intro p hp
    obtain ⟨ρ, h1, h2⟩ := hbelow _ hp
    exact ⟨ρ ++ [], h1, h2⟩
  refine ⟨hord, fun l1 p l2 hl => in_order_after_release hord hl, ?_, ?_, ?_⟩
  · intro p hp
    obtain ⟨π, h1, h2⟩ := hread p hp
    have hi := hinv.idx_all π p h1
    exact ⟨π, h2, hi, by rw [table_at_spec hinv π (by omega) hi]; exact h1⟩
  · intro p hp
    obtain ⟨ρ, h1⟩ := hbelow _ hp
    rw [List.append_nil] at h1
    have hi := hinv.idx_all ρ p h1
    have hl := hinv.len ρ p h1
    exact ⟨ρ, hl, hi, by rw [table_at_spec hinv ρ hl hi]; exact h1⟩
  · intro g e he hp
    obtain ⟨π, h1, h2⟩ := hread _ hp
    obtain ⟨h3, -⟩ := ept_pte_some hinv he
    have := hinv.inj _ _ _ h1 h3
    rw [this] at h2
    simp [pt_path] at h2

/-- C25 witness: in the hierarchy with gpa 0x1000 mapped (root 1, PDPT 2, PD 3, PT 4),
the accesses of the teardown are in order and the PT page 4 is never read. -/
theorem free_entries_memory_order_safe_witness :
    InOrder mapped_once_mm.live (free_entries_accesses mapped_once_mm.mem 4 1) ∧
      Access.read 4 ∉ free_entries_accesses mapped_once_mm.mem 4 1 :=
  have h := free_entries_memory_order_safe msvc_build
    (mm_with [some 1, some 2, some 3, some 4]) mapped_once_mm 1 mapped_once_mm_grown
  ⟨h.2.1, h.2.2.2.2.2 0x1000 (4, 1) (by decide)⟩

/-! ## vCPU teardown -/

theorem init_ept_loop_step {b : Build} {host : Host} {st : Mm} {ept : Ept} {v : Nat}
    {ept1 : Ept} {st1 : Mm}
    (h : ept_create_ptr b host st ept EPT_ACCESS_ALL = some (some v, ept1, st1)) (n : Nat) :
    init_ept_loop b host (n + 1) ept st = init_ept_loop b host n ept1 st1 := by
  rw [init_ept_loop, h]

theorem init_ept_ok {b : Build} {host : Host} {st : Mm} {ept : Ept} {L : Nat} {st1 : Mm}
    {ept2 : Ept} {st2 : Mm} (ha : mm_alloc_page st = (some L, st1))
    (hl : init_ept_loop b host b.eptp_init_used
      { ept with ptr_list := some L, ptr_bitmap := fun _ => 0 } st1 = some (true, ept2, st2)) :
    init_ept b host st ept = some (true, ept2, st2) := by
  unfold init_ept
  rw [ha]
  simp only
  rw [hl]

theorem gcc_create_one :
    ept_create_ptr gcc_build small_host gcc_list_mm gcc_list_pool EPT_ACCESS_ALL
      = some (some 1, gcc_one_pool, gcc_one_mm) := rfl

theorem gcc_create_two :
    ept_create_ptr gcc_build small_host gcc_one_mm gcc_one_pool EPT_ACCESS_ALL
      = some (some 1, gcc_two_pool, gcc_two_mm) := rfl

theorem gcc_create_three :
    ept_create_ptr gcc_build small_host gcc_two_mm gcc_two_pool EPT_ACCESS_ALL
      = some (some 1, gcc_init_pool, gcc_init_mm) := rfl

theorem gcc_init :
    init_ept gcc_build small_host (mm_with vcpu_script) blank_vcpu.ept
      = some (true, gcc_init_pool, gcc_init_mm) := by
  have ha : mm_alloc_page (mm_with vcpu_script) = (some 1, gcc_list_mm) :=
    Prod.ext (by decide) rfl
  apply init_ept_ok ha
  show init_ept_loop gcc_build small_host 3 gcc_list_pool gcc_list_mm = _
  rw [init_ept_loop_step gcc_create_one, init_ept_loop_step gcc_create_two,
    init_ept_loop_step gcc_create_three]
  rfl

theorem gcc_pages :
    vcpu_init_pages gcc_build gcc_init_mm { blank_vcpu with ept := gcc_init_pool }
      = (0, gcc_vcpu, gcc_vcpu_mm) := rfl

theorem gcc_vcpu_init :
    vcpu_init gcc_build small_host (mm_with vcpu_script) blank_vcpu
      = some (0, gcc_vcpu, gcc_vcpu_mm) := by
  unfold vcpu_init
  rw [gcc_init]
  simp only
  rw [gcc_pages]

/-- A successful `ept_create_ptr` on a pool with a hardware list: the hierarchy of the
slot it returns was grown by map calls from a root allocated in the call, and the
memory it leaves is the memory of that hierarchy with the list entry of the slot
written. -/
theorem ept_create_ptr_grown {b : Build} {host : Host} {st : Mm} {ept : Ept}
    {access out L : Nat} {ept1 : Ept} {st1 : Mm}
    (hc : ept_create_ptr b host st ept access = some (some out, ept1, st1))
    (hl : ept.ptr_list = some L) :
    ∃ root sg v, Grown b st root sg ∧ ept1.pml4_list out = some root ∧
      st1 = sg.store L out v := by
  rcases ept_create_ptr_cases hc _ rfl with ⟨-, hres⟩ | ⟨-, hrest⟩
  · cases hres
  · rcases hrest with ⟨-, hres⟩ | ⟨root, st2, halloc, hrest⟩
    · cases hres
    · rcases hrest with ⟨-, hres⟩ | ⟨hsetup, hres⟩
      · cases hres
      · have hg : Grown b st root st2 := setup_pml4_grown (Grown.fresh _ halloc) hsetup
        rw [hl] at hres
        simp only at hres
        injection hres with h1 h2
        injection h1 with h1
        injection h2 with h2 h3
        subst h1
        refine ⟨root, st2, _, hg, ?_, h3⟩
        rw [h2]
        show Function.update ept.pml4_list _ (some root) _ = some root
        rw [Function.update_same]

theorem gcc_init_pool_slots :
    gcc_init_pool.ptr_list = some 1 ∧ gcc_init_pool.pml4_list 1 = some 14 ∧
      test_bit gcc_build 0 gcc_init_pool.ptr_bitmap = false ∧
      test_bit gcc_build 1 gcc_init_pool.ptr_bitmap = true ∧
      test_bit gcc_build 2 gcc_init_pool.ptr_bitmap = false ∧
      test_bit gcc_build 3 gcc_init_pool.ptr_bitmap = false :=
  ⟨by decide, by decide, by decide, by decide, by decide, by decide⟩

/-- Teardown of a hierarchy grown by map calls, in a memory that still holds its table
pages with their contents: exactly the pages acquired for the hierarchy are released,
and nothing else changes. -/
theorem free_entries_of_grown {b : Build} {s0 sg st : Mm} {root : Nat}
    (hg : Grown b s0 root sg)
    (hlive : ∀ x, x ∈ sg.live → x ∉ s0.live → x ∈ st.live)
    (hmem : ∀ x, x ∈ sg.live → x ∉ s0.live → st.mem x = sg.mem x) :
    (free_entries 4 st root).mem = st.mem ∧ (free_entries 4 st root).fault = st.fault ∧
      (free_entries 4 st root).script = st.script ∧
      ∀ x, x ∈ (free_entries 4 st root).live ↔
        x ∈ st.live ∧ ¬ (x ∈ sg.live ∧ x ∉ s0.live) := by
  obtain ⟨sh, hinv, hacc, hdis, -, -⟩ := hg.owned
  have hinv2 : Inv b st root sh :=
    hinv.frame (fun π q hq => hlive q (hinv.live _ _ hq) (hdis _ _ hq))
      (fun π q hq _ i _ => by rw [hmem q (hinv.live _ _ hq) (hdis _ _ hq)])
  have hfree := free_entries_spec hinv2 2 [] root rfl hinv2.root_eq st rfl
    (fun x hx => hx.elim (fun ρ hρ => hinv2.live _ _ hρ))
  have e22 : 2 + 2 = 4 := rfl
  rw [e22] at hfree
  obtain ⟨fm, ff, fs, fl⟩ := hfree
  refine ⟨fm, ff, fs, ?_⟩
  intro x
  rw [fl x]
  have hb : Below sh [] x ↔ (x ∈ sg.live ∧ x ∉ s0.live) := by
    constructor
    · rintro ⟨ρ, hρ⟩
      rw [List.append_nil] at hρ
      exact ⟨hinv.live _ _ hρ, hdis _ _ hρ⟩
    · rintro ⟨h1, h2⟩
      rcases (hacc x).1 h1 with h3 | ⟨π, h3⟩
      · exact absurd h3 h2
      · exact ⟨π, by rw [List.append_nil]; exact h3⟩
  rw [hb]

theorem gcc_unwind_keeps : Keeps gcc_init_mm gcc_unwind_mm :=
  keeps_free (keeps_free (keeps_free (keeps_free (keeps_free (keeps_free
    (keeps_alloc (keeps_alloc (keeps_alloc (keeps_alloc (keeps_alloc (keeps_alloc
      (keeps_refl _)))))))
    (by decide)) (by decide)) (by decide)) (by decide)) (by decide)) (by decide)

theorem gcc_live :
    gcc_two_mm.live = {1, 2, 3, 4, 5, 6, 7, 8, 9, 10, 11, 12, 13} ∧
      gcc_init_mm.live =
        {1, 2, 3, 4, 5, 6, 7, 8, 9, 10, 11, 12, 13, 14, 15, 16, 17, 18, 19} ∧
      gcc_unwind_mm.live =
        {1, 2, 3, 4, 5, 6, 7, 8, 9, 10, 11, 12, 13, 14, 15, 16, 17, 18, 19} ∧
      gcc_unwind_mm.fault = false :=
  ⟨by decide, by decide, by decide, by decide⟩

theorem vcpu_free_snd (b : Build) (st : Mm) (vcpu : Vcpu) :
    (vcpu_free b st vcpu).2 =
      (free_ept b (mm_free_ptr (mm_free_ptr
        (if b.enable_pml then
          mm_free_ptr (mm_free_ptr (mm_free_ptr (mm_free_ptr (mm_free_ptr st vcpu.idt_base)
            vcpu.vmxon) vcpu.vmcs) vcpu.ve) vcpu.pml
        else mm_free_ptr (mm_free_ptr (mm_free_ptr (mm_free_ptr st vcpu.idt_base)
            vcpu.vmxon) vcpu.vmcs) vcpu.ve) vcpu.vapic_page) vcpu.stack) vcpu.ept).2 := rfl

theorem free_ept_of_list {b : Build} {st : Mm} {ept : Ept} {l : Nat}
    (h : (free_pml4_list b st ept).1.ptr_list = some l) :
    (free_ept b st ept).2 = mm_free_page (free_pml4_list b st ept).2 l := by
  unfold free_ept
  simp only [h]

theorem free_pml4_loop_skip {b : Build} {n : Nat} {s : Ept × Mm}
    (h : test_bit b n (free_pml4_loop b n s).1.ptr_bitmap = false) :
    free_pml4_loop b (n + 1) s = free_pml4_loop b n s := by
  rw [free_pml4_loop]
  simp only [h, Bool.false_eq_true, if_false]

theorem free_pml4_loop_free {b : Build} {n : Nat} {s : Ept × Mm}
    (h : test_bit b n (free_pml4_loop b n s).1.ptr_bitmap = true) :
    free_pml4_loop b (n + 1) s =
      ept_free_ptr b (free_pml4_loop b n s).2 (free_pml4_loop b n s).1 n := by
  rw [free_pml4_loop]
  simp only [h, if_true]

theorem gcc_free_pml4_list (st : Mm) :
    free_pml4_list gcc_build st gcc_init_pool =
      ({ gcc_init_pool with ptr_bitmap := clear_bit gcc_build 1 gcc_init_pool.ptr_bitmap },
        free_entries 4 st 14) := by
  have c2 : test_bit gcc_build 2 (clear_bit gcc_build 1 gcc_init_pool.ptr_bitmap) = false := by
    decide
  have c3 : test_bit gcc_build 3 (clear_bit gcc_build 1 gcc_init_pool.ptr_bitmap) = false := by
    decide
  have h0 : free_pml4_loop gcc_build 0 (gcc_init_pool, st) = (gcc_init_pool, st) := rfl
  have h1 : free_pml4_loop gcc_build 1 (gcc_init_pool, st) = (gcc_init_pool, st) := by
    rw [free_pml4_loop_skip (by rw [h0]; exact gcc_init_pool_slots.2.2.1), h0]
  have h2 : free_pml4_loop gcc_build 2 (gcc_init_pool, st) =
      ({ gcc_init_pool with ptr_bitmap := clear_bit gcc_build 1 gcc_init_pool.ptr_bitmap },
        free_entries 4 st 14) := by
    rw [free_pml4_loop_free (by rw [h1]; exact gcc_init_pool_slots.2.2.2.1), h1]
    exact ept_free_ptr_some gcc_init_pool_slots.2.1
  have h3 : free_pml4_loop gcc_build 3 (gcc_init_pool, st) =
      ({ gcc_init_pool with ptr_bitmap := clear_bit gcc_build 1 gcc_init_pool.ptr_bitmap },
        free_entries 4 st 14) := by
    rw [free_pml4_loop_skip (by rw [h2]; exact c2), h2]
  have h4 : free_pml4_loop gcc_build 4 (gcc_init_pool, st) =
      ({ gcc_init_pool with ptr_bitmap := clear_bit gcc_build 1 gcc_init_pool.ptr_bitmap },
        free_entries 4 st 14) := by
    rw [free_pml4_loop_skip (by rw [h3]; exact c3), h3]
  exact h4

theorem gcc_vcpu_free_eq :
    (vcpu_free gcc_build gcc_vcpu_mm gcc_vcpu).2
      = mm_free_page (free_entries 4 gcc_unwind_mm 14) 1 := by
  rw [vcpu_free_snd]
  show (free_ept gcc_build gcc_unwind_mm gcc_init_pool).2 = _
  rw [free_ept_of_list (by rw [gcc_free_pml4_list]; exact gcc_init_pool_slots.1),
    gcc_free_pml4_list]

theorem gcc_teardown_live (F : Mm) (hF : F = free_entries 4 gcc_unwind_mm 14) :
    (mm_free_page F 1).live = {2, 3, 4, 5, 6, 7, 8, 9, 10, 11, 12, 13} ∧
      (mm_free_page F 1).fault = false := by
  obtain ⟨l2, l3, lu, fu⟩ := gcc_live
  have hk := gcc_unwind_keeps
  obtain ⟨root, sg, v, hg, hroot, hst⟩ := ept_create_ptr_grown gcc_create_three
    (show gcc_two_pool.ptr_list = some 1 by decide)
  have hr : root = 14 := by
    rw [gcc_init_pool_slots.2.1] at hroot
    injection hroot with hroot
    exact hroot.symm
  subst hr
  have hil : gcc_init_mm.live = sg.live := by rw [hst, store_live]
  have h1two : (1 : Nat) ∈ gcc_two_mm.live := by rw [l2]; decide
  have hfree := @free_entries_of_grown gcc_build gcc_two_mm sg gcc_unwind_mm 14 hg
    (fun x hx _ => by rw [lu, ← l3, hil]; exact hx)
    (fun x hx hx0 => by
      have hx1 : x ≠ 1 := fun hc => hx0 (hc ▸ h1two)
      rw [(hk x (by rw [hil]; exact hx)).2, hst, store_mem_other _ hx1])
  rw [← hF] at hfree
  obtain ⟨-, ff, -, fl⟩ := hfree
  have hlive : F.live = {1, 2, 3, 4, 5, 6, 7, 8, 9, 10, 11, 12, 13} := by
    ext x
    rw [fl x, lu, ← hil, l3, l2]
    simp only [Finset.mem_insert, Finset.mem_singleton]
    omega
  have h1 : (1 : Nat) ∈ F.live := by rw [hlive]; decide
  rw [mm_free_page_live h1]
  refine ⟨?_, ?_⟩
  · show F.live.erase 1 = _
    rw [hlive]
    decide
  · show F.fault = false
    rw [ff, fu]

/-- C21 failing input: the GCC build (no `_MSC_VER`, 32-bit `unsigned long`) on
`small_host`, every allocation served.  `vcpu_init` succeeds with 25 pages outstanding;
the three `ept_create_ptr` of `init_ept` all took slot 1, so the pool holds the third
hierarchy (root 14) only.  `vcpu_free` releases that hierarchy, the list page and the
six pages of the vCPU: the twelve pages of the first two hierarchies stay outstanding,
although none was outstanding before `vcpu_init`. -/
theorem vcpu_free_leaks_on_gcc :
    vcpu_init gcc_build small_host (mm_with vcpu_script) blank_vcpu
        = some (0, gcc_vcpu, gcc_vcpu_mm) ∧
      (mm_with vcpu_script).count = 0 ∧
      gcc_vcpu_mm.count = 25 ∧
      gcc_vcpu.ept.pml4_list 1 = some 14 ∧
      test_bit gcc_build 0 gcc_vcpu.ept.ptr_bitmap = false ∧
      test_bit gcc_build 2 gcc_vcpu.ept.ptr_bitmap = false ∧
      (vcpu_free gcc_build gcc_vcpu_mm gcc_vcpu).2.live
        = {2, 3, 4, 5, 6, 7, 8, 9, 10, 11, 12, 13} ∧
      (vcpu_free gcc_build gcc_vcpu_mm gcc_vcpu).2.count = 12 ∧
      (vcpu_free gcc_build gcc_vcpu_mm gcc_vcpu).2.fault = false := by
  have h : (vcpu_free gcc_build gcc_vcpu_mm gcc_vcpu).2.live
        = {2, 3, 4, 5, 6, 7, 8, 9, 10, 11, 12, 13} ∧
      (vcpu_free gcc_build gcc_vcpu_mm gcc_vcpu).2.fault = false := by
    rw [gcc_vcpu_free_eq]
    exact gcc_teardown_live _ rfl
  refine ⟨gcc_vcpu_init, by decide, by decide, by decide, by decide, by decide, h.1, ?_, h.2⟩
  unfold Mm.count
  rw [h.1]
  decide

/-- The shape of a well-formed hierarchy is determined by the memory. -/
theorem Inv.unique {b : Build} {st : Mm} {root : Nat} {sh sh2 : Shape}
    (h : Inv b st root sh) (h2 : Inv b st root sh2) (π : List Nat) : sh π = sh2 π := by
  by_cases hv : π.length ≤ 3 ∧ ∀ i, i ∈ π → i < 512
  · rw [← table_at_spec h π hv.1 hv.2, ← table_at_spec h2 π hv.1 hv.2]
  · have hn : ∀ (s : Shape), Inv b st root s → s π = none := by
      intro s hs
      cases hx : s π with
      | none => rfl
      | some x => exact absurd ⟨hs.len π x hx, hs.idx_all π x hx⟩ hv
    rw [hn sh h, hn sh2 h2]

/-! ## vCPU teardown with the `_MSC_VER` bit search -/

/-- A successful `ept_create_ptr` keeps the ownership of the pool: the pages it leaves
outstanding beyond those of before are the tables of the hierarchy of the new slot. -/
theorem pool_own_create {b : Build} {host : Host} {st : Mm} {ept : Ept} {L : Nat}
    {shapes : Nat → Shape} {base : Finset Nat} {access out : Nat} {ept1 : Ept} {st1 : Mm}
    (hb : b.long_bits = 32) (hm : b.msc_ver = true) (hcap : b.ptr_bitmap_size < 2 ^ 16)
    (h : PoolOwn b st ept L shapes base)
    (hc : ept_create_ptr b host st ept access = some (some out, ept1, st1)) :
    ∃ shapes1, PoolOwn b st1 ept1 L shapes1 base ∧ st1.fault = st.fault := by
  obtain ⟨hle, -, hclear⟩ := find_first_zero_bit_msvc hb hm ept.ptr_bitmap h.inv.words
    b.ptr_bitmap_size
  have hmod : find_first_zero_bit b ept.ptr_bitmap b.ptr_bitmap_size % 2 ^ 16 =
      find_first_zero_bit b ept.ptr_bitmap b.ptr_bitmap_size :=
    Nat.mod_eq_of_lt (by omega)
  rcases ept_create_ptr_cases hc _ hmod.symm with ⟨-, hres⟩ | ⟨hne, hrest⟩
  · cases hres
  · generalize find_first_zero_bit b ept.ptr_bitmap b.ptr_bitmap_size = eptp
      at hle hclear hne hrest
    have hlt : eptp < b.ptr_bitmap_size := by omega
    have hfree : test_bit b eptp ept.ptr_bitmap = false := hclear hlt
    rcases hrest with ⟨-, hres⟩ | ⟨root, st2, halloc, hrest⟩
    · cases hres
    · rcases hrest with ⟨-, hres⟩ | ⟨hsetup, hres⟩
      · cases hres
      · have hg0 : Grown b st root (mm_alloc_page st).2 := Grown.fresh _ halloc
        obtain ⟨sh, hinv, hacc, hdis, hfault, hfr⟩ := (setup_pml4_grown hg0 hsetup).owned
        obtain ⟨shapes1, hp1, hf1⟩ := pool_inv_create hb hm hcap h.inv hc
        have hL2 : L ∈ st2.live := (hacc L).2 (Or.inl h.inv.list_live)
        rw [h.inv.list] at hres
        simp only at hres
        injection hres with e1 e2
        injection e1 with e1
        injection e2 with e2 e3
        subst e1
        have hbit : ∀ i, test_bit b i ept1.ptr_bitmap =
            (decide (i = out) || test_bit b i ept.ptr_bitmap) := by
          intro i
          rw [e2]
          exact test_bit_set_bit hb out i ept.ptr_bitmap
        have hlive1 : st1.live = st2.live := by rw [e3, store_live]
        have hmem1 : ∀ x, x ≠ L → st1.mem x = st2.mem x := by
          intro x hx
          rw [e3, store_mem_other _ hx]
        -- the shape of the new slot, and the shapes of the others
        have hnew : test_bit b out ept1.ptr_bitmap = true := by rw [hbit]; simp
        obtain ⟨r1, hr1, hinv1, -⟩ := hp1.slot out hnew
        have hr1' : r1 = root := by
          rw [e2] at hr1
          have : Function.update ept.pml4_list out (some root) out = some r1 := hr1
          rw [Function.update_same] at this
          injection this with this
          exact this.symm
        subst hr1'
        have hLsh : ∀ π, sh π ≠ some L := fun π hc2 => hdis π L hc2 h.inv.list_live
        have hinv2 : Inv b st1 r1 sh := by
          apply hinv.frame
          · intro π x hx; rw [hlive1]; exact hinv.live π x hx
          · intro π x hx _ j _
            rw [hmem1 x (fun hc2 => hLsh π (hc2 ▸ hx))]
        have hsame_new : ∀ π, shapes1 out π = sh π := fun π => hinv1.unique hinv2 π
        have hsame_old : ∀ i, test_bit b i ept.ptr_bitmap = true → ∀ π,
            shapes1 i π = shapes i π := by
          intro i hi π
          have hie : i ≠ out := fun hc2 => by rw [hc2, hfree] at hi; cases hi
          have hi1 : test_bit b i ept1.ptr_bitmap = true := by rw [hbit, hi]; simp
          obtain ⟨r, hr, hinvr, -⟩ := hp1.slot i hi1
          obtain ⟨r0, hr0, hinvr0, -⟩ := h.inv.slot i hi
          have hrr : r = r0 := by
            rw [e2] at hr
            have : Function.update ept.pml4_list out (some r1) i = some r := hr
            rw [Function.update_noteq hie, hr0] at this
            injection this with this
            exact this.symm
          subst hrr
          have hinvr1 : Inv b st1 r (shapes i) := by
            apply hinvr0.frame
            · intro ρ x hx
              rw [hlive1]
              exact (hacc x).2 (Or.inl (hinvr0.live ρ x hx))
            · intro ρ x hx _ j _
              have hxl := hinvr0.live ρ x hx
              have hxL : x ≠ L := fun hc2 => h.inv.list_sep i hi ρ (hc2 ▸ hx)
              rw [hmem1 x hxL, hfr x hxl]
          exact hinvr.unique hinvr1 π
        refine ⟨shapes1, ⟨hp1, ?_, ?_, h.list_new, ?_⟩, hf1⟩
        · intro i hi
          rw [hbit] at hi
          by_cases hie : i = out
          · rw [hie]; exact hlt
          · exact h.cap i (by simpa [hie] using hi)
        · intro x
          rw [hlive1, hacc x, h.live x]
          constructor
          · rintro ((hx | hx | ⟨i, hi, π, hx⟩) | ⟨π, hx⟩)
            · exact Or.inl hx
            · exact Or.inr (Or.inl hx)
            · refine Or.inr (Or.inr ⟨i, by rw [hbit, hi]; simp, π, ?_⟩)
              rw [hsame_old i hi π]; exact hx
            · exact Or.inr (Or.inr ⟨out, hnew, π, by rw [hsame_new π]; exact hx⟩)
          · rintro (hx | hx | ⟨i, hi, π, hx⟩)
            · exact Or.inl (Or.inl hx)
            · exact Or.inl (Or.inr (Or.inl hx))
            · rw [hbit] at hi
              by_cases hie : i = out
              · rw [hie, hsame_new π] at hx
                exact Or.inr ⟨π, hx⟩
              · have hi2 : test_bit b i ept.ptr_bitmap = true := by simpa [hie] using hi
                rw [hsame_old i hi2 π] at hx
                exact Or.inl (Or.inr (Or.inr ⟨i, hi2, π, hx⟩))
        · intro i hi π x hx
          rw [hbit] at hi
          by_cases hie : i = out
          · rw [hie, hsame_new π] at hx
            intro hxb
            exact hdis π x hx ((h.live x).2 (Or.inl hxb))
          · have hi2 : test_bit b i ept.ptr_bitmap = true := by simpa [hie] using hi
            rw [hsame_old i hi2 π] at hx
            exact h.shape_new i hi2 π x hx

theorem init_ept_loop_own {b : Build} {host : Host} {L : Nat} {base : Finset Nat}
    (hb : b.long_bits = 32) (hm : b.msc_ver = true) (hcap : b.ptr_bitmap_size < 2 ^ 16) :
    ∀ (n : Nat) (ept : Ept) (st : Mm) (shapes : Nat → Shape) (ept1 : Ept) (st1 : Mm),
      PoolOwn b st ept L shapes base →
      init_ept_loop b host n ept st = some (true, ept1, st1) →
      ∃ shapes1, PoolOwn b st1 ept1 L shapes1 base ∧ st1.fault = st.fault := by
  intro n
  induction n with
  | zero =>
    intro ept st shapes ept1 st1 h hl
    unfold init_ept_loop at hl
    injection hl with hl
    injection hl with _ hl
    injection hl with h1 h2
    subst h1; subst h2
    exact ⟨shapes, h, rfl⟩
  | succ n ih =>
    intro ept st shapes ept1 st1 h hl
    unfold init_ept_loop at hl
    cases hc : ept_create_ptr b host st ept EPT_ACCESS_ALL with
    | none => rw [hc] at hl; cases hl
    | some res =>
      obtain ⟨o, e2, s2⟩ := res
      rw [hc] at hl
      cases o with
      | none =>
        simp only at hl
        injection hl with hl
        injection hl with hl _
        cases hl
      | some v =>
        simp only at hl
        obtain ⟨shapes2, h2, hf2⟩ := pool_own_create hb hm hcap h hc
        obtain ⟨shapes3, h3, hf3⟩ := ih e2 s2 shapes2 ept1 st1 h2 hl
        exact ⟨shapes3, h3, hf3.trans hf2⟩

/-- After a successful `init_ept` (with the `_MSC_VER` bit search) the pages acquired
are the hardware list and the tables of the hierarchies in the pool. -/
theorem init_ept_own {b : Build} {host : Host} {st : Mm} {ept0 ept : Ept} {st1 : Mm}
    (hb : b.long_bits = 32) (hm : b.msc_ver = true) (hcap : b.ptr_bitmap_size < 2 ^ 16)
    (h : init_ept b host st ept0 = some (true, ept, st1)) :
    ∃ L shapes, PoolOwn b st1 ept L shapes st.live ∧ st1.fault = st.fault := by
  unfold init_ept at h
  rcases mm_alloc_page_spec st with ⟨hn, -⟩ | ⟨L, hq, -, hLn, hmem, hlive, hfault, -⟩
  · have hpair : mm_alloc_page st = (none, (mm_alloc_page st).2) := by rw [← hn]
    rw [hpair] at h
    simp only at h
    injection h with h
    injection h with h _
    cases h
  · have hpair : mm_alloc_page st = (some L, (mm_alloc_page st).2) := by rw [← hq]
    rw [hpair] at h
    simp only at h
    have hz : ∀ i, test_bit b i (fun _ => 0) = false := test_bit_zero_bitmap hb
    have h0 : PoolOwn b (mm_alloc_page st).2
        { ept0 with ptr_list := some L, ptr_bitmap := fun _ => 0 } L
        (fun _ => Shape.single 0) st.live := by
      refine ⟨⟨rfl, ?_, ?_, ?_, ?_, ?_⟩, ?_, ?_, hLn, ?_⟩
      · rw [hlive]; exact Finset.mem_insert_self _ _
      · intro w; show (0 : Nat) < 2 ^ 32; decide
      · intro i hi
        rw [show test_bit b i (fun _ => 0) = false from hz i] at hi
        cases hi
      · intro i hi
        rw [show test_bit b i (fun _ => 0) = false from hz i] at hi
        cases hi
      · intro i j hi
        rw [show test_bit b i (fun _ => 0) = false from hz i] at hi
        cases hi
      · intro i hi
        rw [show test_bit b i (fun _ => 0) = false from hz i] at hi
        cases hi
      · intro x
        rw [hlive, Finset.mem_insert]
        constructor
        · rintro (hx | hx)
          · exact Or.inr (Or.inl hx)
          · exact Or.inl hx
        · rintro (hx | hx | ⟨i, hi, -⟩)
          · exact Or.inr hx
          · exact Or.inl hx
          · rw [show test_bit b i (fun _ => 0) = false from hz i] at hi
            cases hi
      · intro i hi
        rw [show test_bit b i (fun _ => 0) = false from hz i] at hi
        cases hi
    cases hl : init_ept_loop b host b.eptp_init_used
        { ept0 with ptr_list := some L, ptr_bitmap := fun _ => 0 } (mm_alloc_page st).2 with
    | none => rw [hl] at h; cases h
    | some v =>
      obtain ⟨r, e2, s2⟩ := v
      rw [hl] at h
      cases r with
      | true =>
        simp only at h
        injection h with h
        injection h with _ h
        injection h with h3 h4
        subst h3; subst h4
        obtain ⟨shapes2, h2, hf2⟩ := init_ept_loop_own hb hm hcap _ _ _ _ _ _ h0 hl
        exact ⟨L, shapes2, h2, hf2.trans hfault⟩
      | false =>
        simp only at h
        split at h <;>
        · injection h with h
          injection h with h _
          cases h

/-- The loop of `free_pml4_list` over the first `n` slots of a well-formed pool: the
occupied slots below `n` are cleared and exactly the table pages of their hierarchies
are released. -/
theorem free_pml4_loop_own {b : Build} (hb : b.long_bits = 32) {L : Nat}
    {shapes : Nat → Shape} :
    ∀ (n : Nat) (ept : Ept) (st : Mm), PoolInv b st ept L shapes →
      PoolInv b (free_pml4_loop b n (ept, st)).2 (free_pml4_loop b n (ept, st)).1 L shapes ∧
        (free_pml4_loop b n (ept, st)).2.fault = st.fault ∧
        (∀ i, test_bit b i (free_pml4_loop b n (ept, st)).1.ptr_bitmap =
          (decide (n ≤ i) && test_bit b i ept.ptr_bitmap)) ∧
        ∀ x, x ∈ (free_pml4_loop b n (ept, st)).2.live ↔
          x ∈ st.live ∧
            ¬ ∃ i, i < n ∧ test_bit b i ept.ptr_bitmap = true ∧ ∃ π, shapes i π = some x := by
  intro n
  induction n with
  | zero =>
    intro ept st h
    refine ⟨h, rfl, ?_, ?_⟩
    · intro i
      show test_bit b i ept.ptr_bitmap = _
      simp
    · intro x
      show x ∈ st.live ↔ _
      simp
  | succ n ih =>
    intro ept st h
    obtain ⟨h1, hf1, hb1, hl1⟩ := ih ept st h
    have hbn : test_bit b n (free_pml4_loop b n (ept, st)).1.ptr_bitmap =
        test_bit b n ept.ptr_bitmap := by
      rw [hb1 n]; simp
    by_cases ht : test_bit b n ept.ptr_bitmap = true
    · have ht1 : test_bit b n (free_pml4_loop b n (ept, st)).1.ptr_bitmap = true := by
        rw [hbn]; exact ht
      rw [free_pml4_loop_free ht1]
      generalize free_pml4_loop b n (ept, st) = s at h1 hf1 hb1 hl1 ht1 ⊢
      obtain ⟨h2, hf2, -, hl2, hbm⟩ := pool_inv_free hb h1 ht1
      refine ⟨h2, hf2.trans hf1, ?_, ?_⟩
      · intro i
        rw [hbm, test_bit_clear_bit hb, hb1 i]
        by_cases hin : i = n
        · subst hin; simp
        · by_cases hle : n ≤ i
          · have : n + 1 ≤ i := by omega
            simp [hin, hle, this]
          · have : ¬ n + 1 ≤ i := by omega
            simp [hin, hle, this]
      · intro x
        rw [hl2 x, hl1 x]
        constructor
        · rintro ⟨⟨hx, hno⟩, hbel⟩
          refine ⟨hx, ?_⟩
          rintro ⟨i, hi, hti, π, hπ⟩
          by_cases hin : i = n
          · subst hin
            exact hbel ⟨π, by rw [List.append_nil]; exact hπ⟩
          · exact hno ⟨i, by omega, hti, π, hπ⟩
        · rintro ⟨hx, hno⟩
          refine ⟨⟨hx, ?_⟩, ?_⟩
          · rintro ⟨i, hi, hti, π, hπ⟩
            exact hno ⟨i, by omega, hti, π, hπ⟩
          · rintro ⟨ρ, hρ⟩
            rw [List.append_nil] at hρ
            exact hno ⟨n, by omega, ht, ρ, hρ⟩
    · have ht0 : test_bit b n ept.ptr_bitmap = false := by
        cases hv : test_bit b n ept.ptr_bitmap with
        | false => rfl
        | true => exact absurd hv ht
      have ht1 : test_bit b n (free_pml4_loop b n (ept, st)).1.ptr_bitmap = false := by
        rw [hbn]; exact ht0
      rw [free_pml4_loop_skip ht1]
      refine ⟨h1, hf1, ?_, ?_⟩
      · intro i
        rw [hb1 i]
        by_cases hin : i = n
        · subst hin; simp [ht0]
        · by_cases hle : n ≤ i
          · have : n + 1 ≤ i := by omega
            simp [hle, this]
          · have : ¬ n + 1 ≤ i := by omega
            simp [hle, this]
      · intro x
        rw [hl1 x]
        constructor
        · rintro ⟨hx, hno⟩
          refine ⟨hx, ?_⟩
          rintro ⟨i, hi, hti, π, hπ⟩
          by_cases hin : i = n
          · subst hin
            rw [ht0] at hti; cases hti
          · exact hno ⟨i, by omega, hti, π, hπ⟩
        · rintro ⟨hx, hno⟩
          refine ⟨hx, ?_⟩
          rintro ⟨i, hi, hti, π, hπ⟩
          exact hno ⟨i, by omega, hti, π, hπ⟩

/-- The function `free_ept` on a pool that owns its pages: what stays outstanding is
what was outstanding before the pool was set up. -/
theorem free_ept_own {b : Build} (hb : b.long_bits = 32) {st : Mm} {ept : Ept} {L : Nat}
    {shapes : Nat → Shape} {base : Finset Nat} (h : PoolOwn b st ept L shapes base) :
    (free_ept b st ept).2.live = base ∧ (free_ept b st ept).2.fault = st.fault := by
  obtain ⟨h1, hf1, -, hl1⟩ := free_pml4_loop_own hb b.ptr_bitmap_size ept st h.inv
  unfold free_ept free_pml4_list
  simp only
  generalize free_pml4_loop b b.ptr_bitmap_size (ept, st) = s at h1 hf1 hl1 ⊢
  rw [h1.list]
  simp only
  rw [mm_free_page_live h1.list_live]
  refine ⟨?_, hf1⟩
  show s.2.live.erase L = base
  ext x
  rw [Finset.mem_erase, hl1 x, h.live x]
  constructor
  · rintro ⟨hxL, hx | hx | ⟨i, hi, π, hπ⟩, hno⟩
    · exact hx
    · exact absurd hx hxL
    · exact absurd ⟨i, h.cap i hi, hi, π, hπ⟩ hno
  · intro hx
    refine ⟨fun hc => h.list_new (hc ▸ hx), Or.inl hx, ?_⟩
    rintro ⟨i, -, hi, π, hπ⟩
    exact h.shape_new i hi π x hπ hx

theorem allocs_spec {st0 st : Mm} {l : List Nat} (h : Allocs st0 l st) :
    l.Nodup ∧ (∀ p, p ∈ l → p ∉ st0.live) ∧ (∀ x, x ∈ st.live ↔ x ∈ st0.live ∨ x ∈ l) ∧
      st.fault = st0.fault ∧ Keeps st0 st := by
  induction h with
  | nil st =>
    exact ⟨List.nodup_nil, fun _ hp => (by cases hp), fun x => (by simp), rfl, keeps_refl _⟩
  | cons st st1 st2 p l ha _ ih =>
    obtain ⟨hnd, hnew, hlive, hfault, hk⟩ := ih
    rcases mm_alloc_page_spec st with ⟨hn, -⟩ | ⟨q, hq, -, hql, -, hl1, hf1, -⟩
    · rw [ha] at hn; cases hn
    · rw [ha] at hq hl1 hf1
      simp only at hq hl1 hf1
      injection hq with hq
      subst hq
      have hk1 : Keeps st st1 := by
        have := keeps_alloc (keeps_refl st)
        rw [ha] at this
        exact this
      have hp1 : p ∈ st1.live := by rw [hl1]; exact Finset.mem_insert_self _ _
      refine ⟨List.nodup_cons.2 ⟨fun hc => hnew p hc hp1, hnd⟩, ?_, ?_, hfault.trans hf1, ?_⟩
      · intro x hx
        rcases List.mem_cons.1 hx with h1 | h1
        · rw [h1]; exact hql
        · intro hc
          exact hnew x h1 (by rw [hl1]; exact Finset.mem_insert_of_mem hc)
      · intro x
        rw [hlive x, hl1, Finset.mem_insert, List.mem_cons]
        tauto
      · intro x hx
        obtain ⟨h1, h2⟩ := hk1 x hx
        obtain ⟨h3, h4⟩ := hk x h1
        exact ⟨h3, h4.trans h2⟩

theorem frees_spec : ∀ (l : List Nat) (st : Mm), l.Nodup → (∀ p, p ∈ l → p ∈ st.live) →
    (∀ x, x ∈ (l.foldl mm_free_page st).live ↔ x ∈ st.live ∧ x ∉ l) ∧
      (l.foldl mm_free_page st).fault = st.fault ∧ (l.foldl mm_free_page st).mem = st.mem := by
  intro l
  induction l with
  | nil => intro st _ _; exact ⟨fun x => (by simp), rfl, rfl⟩
  | cons p l ih =>
    intro st hnd hl
    obtain ⟨hp, hnd1⟩ := List.nodup_cons.1 hnd
    have hpl : p ∈ st.live := hl p (List.mem_cons_self _ _)
    have hstep : mm_free_page st p = { st with live := st.live.erase p } :=
      mm_free_page_live hpl
    obtain ⟨i1, i2, i3⟩ := ih (mm_free_page st p) hnd1 (by
      intro q hq
      rw [hstep]
      show q ∈ st.live.erase p
      rw [Finset.mem_erase]
      exact ⟨fun hc => hp (hc ▸ hq), hl q (List.mem_cons_of_mem _ hq)⟩)
    refine ⟨?_, ?_, ?_⟩
    · intro x
      show x ∈ (l.foldl mm_free_page (mm_free_page st p)).live ↔ _
      rw [i1 x, hstep]
      show x ∈ st.live.erase p ∧ x ∉ l ↔ _
      rw [Finset.mem_erase, List.mem_cons]
      tauto
    · show (l.foldl mm_free_page (mm_free_page st p)).fault = _
      rw [i2, hstep]
    · show (l.foldl mm_free_page (mm_free_page st p)).mem = _
      rw [i3, hstep]

/-- Pages allocated in a row and then released in the same order leave the memory as it
was for every page outstanding before. -/
theorem allocs_frees {st0 st : Mm} {l : List Nat} (h : Allocs st0 l st) :
    (l.foldl mm_free_page st).live = st0.live ∧ (l.foldl mm_free_page st).fault = st0.fault ∧
      Keeps st0 (l.foldl mm_free_page st) := by
  obtain ⟨hnd, hnew, hlive, hfault, hk⟩ := allocs_spec h
  obtain ⟨f1, f2, f3⟩ := frees_spec l st hnd (fun p hp => (hlive p).2 (Or.inr hp))
  have hl : (l.foldl mm_free_page st).live = st0.live := by
    ext x
    rw [f1 x, hlive x]
    constructor
    · rintro ⟨h1 | h1, h2⟩
      · exact h1
      · exact absurd h1 h2
    · intro hx
      exact ⟨Or.inl hx, fun hc => hnew x hc hx⟩
  refine ⟨hl, f2.trans hfault, ?_⟩
  intro x hx
  refine ⟨by rw [hl]; exact hx, ?_⟩
  rw [f3]
  exact (hk x hx).2

theorem alloc_pair {st : Mm} {o : Option Nat} {st1 : Mm} (h : mm_alloc_page st = (o, st1)) :
    mm_alloc_page st = (o, st1) := h

/-- A `vcpu_init` that returns 0 from the virtual-APIC page on has allocated the
virtual-APIC page and the stack. -/
theorem vcpu_init_vapic_ok {b : Build} {st1 : Mm} {v vcpu : Vcpu} {st : Mm}
    (h : vcpu_init_vapic b st1 v = (0, vcpu, st)) :
    ∃ p q s, mm_alloc_page st1 = (some p, s) ∧ mm_alloc_page s = (some q, st) ∧
      vcpu = { v with vapic_page := some p, stack := some q } := by
  unfold vcpu_init_vapic at h
  rcases h1 : mm_alloc_page st1 with ⟨_ | p, s⟩
  · rw [h1] at h
    have h0 := congrArg Prod.fst h
    change ERR_NOMEM = 0 at h0
    exact absurd h0 (by decide)
  · rw [h1] at h
    simp only at h
    rcases h2 : mm_alloc_page s with ⟨_ | q, s2⟩
    · rw [h2] at h
      have h0 := congrArg Prod.fst h
      change ERR_NOMEM = 0 at h0
      exact absurd h0 (by decide)
    · rw [h2] at h
      simp only at h
      injection h with _ h
      injection h with h3 h4
      subst h4
      exact ⟨p, q, s, rfl, h2, h3.symm⟩

/-- A `vcpu_init` that returns 0 after `init_ept` has allocated its pages in a row, and
`vcpu_free` releases them in the same order before it calls `free_ept`. -/
theorem vcpu_init_pages_ok {b : Build} {st1 : Mm} {v vcpu : Vcpu} {st : Mm}
    (h : vcpu_init_pages b st1 v = (0, vcpu, st)) :
    ∃ l, Allocs st1 l st ∧ vcpu.ept = v.ept ∧
      (vcpu_free b st vcpu).2 = (free_ept b (l.foldl mm_free_page st) v.ept).2 := by
  unfold vcpu_init_pages at h
  rcases h1 : mm_alloc_page st1 with ⟨_ | p1, s1⟩
  · rw [h1] at h
    have h0 := congrArg Prod.fst h
    change ERR_NOMEM = 0 at h0
    exact absurd h0 (by decide)
  rw [h1] at h
  simp only at h
  rcases h2 : mm_alloc_page s1 with ⟨_ | p2, s2⟩
  · rw [h2] at h
    have h0 := congrArg Prod.fst h
    change ERR_NOMEM = 0 at h0
    exact absurd h0 (by decide)
  rw [h2] at h
  simp only at h
  rcases h3 : mm_alloc_page s2 with ⟨_ | p3, s3⟩
  · rw [h3] at h
    have h0 := congrArg Prod.fst h
    change ERR_NOMEM = 0 at h0
    exact absurd h0 (by decide)
  rw [h3] at h
  simp only at h
  rcases h4 : mm_alloc_page s3 with ⟨_ | p4, s4⟩
  · rw [h4] at h
    have h0 := congrArg Prod.fst h
    change ERR_NOMEM = 0 at h0
    exact absurd h0 (by decide)
  rw [h4] at h
  simp only at h
  by_cases hpml : b.enable_pml = true
  · rw [if_pos hpml] at h
    rcases h5 : mm_alloc_page s4 with ⟨_ | p5, s5⟩
    · rw [h5] at h
      have h0 := congrArg Prod.fst h
      change ERR_NOMEM = 0 at h0
      exact absurd h0 (by decide)
    rw [h5] at h
    simp only at h
    obtain ⟨p6, p7, s6, h6, h7, hv⟩ := vcpu_init_vapic_ok h
    refine ⟨[p1, p2, p3, p4, p5, p6, p7], ?_, ?_, ?_⟩
    · exact Allocs.cons _ _ _ _ _ h1 (Allocs.cons _ _ _ _ _ h2 (Allocs.cons _ _ _ _ _ h3
        (Allocs.cons _ _ _ _ _ h4 (Allocs.cons _ _ _ _ _ h5 (Allocs.cons _ _ _ _ _ h6
          (Allocs.cons _ _ _ _ _ h7 (Allocs.nil _)))))))
    · rw [hv]
    · subst hv
      rw [vcpu_free_snd]
      simp only [hpml, if_true, mm_free_ptr, List.foldl]
  · rw [if_neg hpml] at h
    obtain ⟨p6, p7, s6, h6, h7, hv⟩ := vcpu_init_vapic_ok h
    refine ⟨[p1, p2, p3, p4, p6, p7], ?_, ?_, ?_⟩
    · exact Allocs.cons _ _ _ _ _ h1 (Allocs.cons _ _ _ _ _ h2 (Allocs.cons _ _ _ _ _ h3
        (Allocs.cons _ _ _ _ _ h4 (Allocs.cons _ _ _ _ _ h6
          (Allocs.cons _ _ _ _ _ h7 (Allocs.nil _))))))
    · rw [hv]
    · subst hv
      rw [vcpu_free_snd]
      have hp : b.enable_pml = false := by
        cases hv : b.enable_pml with
        | false => rfl
        | true => exact absurd hv hpml
      simp only [hp, Bool.false_eq_true, if_false, mm_free_ptr, List.foldl]

/-- With the `_MSC_VER` bit search (32-bit bit-set words, capacity below 2^16), after a
`vcpu_init` that returned 0, `vcpu_free` releases every page that `vcpu_init` acquired:
the pages outstanding are again those of before `vcpu_init`, and no release or read
fell on a page that was not outstanding. -/
theorem vcpu_free_releases_all_msvc (b : Build) (host : Host) (st0 : Mm) (vcpu0 vcpu : Vcpu)
    (st : Mm) (hb : b.long_bits = 32) (hm : b.msc_ver = true)
    (hcap : b.ptr_bitmap_size < 2 ^ 16)
    (hinit : vcpu_init b host st0 vcpu0 = some (0, vcpu, st)) :
    (vcpu_free b st vcpu).2.live = st0.live ∧ (vcpu_free b st vcpu).2.count = st0.count ∧
      (vcpu_free b st vcpu).2.fault = st0.fault := by
  unfold vcpu_init at hinit
  cases hi : init_ept b host st0 vcpu0.ept with
  | none => rw [hi] at hinit; cases hinit
  | some res =>
    obtain ⟨r, ept, st1⟩ := res
    rw [hi] at hinit
    cases r with
    | false =>
      simp only at hinit
      injection hinit with hinit
      have h0 := congrArg Prod.fst hinit
      change ERR_NOMEM = 0 at h0
      exact absurd h0 (by decide)
    | true =>
      simp only at hinit
      injection hinit with hinit
      obtain ⟨L, shapes, hown, hf1⟩ := init_ept_own hb hm hcap hi
      obtain ⟨l, hall, -, hfree⟩ := vcpu_init_pages_ok hinit
      obtain ⟨a1, a2, a3⟩ := allocs_frees hall
      have hown2 : PoolOwn b (l.foldl mm_free_page st) ept L shapes st0.live :=
        ⟨pool_inv_keeps hown.inv a3, hown.cap, fun x => by rw [a1]; exact hown.live x,
          hown.list_new, hown.shape_new⟩
      obtain ⟨g1, g2⟩ := free_ept_own hb hown2
      rw [hfree]
      refine ⟨g1, ?_, ?_⟩
      · unfold Mm.count; rw [g1]
      · rw [g2, a2, hf1]

theorem msvc_vcpu_init :
    vcpu_init msvc_build small_host (mm_with vcpu_script) blank_vcpu
      = some (0, msvc_vcpu, msvc_vcpu_mm) := rfl

/-- The `_MSC_VER` build on the input on which the GCC build leaks: `vcpu_init` leaves 25
pages outstanding with the three hierarchies in the slots 0, 1 and 2, and `vcpu_free`
releases them all. -/
theorem vcpu_free_releases_all_msvc_example :
    msvc_vcpu_mm.count = 25 ∧
      test_bit msvc_build 0 msvc_vcpu.ept.ptr_bitmap = true ∧
      test_bit msvc_build 1 msvc_vcpu.ept.ptr_bitmap = true ∧
      test_bit msvc_build 2 msvc_vcpu.ept.ptr_bitmap = true ∧
      (vcpu_free msvc_build msvc_vcpu_mm msvc_vcpu).2.live = ∅ ∧
      (vcpu_free msvc_build msvc_vcpu_mm msvc_vcpu).2.count = 0 ∧
      (vcpu_free msvc_build msvc_vcpu_mm msvc_vcpu).2.fault = false :=
  have h := vcpu_free_releases_all_msvc msvc_build small_host (mm_with vcpu_script)
    blank_vcpu msvc_vcpu msvc_vcpu_mm rfl rfl (by decide) msvc_vcpu_init
  ⟨by decide, by decide, by decide, by decide, h.1, h.2.1, h.2.2⟩

end Ksm
